import Mathlib

/-!
# TinyInst Windows debugger engine (`debugger.cpp`)

A shallow embedding of the debugger core: the breakpoint manager, the PE
reader, the target-function entry / return protocol, the exception
classifier, the debug loop and `Continue`.

Conventions of the embedding

* Addresses, register values and sizes are natural numbers; arithmetic that the
  source does on `size_t` is reduced modulo `2 ^ (8 * sizeof(void*))`.
* The child address space is a byte function together with the pages the OS
  lets the debugger read and write.  `ReadProcessMemory` / `WriteProcessMemory`
  either transfer the whole range or nothing.
* Local and heap buffers of the debugger (`headers`, `modulebuf`, `saved_args`)
  are byte buffers with a size; an access outside the buffer is undefined
  behaviour in C and is reported as `Err.outOfBounds`.
* `FATAL(...)` ends the debugger process and is reported as `Err.fatal`.
* `char` strings are lists of character codes without the terminating NUL.
* Client hooks that the base class leaves empty are recorded in `State.calls`;
  the hooks that return a value are fields of `Env`.
-/

namespace Debugger

/-! ## Constants of `debugger.cpp` -/

def CALLCONV_MICROSOFT_X64 : Nat := 0
def CALLCONV_THISCALL : Nat := 1
def CALLCONV_FASTCALL : Nat := 2
def CALLCONV_CDECL : Nat := 3
def CALLCONV_DEFAULT : Nat := 4

def BREAKPOINT_UNKNOWN : Int := 0
def BREAKPOINT_ENTRYPOINT : Int := 1
def BREAKPOINT_TARGET : Int := 2

def PERSIST_END_EXCEPTION : Nat := 0x0F22

/-! ## Constants of the Windows SDK headers (`winnt.h`, `ntstatus.h`, `winbase.h`) -/

def EXCEPTION_BREAKPOINT : Nat := 0x80000003
def STATUS_WX86_BREAKPOINT : Nat := 0x4000001f
def EXCEPTION_ACCESS_VIOLATION : Nat := 0xC0000005
def EXCEPTION_ILLEGAL_INSTRUCTION : Nat := 0xC000001D
def EXCEPTION_PRIV_INSTRUCTION : Nat := 0xC0000096
def EXCEPTION_INT_DIVIDE_BY_ZERO : Nat := 0xC0000094
def EXCEPTION_STACK_OVERFLOW : Nat := 0xC00000FD
def STATUS_HEAP_CORRUPTION : Nat := 0xC0000374
def STATUS_STACK_BUFFER_OVERRUN : Nat := 0xC0000409
def STATUS_FATAL_APP_EXIT : Nat := 0x40000015
def DBG_CONTINUE : Nat := 0x00010002
def DBG_EXCEPTION_NOT_HANDLED : Nat := 0x80010001

/-! ## Results -/

/-- The reasons for which `FATAL` is called in `debugger.cpp`. -/
inductive Fatal where
  | EnumProcessModules
  | ReadTargetMemory
  | WriteTargetMemory
  | WriteChildMemory
  | PESignature
  | PEMagic
  | TargetMethodAddress
  | X64CallingConvention
  | IsWow64Process
  | Needs64BitBuild
  | KillingTarget
  | AttachFailed
  | CreateProcessFailed
  | OpenNulDevice
  | CreateJobObject
  | SetInformationJobObject
  | AssignProcessToJobObject
  | UnknownCallingConvention
  | TargetOptionsTogether
  | LoopWithoutTarget
  deriving DecidableEq, Repr

/-- Ways in which a call does not return normally. -/
inductive Err where
  /-- `FATAL(...)`: the debugger prints a message and exits. -/
  | fatal (why : Fatal)
  /-- An access outside a debugger-side buffer, or through a NULL pointer. -/
  | outOfBounds
  /-- The debug loop waits for an event and the event script is exhausted. -/
  | blocked
  deriving DecidableEq, Repr

/-- Equality of results is decidable when it is so for errors and values. -/
instance decEqExcept {ε α : Type} [DecidableEq ε] [DecidableEq α] : DecidableEq (Except ε α)
  | .ok a, .ok b =>
    if h : a = b then isTrue (congrArg Except.ok h)
    else isFalse (fun e => h (Except.ok.inj e))
  | .error a, .error b =>
    if h : a = b then isTrue (congrArg Except.error h)
    else isFalse (fun e => h (Except.error.inj e))
  | .ok _, .error _ => isFalse (fun e => Except.noConfusion e)
  | .error _, .ok _ => isFalse (fun e => Except.noConfusion e)

/-- Modelled from the spec: the `DebuggerStatus` enumeration is declared in
`debugger.h`; section 6 lists the values `Attached`, `ProcessExit`,
`TargetStart`, `TargetEnd`, `Crashed`, `Hanged` and the internal `Continue`. -/
inductive DebuggerStatus where
  | DEBUGGER_NONE
  | DEBUGGER_CONTINUE
  | DEBUGGER_PROCESS_EXIT
  | DEBUGGER_TARGET_START
  | DEBUGGER_TARGET_END
  | DEBUGGER_CRASHED
  | DEBUGGER_HANGED
  | DEBUGGER_ATTACHED
  deriving DecidableEq, Repr

open DebuggerStatus

/-! ## Bytes and little-endian words -/

/-- The little-endian value of the `n` bytes `f a, f (a+1), ...`. -/
def leRead (f : Nat → Nat) (a : Nat) : Nat → Nat
  | 0 => 0
  | n + 1 => f a % 256 + 256 * leRead f (a + 1) n

/-- Byte number `i` of the little-endian representation of `v`. -/
def leByte (v i : Nat) : Nat := v / 256 ^ i % 256

/-- The remote address space as the debugger sees it. -/
structure Mem where
  /-- Content of every address (taken modulo 256 when read). -/
  bytes : Nat → Nat
  /-- Addresses `ReadProcessMemory` can read. -/
  readable : Nat → Bool
  /-- Addresses `WriteProcessMemory` can write. -/
  writable : Nat → Bool

/-- The byte stored at `a`. -/
def Mem.byte (m : Mem) (a : Nat) : Nat := m.bytes a % 256

/-- Every address of `[a, a+n)` is readable. -/
def Mem.canRead (m : Mem) (a n : Nat) : Bool :=
  (List.range n).all fun i => m.readable (a + i)

/-- Every address of `[a, a+n)` is writable. -/
def Mem.canWrite (m : Mem) (a n : Nat) : Bool :=
  (List.range n).all fun i => m.writable (a + i)

/-- The little-endian word of `n` bytes stored at `a`. -/
def Mem.word (m : Mem) (a n : Nat) : Nat := leRead m.bytes a n

/-- Store `n` bytes at `a`; byte `i` of the source is `src i`. -/
def Mem.store (m : Mem) (a n : Nat) (src : Nat → Nat) : Mem :=
  { m with bytes := fun x => if a ≤ x ∧ x < a + n then src (x - a) % 256 else m.bytes x }

/-- A buffer in the debugger's own memory: `size` bytes. -/
structure Buf where
  size : Nat
  data : Nat → Nat

/-- Bounds-checked little-endian read of `n` bytes at offset `off`. -/
def Buf.read (b : Buf) (off n : Nat) : Except Err Nat :=
  if off + n ≤ b.size then .ok (leRead b.data off n) else .error .outOfBounds

/-- Bounds-checked copy of `n` bytes into the buffer at offset `off`. -/
def Buf.write (b : Buf) (off n : Nat) (src : Nat → Nat) : Except Err Buf :=
  if off + n ≤ b.size then
    .ok { b with data := fun x => if off ≤ x ∧ x < off + n then src (x - off) % 256 else b.data x }
  else .error .outOfBounds

/-- `ReadProcessMemory(child_handle, a, buf, n, &num_read)`: the bytes read, or
`none` when the call fails. -/
def ReadProcessMemory (m : Mem) (a n : Nat) : Option (Nat → Nat) :=
  if m.canRead a n then some (fun i => m.byte (a + i)) else none

/-- `WriteProcessMemory(child_handle, a, src, n, &num_written)`: the memory after
the call, or `none` when the call fails (nothing is written then). -/
def WriteProcessMemory (m : Mem) (a n : Nat) (src : Nat → Nat) : Option Mem :=
  if m.canWrite a n then some (m.store a n src) else none

/-! ## Data model -/

/-- The part of `CONTEXT` the debugger touches.  In a 32-bit build the fields
stand for `Eip`, `Esp`, `Ecx`, `Edx`; `R8` and `R9` are not used there. -/
structure Context where
  Rip : Nat
  Rsp : Nat
  Rcx : Nat
  Rdx : Nat
  R8 : Nat
  R9 : Nat
  /-- All remaining registers and flags. -/
  others : List Nat
  deriving DecidableEq, Repr

/-- A one-time breakpoint (`struct Breakpoint`). -/
structure Breakpoint where
  address : Nat
  original_opcode : Nat
  type : Int
  deriving DecidableEq, Repr

/-- A module of the child as reported by `EnumProcessModulesEx` and
`GetModuleBaseNameA`. -/
structure Module where
  handle : Nat
  base_name : List Nat
  deriving DecidableEq, Repr

/-- `EXCEPTION_RECORD`. -/
structure ExceptionRecord where
  ExceptionCode : Nat
  ExceptionAddress : Nat
  deriving DecidableEq, Repr

/-- `CREATE_PROCESS_DEBUG_INFO`. -/
structure CreateProcessInfo where
  hProcess : Nat
  hThread : Nat
  lpBaseOfImage : Nat
  deriving DecidableEq, Repr

/-- `LOAD_DLL_DEBUG_INFO`, with the path `GetFinalPathNameByHandleA` returns for
`hFile`. -/
structure LoadDllInfo where
  lpBaseOfDll : Nat
  filename : List Nat
  deriving DecidableEq, Repr

/-- The union `u` of `DEBUG_EVENT`, tagged by `dwDebugEventCode`. -/
inductive EventInfo where
  | Exception (record : ExceptionRecord)
  | CreateThread
  | CreateProcess (info : CreateProcessInfo)
  | ExitThread
  | ExitProcess
  | LoadDll (info : LoadDllInfo)
  | UnloadDll (lpBaseOfDll : Nat)
  | Other (code : Nat)
  deriving DecidableEq, Repr

/-- `DEBUG_EVENT`. -/
structure DebugEvent where
  dwProcessId : Nat
  dwThreadId : Nat
  u : EventInfo
  deriving DecidableEq, Repr

/-- Calls the debugger makes to the client hooks and to the OS debug API, in the
order they are made. -/
inductive Call where
  | OnModuleLoaded (module : Nat) (module_name : List Nat)
  | OnModuleUnloaded (module : Nat)
  | OnTargetMethodReached (thread_id : Nat)
  | OnException (record : ExceptionRecord) (thread_id : Nat)
  | OnCrashed (record : ExceptionRecord)
  | OnProcessExit
  | WaitForDebugEvent
  | ContinueDebugEvent (process_id thread_id status : Nat)
  deriving DecidableEq, Repr

/-- The debugger object together with the child process it controls. -/
structure State where
  /- the child, as seen through the OS -/
  mem : Mem
  threads : Nat → Context
  /-- Result of `EnumProcessModulesEx`; `none` when the call fails. -/
  modules : Option (List Module)
  /-- Answer of `IsWow64Process` for the child; `none` when the call fails. -/
  wow64remote : Option Bool
  /- the fields of `Debugger` -/
  child_handle : Nat
  child_thread_handle : Nat
  child_ptr_size : Nat
  wow64_target : Bool
  target_module : List Nat
  target_method : List Nat
  target_offset : Nat
  target_address : Nat
  target_function_defined : Bool
  target_reached : Bool
  child_entrypoint_reached : Bool
  calling_convention : Nat
  target_num_args : Nat
  saved_sp : Nat
  saved_return_address : Nat
  /-- The array `void **saved_args`; `none` is the NULL pointer. -/
  saved_args : Option Buf
  breakpoints : List Breakpoint
  dbg_continue_needed : Bool
  dbg_continue_status : Nat
  dbg_last_status : DebuggerStatus
  dbg_timeout_time : Nat
  dbg_debug_event : DebugEvent
  loop_mode : Bool
  attach_mode : Bool
  sinkhole_stds : Bool
  trace_debug_events : Bool
  mem_limit : Nat
  cpu_aff : Nat
  /-- The handle of the `nul` device; `none` is `INVALID_HANDLE_VALUE`. -/
  devnul_handle : Option Nat
  /- observation -/
  calls : List Call

/-- What is fixed outside `debugger.cpp`: the build flavour, the client hooks
that return a value, and the symbol lookup of `dbghelp`. -/
structure Env where
  /-- The debugger is compiled with `_WIN64`. -/
  win64 : Bool
  /-- Client hook `GetTranslatedAddress`. -/
  GetTranslatedAddress : Nat → Nat
  /-- Client hook `OnException`: true when the client handled the exception. -/
  OnException : ExceptionRecord → Nat → Bool
  /-- `GetModuleFileNameExA` succeeds for the module. -/
  module_path_known : Nat → Bool
  /-- `SymFromName`: `pSymbol->Address - sym_base_address` when the symbol is found. -/
  SymFromName : Nat → List Nat → Option Nat
  /-- Content of a freshly allocated, not yet written heap block. -/
  uninitialised : Nat → Nat
  /-- Answer of `IsWow64Process` for the debugger itself; `none` when it fails. -/
  wow64current : Option Bool

/-- `sizeof(void *)` of the debugger build. -/
def Env.ptr_size (env : Env) : Nat := if env.win64 then 8 else 4

/-- Number of values of `size_t`. -/
def Env.word (env : Env) : Nat := 256 ^ env.ptr_size

/-! ## Breakpoint manager -/

/-- `Debugger::DeleteBreakpoints`: drops every record; the child is not touched. -/
def DeleteBreakpoints (s : State) : State :=
  { s with breakpoints := [] }

/-- `Debugger::AddBreakpoint`. -/
def AddBreakpoint (address : Nat) (type : Int) (s : State) : Except Err State :=
  match ReadProcessMemory s.mem address 1 with
  | none => .error (.fatal .ReadTargetMemory)
  | some rd =>
    let original_opcode := rd 0
    match WriteProcessMemory s.mem address 1 (fun _ => 0xCC) with
    | none => .error (.fatal .WriteTargetMemory)
    | some m =>
      .ok { s with
        mem := m
        breakpoints := s.breakpoints ++ [{ address := address, original_opcode := original_opcode, type := type }] }

/-! ## PE reader -/

/-- The 4096-byte `headers` block both header parsers read from `base_address`. -/
def readHeaders (s : State) (base_address : Nat) : Except Err Buf :=
  match ReadProcessMemory s.mem base_address 4096 with
  | none => .error (.fatal .ReadTargetMemory)
  | some d => .ok { size := 4096, data := d }

/-- `Debugger::GetModuleEntrypoint`; the result `0` is `NULL`. -/
def GetModuleEntrypoint (env : Env) (s : State) (base_address : Nat) : Except Err Nat := do
  let headers ← readHeaders s base_address
  let pe_offset ← headers.read 0x3C 4
  let signature ← headers.read pe_offset 4
  if signature ≠ 0x00004550 then .error (.fatal .PESignature) else
  let pe := pe_offset + 0x18
  let magic ← headers.read pe 2
  if magic ≠ 0x10b ∧ magic ≠ 0x20b then .error (.fatal .PEMagic) else
  let entrypoint_offset ← headers.read (pe + 16) 4
  if entrypoint_offset = 0 then .ok 0 else
  .ok ((base_address + entrypoint_offset) % env.word)

/-- `Debugger::GetImageSize`. -/
def GetImageSize (s : State) (base_address : Nat) : Except Err Nat := do
  let headers ← readHeaders s base_address
  let pe_offset ← headers.read 0x3C 4
  let signature ← headers.read pe_offset 4
  if signature ≠ 0x00004550 then .error (.fatal .PESignature) else
  let pe := pe_offset + 0x18
  let magic ← headers.read pe 2
  if magic ≠ 0x10b ∧ magic ≠ 0x20b then .error (.fatal .PEMagic) else
  headers.read (pe + 56) 4

/-- `strcmp(name, data + off) == 0`: compares byte by byte and stops at the
first difference or at the terminating NUL of both. -/
def strcmpEq (data : Buf) : List Nat → Nat → Except Err Bool
  | [], off => do
    let c ← data.read off 1
    pure (c == 0)
  | c :: cs, off => do
    let d ← data.read off 1
    if d == c then strcmpEq data cs (off + 1) else pure false

/-- The name scan of `GetProcOffset`: `todo` entries are left, `i` is the loop
variable; the result is the value of `i` when the loop ends. -/
def scanNames (data : Buf) (name : List Nat) (nameptrtable : Nat) : Nat → Nat → Except Err Nat
  | 0, i => .ok i
  | todo + 1, i => do
    let nameptr ← data.read (nameptrtable + 4 * i) 4
    let same ← strcmpEq data name nameptr
    if same then .ok i else scanNames data name nameptrtable todo (i + 1)

/-- `Debugger::GetProcOffset`. -/
def GetProcOffset (data : Buf) (name : List Nat) : Except Err Nat := do
  let pe_offset ← data.read 0x3C 4
  let signature ← data.read pe_offset 4
  if signature ≠ 0x00004550 then .ok 0 else
  let pe := pe_offset + 0x18
  let magic ← data.read pe 2
  if magic ≠ 0x10b ∧ magic ≠ 0x20b then .ok 0 else
  let exporttableoffset ← (if magic = 0x10b then data.read (pe + 96) 4 else data.read (pe + 112) 4)
  if exporttableoffset = 0 then .ok 0 else
  let exporttable := exporttableoffset
  let numentries ← data.read (exporttable + 24) 4
  let addresstableoffset ← data.read (exporttable + 28) 4
  let nameptrtableoffset ← data.read (exporttable + 32) 4
  let ordinaltableoffset ← data.read (exporttable + 36) 4
  let i ← scanNames data name nameptrtableoffset numentries 0
  if i = numentries then .ok 0 else
  let oridnal ← data.read (ordinaltableoffset + 2 * i) 2
  data.read (addresstableoffset + 4 * oridnal) 4

/-! ## Module tracker -/

/-- `Debugger::GetTargetAddress`: the address (`0` is `NULL`) and the state,
in which the symbol lookup may have set `target_offset`. -/
def GetTargetAddress (env : Env) (module : Nat) (s : State) : Except Err (Nat × State) := do
  let base_of_dll := module
  let size_of_image ← GetImageSize s base_of_dll
  if s.target_offset ≠ 0 then .ok ((base_of_dll + s.target_offset) % env.word, s) else
  match ReadProcessMemory s.mem base_of_dll size_of_image with
  | none => .error (.fatal .ReadTargetMemory)
  | some d =>
    let offset ← GetProcOffset { size := size_of_image, data := d } s.target_method
    if offset ≠ 0 then .ok ((module + offset) % env.word, s) else
    if !env.module_path_known module then .ok (0, s) else
    match env.SymFromName module s.target_method with
    | none => .ok (0, s)
    | some delta =>
      let target_offset := delta % 2 ^ 32
      .ok ((base_of_dll + target_offset) % env.word, { s with target_offset := target_offset })

/-- `tolower` on character codes. -/
def tolower (c : Nat) : Nat := if 65 ≤ c ∧ c ≤ 90 then c + 32 else c

/-- `_stricmp(a, b) == 0`. -/
def stricmpEq (a b : List Nat) : Bool := a.map tolower == b.map tolower

/-- `Debugger::OnModuleLoaded` (the base-class implementation). -/
def OnModuleLoaded (env : Env) (module : Nat) (module_name : List Nat) (s : State) :
    Except Err State := do
  let s := { s with calls := s.calls ++ [.OnModuleLoaded module module_name] }
  if s.target_function_defined && stricmpEq module_name s.target_module then
    let (target_address, s) ← GetTargetAddress env module s
    let s := { s with target_address := target_address }
    if target_address = 0 then .error (.fatal .TargetMethodAddress) else
    AddBreakpoint target_address BREAKPOINT_TARGET s
  else .ok s

/-- `Debugger::OnModuleUnloaded` (empty in the source). -/
def OnModuleUnloaded (module : Nat) (s : State) : State :=
  { s with calls := s.calls ++ [.OnModuleUnloaded module] }

/-! ## Thread context bridge -/

/-- The array `saved_args`, or undefined behaviour when it is NULL. -/
def argsBuf (s : State) : Except Err Buf :=
  match s.saved_args with
  | some b => .ok b
  | none => .error .outOfBounds

/-- `saved_args[i] = (void *)v`. -/
def setArg (env : Env) (i v : Nat) (s : State) : Except Err State := do
  let b ← argsBuf s
  let b ← b.write (i * env.ptr_size) env.ptr_size (leByte v)
  pure { s with saved_args := some b }

/-- `(size_t)saved_args[i]`. -/
def getArg (env : Env) (i : Nat) (s : State) : Except Err Nat := do
  let b ← argsBuf s
  b.read (i * env.ptr_size) env.ptr_size

/-- The loop of `ReadStack` for a WOW64 target:
`buffer[i] = (void *)((size_t)buf32[i])`, for `i` up to `numitems`. -/
def copyFromBuf32 (env : Env) (buf32 : Buf) (first : Nat) : Nat → Nat → Buf → Except Err Buf
  | 0, _, buffer => .ok buffer
  | todo + 1, i, buffer => do
    let v ← buf32.read (4 * i) 4
    let buffer ← buffer.write ((first + i) * env.ptr_size) env.ptr_size (leByte v)
    copyFromBuf32 env buf32 first todo (i + 1) buffer

/-- `Debugger::ReadStack(stack_addr, buffer + first, numitems)`.  The result of
`ReadProcessMemory` is not checked by the source. -/
def ReadStack (env : Env) (s : State) (stack_addr : Nat) (buffer : Buf) (first numitems : Nat) :
    Except Err Buf :=
  let nbytes := numitems * s.child_ptr_size
  if env.win64 && s.wow64_target then
    let buf32 : Buf :=
      { size := nbytes, data := (ReadProcessMemory s.mem stack_addr nbytes).getD env.uninitialised }
    copyFromBuf32 env buf32 first numitems 0 buffer
  else
    match ReadProcessMemory s.mem stack_addr nbytes with
    | some d => buffer.write (first * env.ptr_size) nbytes d
    | none => .ok buffer

/-- The loop of `WriteStack` for a WOW64 target:
`buf32[i] = (uint32_t)((size_t)buffer[i])`, for `i` up to `numitems`. -/
def fillBuf32 (env : Env) (buffer : Buf) (first : Nat) : Nat → Nat → Buf → Except Err Buf
  | 0, _, buf32 => .ok buf32
  | todo + 1, i, buf32 => do
    let v ← buffer.read ((first + i) * env.ptr_size) env.ptr_size
    let buf32 ← buf32.write (4 * i) 4 (leByte v)
    fillBuf32 env buffer first todo (i + 1) buf32

/-- `Debugger::WriteStack(stack_addr, buffer + first, numitems)`.  The result of
`WriteProcessMemory` is not checked by the source. -/
def WriteStack (env : Env) (s : State) (stack_addr : Nat) (buffer : Buf) (first numitems : Nat) :
    Except Err State :=
  let nbytes := numitems * s.child_ptr_size
  if env.win64 && s.wow64_target then do
    let buf32 ← fillBuf32 env buffer first numitems 0 { size := nbytes, data := env.uninitialised }
    pure { s with mem := (WriteProcessMemory s.mem stack_addr nbytes buf32.data).getD s.mem }
  else
    if first * env.ptr_size + nbytes ≤ buffer.size then
      .ok { s with mem :=
        (WriteProcessMemory s.mem stack_addr nbytes
          (fun j => buffer.data (first * env.ptr_size + j))).getD s.mem }
    else .error .outOfBounds

/-! ## Target-function interception -/

/-- `WriteProcessMemory(child_handle, saved_sp, &return_address, child_ptr_size, &numrw)`
with `size_t return_address = PERSIST_END_EXCEPTION`; the result is not
checked by the source. -/
def writeSentinel (env : Env) (s : State) : Except Err State :=
  if s.child_ptr_size ≤ env.ptr_size then
    .ok { s with mem :=
      (WriteProcessMemory s.mem s.saved_sp s.child_ptr_size (leByte PERSIST_END_EXCEPTION)).getD s.mem }
  else .error .outOfBounds

/-- `ReadStack(sp + slot * child_ptr_size, saved_args + first, target_num_args - first)`. -/
def readStackArgs (env : Env) (sp slot first : Nat) (s : State) : Except Err State := do
  let b ← argsBuf s
  let b ← ReadStack env s ((sp + slot * s.child_ptr_size) % env.word) b first (s.target_num_args - first)
  pure { s with saved_args := some b }

/-- `WriteStack(sp + slot * child_ptr_size, saved_args + first, target_num_args - first)`. -/
def writeStackArgs (env : Env) (sp slot first : Nat) (s : State) : Except Err State := do
  let b ← argsBuf s
  WriteStack env s ((sp + slot * s.child_ptr_size) % env.word) b first (s.target_num_args - first)

/-- `if (target_num_args > i) saved_args[i] = (void *)v`. -/
def saveRegArg (env : Env) (i v : Nat) (s : State) : Except Err State :=
  if s.target_num_args > i then setArg env i v s else .ok s

/-- The `switch (calling_convention)` of `HandleTargetReachedInternal`. -/
def saveArgs (env : Env) (lcContext : Context) (s : State) : Except Err State :=
  if env.win64 then
    if s.calling_convention = CALLCONV_DEFAULT ∨ s.calling_convention = CALLCONV_MICROSOFT_X64 then do
      let s ← saveRegArg env 0 lcContext.Rcx s
      let s ← saveRegArg env 1 lcContext.Rdx s
      let s ← saveRegArg env 2 lcContext.R8 s
      let s ← saveRegArg env 3 lcContext.R9 s
      if s.target_num_args > 4 then readStackArgs env lcContext.Rsp 5 4 s else pure s
    else if s.calling_convention = CALLCONV_CDECL then
      if s.target_num_args > 0 then readStackArgs env lcContext.Rsp 1 0 s else pure s
    else if s.calling_convention = CALLCONV_FASTCALL then do
      let s ← saveRegArg env 0 lcContext.Rcx s
      let s ← saveRegArg env 1 lcContext.Rdx s
      if s.target_num_args > 3 then readStackArgs env lcContext.Rsp 1 2 s else pure s
    else if s.calling_convention = CALLCONV_THISCALL then do
      let s ← saveRegArg env 0 lcContext.Rcx s
      if s.target_num_args > 3 then readStackArgs env lcContext.Rsp 1 1 s else pure s
    else pure s
  else
    if s.calling_convention = CALLCONV_MICROSOFT_X64 then .error (.fatal .X64CallingConvention)
    else if s.calling_convention = CALLCONV_DEFAULT ∨ s.calling_convention = CALLCONV_CDECL then
      if s.target_num_args > 0 then readStackArgs env lcContext.Rsp 1 0 s else pure s
    else if s.calling_convention = CALLCONV_FASTCALL then do
      let s ← saveRegArg env 0 lcContext.Rcx s
      let s ← saveRegArg env 1 lcContext.Rdx s
      if s.target_num_args > 3 then readStackArgs env lcContext.Rsp 1 2 s else pure s
    else if s.calling_convention = CALLCONV_THISCALL then do
      let s ← saveRegArg env 0 lcContext.Rcx s
      if s.target_num_args > 3 then readStackArgs env lcContext.Rsp 1 1 s else pure s
    else pure s

/-- `saved_return_address = 0; ReadProcessMemory(child_handle, saved_sp,
&saved_return_address, child_ptr_size, &numrw);`: the new value of the field.
The result of the call is not checked by the source. -/
def readReturnAddress (env : Env) (s : State) : Except Err Nat :=
  match ReadProcessMemory s.mem s.saved_sp s.child_ptr_size with
  | none => .ok 0
  | some d =>
    if s.child_ptr_size ≤ env.ptr_size then .ok (leRead d 0 s.child_ptr_size)
    else .error .outOfBounds

/-- `if (!target_reached) { target_reached = true; OnTargetMethodReached(thread_id); }` -/
def notifyTargetReached (thread_id : Nat) (s : State) : State :=
  if !s.target_reached then
    { s with target_reached := true, calls := s.calls ++ [.OnTargetMethodReached thread_id] }
  else s

/-- `Debugger::HandleTargetReachedInternal`. -/
def HandleTargetReachedInternal (env : Env) (thread_id : Nat) (s : State) : Except Err State := do
  let lcContext := s.threads thread_id
  let s := { s with saved_sp := lcContext.Rsp }
  let saved_return_address ← readReturnAddress env s
  let s := { s with saved_return_address := saved_return_address }
  let s ← (if s.loop_mode then saveArgs env lcContext s else .ok s)
  let s ← writeSentinel env s
  pure (notifyTargetReached thread_id s)

/-- `if (target_num_args > i) reg = (size_t)saved_args[i]`: the new value of the
register whose current value is `reg`. -/
def loadRegArg (env : Env) (i reg : Nat) (s : State) : Except Err Nat :=
  if s.target_num_args > i then getArg env i s else .ok reg

/-- The `switch (calling_convention)` of `HandleTargetEnded`. -/
def restoreArgs (env : Env) (lcContext : Context) (s : State) : Except Err (Context × State) :=
  if env.win64 then
    if s.calling_convention = CALLCONV_DEFAULT ∨ s.calling_convention = CALLCONV_MICROSOFT_X64 then do
      let rcx ← loadRegArg env 0 lcContext.Rcx s
      let rdx ← loadRegArg env 1 lcContext.Rdx s
      let r8 ← loadRegArg env 2 lcContext.R8 s
      let r9 ← loadRegArg env 3 lcContext.R9 s
      let lcContext := { lcContext with Rcx := rcx, Rdx := rdx, R8 := r8, R9 := r9 }
      let s ← (if s.target_num_args > 4 then writeStackArgs env lcContext.Rsp 5 4 s else .ok s)
      pure (lcContext, s)
    else if s.calling_convention = CALLCONV_CDECL then do
      let s ← (if s.target_num_args > 0 then writeStackArgs env lcContext.Rsp 1 0 s else .ok s)
      pure (lcContext, s)
    else if s.calling_convention = CALLCONV_FASTCALL then do
      let rcx ← loadRegArg env 0 lcContext.Rcx s
      let rdx ← loadRegArg env 1 lcContext.Rdx s
      let lcContext := { lcContext with Rcx := rcx, Rdx := rdx }
      let s ← (if s.target_num_args > 3 then writeStackArgs env lcContext.Rsp 1 2 s else .ok s)
      pure (lcContext, s)
    else if s.calling_convention = CALLCONV_THISCALL then do
      let rcx ← loadRegArg env 0 lcContext.Rcx s
      let lcContext := { lcContext with Rcx := rcx }
      let s ← (if s.target_num_args > 3 then writeStackArgs env lcContext.Rsp 1 1 s else .ok s)
      pure (lcContext, s)
    else pure (lcContext, s)
  else
    if s.calling_convention = CALLCONV_MICROSOFT_X64 then .error (.fatal .X64CallingConvention)
    else if s.calling_convention = CALLCONV_DEFAULT ∨ s.calling_convention = CALLCONV_CDECL then do
      let s ← (if s.target_num_args > 0 then writeStackArgs env lcContext.Rsp 1 0 s else .ok s)
      pure (lcContext, s)
    else if s.calling_convention = CALLCONV_FASTCALL then do
      let rcx ← loadRegArg env 0 lcContext.Rcx s
      let rdx ← loadRegArg env 1 lcContext.Rdx s
      let lcContext := { lcContext with Rcx := rcx, Rdx := rdx }
      let s ← (if s.target_num_args > 3 then writeStackArgs env lcContext.Rsp 1 2 s else .ok s)
      pure (lcContext, s)
    else if s.calling_convention = CALLCONV_THISCALL then do
      let rcx ← loadRegArg env 0 lcContext.Rcx s
      let lcContext := { lcContext with Rcx := rcx }
      let s ← (if s.target_num_args > 3 then writeStackArgs env lcContext.Rsp 1 1 s else .ok s)
      pure (lcContext, s)
    else pure (lcContext, s)

/-- `SetThreadContext(thread_handle, &lcContext)`. -/
def SetThreadContext (thread_id : Nat) (lcContext : Context) (s : State) : State :=
  { s with threads := fun t => if t = thread_id then lcContext else s.threads t }

/-- `Debugger::HandleTargetEnded`. -/
def HandleTargetEnded (env : Env) (thread_id : Nat) (s : State) : Except Err State := do
  let lcContext := s.threads thread_id
  if s.loop_mode then
    let lcContext := { lcContext with Rip := s.target_address, Rsp := s.saved_sp }
    let s ← writeSentinel env s
    let (lcContext, s) ← restoreArgs env lcContext s
    pure (SetThreadContext thread_id lcContext s)
  else
    let lcContext := { lcContext with Rip := s.saved_return_address }
    let s ← AddBreakpoint (env.GetTranslatedAddress s.target_address) BREAKPOINT_TARGET s
    pure (SetThreadContext thread_id lcContext s)

/-! ## Entrypoint and breakpoint hits -/

/-- The loop of `OnEntrypoint`: `OnModuleLoaded` for every enumerated module. -/
def reportModules (env : Env) : List Module → State → Except Err State
  | [], s => .ok s
  | m :: ms, s => do
    let s ← OnModuleLoaded env m.handle m.base_name s
    reportModules env ms s

/-- `Debugger::OnEntrypoint`. -/
def OnEntrypoint (env : Env) (s : State) : Except Err State :=
  match s.modules with
  | none => .error (.fatal .EnumProcessModules)
  | some module_handles => do
    let s ← reportModules env module_handles s
    pure { s with child_entrypoint_reached := true }

/-- The `switch (breakpoint->type)` of `HandleDebuggerBreakpoint`. -/
def handleBreakpointType (env : Env) (type : Int) (thread_id : Nat) (s : State) :
    Except Err State :=
  if type = BREAKPOINT_ENTRYPOINT then OnEntrypoint env s
  else if type = BREAKPOINT_TARGET then HandleTargetReachedInternal env thread_id s
  else .ok s

/-- The first half of `HandleDebuggerBreakpoint`, up to `SetThreadContext`: the
record of `address` is found and erased, its original byte is written back and
the instruction pointer of the thread is decremented.  The result is `none`
when `address` has no record. -/
def consumeBreakpoint (env : Env) (address thread_id : Nat) (s : State) :
    Except Err (Option (Breakpoint × State)) :=
  match s.breakpoints.find? (fun b => b.address == address) with
  | none => .ok none
  | some breakpoint =>
    let s := { s with breakpoints := s.breakpoints.eraseP (fun b => b.address == address) }
    match WriteProcessMemory s.mem address 1 (fun _ => breakpoint.original_opcode) with
    | none => .error (.fatal .WriteChildMemory)
    | some m =>
      let s := { s with mem := m }
      let lcContext := s.threads thread_id
      .ok (some (breakpoint, SetThreadContext thread_id
        { lcContext with Rip := (lcContext.Rip + env.word - 1) % env.word } s))

/-- `Debugger::HandleDebuggerBreakpoint`: the type of the breakpoint that was
hit (`BREAKPOINT_UNKNOWN` when the address has no record) and the new state. -/
def HandleDebuggerBreakpoint (env : Env) (address thread_id : Nat) (s : State) :
    Except Err (Int × State) :=
  match consumeBreakpoint env address thread_id s with
  | .error e => .error e
  | .ok none => .ok (BREAKPOINT_UNKNOWN, s)
  | .ok (some (breakpoint, s)) =>
    match handleBreakpointType env breakpoint.type thread_id s with
    | .error e => .error e
    | .ok s => .ok (breakpoint.type, s)

/-- The part of `filename` after its last backslash (`strrchr(filename, '\\')`),
or all of it when there is none. -/
def baseName (filename : List Nat) : List Nat :=
  (filename.reverse.takeWhile (fun c => c != 92)).reverse

/-- `Debugger::HandleDllLoadInternal`. -/
def HandleDllLoadInternal (env : Env) (LoadDll : LoadDllInfo) (s : State) : Except Err State :=
  if s.child_entrypoint_reached then
    OnModuleLoaded env LoadDll.lpBaseOfDll (baseName LoadDll.filename) s
  else .ok s

/-- `Debugger::GetProcessPlatform`. -/
def GetProcessPlatform (env : Env) (s : State) : Except Err State :=
  match s.wow64remote with
  | none => .error (.fatal .IsWow64Process)
  | some wow64remote =>
    let s :=
      if wow64remote then
        { s with
          wow64_target := true
          child_ptr_size := 4
          calling_convention :=
            if s.calling_convention = CALLCONV_DEFAULT then CALLCONV_CDECL else s.calling_convention }
      else s
    match env.wow64current with
    | none => .error (.fatal .IsWow64Process)
    | some _ =>
      if env.ptr_size < s.child_ptr_size then .error (.fatal .Needs64BitBuild) else .ok s

/-- `Debugger::OnProcessCreated`. -/
def OnProcessCreated (env : Env) (info : CreateProcessInfo) (s : State) : Except Err State :=
  if s.attach_mode then
    GetProcessPlatform env
      { s with
        child_handle := info.hProcess
        child_thread_handle := info.hThread
        child_entrypoint_reached := true }
  else do
    let entrypoint ← GetModuleEntrypoint env s info.lpBaseOfImage
    AddBreakpoint entrypoint BREAKPOINT_ENTRYPOINT s

/-! ## Exception classification -/

/-- The first block of `HandleExceptionInternal`: one-time debugger breakpoints.
The status is `some _` when the function returns from this block. -/
def handleOwnBreakpoint (env : Env) (exception_record : ExceptionRecord) (thread_id : Nat)
    (s : State) : Except Err (Option DebuggerStatus × State) :=
  if exception_record.ExceptionCode = EXCEPTION_BREAKPOINT ∨
      exception_record.ExceptionCode = STATUS_WX86_BREAKPOINT then do
    let (breakpoint_type, s) ←
      HandleDebuggerBreakpoint env exception_record.ExceptionAddress thread_id s
    if breakpoint_type = BREAKPOINT_TARGET then pure (some DEBUGGER_TARGET_START, s)
    else if breakpoint_type ≠ BREAKPOINT_UNKNOWN then pure (some DEBUGGER_CONTINUE, s)
    else pure (none, s)
  else pure (none, s)

/-- The `switch (exception_record->ExceptionCode)` of `HandleExceptionInternal`. -/
def classifyException (env : Env) (exception_record : ExceptionRecord) (thread_id : Nat)
    (s : State) : Except Err (DebuggerStatus × State) :=
  let code := exception_record.ExceptionCode
  if code = EXCEPTION_BREAKPOINT ∨ code = STATUS_WX86_BREAKPOINT then
    .ok (DEBUGGER_CONTINUE, { s with dbg_continue_status := DBG_EXCEPTION_NOT_HANDLED })
  else if code = EXCEPTION_ACCESS_VIOLATION then
    if s.target_function_defined ∧ exception_record.ExceptionAddress = PERSIST_END_EXCEPTION then do
      let s ← HandleTargetEnded env thread_id s
      pure (DEBUGGER_TARGET_END, s)
    else
      .ok (DEBUGGER_CRASHED, { s with dbg_continue_status := DBG_EXCEPTION_NOT_HANDLED })
  else if code = EXCEPTION_ILLEGAL_INSTRUCTION ∨ code = EXCEPTION_PRIV_INSTRUCTION ∨
      code = EXCEPTION_INT_DIVIDE_BY_ZERO ∨ code = EXCEPTION_STACK_OVERFLOW ∨
      code = STATUS_HEAP_CORRUPTION ∨ code = STATUS_STACK_BUFFER_OVERRUN ∨
      code = STATUS_FATAL_APP_EXIT then
    .ok (DEBUGGER_CRASHED, { s with dbg_continue_status := DBG_EXCEPTION_NOT_HANDLED })
  else
    .ok (DEBUGGER_CONTINUE, { s with dbg_continue_status := DBG_EXCEPTION_NOT_HANDLED })

/-- `Debugger::HandleExceptionInternal`. -/
def HandleExceptionInternal (env : Env) (exception_record : ExceptionRecord) (thread_id : Nat)
    (s : State) : Except Err (DebuggerStatus × State) := do
  let (early, s) ← handleOwnBreakpoint env exception_record thread_id s
  match early with
  | some status => pure (status, s)
  | none =>
    let s := { s with calls := s.calls ++ [.OnException exception_record thread_id] }
    if env.OnException exception_record thread_id then pure (DEBUGGER_CONTINUE, s)
    else classifyException env exception_record thread_id s

/-! ## Debug loop -/

/-- One return of `WaitForDebugEvent(DebugEv, 100)`, the clock value the loop
reads right after it, and the child as it is at that moment. -/
structure WaitResult where
  /-- The event delivered; `none` when the 100 ms wait timed out. -/
  event : Option DebugEvent
  /-- `GetCurTime()` as read after the wait. -/
  now : Nat
  mem : Mem
  threads : Nat → Context
  modules : Option (List Module)

/-- How the `switch (DebugEv->dwDebugEventCode)` of the loop body ends. -/
inductive Dispatch where
  /-- `return ret;` -/
  | returned (ret : DebuggerStatus)
  /-- `break;` out of the switch, with the value of `alive`. -/
  | proceed (alive : Bool)
  deriving DecidableEq, Repr

/-- The `switch (DebugEv->dwDebugEventCode)` of `DebugLoop`. -/
def dispatchEvent (env : Env) (DebugEv : DebugEvent) (s : State) : Except Err (Dispatch × State) :=
  match DebugEv.u with
  | .Exception record => do
    let (ret, s) ← HandleExceptionInternal env record DebugEv.dwThreadId s
    let s := if ret = DEBUGGER_CRASHED then { s with calls := s.calls ++ [.OnCrashed record] } else s
    if ret ≠ DEBUGGER_CONTINUE then pure (.returned ret, s) else pure (.proceed true, s)
  | .CreateThread => pure (.proceed true, s)
  | .CreateProcess info => do
    let s ← OnProcessCreated env info s
    pure (.proceed true, s)
  | .ExitThread => pure (.proceed true, s)
  | .ExitProcess => pure (.proceed false, { s with calls := s.calls ++ [.OnProcessExit] })
  | .LoadDll info => do
    let s ← HandleDllLoadInternal env info s
    pure (.proceed true, s)
  | .UnloadDll lpBaseOfDll => pure (.proceed true, OnModuleUnloaded lpBaseOfDll s)
  | .Other _ => pure (.proceed true, s)

/-- `ContinueDebugEvent(dbg_debug_event.dwProcessId, dbg_debug_event.dwThreadId,
dbg_continue_status)`. -/
def ContinueDebugEvent (s : State) : State :=
  { s with calls := s.calls ++
      [.ContinueDebugEvent s.dbg_debug_event.dwProcessId s.dbg_debug_event.dwThreadId
        s.dbg_continue_status] }

/-- The `while (alive)` loop of `DebugLoop`, run against a script of wait
results; the unread rest of the script is returned with the status. -/
def debugLoopBody (env : Env) : List WaitResult → State →
    Except Err (DebuggerStatus × State × List WaitResult)
  | [], _ => .error .blocked
  | w :: ws, s =>
    let s : State := { s with
      mem := w.mem
      threads := w.threads
      modules := w.modules
      calls := s.calls ++ [Call.WaitForDebugEvent] }
    match w.event with
    | none =>
      let s := { s with dbg_continue_needed := false }
      if w.now > s.dbg_timeout_time then .ok (DEBUGGER_HANGED, s, ws)
      else debugLoopBody env ws s
    | some ev =>
      let s := { s with dbg_debug_event := ev, dbg_continue_needed := true }
      if w.now > s.dbg_timeout_time then .ok (DEBUGGER_HANGED, s, ws)
      else
        let s := { s with dbg_continue_status := DBG_CONTINUE }
        match dispatchEvent env ev s with
        | .error e => .error e
        | .ok (.returned ret, s) => .ok (ret, s, ws)
        | .ok (.proceed alive, s) =>
          let s := ContinueDebugEvent s
          if alive then debugLoopBody env ws s else .ok (DEBUGGER_PROCESS_EXIT, s, ws)

/-- `Debugger::DebugLoop`. -/
def DebugLoop (env : Env) (script : List WaitResult) (s : State) :
    Except Err (DebuggerStatus × State × List WaitResult) :=
  let s := if s.dbg_continue_needed then ContinueDebugEvent s else s
  debugLoopBody env script s

/-! ## Process lifecycle -/

/-- `CloseHandle(child_handle); CloseHandle(child_thread_handle);` and both
handles set to NULL. -/
def closeChild (s : State) : State :=
  { s with child_handle := 0, child_thread_handle := 0 }

/-- `Debugger::Continue`; `now` is the value of `GetCurTime()` read by it. -/
def Continue (env : Env) (timeout now : Nat) (script : List WaitResult) (s : State) :
    Except Err (DebuggerStatus × State × List WaitResult) :=
  if s.child_handle = 0 ∧ s.dbg_last_status ≠ DEBUGGER_ATTACHED then
    .ok (DEBUGGER_PROCESS_EXIT, s, script)
  else if s.loop_mode ∧ s.dbg_last_status = DEBUGGER_TARGET_END then
    .ok (DEBUGGER_TARGET_START, { s with dbg_last_status := DEBUGGER_TARGET_START }, script)
  else do
    let s := { s with dbg_timeout_time := (now + timeout) % 2 ^ 64 }
    let (status, s, rest) ← DebugLoop env script s
    let s := { s with dbg_last_status := status }
    let s := if status = DEBUGGER_PROCESS_EXIT then closeChild s else s
    pure (status, s, rest)

/-- `Debugger::Kill`. -/
def Kill (env : Env) (script : List WaitResult) (s : State) :
    Except Err (DebuggerStatus × State × List WaitResult) :=
  if s.child_handle = 0 then .ok (DEBUGGER_PROCESS_EXIT, s, script)
  else do
    let s := { s with dbg_timeout_time := 0xFFFFFFFFFFFFFFFF }
    let (status, s, rest) ← DebugLoop env script s
    let s := { s with dbg_last_status := status }
    if status ≠ DEBUGGER_PROCESS_EXIT then throw (Err.fatal .KillingTarget) else
    pure (status, DeleteBreakpoints (closeChild s), rest)

/-- What the OS answers to the calls of `StartProcess`. -/
structure Launch where
  /-- `CreateFile("nul", ...)`; `none` is `INVALID_HANDLE_VALUE`. -/
  nul_device : Option Nat
  /-- `CreateJobObject` returned a handle. -/
  job_created : Bool
  /-- `SetInformationJobObject` succeeded. -/
  job_limits_set : Bool
  /-- `CreateProcessA`: the handles of `PROCESS_INFORMATION`; `none` when it fails. -/
  process : Option (Nat × Nat)
  /-- `AssignProcessToJobObject` succeeded. -/
  job_assigned : Bool
  /-- The new child. -/
  mem : Mem
  threads : Nat → Context
  modules : Option (List Module)
  wow64remote : Option Bool

/-- The lazy opening of the `nul` device in `StartProcess`. -/
def openNulDevice (os : Launch) (s : State) : Except Err State :=
  if s.sinkhole_stds ∧ s.devnul_handle = none then
    match os.nul_device with
    | none => .error (.fatal .OpenNulDevice)
    | some h => .ok { s with devnul_handle := some h }
  else .ok s

/-- `Debugger::StartProcess`. -/
def StartProcess (env : Env) (os : Launch) (s : State) : Except Err State := do
  let s := { s with dbg_continue_needed := false }
  let s := DeleteBreakpoints s
  let s ← openNulDevice os s
  if (s.mem_limit ≠ 0 ∨ s.cpu_aff ≠ 0) ∧ !os.job_created then
    throw (Err.fatal .CreateJobObject) else
  if (s.mem_limit ≠ 0 ∨ s.cpu_aff ≠ 0) ∧ !os.job_limits_set then
    throw (Err.fatal .SetInformationJobObject) else
  match os.process with
  | none => throw (Err.fatal .CreateProcessFailed)
  | some (hProcess, hThread) =>
    let s : State := { s with
      mem := os.mem
      threads := os.threads
      modules := os.modules
      wow64remote := os.wow64remote
      child_handle := hProcess
      child_thread_handle := hThread
      child_entrypoint_reached := false
      target_reached := false }
    if (s.mem_limit ≠ 0 ∨ s.cpu_aff ≠ 0) ∧ !os.job_assigned then
      throw (Err.fatal .AssignProcessToJobObject) else
    GetProcessPlatform env s

/-- `Debugger::Run`. -/
def Run (env : Env) (os : Launch) (timeout now : Nat) (script : List WaitResult) (s : State) :
    Except Err (DebuggerStatus × State × List WaitResult) := do
  let s := { s with attach_mode := false }
  let s ← StartProcess env os s
  Continue env timeout now script s

/-- `Debugger::Attach`; `attached` tells whether `DebugActiveProcess` succeeded. -/
def Attach (env : Env) (attached : Bool) (timeout now : Nat) (script : List WaitResult)
    (s : State) : Except Err (DebuggerStatus × State × List WaitResult) :=
  let s := { s with attach_mode := true }
  if !attached then .error (.fatal .AttachFailed) else
  Continue env timeout now script { s with dbg_last_status := DEBUGGER_ATTACHED }

/-! ## Predicates used in the statements -/

/-- `s1` is `s` with another content of `saved_args`. -/
def ArgsFrame (s s1 : State) : Prop := ∃ b, s1 = { s with saved_args := b }

/-- The data invariant `Init` and `GetProcessPlatform` set up: the child pointer
is 4 or 8 bytes and not wider than the pointer of the debugger, and `saved_args`
has room for `target_num_args` pointers. -/
def WellFormed (env : Env) (s : State) : Prop :=
  (s.child_ptr_size = 4 ∨ s.child_ptr_size = 8) ∧ s.child_ptr_size ≤ env.ptr_size ∧
  (s.target_num_args ≠ 0 →
    ∃ b, s.saved_args = some b ∧ s.target_num_args * env.ptr_size ≤ b.size)

/-- `s1` is `s` after breakpoints were armed on top of its table: the old
records are kept in place and only the bytes at the armed addresses differ. -/
structure ArmedOnly (s s1 : State) : Prop where
  threads : s1.threads = s.threads
  readable : s1.mem.readable = s.mem.readable
  writable : s1.mem.writable = s.mem.writable
  entrypoint : s1.child_entrypoint_reached = s.child_entrypoint_reached
  table : ∃ added, s1.breakpoints = s.breakpoints ++ added ∧
    (∀ b, b ∈ added → b.type = BREAKPOINT_TARGET) ∧
    ∀ x, (∀ b, b ∈ added → b.address ≠ x) → s1.mem.bytes x = s.mem.bytes x

/-- The arguments of a 64-bit function called with the Microsoft x64
convention, as the claim lists them: `rcx`, `rdx`, `r8`, `r9`, and for `i ≥ 4`
the 8-byte word at `sp + 8 * (5 + i - 4)`.  `lcContext` and `m` are the thread
context and the memory at the entry of the function. -/
def ms64Arg (lcContext : Context) (m : Mem) (i : Nat) : Nat :=
  if i = 0 then lcContext.Rcx % 2 ^ 64
  else if i = 1 then lcContext.Rdx % 2 ^ 64
  else if i = 2 then lcContext.R8 % 2 ^ 64
  else if i = 3 then lcContext.R9 % 2 ^ 64
  else m.word (lcContext.Rsp + 8 * (5 + i - 4)) 8

/-! ## The breakpoint table as a state machine -/

/-- The operations of the debugger that touch the breakpoint table. -/
inductive TableOp where
  | AddBreakpoint (address : Nat) (type : Int)
  | OnModuleLoaded (module : Nat) (module_name : List Nat)
  | HandleDebuggerBreakpoint (address thread_id : Nat)
  | HandleTargetEnded (thread_id : Nat)
  | DeleteBreakpoints

/-- The effect of a table operation on the state. -/
def TableOp.apply (env : Env) : TableOp → State → Except Err State
  | .AddBreakpoint address type, s => Debugger.AddBreakpoint address type s
  | .OnModuleLoaded module module_name, s => Debugger.OnModuleLoaded env module module_name s
  | .HandleDebuggerBreakpoint address thread_id, s =>
    (Debugger.HandleDebuggerBreakpoint env address thread_id s).map Prod.snd
  | .HandleTargetEnded thread_id, s => Debugger.HandleTargetEnded env thread_id s
  | .DeleteBreakpoints, s => .ok (Debugger.DeleteBreakpoints s)

/-- The table holds at most one record per address. -/
def OnePerAddress (s : State) : Prop := (s.breakpoints.map (fun b => b.address)).Nodup

/-- The table holds no record for `address`. -/
def Unarmed (s : State) (address : Nat) : Prop :=
  ∀ b, b ∈ s.breakpoints → b.address ≠ address

/-- If `OnModuleLoaded` for this module arms the Target breakpoint, it arms it
at an address that has no record yet. -/
def FreshLoad (env : Env) (module : Nat) (module_name : List Nat) (s : State) : Prop :=
  ∀ s1, OnModuleLoaded env module module_name s = .ok s1 →
    s1.breakpoints ≠ s.breakpoints → Unarmed s s1.target_address

/-- `FreshLoad` for every call of the loop of `OnEntrypoint`. -/
def FreshLoads (env : Env) : List Module → State → Prop
  | [], _ => True
  | m :: ms, s =>
    FreshLoad env m.handle m.base_name s ∧
    ∀ s1, OnModuleLoaded env m.handle m.base_name s = .ok s1 → FreshLoads env ms s1

/-- The operation arms no breakpoint at an address that already has a record. -/
def TableOp.Fresh (env : Env) : TableOp → State → Prop
  | .AddBreakpoint address _, s => Unarmed s address
  | .OnModuleLoaded module module_name, s => FreshLoad env module module_name s
  | .HandleDebuggerBreakpoint address thread_id, s =>
    ∀ bp sd ms, consumeBreakpoint env address thread_id s = .ok (some (bp, sd)) →
      bp.type = BREAKPOINT_ENTRYPOINT → sd.modules = some ms → FreshLoads env ms sd
  | .HandleTargetEnded _, s =>
    s.loop_mode = false → Unarmed s (env.GetTranslatedAddress s.target_address)
  | .DeleteBreakpoints, _ => True

/-- The states reachable from an empty table by table operations, with the child
running in between.  With `guarded`, every operation arms fresh addresses only. -/
inductive Reachable (env : Env) (guarded : Bool) : State → Prop
  | init (s : State) : s.breakpoints = [] → Reachable env guarded s
  | step (op : TableOp) (s s1 : State) : Reachable env guarded s →
      (guarded = true → op.Fresh env s) → op.apply env s = .ok s1 → Reachable env guarded s1
  | resume (s : State) (mem : Mem) (threads : Nat → Context) (modules : Option (List Module)) :
      Reachable env guarded s →
      Reachable env guarded { s with mem := mem, threads := threads, modules := modules }

/-! ## Concrete scenarios -/

/-- A 64-bit build with a client whose hooks do nothing: `OnException` handles
no exception and `GetTranslatedAddress` returns its argument. -/
def env64 : Env :=
  { win64 := true
    GetTranslatedAddress := fun a => a
    OnException := fun _ _ => false
    module_path_known := fun _ => false
    SymFromName := fun _ _ => none
    uninitialised := fun _ => 0xCD
    wow64current := some false }

/-- The same client in a 32-bit build. -/
def env32 : Env := { env64 with win64 := false }

/-- A thread context with every register zero. -/
def zeroContext : Context :=
  { Rip := 0, Rsp := 0, Rcx := 0, Rdx := 0, R8 := 0, R9 := 0, others := [] }

/-- A debugger right after `Init` without options, with a 64-bit child whose
memory is all zero and accessible. -/
def state0 : State :=
  { mem := { bytes := fun _ => 0, readable := fun _ => true, writable := fun _ => true }
    threads := fun _ => zeroContext
    modules := some []
    wow64remote := some false
    child_handle := 100
    child_thread_handle := 101
    child_ptr_size := 8
    wow64_target := false
    target_module := []
    target_method := []
    target_offset := 0
    target_address := 0
    target_function_defined := false
    target_reached := false
    child_entrypoint_reached := false
    calling_convention := CALLCONV_DEFAULT
    target_num_args := 0
    saved_sp := 0
    saved_return_address := 0
    saved_args := none
    breakpoints := []
    dbg_continue_needed := false
    dbg_continue_status := DBG_CONTINUE
    dbg_last_status := DEBUGGER_NONE
    dbg_timeout_time := 0
    dbg_debug_event := { dwProcessId := 0, dwThreadId := 0, u := .Other 0 }
    loop_mode := false
    attach_mode := false
    sinkhole_stds := false
    trace_debug_events := false
    mem_limit := 0
    cpu_aff := 0
    devnul_handle := none
    calls := [] }

/-- The bytes of a small PE32+ image mapped at `base`: `e_lfanew = 0x40`, the
signature `PE\0\0`, magic `0x20B`, entrypoint RVA `0x1000`, `SizeOfImage`
`0x2000`, and `push rbp` (`0x55`) as first byte of the code at `base + 0x1000`. -/
def imageBytes (base x : Nat) : Nat :=
  if x = base + 0x3C then 0x40
  else if x = base + 0x40 then 0x50
  else if x = base + 0x41 then 0x45
  else if x = base + 0x58 then 0x0B
  else if x = base + 0x59 then 0x02
  else if x = base + 0x69 then 0x10
  else if x = base + 0x91 then 0x20
  else if x = base + 0x1000 then 0x55
  else 0

/-- The name `t.exe` as character codes. -/
def name_t_exe : List Nat := [116, 46, 101, 120, 101]

/-- C1, witness: the child has `0x55` at `0x401000`, no breakpoint is armed. -/
def c1_before : State :=
  { state0 with mem := { state0.mem with bytes := fun x => if x = 0x401000 then 0x55 else 0 } }

/-- C1, witness: the Target breakpoint at `0x401000` is armed and thread 1 has
just executed it, with its stack pointer at `0x7ff000`. -/
def c1_hit : State :=
  { c1_before with
    mem := c1_before.mem.store 0x401000 1 (fun _ => 0xCC)
    breakpoints := [{ address := 0x401000, original_opcode := 0x55, type := BREAKPOINT_TARGET }]
    threads := fun _ => { zeroContext with Rip := 0x401001, Rsp := 0x7ff000 } }

/-- C1, counterexample: the image `t.exe` is mapped at `0x400000` and the target
function is configured as `t.exe` + `0x1000`, which is also the entrypoint of
the image. -/
def c1_entry_is_target : State :=
  { state0 with
    mem := { state0.mem with bytes := imageBytes 0x400000 }
    modules := some [{ handle := 0x400000, base_name := name_t_exe }]
    target_module := name_t_exe
    target_offset := 0x1000
    target_function_defined := true
    threads := fun _ => { zeroContext with Rip := 0x401001, Rsp := 0x7ff000 } }

/-- C2, witness: `c1_before` after `AddBreakpoint(0x401000, BREAKPOINT_TARGET)`. -/
def c2_armed : State :=
  { c1_before with
    mem := c1_before.mem.store 0x401000 1 (fun _ => 0xCC)
    breakpoints := c1_before.breakpoints ++
      [{ address := 0x401000, original_opcode := c1_before.mem.byte 0x401000,
         type := BREAKPOINT_TARGET }] }

/-- C2, witness: `c2_armed` after `AddBreakpoint(0x401005, BREAKPOINT_ENTRYPOINT)`. -/
def c2_armed_twice : State :=
  { c2_armed with
    mem := c2_armed.mem.store 0x401005 1 (fun _ => 0xCC)
    breakpoints := c2_armed.breakpoints ++
      [{ address := 0x401005, original_opcode := c2_armed.mem.byte 0x401005,
         type := BREAKPOINT_ENTRYPOINT }] }

/-- C3, witness (scenario S2): `-loop -nargs 5 -callconv ms64` on a 64-bit
target.  Thread 1 enters the target with `rcx = 1, rdx = 2, r8 = 3, r9 = 4`,
its stack pointer is `0x7ff000` and the fifth argument `5` is at `sp + 40`. -/
def c3_entry : State :=
  { state0 with
    loop_mode := true
    target_function_defined := true
    target_num_args := 5
    calling_convention := CALLCONV_MICROSOFT_X64
    target_address := 0x401000
    saved_args := some { size := 40, data := fun _ => 0xCD }
    mem := { state0.mem with
      bytes := fun x => if x = 0x7ff000 + 40 then 5 else if x = 0x7ff000 then 0x99 else 0 }
    threads := fun _ =>
      { zeroContext with Rip := 0x401000, Rsp := 0x7ff000, Rcx := 1, Rdx := 2, R8 := 3, R9 := 4 } }

/-- C3, witness: the memory the function leaves behind, every byte overwritten. -/
def c3_mem_after : Mem :=
  { bytes := fun _ => 0xEE, readable := fun _ => true, writable := fun _ => true }

/-- C3, witness: the registers the function leaves behind, all clobbered. -/
def c3_threads_after : Nat → Context := fun _ =>
  { Rip := 0x0F22, Rsp := 0x7ff008, Rcx := 0x77, Rdx := 0x77, R8 := 0x77, R9 := 0x77,
    others := [] }

/-- C4 (scenario S3): a 32-bit fastcall target with `-loop -nargs 3`.  Thread 1
enters the target with `ecx = 10, edx = 20`, its stack pointer is `0x12f000`
and the third argument `30` is in the stack slot at `sp + 4`. -/
def c4_fastcall : State :=
  { state0 with
    child_ptr_size := 4
    loop_mode := true
    target_function_defined := true
    target_num_args := 3
    calling_convention := CALLCONV_FASTCALL
    target_address := 0x401000
    saved_args := some { size := 12, data := fun _ => 0xCD }
    mem := { state0.mem with bytes := fun x => if x = 0x12f000 + 4 then 30 else 0 }
    threads := fun _ => { zeroContext with Rip := 0x401000, Rsp := 0x12f000, Rcx := 10, Rdx := 20 } }

/-- C4: a 32-bit thiscall target with `-loop -nargs 2`: `this` is `10` in `ecx`
and the second argument `30` is in the stack slot at `sp + 4`. -/
def c4_thiscall : State :=
  { c4_fastcall with target_num_args := 2, calling_convention := CALLCONV_THISCALL }

/-- C4: the function overwrote every byte of the stack with `0xEE`. -/
def c4_mem_after : Mem :=
  { bytes := fun _ => 0xEE, readable := fun _ => true, writable := fun _ => true }

/-- C4: the function clobbered the registers and returned to the sentinel. -/
def c4_threads_after : Nat → Context := fun _ =>
  { Rip := 0x0F22, Rsp := 0x12f004, Rcx := 0x77, Rdx := 0x77, R8 := 0, R9 := 0, others := [] }

/-- C6, witness: the target of scenario S2 has returned to the sentinel; the
entry protocol had saved `sp = 0x7ff000`, the return address `0x99` and the
arguments `{1,2,3,4,5}`, and one Entrypoint record is still in the table. -/
def c6_fault : State :=
  { c3_entry with
    saved_sp := 0x7ff000
    saved_return_address := 0x99
    saved_args := some { size := 40, data := fun x => if x % 8 = 0 then x / 8 + 1 else 0 }
    breakpoints := [{ address := 0x402000, original_opcode := 0x90, type := BREAKPOINT_ENTRYPOINT }]
    mem := c3_mem_after
    threads := c3_threads_after }

/-- The child memory with the image of `imageBytes` mapped at `0x400000`. -/
def imageMem : Mem :=
  { bytes := imageBytes 0x400000, readable := fun _ => true, writable := fun _ => true }

/-- C7: single-shot mode, the entrypoint has been reached, the target function
is `t.exe` + `0x1000`, and no breakpoint is armed yet. -/
def c7_start : State :=
  { state0 with
    mem := imageMem
    child_entrypoint_reached := true
    target_function_defined := true
    target_module := name_t_exe
    target_offset := 0x1000
    dbg_timeout_time := 1000 }

/-- C7: the load event of `C:\t.exe` at `0x400000`. -/
def c7_load : DebugEvent :=
  { dwProcessId := 7, dwThreadId := 1,
    u := .LoadDll { lpBaseOfDll := 0x400000, filename := [67, 58, 92] ++ name_t_exe } }

/-- C7: the unload event of the module at `0x400000`. -/
def c7_unload : DebugEvent :=
  { dwProcessId := 7, dwThreadId := 1, u := .UnloadDll 0x400000 }

/-- C7: thread 1 executes the breakpoint at `0x401000`. -/
def c7_hit : DebugEvent :=
  { dwProcessId := 7, dwThreadId := 1,
    u := .Exception { ExceptionCode := EXCEPTION_BREAKPOINT, ExceptionAddress := 0x401000 } }

/-- C7, counterexample: the target module is loaded, unloaded and loaded again
(the image is mapped afresh each time), then the target function is called by
thread 1 with the return address `0x99` on top of its stack at `0x7ff000`. -/
def c7_script : List WaitResult :=
  [ { event := some c7_load, now := 1, mem := imageMem, threads := fun _ => zeroContext,
      modules := some [] },
    { event := some c7_unload, now := 2, mem := imageMem, threads := fun _ => zeroContext,
      modules := some [] },
    { event := some c7_load, now := 3, mem := imageMem, threads := fun _ => zeroContext,
      modules := some [] },
    { event := some c7_hit, now := 4
      mem := { imageMem with bytes := fun x =>
        if x = 0x401000 then 0xCC else if x = 0x7ff000 then 0x99 else imageBytes 0x400000 x }
      threads := fun _ => { zeroContext with Rip := 0x401001, Rsp := 0x7ff000 }
      modules := some [] } ]

/-- C7, witness: the target of `c7_start` is entered by thread 1 with the return
address `0x99` on top of its stack at `0x7ff000`. -/
def c7_entry : State :=
  { c7_start with
    target_address := 0x401000
    mem := { imageMem with bytes := fun x => if x = 0x7ff000 then 0x99 else imageBytes 0x400000 x }
    threads := fun _ => { zeroContext with Rip := 0x401000, Rsp := 0x7ff000 } }

/-- C8, witness: loop mode, the last status returned was `TargetEnd`, an event
is waiting to be continued. -/
def c8_after_target_end : State :=
  { c6_fault with
    dbg_last_status := DEBUGGER_TARGET_END
    dbg_continue_needed := true
    dbg_timeout_time := 12345 }

/-! ## Entrypoint ordering -/

/-- The `OnModuleLoaded` calls of a call log, in the order they were made. -/
def moduleLoadedCalls (calls : List Call) : List Call :=
  calls.filter (fun c => match c with
    | .OnModuleLoaded _ _ => true
    | _ => false)

/-- What a handler keeps of the entrypoint protocol from `s` to `s1`:
`attach_mode` is not touched, `child_entrypoint_reached` is not reset, and as
long as it is still false no `OnModuleLoaded` call was made. -/
def EntrypointOrder (s s1 : State) : Prop :=
  s1.attach_mode = s.attach_mode ∧
  (s.child_entrypoint_reached = true → s1.child_entrypoint_reached = true) ∧
  (s1.child_entrypoint_reached = false →
    moduleLoadedCalls s1.calls = moduleLoadedCalls s.calls)

/-- A handler that takes no part in the entrypoint protocol: it leaves
`attach_mode` and `child_entrypoint_reached` alone and makes no
`OnModuleLoaded` call. -/
def EntrypointKept (s s1 : State) : Prop :=
  s1.attach_mode = s.attach_mode ∧
  s1.child_entrypoint_reached = s.child_entrypoint_reached ∧
  moduleLoadedCalls s1.calls = moduleLoadedCalls s.calls

/-- C10: a process was started (not attached to) with target `t.exe` + `0x1800`;
no event has been handled yet. -/
def c10_start : State :=
  { state0 with
    mem := imageMem
    target_function_defined := true
    target_module := name_t_exe
    target_offset := 0x1800
    dbg_timeout_time := 1000 }

/-- C10: the image of `c10_start` with the entrypoint breakpoint armed. -/
def c10_mem_armed : Mem :=
  { imageMem with bytes := fun x => if x = 0x401000 then 0xCC else imageBytes 0x400000 x }

/-- C10: the load event of `C:\k.dll` at `0x70000000`. -/
def c10_load_k : DebugEvent :=
  { dwProcessId := 7, dwThreadId := 1,
    u := .LoadDll { lpBaseOfDll := 0x70000000, filename := [67, 58, 92, 107, 46, 100, 108, 108] } }

/-- C10: the process of image `0x400000` was created. -/
def c10_create : DebugEvent :=
  { dwProcessId := 7, dwThreadId := 1,
    u := .CreateProcess { hProcess := 100, hThread := 101, lpBaseOfImage := 0x400000 } }

/-- C10: the process has exited. -/
def c10_exit : DebugEvent :=
  { dwProcessId := 7, dwThreadId := 1, u := .ExitProcess }

/-- C10: process creation, the load event of `t.exe` delivered before the
entrypoint, and a wait that ends after the deadline. -/
def c10_script_before : List WaitResult :=
  [ { event := some c10_create
      now := 1
      mem := imageMem
      threads := fun _ => zeroContext
      modules := some [] },
    { event := some c7_load, now := 2, mem := c10_mem_armed, threads := fun _ => zeroContext,
      modules := some [] },
    { event := none, now := 2000, mem := c10_mem_armed, threads := fun _ => zeroContext,
      modules := some [] } ]

/-- C10: process creation, the load event of `t.exe` delivered before the
entrypoint, the entrypoint breakpoint hit by thread 1 (the loader lists
`t.exe`), the load event of `k.dll`, and process exit. -/
def c10_script : List WaitResult :=
  [ { event := some c10_create
      now := 1
      mem := imageMem
      threads := fun _ => zeroContext
      modules := some [] },
    { event := some c7_load, now := 2, mem := c10_mem_armed, threads := fun _ => zeroContext,
      modules := some [] },
    { event := some c7_hit, now := 3, mem := c10_mem_armed
      threads := fun _ => { zeroContext with Rip := 0x401001, Rsp := 0x7ff000 }
      modules := some [{ handle := 0x400000, base_name := name_t_exe }] },
    { event := some c10_load_k, now := 4, mem := imageMem, threads := fun _ => zeroContext,
      modules := some [{ handle := 0x400000, base_name := name_t_exe }] },
    { event := some c10_exit
      now := 5
      mem := imageMem
      threads := fun _ => zeroContext
      modules := some [] } ]

/-! ## Export lookup, as the specification words it -/

/-- The NUL-terminated string that starts at offset `p`, read with at most
`fuel` bytes; `none` when no NUL is found in them. -/
def cstringFrom (b : Buf) : Nat → Nat → Option (List Nat)
  | 0, _ => none
  | fuel + 1, p =>
    if b.data p % 256 = 0 then some []
    else (cstringFrom b fuel (p + 1)).map (fun cs => b.data p % 256 :: cs)

/-- The NUL-terminated string stored at offset `p` of the buffer; `none` when it
does not end inside the buffer. -/
def Buf.cstring (b : Buf) (p : Nat) : Option (List Nat) := cstringFrom b (b.size - p) p

/-- Offset of the export-directory RVA in the optional header at `pe`:
`+96` for PE32 (magic `0x10B`), `+112` for PE32+. -/
def exportDirectoryField (magic pe : Nat) : Nat := if magic = 0x10B then pe + 96 else pe + 112

/-- Entry `i` of the name-pointer table (4-byte entries) of the export
directory at `dir`. -/
def exportNamePtr (data : Buf) (dir i : Nat) : Nat :=
  leRead data.data (leRead data.data (dir + 32) 4 + 4 * i) 4

/-- Entry `i` of the ordinal table (2-byte entries) of the export directory at `dir`. -/
def exportOrdinal (data : Buf) (dir i : Nat) : Nat :=
  leRead data.data (leRead data.data (dir + 36) 4 + 2 * i) 2

/-- Entry `k` of the address table (4-byte entries) of the export directory at `dir`. -/
def exportAddress (data : Buf) (dir k : Nat) : Nat :=
  leRead data.data (leRead data.data (dir + 28) 4 + 4 * k) 4

/-- The export lookup in the words of the specification: with `e` the dword at
`0x3C`, the result is 0 when the signature at `e` or the magic at `e + 0x18`
does not match or the export-directory RVA is 0; otherwise it is
`addresstable[ordinaltable[i]]` for the least `i` below the name count
(directory `+24`) whose NUL-terminated name equals `name`, and 0 when there is
no such `i`. -/
def GetProcOffset_spec (data : Buf) (name : List Nat) : Nat :=
  let e := leRead data.data 0x3C 4
  if leRead data.data e 4 ≠ 0x00004550 then 0 else
  let magic := leRead data.data (e + 0x18) 2
  if magic ≠ 0x10B ∧ magic ≠ 0x20B then 0 else
  let dir := leRead data.data (exportDirectoryField magic (e + 0x18)) 4
  if dir = 0 then 0 else
  match (List.range (leRead data.data (dir + 24) 4)).find?
      (fun i => data.cstring (exportNamePtr data dir i) == some name) with
  | none => 0
  | some i => exportAddress data dir (exportOrdinal data dir i)

/-- The header fields `GetProcOffset` reads lie inside the buffer: the dword at
`0x3C`, the signature, the magic and the export-directory RVA. -/
def exportHeaderInside (data : Buf) : Bool :=
  let e := leRead data.data 0x3C 4
  decide (0x3C + 4 ≤ data.size) && decide (e + 0x18 + 116 ≤ data.size)

/-- All tables of the export directory at `dir` lie inside the buffer: the
directory itself, the name-pointer table, every name up to its NUL, the ordinal
table, and the address-table entry of every ordinal. -/
def exportTablesInside (data : Buf) (dir : Nat) : Bool :=
  let count := leRead data.data (dir + 24) 4
  decide (dir + 40 ≤ data.size) &&
  (List.range count).all (fun i =>
    decide (leRead data.data (dir + 32) 4 + 4 * i + 4 ≤ data.size) &&
    (data.cstring (exportNamePtr data dir i)).isSome &&
    decide (leRead data.data (dir + 36) 4 + 2 * i + 2 ≤ data.size) &&
    decide (leRead data.data (dir + 28) 4 + 4 * exportOrdinal data dir i + 4 ≤ data.size))

/-- C11: a PE32+ image of `0x200` bytes: `e_lfanew = 0x40`, export directory at
`0x100` with two names, `ab` (ordinal 1) and `fz` (ordinal 0), and the address
table `[0x1111, 0x1800]`. -/
def c11_image : Buf :=
  { size := 0x200
    data := fun x =>
      if x = 0x3C then 0x40
      else if x = 0x40 then 0x50
      else if x = 0x41 then 0x45
      else if x = 0x58 then 0x0B
      else if x = 0x59 then 0x02
      else if x = 0xC9 then 0x01
      else if x = 0x118 then 2
      else if x = 0x11C then 0x40
      else if x = 0x11D then 0x01
      else if x = 0x120 then 0x50
      else if x = 0x121 then 0x01
      else if x = 0x124 then 0x60
      else if x = 0x125 then 0x01
      else if x = 0x140 then 0x11
      else if x = 0x141 then 0x11
      else if x = 0x145 then 0x18
      else if x = 0x150 then 0x70
      else if x = 0x151 then 0x01
      else if x = 0x154 then 0x74
      else if x = 0x155 then 0x01
      else if x = 0x160 then 1
      else if x = 0x170 then 97
      else if x = 0x171 then 98
      else if x = 0x174 then 102
      else if x = 0x175 then 122
      else 0 }

/-- C17: a child whose memory is readable everywhere and holds `e_lfanew =
0x1000` at `0x40003C`, all other bytes zero. -/
def c17_state : State :=
  { state0 with
    mem := { state0.mem with bytes := fun x => if x = 0x40003D then 0x10 else 0 } }

/-! ## Initialisation -/

/-- `MAX_PATH` of the Windows SDK (`minwindef.h`). -/
def MAX_PATH : Nat := 260

/-- What the calls `Init` makes outside `debugger.cpp` return: `GetOption` and
`GetBinaryOption` of `common.h` for each flag, the numbers `atoi` and `strtoul`
make of two of the values, and whether `malloc` returns a block. -/
structure InitOptions where
  /-- `GetBinaryOption("-trace_debug_events", argc, argv, false)`. -/
  trace_debug_events : Bool
  /-- `GetOption("-target_module", argc, argv)`; `none` is `NULL`. -/
  target_module : Option (List Nat)
  /-- `GetOption("-target_method", argc, argv)`. -/
  target_method : Option (List Nat)
  /-- `GetBinaryOption("-loop", argc, argv, false)`. -/
  loop : Bool
  /-- `atoi(option)` as stored in `target_num_args`, when `-nargs` has a value. -/
  nargs : Option Nat
  /-- `strtoul(option, NULL, 0)` as stored in `target_offset`, when
  `-target_offset` has a value. -/
  target_offset : Option Nat
  /-- `GetOption("-callconv", argc, argv)`. -/
  callconv : Option (List Nat)
  /-- `malloc` returns a block. -/
  malloc_ok : Bool

/-- The `strcmp` chain on the value of `-callconv`: `stdcall`, `fastcall`,
`thiscall`, `ms64`; `none` when the value is none of them. -/
def parseCallconv (option : List Nat) : Option Nat :=
  if option = [115, 116, 100, 99, 97, 108, 108] then some CALLCONV_CDECL
  else if option = [102, 97, 115, 116, 99, 97, 108, 108] then some CALLCONV_FASTCALL
  else if option = [116, 104, 105, 115, 99, 97, 108, 108] then some CALLCONV_THISCALL
  else if option = [109, 115, 54, 52] then some CALLCONV_MICROSOFT_X64
  else none

/-- The assignments of `Init` up to the `-callconv` check: the defaults, then
the options that are present. -/
def initFields (opts : InitOptions) (s : State) : State :=
  { s with
    sinkhole_stds := false
    mem_limit := 0
    cpu_aff := 0
    attach_mode := false
    trace_debug_events := opts.trace_debug_events
    loop_mode := opts.loop
    target_function_defined := false
    child_handle := 0
    child_thread_handle := 0
    target_module := (opts.target_module.getD []).take MAX_PATH
    target_method := (opts.target_method.getD []).take MAX_PATH
    target_offset := opts.target_offset.getD 0
    saved_args := none
    target_num_args := opts.nargs.getD 0
    calling_convention := CALLCONV_DEFAULT }

/-- The `-callconv` block of `Init`. -/
def initCallconv (opts : InitOptions) (s : State) : Except Err State :=
  match opts.callconv with
  | none => .ok s
  | some option =>
    match parseCallconv option with
    | some cc => .ok { s with calling_convention := cc }
    | none => .error (.fatal .UnknownCallingConvention)

/-- The two configuration checks of `Init`. -/
def initChecks (s : State) : Except Err State :=
  let defined : Bool := s.target_module ≠ [] ∨ s.target_offset ≠ 0 ∨ s.target_method ≠ []
  let s := if defined then { s with target_function_defined := true } else s
  if defined ∧ (s.target_module = [] ∨ (s.target_offset = 0 ∧ s.target_method = [])) then
    .error (.fatal .TargetOptionsTogether)
  else if s.loop_mode ∧ !s.target_function_defined then .error (.fatal .LoopWithoutTarget)
  else .ok s

/-- `Debugger::Init`. -/
def Init (env : Env) (opts : InitOptions) (s : State) : Except Err State := do
  let s := initFields opts s
  let s ← initCallconv opts s
  let s ← initChecks s
  if s.target_num_args ≠ 0 then
    let block : Buf :=
      { size := s.target_num_args * env.ptr_size % env.word, data := env.uninitialised }
    .ok { s with saved_args := (if opts.malloc_ok then some block else none) }
  else .ok s

/-- C13: `-target_module t.exe -target_offset 0x1800 -loop -nargs 3 -callconv fastcall`. -/
def c13_options : InitOptions :=
  { trace_debug_events := false
    target_module := some name_t_exe
    target_method := none
    loop := true
    nargs := some 3
    target_offset := some 0x1800
    callconv := some [102, 97, 115, 116, 99, 97, 108, 108]
    malloc_ok := true }

/-- C14: the OS starts a 32-bit (WOW64) child. -/
def c14_launch32 : Launch :=
  { nul_device := none
    job_created := true
    job_limits_set := true
    process := some (100, 101)
    job_assigned := true
    mem := state0.mem
    threads := fun _ => zeroContext
    modules := some []
    wow64remote := some true }

/-- C14: the OS starts a 64-bit child. -/
def c14_launch64 : Launch :=
  { c14_launch32 with process := some (200, 201), wow64remote := some false }

/-! ## Observations on the debug loop -/

/-- Number of `ContinueDebugEvent` calls in a call log. -/
def continueCalls (calls : List Call) : Nat :=
  (calls.filter (fun c => match c with
    | .ContinueDebugEvent _ _ _ => true
    | _ => false)).length

/-- Number of waits of a script that deliver a debug event. -/
def deliveredEvents (script : List WaitResult) : Nat :=
  (script.filter (fun w => w.event.isSome)).length

/-- One if an event is waiting to be continued (`dbg_continue_needed`), else zero. -/
def owedContinue (s : State) : Nat := if s.dbg_continue_needed then 1 else 0

/-- What a handler keeps of the loop state from `s` to `s1`: the deadline, the
stored event, the pending flag, and it makes no `ContinueDebugEvent` call. -/
def LoopKept (s s1 : State) : Prop :=
  s1.dbg_timeout_time = s.dbg_timeout_time ∧
  s1.dbg_debug_event = s.dbg_debug_event ∧
  s1.dbg_continue_needed = s.dbg_continue_needed ∧
  ∃ added, s1.calls = s.calls ++ added ∧ continueCalls added = 0

/-- The state after `WaitForDebugEvent` returned `w` and the flag
`dbg_continue_needed` was set from its result: the child is as the wait left
it, the call is logged, and a delivered event is stored in `dbg_debug_event`. -/
def afterWait (w : WaitResult) (s : State) : State :=
  { s with
    mem := w.mem
    threads := w.threads
    modules := w.modules
    calls := s.calls ++ [Call.WaitForDebugEvent]
    dbg_debug_event := w.event.getD s.dbg_debug_event
    dbg_continue_needed := w.event.isSome }

/-- C15: the process-exit event is delivered at clock value 2000, after the
deadline 1000 of `c10_start`. -/
def c15_late_exit : List WaitResult :=
  [ { event := some c10_exit, now := 2000, mem := imageMem, threads := fun _ => zeroContext,
      modules := some [] } ]

/-- C16: the process-exit event is delivered at clock value 5. -/
def c16_exit : List WaitResult :=
  [ { event := some c10_exit, now := 5, mem := imageMem, threads := fun _ => zeroContext,
      modules := some [] } ]

/-- C16: a wait that times out at clock value 5000. -/
def c16_idle : List WaitResult :=
  [ { event := none, now := 5000, mem := imageMem, threads := fun _ => zeroContext,
      modules := some [] } ]

/-! ## Restore of the arguments -/

/-- The child pointer size fits the path `ReadStack` and `WriteStack` take: 4
bytes on the WOW64 path of a 64-bit build, the pointer size of the debugger
otherwise.  The constructor and `GetProcessPlatform` leave the fields so. -/
def StackWidthAgrees (env : Env) (s : State) : Prop :=
  if (env.win64 && s.wow64_target) = true then s.child_ptr_size = 4
  else s.child_ptr_size = env.ptr_size

/-- The stack slot number `slot` above `saved_sp` holds argument `i` in the
memory `m`: the child-pointer-sized word at
`saved_sp + slot * child_ptr_size` is `saved_args[i]`, truncated to the child
pointer size. -/
def slotHoldsArg (env : Env) (s : State) (m : Mem) (slot i : Nat) : Prop :=
  ∃ v, getArg env i s = .ok v ∧
    m.word (s.saved_sp + slot * s.child_ptr_size) s.child_ptr_size = v % 256 ^ s.child_ptr_size

/-- What `WriteStack(sp + slot * child_ptr_size, saved_args + first,
target_num_args - first)` leaves in the memory `m`: when the pointer size
agrees with the path taken, the slots lie inside the address space and are
writable, the slot of every argument from `first` on holds its saved value,
truncated to the child pointer size. -/
def StackArgsWritten (env : Env) (s : State) (sp : Nat) (m : Mem) (slot first : Nat) : Prop :=
  StackWidthAgrees env s →
  sp + (slot + (s.target_num_args - first)) * s.child_ptr_size ≤ env.word →
  s.mem.canWrite (sp + slot * s.child_ptr_size)
    ((s.target_num_args - first) * s.child_ptr_size) = true →
  ∀ i, first ≤ i → i < s.target_num_args →
    ∃ v, getArg env i s = .ok v ∧
      m.word (sp + (slot + (i - first)) * s.child_ptr_size) s.child_ptr_size =
        v % 256 ^ s.child_ptr_size

/-! ## Target records between a hit and the return -/

/-- The `OnModuleLoaded` calls of a call log that report a module named
`target_module` (names compared as `_stricmp` does). -/
def targetModuleCalls (target_module : List Nat) (calls : List Call) : List Call :=
  calls.filter (fun c => match c with
    | .OnModuleLoaded _ module_name => stricmpEq module_name target_module
    | _ => false)

/-- No record of the breakpoint table has type `BREAKPOINT_TARGET`. -/
def NoTargetRecord (s : State) : Prop :=
  ∀ b, b ∈ s.breakpoints → b.type ≠ BREAKPOINT_TARGET

/-- The breakpoint table holds exactly one record of type `BREAKPOINT_TARGET`:
its last record, at `address`. -/
def OneTargetRecord (address : Nat) (s : State) : Prop :=
  ∃ table original_opcode, (∀ b, b ∈ table → b.type ≠ BREAKPOINT_TARGET) ∧
    s.breakpoints = table ++
      [{ address := address, original_opcode := original_opcode, type := BREAKPOINT_TARGET }]

/-- What a handler does to the Target records from `s` to `s1`: it leaves
`loop_mode` and `target_module` alone and only appends to the call log; and in
single-shot mode, if it reports no module named `target_module` and `s` has no
Target record, then `s1` has none either, unless the handler ran the return
protocol (`ended`), in which case `s1` has exactly the one it armed. -/
def TargetTrack (env : Env) (ended : Prop) (s s1 : State) : Prop :=
  s1.loop_mode = s.loop_mode ∧ s1.target_module = s.target_module ∧
  ∃ added, s1.calls = s.calls ++ added ∧
    (targetModuleCalls s.target_module added = [] → s.loop_mode = false → NoTargetRecord s →
      (¬ ended → NoTargetRecord s1) ∧
      (ended → OneTargetRecord (env.GetTranslatedAddress s1.target_address) s1))

/-- C7: the load event of `D:\t.exe` at `0x500000`. -/
def c7_late_load : DebugEvent :=
  { dwProcessId := 7, dwThreadId := 1,
    u := .LoadDll { lpBaseOfDll := 0x500000, filename := [68, 58, 92] ++ name_t_exe } }

/-- C7, counterexample: the target module is loaded once, then the target
function is called by thread 1 with the return address `0x99` on top of its
stack at `0x7ff000`. -/
def c7_once_script : List WaitResult :=
  [ { event := some c7_load, now := 1, mem := imageMem, threads := fun _ => zeroContext,
      modules := some [] },
    { event := some c7_hit, now := 4
      mem := { imageMem with bytes := fun x =>
        if x = 0x401000 then 0xCC else if x = 0x7ff000 then 0x99 else imageBytes 0x400000 x }
      threads := fun _ => { zeroContext with Rip := 0x401001, Rsp := 0x7ff000 }
      modules := some [] } ]

/-- C7, counterexample: while the target function runs, a second copy of the
target module, `D:\t.exe`, is loaded at `0x500000`; the deadline 1000 passes
before the function returns. -/
def c7_late_script : List WaitResult :=
  [ { event := some c7_late_load, now := 5
      mem := { imageMem with bytes := imageBytes 0x500000 }
      threads := fun _ => { zeroContext with Rip := 0x401010, Rsp := 0x7ff000 }
      modules := some [] },
    { event := none, now := 2000
      mem := { imageMem with bytes := imageBytes 0x500000 }
      threads := fun _ => { zeroContext with Rip := 0x401010, Rsp := 0x7ff000 }
      modules := some [] } ]

/-- C7, witness: the state while the target function of `c7_entry` runs: the
hit consumed the only Target record, `sp = 0x7ff000` and the return address
`0x99` are saved. -/
def c7_running : State :=
  { c7_entry with
    saved_sp := 0x7ff000
    saved_return_address := 0x99
    target_reached := true
    threads := fun _ => { zeroContext with Rip := 0x401010, Rsp := 0x7ff000 } }

/-- C7, witness: the target function returns to the sentinel: thread 1 faults
at `0x0F22`. -/
def c7_return_script : List WaitResult :=
  [ { event := some
        { dwProcessId := 7, dwThreadId := 1,
          u := .Exception
            { ExceptionCode := EXCEPTION_ACCESS_VIOLATION, ExceptionAddress := 0x0F22 } }
      now := 6
      mem := imageMem
      threads := fun _ => { zeroContext with Rip := 0x0F22, Rsp := 0x7ff008 }
      modules := some [] } ]

end Debugger

namespace Debugger
open DebuggerStatus

theorem bind_eq_ok {ε α β : Type} (x : Except ε α) (f : α → Except ε β) (b : β) :
    (x >>= f) = .ok b ↔ ∃ a, x = .ok a ∧ f a = .ok b := by
  cases x <;> simp [bind, Except.bind]



/-! ## Little-endian words -/

theorem leRead_congr (f g : Nat → Nat) (n : Nat) : ∀ a b : Nat,
    (∀ i, i < n → f (a + i) % 256 = g (b + i) % 256) → leRead f a n = leRead g b n := by
  induction n with
  | zero => intro a b _; rfl
  | succ n ih =>
    intro a b h
    have h0 := h 0 (Nat.succ_pos n)
    simp only [Nat.add_zero] at h0
    have hrest : leRead f (a + 1) n = leRead g (b + 1) n := by
      apply ih
      intro i hi
      have := h (i + 1) (Nat.succ_lt_succ hi)
      simpa [Nat.add_assoc, Nat.add_comm 1 i] using this
    simp only [leRead, h0, hrest]

theorem leRead_lt (f : Nat → Nat) (n : Nat) : ∀ a : Nat, leRead f a n < 256 ^ n := by
  induction n with
  | zero => intro a; simp [leRead]
  | succ n ih =>
    intro a
    have h1 := ih (a + 1)
    have h2 : f a % 256 < 256 := Nat.mod_lt _ (by norm_num)
    simp only [leRead, pow_succ]
    omega

theorem leRead_leByte (v : Nat) (f : Nat → Nat) (n : Nat) : ∀ a k : Nat,
    (∀ i, i < n → f (a + i) % 256 = leByte v (k + i)) →
    leRead f a n = v / 256 ^ k % 256 ^ n := by
  induction n with
  | zero => intro a k _; simp [leRead, Nat.mod_one]
  | succ n ih =>
    intro a k h
    have h0 := h 0 (Nat.succ_pos n)
    simp only [Nat.add_zero] at h0
    have hrest : leRead f (a + 1) n = v / 256 ^ (k + 1) % 256 ^ n := by
      apply ih
      intro i hi
      have := h (i + 1) (Nat.succ_lt_succ hi)
      simpa [Nat.add_assoc, Nat.add_comm 1 i] using this
    simp only [leRead, h0, hrest, leByte]
    rw [pow_succ 256 k, ← Nat.div_div_eq_div_mul, pow_succ' 256 n, Nat.mod_mul]


/-! ## Frame of the argument capture -/

theorem argsFrame_refl (s : State) : ArgsFrame s s := ⟨s.saved_args, rfl⟩

theorem argsFrame_trans {s s1 s2 : State} (h1 : ArgsFrame s s1) (h2 : ArgsFrame s1 s2) :
    ArgsFrame s s2 := by
  obtain ⟨b1, rfl⟩ := h1
  obtain ⟨b2, rfl⟩ := h2
  exact ⟨b2, rfl⟩

theorem setArg_frame {env : Env} {i v : Nat} {s s1 : State} (h : setArg env i v s = .ok s1) :
    ArgsFrame s s1 := by
  unfold setArg at h
  rw [bind_eq_ok] at h
  obtain ⟨b, _, h⟩ := h
  rw [bind_eq_ok] at h
  obtain ⟨b1, _, h⟩ := h
  simp only [pure, Except.pure, Except.ok.injEq] at h
  exact ⟨_, h.symm⟩

theorem saveRegArg_frame {env : Env} {i v : Nat} {s s1 : State}
    (h : saveRegArg env i v s = .ok s1) : ArgsFrame s s1 := by
  unfold saveRegArg at h
  split at h
  · exact setArg_frame h
  · simp only [Except.ok.injEq] at h
    exact h ▸ argsFrame_refl s

theorem readStackArgs_frame {env : Env} {sp slot first : Nat} {s s1 : State}
    (h : readStackArgs env sp slot first s = .ok s1) : ArgsFrame s s1 := by
  unfold readStackArgs at h
  rw [bind_eq_ok] at h
  obtain ⟨b, _, h⟩ := h
  rw [bind_eq_ok] at h
  obtain ⟨b1, _, h⟩ := h
  simp only [pure, Except.pure, Except.ok.injEq] at h
  exact ⟨_, h.symm⟩

theorem readStackArgsIf_frame {env : Env} {sp slot first : Nat} {c : Prop} [Decidable c]
    {s s1 : State}
    (h : (if c then readStackArgs env sp slot first s else Except.ok s) = .ok s1) :
    ArgsFrame s s1 := by
  split at h
  · exact readStackArgs_frame h
  · simp only [Except.ok.injEq] at h
    exact h ▸ argsFrame_refl s

theorem saveArgs_frame {env : Env} {lcContext : Context} {s s1 : State}
    (h : saveArgs env lcContext s = .ok s1) : ArgsFrame s s1 := by
  unfold saveArgs at h
  repeat' split at h
  all_goals try simp only [bind_eq_ok, pure, Except.pure, Except.ok.injEq] at h
  all_goals first
    | exact h ▸ argsFrame_refl s
    | exact readStackArgs_frame h
    | (obtain ⟨a1, h1, a2, h2, a3, h3, a4, h4, h5⟩ := h
       exact argsFrame_trans (argsFrame_trans (argsFrame_trans (saveRegArg_frame h1)
         (saveRegArg_frame h2)) (argsFrame_trans (saveRegArg_frame h3) (saveRegArg_frame h4)))
         (readStackArgsIf_frame h5))
    | (obtain ⟨a1, h1, a2, h2, h5⟩ := h
       exact argsFrame_trans (argsFrame_trans (saveRegArg_frame h1) (saveRegArg_frame h2))
         (readStackArgsIf_frame h5))
    | (obtain ⟨a1, h1, h5⟩ := h
       exact argsFrame_trans (saveRegArg_frame h1) (readStackArgsIf_frame h5))
    | (exfalso; exact Except.noConfusion h)

theorem leRead_bytes (m : Mem) (a n : Nat) :
    leRead (fun i => m.byte (a + i)) 0 n = m.word a n := by
  unfold Mem.word
  apply leRead_congr
  intro i _
  simp [Mem.byte]

theorem writeSentinel_inv {env : Env} {s s1 : State} (h : writeSentinel env s = .ok s1) :
    s.child_ptr_size ≤ env.ptr_size ∧
    s1 = { s with
      mem := (WriteProcessMemory s.mem s.saved_sp s.child_ptr_size
        (leByte PERSIST_END_EXCEPTION)).getD s.mem } := by
  unfold writeSentinel at h
  split at h
  · rename_i hle
    simp only [Except.ok.injEq] at h
    exact ⟨hle, h.symm⟩
  · exact Except.noConfusion h

theorem readReturnAddress_inv {env : Env} {s : State} {v : Nat}
    (h : readReturnAddress env s = .ok v) :
    v = if s.mem.canRead s.saved_sp s.child_ptr_size then s.mem.word s.saved_sp s.child_ptr_size
        else 0 := by
  unfold readReturnAddress ReadProcessMemory at h
  by_cases hc : s.mem.canRead s.saved_sp s.child_ptr_size = true
  · simp only [hc, if_true] at h
    split at h
    · simp only [Except.ok.injEq] at h
      rw [← h, leRead_bytes]
      simp [hc]
    · exact Except.noConfusion h
  · simp only [hc] at h
    simp at h
    simp [hc, ← h]

theorem HandleTargetReachedInternal_inv {env : Env} {thread_id : Nat} {s s1 : State}
    (h : HandleTargetReachedInternal env thread_id s = .ok s1) :
    s.child_ptr_size ≤ env.ptr_size ∧
    ∃ b, s1 = { s with
      saved_sp := (s.threads thread_id).Rsp
      saved_return_address :=
        if s.mem.canRead (s.threads thread_id).Rsp s.child_ptr_size then
          s.mem.word (s.threads thread_id).Rsp s.child_ptr_size
        else 0
      saved_args := b
      mem := (WriteProcessMemory s.mem (s.threads thread_id).Rsp s.child_ptr_size
        (leByte PERSIST_END_EXCEPTION)).getD s.mem
      target_reached := true
      calls :=
        if s.target_reached then s.calls else s.calls ++ [.OnTargetMethodReached thread_id] } := by
  unfold HandleTargetReachedInternal at h
  simp only [bind_eq_ok] at h
  obtain ⟨sra, hsra, s2, hs2, s3, hs3, h⟩ := h
  have hsra2 := readReturnAddress_inv hsra
  simp only at hsra2
  have hf2 : ArgsFrame
      { s with saved_sp := (s.threads thread_id).Rsp, saved_return_address := sra } s2 := by
    split at hs2
    · exact saveArgs_frame hs2
    · simp only [Except.ok.injEq] at hs2
      exact hs2 ▸ argsFrame_refl _
  obtain ⟨b, rfl⟩ := hf2
  obtain ⟨hle, rfl⟩ := writeSentinel_inv hs3
  refine ⟨hle, b, ?_⟩
  subst hsra2
  simp only [pure, Except.pure, Except.ok.injEq] at h
  rw [← h]
  unfold notifyTargetReached
  cases htr : s.target_reached <;> simp

end Debugger

namespace Debugger

theorem canRead_one (m : Mem) (a : Nat) : m.canRead a 1 = m.readable a := by
  simp [Mem.canRead, List.range_succ]

theorem canWrite_one (m : Mem) (a : Nat) : m.canWrite a 1 = m.writable a := by
  simp [Mem.canWrite, List.range_succ]

theorem AddBreakpoint_ok (address : Nat) (type : Int) (s : State)
    (hr : s.mem.readable address = true) (hw : s.mem.writable address = true) :
    AddBreakpoint address type s = .ok { s with
        mem := s.mem.store address 1 (fun _ => 0xCC)
        breakpoints := s.breakpoints ++
          [{ address := address, original_opcode := s.mem.byte address, type := type }] } := by
  simp [AddBreakpoint, ReadProcessMemory, WriteProcessMemory, canRead_one, canWrite_one, hr, hw]

theorem AddBreakpoint_inv {address : Nat} {type : Int} {s s1 : State}
    (h : AddBreakpoint address type s = .ok s1) :
    s.mem.readable address = true ∧ s.mem.writable address = true ∧
    s1 = { s with
        mem := s.mem.store address 1 (fun _ => 0xCC)
        breakpoints := s.breakpoints ++
          [{ address := address, original_opcode := s.mem.byte address, type := type }] } := by
  unfold AddBreakpoint at h
  simp only [ReadProcessMemory, WriteProcessMemory, canRead_one, canWrite_one] at h
  by_cases hr : s.mem.readable address = true
  · by_cases hw : s.mem.writable address = true
    · simp [hr, hw] at h
      exact ⟨hr, hw, h.symm⟩
    · simp [hr, hw] at h
  · simp [hr] at h

theorem store_one_bytes (m : Mem) (a v x : Nat) :
    (m.store a 1 (fun _ => v)).bytes x = if x = a then v % 256 else m.bytes x := by
  unfold Mem.store
  by_cases h : x = a
  · subst h; simp
  · have : ¬ (a ≤ x ∧ x < a + 1) := by omega
    simp [this, h]

theorem GetTargetAddress_frame {env : Env} {module : Nat} {s s1 : State} {ta : Nat}
    (h : GetTargetAddress env module s = .ok (ta, s1)) :
    ∃ off, s1 = { s with target_offset := off } := by
  unfold GetTargetAddress at h
  rw [bind_eq_ok] at h
  obtain ⟨size, _, h⟩ := h
  split at h
  · simp only [Except.ok.injEq, Prod.mk.injEq] at h
    exact ⟨s.target_offset, h.2.symm⟩
  · split at h
    · simp at h
    · rw [bind_eq_ok] at h
      obtain ⟨offset, _, h⟩ := h
      split at h
      · simp only [Except.ok.injEq, Prod.mk.injEq] at h
        exact ⟨s.target_offset, h.2.symm⟩
      · split at h
        · simp only [Except.ok.injEq, Prod.mk.injEq] at h
          exact ⟨s.target_offset, h.2.symm⟩
        · split at h
          · simp only [Except.ok.injEq, Prod.mk.injEq] at h
            exact ⟨s.target_offset, h.2.symm⟩
          · simp only [Except.ok.injEq, Prod.mk.injEq] at h
            exact ⟨_, h.2.symm⟩

/-- What `OnModuleLoaded` does when it returns: it records the call and either
does nothing else or sets `target_address` (and possibly `target_offset`) and
arms the Target breakpoint there. -/
theorem OnModuleLoaded_inv {env : Env} {module : Nat} {name : List Nat} {s s1 : State}
    (h : OnModuleLoaded env module name s = .ok s1) :
    (¬ (s.target_function_defined = true ∧ stricmpEq name s.target_module = true) ∧
      s1 = { s with calls := s.calls ++ [.OnModuleLoaded module name] }) ∨
    ((s.target_function_defined = true ∧ stricmpEq name s.target_module = true) ∧
      ∃ ta off, ta ≠ 0 ∧ s.mem.readable ta = true ∧ s.mem.writable ta = true ∧
      s1 = { s with
        calls := s.calls ++ [.OnModuleLoaded module name]
        target_offset := off
        target_address := ta
        mem := s.mem.store ta 1 (fun _ => 0xCC)
        breakpoints := s.breakpoints ++
          [{ address := ta, original_opcode := s.mem.byte ta, type := BREAKPOINT_TARGET }] }) := by
  unfold OnModuleLoaded at h
  simp only [Bool.and_eq_true] at h
  split at h
  · rename_i hc
    right
    refine ⟨hc, ?_⟩
    rw [bind_eq_ok] at h
    obtain ⟨⟨ta, s2⟩, hta, h⟩ := h
    obtain ⟨off, rfl⟩ := GetTargetAddress_frame hta
    simp only at h
    split at h
    · exact Except.noConfusion h
    · rename_i hne
      obtain ⟨hr, hw, rfl⟩ := AddBreakpoint_inv h
      exact ⟨ta, off, hne, hr, hw, rfl⟩
  · rename_i hc
    left
    simp only [Except.ok.injEq] at h
    exact ⟨hc, h.symm⟩

theorem armedOnly_refl (s : State) : ArmedOnly s s :=
  ⟨rfl, rfl, rfl, rfl, [], by simp, by simp, fun _ _ => rfl⟩

theorem armedOnly_trans {s s1 s2 : State} (h1 : ArmedOnly s s1) (h2 : ArmedOnly s1 s2) :
    ArmedOnly s s2 := by
  obtain ⟨a1, ht1, hty1, hm1⟩ := h1.table
  obtain ⟨a2, ht2, hty2, hm2⟩ := h2.table
  refine ⟨h2.threads.trans h1.threads, h2.readable.trans h1.readable,
    h2.writable.trans h1.writable, h2.entrypoint.trans h1.entrypoint, a1 ++ a2, ?_, ?_, ?_⟩
  · rw [ht2, ht1, List.append_assoc]
  · intro b hb
    rcases List.mem_append.mp hb with hb | hb
    · exact hty1 b hb
    · exact hty2 b hb
  · intro x hx
    rw [hm2 x (fun b hb => hx b (List.mem_append.mpr (Or.inr hb))),
      hm1 x (fun b hb => hx b (List.mem_append.mpr (Or.inl hb)))]

theorem OnModuleLoaded_armedOnly {env : Env} {module : Nat} {name : List Nat} {s s1 : State}
    (h : OnModuleLoaded env module name s = .ok s1) : ArmedOnly s s1 := by
  rcases OnModuleLoaded_inv h with ⟨_, rfl⟩ | ⟨_, ta, off, _, _, _, rfl⟩
  · exact ⟨rfl, rfl, rfl, rfl, [], by simp, by simp, fun _ _ => rfl⟩
  · refine ⟨rfl, rfl, rfl, rfl, [_], rfl, ?_, ?_⟩
    · intro b hb
      rw [List.mem_singleton.mp hb]
    · intro x hx
      have hne : x ≠ ta := fun e => hx _ (List.mem_singleton.mpr rfl) e.symm
      simp only [store_one_bytes, hne, if_false]

theorem reportModules_armedOnly {env : Env} (ms : List Module) : ∀ {s s1 : State},
    reportModules env ms s = .ok s1 → ArmedOnly s s1 := by
  induction ms with
  | nil =>
    intro s s1 h
    simp only [reportModules, Except.ok.injEq] at h
    exact h ▸ armedOnly_refl s
  | cons m ms ih =>
    intro s s1 h
    simp only [reportModules, bind_eq_ok] at h
    obtain ⟨s2, h1, h2⟩ := h
    exact armedOnly_trans (OnModuleLoaded_armedOnly h1) (ih h2)

theorem OnEntrypoint_inv {env : Env} {s s1 : State} (h : OnEntrypoint env s = .ok s1) :
    ∃ ms s2, s.modules = some ms ∧ reportModules env ms s = .ok s2 ∧
      s1 = { s2 with child_entrypoint_reached := true } := by
  unfold OnEntrypoint at h
  split at h
  · exact Except.noConfusion h
  · rename_i ms hms
    simp only [bind_eq_ok, pure, Except.pure, Except.ok.injEq] at h
    obtain ⟨s2, h2, h3⟩ := h
    exact ⟨ms, s2, hms, h2, h3.symm⟩

end Debugger

namespace Debugger

/-! ## Frame of the argument restore -/

theorem WriteStack_frame {env : Env} {s s1 : State} {stack_addr first numitems : Nat} {buffer : Buf}
    (h : WriteStack env s stack_addr buffer first numitems = .ok s1) :
    ∃ m, s1 = { s with mem := m } ∧ m.readable = s.mem.readable ∧ m.writable = s.mem.writable := by
  have hw : ∀ (a n : Nat) (src : Nat → Nat),
      ((WriteProcessMemory s.mem a n src).getD s.mem).readable = s.mem.readable ∧
      ((WriteProcessMemory s.mem a n src).getD s.mem).writable = s.mem.writable := by
    intro a n src
    unfold WriteProcessMemory
    split <;> simp [Mem.store]
  unfold WriteStack at h
  simp only at h
  split at h
  · simp only [bind_eq_ok, pure, Except.pure, Except.ok.injEq] at h
    obtain ⟨buf32, _, h⟩ := h
    exact ⟨_, h.symm, hw _ _ _⟩
  · split at h
    · simp only [Except.ok.injEq] at h
      exact ⟨_, h.symm, hw _ _ _⟩
    · exact Except.noConfusion h

theorem writeStackArgsIf_frame {env : Env} {sp slot first : Nat} {c : Prop} [Decidable c]
    {s s1 : State}
    (h : (if c then writeStackArgs env sp slot first s else Except.ok s) = .ok s1) :
    ∃ m, s1 = { s with mem := m } ∧ m.readable = s.mem.readable ∧ m.writable = s.mem.writable := by
  split at h
  · unfold writeStackArgs at h
    rw [bind_eq_ok] at h
    obtain ⟨b, _, h⟩ := h
    exact WriteStack_frame h
  · simp only [Except.ok.injEq] at h
    exact ⟨s.mem, by rw [← h], rfl, rfl⟩

theorem writeStackArgs_frame {env : Env} {sp slot first : Nat} {s s1 : State}
    (h : writeStackArgs env sp slot first s = .ok s1) :
    ∃ m, s1 = { s with mem := m } ∧ m.readable = s.mem.readable ∧ m.writable = s.mem.writable := by
  unfold writeStackArgs at h
  rw [bind_eq_ok] at h
  obtain ⟨b, _, h⟩ := h
  exact WriteStack_frame h

theorem memFrame_of_eq {s s1 : State} (h : s = s1) :
    ∃ m, s1 = { s with mem := m } ∧ m.readable = s.mem.readable ∧ m.writable = s.mem.writable :=
  ⟨s.mem, by rw [← h], rfl, rfl⟩

theorem restoreArgs_frame {env : Env} {lcContext lc1 : Context} {s s1 : State}
    (h : restoreArgs env lcContext s = .ok (lc1, s1)) :
    ∃ m, s1 = { s with mem := m } ∧ m.readable = s.mem.readable ∧ m.writable = s.mem.writable := by
  unfold restoreArgs at h
  repeat' split at h
  all_goals try simp only [bind_eq_ok, pure, Except.pure, Except.ok.injEq, Prod.mk.injEq] at h
  all_goals first
    | exact memFrame_of_eq h.2
    | (obtain ⟨a1, h1, a2, h2, a3, h3, a4, h4, s2, h5, h6⟩ := h
       rw [← h6.2]
       first | exact writeStackArgs_frame h5 | exact memFrame_of_eq h5)
    | (obtain ⟨a1, h1, a2, h2, s2, h5, h6⟩ := h
       rw [← h6.2]
       first | exact writeStackArgs_frame h5 | exact memFrame_of_eq h5)
    | (obtain ⟨a1, h1, s2, h5, h6⟩ := h
       rw [← h6.2]
       first | exact writeStackArgs_frame h5 | exact memFrame_of_eq h5)
    | (obtain ⟨s2, h5, h6⟩ := h
       rw [← h6.2]
       first | exact writeStackArgs_frame h5 | exact memFrame_of_eq h5)
    | (exfalso; exact Except.noConfusion h)

end Debugger

namespace Debugger

theorem HandleTargetEnded_loop {env : Env} {thread_id : Nat} {s s1 : State}
    (hl : s.loop_mode = true) (h : HandleTargetEnded env thread_id s = .ok s1) :
    s.child_ptr_size ≤ env.ptr_size ∧
    ∃ lc m,
      restoreArgs env { (s.threads thread_id) with Rip := s.target_address, Rsp := s.saved_sp }
        { s with mem := (WriteProcessMemory s.mem s.saved_sp s.child_ptr_size
            (leByte PERSIST_END_EXCEPTION)).getD s.mem } = .ok (lc, { s with mem := m }) ∧
      s1 = SetThreadContext thread_id lc { s with mem := m } := by
  unfold HandleTargetEnded at h
  simp only [hl, if_true, bind_eq_ok, pure, Except.pure, Except.ok.injEq] at h
  obtain ⟨s2, hs2, ⟨lc, s3⟩, h3, h4⟩ := h
  obtain ⟨hle, rfl⟩ := writeSentinel_inv hs2
  obtain ⟨m, hm, _, _⟩ := restoreArgs_frame h3
  subst hm
  exact ⟨hle, lc, m, h3, h4.symm⟩

theorem HandleTargetEnded_single {env : Env} {thread_id : Nat} {s s1 : State}
    (hl : s.loop_mode = false) (h : HandleTargetEnded env thread_id s = .ok s1) :
    ∃ s2, AddBreakpoint (env.GetTranslatedAddress s.target_address) BREAKPOINT_TARGET s = .ok s2 ∧
      s1 = SetThreadContext thread_id
        { (s.threads thread_id) with Rip := s.saved_return_address } s2 := by
  unfold HandleTargetEnded at h
  simp only [hl, Bool.false_eq_true, if_false] at h
  simp only [bind_eq_ok, pure, Except.pure, Except.ok.injEq] at h
  obtain ⟨s2, hs2, h4⟩ := h
  exact ⟨s2, hs2, h4.symm⟩

end Debugger

namespace Debugger

theorem consumeBreakpoint_table {env : Env} {address thread_id : Nat} {s sd : State}
    {bp : Breakpoint} (h : consumeBreakpoint env address thread_id s = .ok (some (bp, sd))) :
    sd.breakpoints = s.breakpoints.eraseP (fun b => b.address == address) := by
  unfold consumeBreakpoint at h
  split at h
  · simp at h
  · simp only at h
    split at h
    · exact Except.noConfusion h
    · simp only [Except.ok.injEq, Option.some.injEq, Prod.mk.injEq] at h
      rw [← h.2]
      rfl

end Debugger

namespace Debugger

/-! ## Items of a pointer array -/

theorem Buf.write_inv {b b1 : Buf} {off n : Nat} {src : Nat → Nat}
    (h : b.write off n src = .ok b1) :
    off + n ≤ b.size ∧
    b1 = { b with data := fun x => if off ≤ x ∧ x < off + n then src (x - off) % 256 else b.data x } := by
  unfold Buf.write at h
  split at h
  · rename_i hle
    simp only [Except.ok.injEq] at h
    exact ⟨hle, h.symm⟩
  · exact Except.noConfusion h

theorem Buf.write_ok (b : Buf) (off n : Nat) (src : Nat → Nat) (h : off + n ≤ b.size) :
    b.write off n src = .ok
      { b with data := fun x => if off ≤ x ∧ x < off + n then src (x - off) % 256 else b.data x } := by
  simp [Buf.write, h]

theorem Buf.read_ok (b : Buf) (off n : Nat) (h : off + n ≤ b.size) :
    b.read off n = .ok (leRead b.data off n) := by
  simp [Buf.read, h]

/-- Item `i` of the array after `array[i] = v`. -/
theorem item_write_same (b : Buf) (w i v : Nat) :
    leRead (fun x => if i * w ≤ x ∧ x < i * w + w then leByte v (x - i * w) % 256 else b.data x)
      (i * w) w = v % 256 ^ w := by
  rw [leRead_leByte v _ w (i * w) 0]
  · simp
  · intro k hk
    have h1 : i * w ≤ i * w + k ∧ i * w + k < i * w + w := ⟨by omega, by omega⟩
    simp only [h1, and_self, if_true, Nat.add_sub_cancel_left, Nat.zero_add]
    simp [leByte]

/-- Items outside the written range keep their value. -/
theorem item_write_other (b : Buf) (w j off n : Nat) (src : Nat → Nat)
    (hd : (j + 1) * w ≤ off ∨ off + n ≤ j * w) :
    leRead (fun x => if off ≤ x ∧ x < off + n then src (x - off) % 256 else b.data x)
      (j * w) w = leRead b.data (j * w) w := by
  apply leRead_congr
  intro k hk
  have h1 : ¬ (off ≤ j * w + k ∧ j * w + k < off + n) := by
    have : (j + 1) * w = j * w + w := by ring
    omega
  simp only [h1, if_false]

/-- Items inside a copied range are the corresponding words of the source. -/
theorem item_write_inside (b : Buf) (w j off n : Nat) (src : Nat → Nat)
    (hin : off ≤ j * w ∧ (j + 1) * w ≤ off + n) :
    leRead (fun x => if off ≤ x ∧ x < off + n then src (x - off) % 256 else b.data x)
      (j * w) w = leRead src (j * w - off) w := by
  apply leRead_congr
  intro k hk
  have h1 : off ≤ j * w + k ∧ j * w + k < off + n := by
    have : (j + 1) * w = j * w + w := by ring
    omega
  have h2 : j * w + k - off = j * w - off + k := by omega
  simp only [h1, and_self, if_true, h2, Nat.mod_mod]

/-- The word the remote memory holds at `a + k`, read through the byte view
`ReadProcessMemory` returns for `a`. -/
theorem leRead_view (m : Mem) (a k n : Nat) :
    leRead (fun i => m.byte (a + i)) k n = m.word (a + k) n := by
  unfold Mem.word
  apply leRead_congr
  intro i _
  simp [Mem.byte, Nat.add_assoc]

/-- The word stored in remote memory by a write whose source is `src`. -/
theorem word_store_inside (m : Mem) (a n : Nat) (src : Nat → Nat) (x w : Nat)
    (hin : a ≤ x ∧ x + w ≤ a + n) :
    (m.store a n src).word x w = leRead src (x - a) w := by
  unfold Mem.word Mem.store
  apply leRead_congr
  intro k hk
  have h1 : a ≤ x + k ∧ x + k < a + n := by omega
  have h2 : x + k - a = x - a + k := by omega
  simp only [h1, and_self, if_true, h2, Nat.mod_mod]

theorem word_store_outside (m : Mem) (a n : Nat) (src : Nat → Nat) (x w : Nat)
    (hout : x + w ≤ a ∨ a + n ≤ x) :
    (m.store a n src).word x w = m.word x w := by
  unfold Mem.word Mem.store
  apply leRead_congr
  intro k hk
  have h1 : ¬ (a ≤ x + k ∧ x + k < a + n) := by omega
  simp only [h1, if_false]

end Debugger

namespace Debugger

/-! ## Capturing arguments -/

theorem getArg_ok (env : Env) (s : State) (b : Buf) (i : Nat) (hb : s.saved_args = some b)
    (hsz : (i + 1) * env.ptr_size ≤ b.size) :
    getArg env i s = .ok (leRead b.data (i * env.ptr_size) env.ptr_size) := by
  unfold getArg argsBuf
  rw [hb]
  have : i * env.ptr_size + env.ptr_size ≤ b.size := by
    have : (i + 1) * env.ptr_size = i * env.ptr_size + env.ptr_size := by ring
    omega
  simp [bind, Except.bind, Buf.read, this]

/-- `if (target_num_args > i) saved_args[i] = (void *)v`, on an allocated array. -/
theorem saveRegArg_spec (env : Env) (s : State) (b : Buf) (i v : Nat)
    (hb : s.saved_args = some b) (hsz : s.target_num_args * env.ptr_size ≤ b.size) :
    ∃ b1, saveRegArg env i v s = .ok { s with saved_args := some b1 } ∧ b1.size = b.size ∧
      (i < s.target_num_args →
        leRead b1.data (i * env.ptr_size) env.ptr_size = v % 256 ^ env.ptr_size) ∧
      ∀ j, j ≠ i →
        leRead b1.data (j * env.ptr_size) env.ptr_size =
          leRead b.data (j * env.ptr_size) env.ptr_size := by
  unfold saveRegArg
  by_cases hi : s.target_num_args > i
  · have hin : i * env.ptr_size + env.ptr_size ≤ b.size := by
      have h1 : (i + 1) * env.ptr_size ≤ s.target_num_args * env.ptr_size :=
        Nat.mul_le_mul_right _ hi
      have h2 : (i + 1) * env.ptr_size = i * env.ptr_size + env.ptr_size := by ring
      omega
    refine ⟨Buf.mk b.size (fun x =>
      (if i * env.ptr_size ≤ x ∧ x < i * env.ptr_size + env.ptr_size
        then leByte v (x - i * env.ptr_size) % 256 else b.data x)), ?_, ?_, ?_, ?_⟩
    · simp only [hi, if_true, setArg, argsBuf, hb, bind, Except.bind,
        Buf.write_ok b _ _ _ hin, pure, Except.pure]
    · rfl
    · intro _
      exact item_write_same b env.ptr_size i v
    · intro j hj
      apply item_write_other
      rcases Nat.lt_or_gt_of_ne hj with h | h
      · left
        exact Nat.mul_le_mul_right _ h
      · right
        have h1 : (i + 1) * env.ptr_size ≤ j * env.ptr_size := Nat.mul_le_mul_right _ h
        have h2 : (i + 1) * env.ptr_size = i * env.ptr_size + env.ptr_size := by ring
        omega
  · refine ⟨b, ?_, rfl, fun h => absurd h hi, fun _ _ => rfl⟩
    simp only [hi, if_false]
    congr 1
    rw [← hb]

/-- `ReadStack` into the tail of an allocated array, for a target whose pointers
have the width of the debugger's (not the WOW64 path). -/
theorem readStackArgs_spec (env : Env) (s : State) (b : Buf) (sp slot first : Nat)
    (hpath : (env.win64 && s.wow64_target) = false)
    (hb : s.saved_args = some b) (hsz : s.target_num_args * env.ptr_size ≤ b.size)
    (hcps : s.child_ptr_size = env.ptr_size) (hfirst : first ≤ s.target_num_args)
    (hread : s.mem.canRead ((sp + slot * s.child_ptr_size) % env.word)
      ((s.target_num_args - first) * s.child_ptr_size) = true) :
    ∃ b1, readStackArgs env sp slot first s = .ok { s with saved_args := some b1 } ∧
      b1.size = b.size ∧
      (∀ j, j < first →
        leRead b1.data (j * env.ptr_size) env.ptr_size =
          leRead b.data (j * env.ptr_size) env.ptr_size) ∧
      ∀ j, first ≤ j → j < s.target_num_args →
        leRead b1.data (j * env.ptr_size) env.ptr_size =
          s.mem.word ((sp + slot * s.child_ptr_size) % env.word + (j - first) * env.ptr_size)
            env.ptr_size := by
  have hin : first * env.ptr_size + (s.target_num_args - first) * s.child_ptr_size ≤ b.size := by
    rw [hcps, ← Nat.add_mul]
    have : first + (s.target_num_args - first) = s.target_num_args := by omega
    rw [this]
    exact hsz
  refine ⟨Buf.mk b.size (fun x =>
    (if first * env.ptr_size ≤ x ∧
        x < first * env.ptr_size + (s.target_num_args - first) * s.child_ptr_size
      then (fun i => s.mem.byte ((sp + slot * s.child_ptr_size) % env.word + i))
        (x - first * env.ptr_size) % 256
      else b.data x)), ?_, ?_, ?_, ?_⟩
  · simp only [readStackArgs, argsBuf, hb, bind, Except.bind, ReadStack, hpath,
      Bool.false_eq_true, if_false, ReadProcessMemory, hread, if_true,
      Buf.write_ok b _ _ _ hin, pure, Except.pure]
  · rfl
  · intro j hj
    exact item_write_other b env.ptr_size j (first * env.ptr_size)
      ((s.target_num_args - first) * s.child_ptr_size)
      (fun i => s.mem.byte ((sp + slot * s.child_ptr_size) % env.word + i))
      (Or.inl (Nat.mul_le_mul_right _ hj))
  · intro j hj1 hj2
    have hin2 : first * env.ptr_size ≤ j * env.ptr_size ∧
        (j + 1) * env.ptr_size ≤
          first * env.ptr_size + (s.target_num_args - first) * s.child_ptr_size := by
      constructor
      · exact Nat.mul_le_mul_right _ hj1
      · rw [hcps, ← Nat.add_mul]
        apply Nat.mul_le_mul_right
        omega
    have h1 := item_write_inside b env.ptr_size j (first * env.ptr_size)
      ((s.target_num_args - first) * s.child_ptr_size)
      (fun i => s.mem.byte ((sp + slot * s.child_ptr_size) % env.word + i)) hin2
    refine h1.trans ?_
    rw [leRead_view, Nat.sub_mul]

end Debugger

namespace Debugger

theorem readReturnAddress_ok (env : Env) (s : State) (hle : s.child_ptr_size ≤ env.ptr_size) :
    readReturnAddress env s = .ok
      (if s.mem.canRead s.saved_sp s.child_ptr_size then s.mem.word s.saved_sp s.child_ptr_size
       else 0) := by
  unfold readReturnAddress ReadProcessMemory
  by_cases hc : s.mem.canRead s.saved_sp s.child_ptr_size = true
  · simp only [hc, if_true, hle]
    rw [leRead_bytes]
  · simp [hc]

/-- The entry protocol returns when the capture of the arguments does. -/
theorem HandleTargetReachedInternal_ok (env : Env) (thread_id : Nat) (s sC : State)
    (hle : s.child_ptr_size ≤ env.ptr_size)
    (hsave : (if s.loop_mode = true then
        saveArgs env (s.threads thread_id)
          { s with
            saved_sp := (s.threads thread_id).Rsp
            saved_return_address :=
              if s.mem.canRead (s.threads thread_id).Rsp s.child_ptr_size then
                s.mem.word (s.threads thread_id).Rsp s.child_ptr_size
              else 0 }
      else .ok
          { s with
            saved_sp := (s.threads thread_id).Rsp
            saved_return_address :=
              if s.mem.canRead (s.threads thread_id).Rsp s.child_ptr_size then
                s.mem.word (s.threads thread_id).Rsp s.child_ptr_size
              else 0 }) = .ok sC) :
    HandleTargetReachedInternal env thread_id s = .ok (notifyTargetReached thread_id
      { sC with mem := (WriteProcessMemory sC.mem sC.saved_sp sC.child_ptr_size
          (leByte PERSIST_END_EXCEPTION)).getD sC.mem }) := by
  have hfr : ArgsFrame { s with
            saved_sp := (s.threads thread_id).Rsp
            saved_return_address :=
              if s.mem.canRead (s.threads thread_id).Rsp s.child_ptr_size then
                s.mem.word (s.threads thread_id).Rsp s.child_ptr_size
              else 0 } sC := by
    split at hsave
    · exact saveArgs_frame hsave
    · simp only [Except.ok.injEq] at hsave
      exact hsave ▸ argsFrame_refl _
  have hcps : sC.child_ptr_size ≤ env.ptr_size := by
    obtain ⟨o, rfl⟩ := hfr
    exact hle
  unfold HandleTargetReachedInternal
  have hr := readReturnAddress_ok env { s with saved_sp := (s.threads thread_id).Rsp } hle
  simp only at hr
  simp only [bind, Except.bind, hr, hsave, writeSentinel, hcps, if_true, pure, Except.pure]

theorem getArg_congr (env : Env) (i : Nat) (s s1 : State) (h : s1.saved_args = s.saved_args) :
    getArg env i s1 = getArg env i s := by
  unfold getArg argsBuf
  rw [h]

end Debugger

namespace Debugger

theorem notifyTargetReached_eq (thread_id : Nat) (x : State) :
    notifyTargetReached thread_id x =
      { x with
        target_reached := true
        calls := if x.target_reached then x.calls
          else x.calls ++ [.OnTargetMethodReached thread_id] } := by
  unfold notifyTargetReached
  cases h : x.target_reached
  · simp
  · simp only [Bool.not_true, Bool.false_eq_true, if_false, if_true]
    rw [← h]

end Debugger

namespace Debugger

/-! ## The capture and the restore of the arguments return -/

theorem copyFromBuf32_ok (env : Env) (buf32 : Buf) (first : Nat) : ∀ (todo i : Nat) (buffer : Buf),
    4 * (i + todo) ≤ buf32.size → (first + i + todo) * env.ptr_size ≤ buffer.size →
    ∃ b1, copyFromBuf32 env buf32 first todo i buffer = .ok b1 ∧ b1.size = buffer.size := by
  intro todo
  induction todo with
  | zero => intro i buffer _ _; exact ⟨buffer, rfl, rfl⟩
  | succ todo ih =>
    intro i buffer h32 hbuf
    have hr : 4 * i + 4 ≤ buf32.size := by omega
    have hw : (first + i) * env.ptr_size + env.ptr_size ≤ buffer.size := by
      have : (first + i + (todo + 1)) * env.ptr_size =
          (first + i) * env.ptr_size + env.ptr_size + todo * env.ptr_size := by ring
      omega
    obtain ⟨b1, h1, h2⟩ := ih (i + 1)
      (Buf.mk buffer.size (fun x =>
        (if (first + i) * env.ptr_size ≤ x ∧ x < (first + i) * env.ptr_size + env.ptr_size
          then (leByte (leRead buf32.data (4 * i) 4) (x - (first + i) * env.ptr_size) % 256)
          else buffer.data x)))
      (by omega) (by
        have : first + (i + 1) + todo = first + i + (todo + 1) := by omega
        rw [this]
        exact hbuf)
    refine ⟨b1, ?_, h2⟩
    simp only [copyFromBuf32, bind, Except.bind, Buf.read_ok buf32 _ _ hr,
      Buf.write_ok buffer _ _ _ hw]
    exact h1

theorem fillBuf32_ok (env : Env) (buffer : Buf) (first : Nat) : ∀ (todo i : Nat) (buf32 : Buf),
    4 * (i + todo) ≤ buf32.size → (first + i + todo) * env.ptr_size ≤ buffer.size →
    ∃ b1, fillBuf32 env buffer first todo i buf32 = .ok b1 ∧ b1.size = buf32.size := by
  intro todo
  induction todo with
  | zero => intro i buf32 _ _; exact ⟨buf32, rfl, rfl⟩
  | succ todo ih =>
    intro i buf32 h32 hbuf
    have hw : 4 * i + 4 ≤ buf32.size := by omega
    have hr : (first + i) * env.ptr_size + env.ptr_size ≤ buffer.size := by
      have : (first + i + (todo + 1)) * env.ptr_size =
          (first + i) * env.ptr_size + env.ptr_size + todo * env.ptr_size := by ring
      omega
    obtain ⟨b1, h1, h2⟩ := ih (i + 1)
      (Buf.mk buf32.size (fun x =>
        (if 4 * i ≤ x ∧ x < 4 * i + 4
          then (leByte (leRead buffer.data ((first + i) * env.ptr_size) env.ptr_size)
            (x - 4 * i) % 256)
          else buf32.data x)))
      (by
        show 4 * (i + 1 + todo) ≤ buf32.size
        omega) (by
        have : first + (i + 1) + todo = first + i + (todo + 1) := by omega
        rw [this]
        exact hbuf)
    refine ⟨b1, ?_, h2⟩
    simp only [fillBuf32, bind, Except.bind, Buf.read_ok buffer _ _ hr,
      Buf.write_ok buf32 _ _ _ hw]
    exact h1

/-- `ReadStack` into the tail of `saved_args` returns in a well-formed state. -/
theorem readStackArgs_total (env : Env) (s : State) (sp slot first : Nat)
    (hwf : WellFormed env s) (hn : first < s.target_num_args) :
    ∃ o, readStackArgs env sp slot first s = .ok { s with saved_args := o } ∧
      ∃ b, o = some b ∧ s.target_num_args * env.ptr_size ≤ b.size := by
  obtain ⟨h48, hle, hargs⟩ := hwf
  obtain ⟨b, hb, hsz⟩ := hargs (by omega)
  have hin : first * env.ptr_size + (s.target_num_args - first) * s.child_ptr_size ≤ b.size := by
    have h1 : (s.target_num_args - first) * s.child_ptr_size ≤
        (s.target_num_args - first) * env.ptr_size := Nat.mul_le_mul_left _ hle
    have h2 : first * env.ptr_size + (s.target_num_args - first) * env.ptr_size =
        s.target_num_args * env.ptr_size := by
      rw [← Nat.add_mul]
      congr 1
      omega
    omega
  unfold readStackArgs argsBuf ReadStack
  simp only [hb, bind, Except.bind]
  by_cases hpath : (env.win64 && s.wow64_target) = true
  · simp only [hpath, if_true]
    obtain ⟨b1, h1, h2⟩ := copyFromBuf32_ok env
      { size := (s.target_num_args - first) * s.child_ptr_size
        data := (ReadProcessMemory s.mem ((sp + slot * s.child_ptr_size) % env.word)
          ((s.target_num_args - first) * s.child_ptr_size)).getD env.uninitialised }
      first (s.target_num_args - first) 0 b
      (by
        show 4 * (0 + (s.target_num_args - first)) ≤ (s.target_num_args - first) * s.child_ptr_size
        rcases h48 with h | h <;> rw [h] <;> omega)
      (by
        have : first + 0 + (s.target_num_args - first) = s.target_num_args := by omega
        rw [this]
        exact hsz)
    rw [h1]
    exact ⟨some b1, rfl, b1, rfl, by rw [h2]; exact hsz⟩
  · simp only [hpath, Bool.false_eq_true, if_false]
    cases hr : ReadProcessMemory s.mem ((sp + slot * s.child_ptr_size) % env.word)
        ((s.target_num_args - first) * s.child_ptr_size) with
    | none => exact ⟨some b, rfl, b, rfl, hsz⟩
    | some d =>
      simp only [Buf.write_ok b _ _ _ hin]
      exact ⟨_, rfl, _, rfl, hsz⟩

/-- `WriteStack` from the tail of `saved_args` returns in a well-formed state. -/
theorem writeStackArgs_total (env : Env) (s : State) (sp slot first : Nat)
    (hwf : WellFormed env s) (hn : first < s.target_num_args) :
    ∃ src, writeStackArgs env sp slot first s = .ok { s with mem :=
      (WriteProcessMemory s.mem ((sp + slot * s.child_ptr_size) % env.word)
        ((s.target_num_args - first) * s.child_ptr_size) src).getD s.mem } := by
  obtain ⟨h48, hle, hargs⟩ := hwf
  obtain ⟨b, hb, hsz⟩ := hargs (by omega)
  have hin : first * env.ptr_size + (s.target_num_args - first) * s.child_ptr_size ≤ b.size := by
    have h1 : (s.target_num_args - first) * s.child_ptr_size ≤
        (s.target_num_args - first) * env.ptr_size := Nat.mul_le_mul_left _ hle
    have h2 : first * env.ptr_size + (s.target_num_args - first) * env.ptr_size =
        s.target_num_args * env.ptr_size := by
      rw [← Nat.add_mul]
      congr 1
      omega
    omega
  unfold writeStackArgs argsBuf WriteStack
  simp only [hb, bind, Except.bind]
  by_cases hpath : (env.win64 && s.wow64_target) = true
  · simp only [hpath, if_true]
    obtain ⟨b1, h1, h2⟩ := fillBuf32_ok env b first (s.target_num_args - first) 0
      { size := (s.target_num_args - first) * s.child_ptr_size, data := env.uninitialised }
      (by
        show 4 * (0 + (s.target_num_args - first)) ≤ (s.target_num_args - first) * s.child_ptr_size
        rcases h48 with h | h <;> rw [h] <;> omega)
      (by
        have : first + 0 + (s.target_num_args - first) = s.target_num_args := by omega
        rw [this]
        exact hsz)
    rw [h1]
    exact ⟨b1.data, rfl⟩
  · simp only [hpath, Bool.false_eq_true, if_false, hin, if_true]
    exact ⟨_, rfl⟩

end Debugger

namespace Debugger

theorem wellFormed_args {env : Env} {s : State} (o : Option Buf) (hwf : WellFormed env s)
    (ho : s.target_num_args ≠ 0 → ∃ b, o = some b ∧ s.target_num_args * env.ptr_size ≤ b.size) :
    WellFormed env { s with saved_args := o } :=
  ⟨hwf.1, hwf.2.1, ho⟩

theorem saveRegArg_total (env : Env) (s : State) (i v : Nat) (hwf : WellFormed env s) :
    ∃ o, saveRegArg env i v s = .ok { s with saved_args := o } ∧
      WellFormed env { s with saved_args := o } := by
  by_cases hi : s.target_num_args > i
  · obtain ⟨b, hb, hsz⟩ := hwf.2.2 (by omega)
    obtain ⟨b1, h1, h2, _, _⟩ := saveRegArg_spec env s b i v hb hsz
    exact ⟨some b1, h1, wellFormed_args _ hwf (fun _ => ⟨b1, rfl, by rw [h2]; exact hsz⟩)⟩
  · refine ⟨s.saved_args, ?_, hwf⟩
    simp only [saveRegArg, hi, if_false]

theorem readStackArgsIf_total (env : Env) (s : State) (sp slot first k : Nat)
    (hwf : WellFormed env s) (hk : first ≤ k) :
    ∃ o, (if s.target_num_args > k then readStackArgs env sp slot first s else .ok s) =
      .ok { s with saved_args := o } := by
  by_cases hi : s.target_num_args > k
  · obtain ⟨o, h1, _⟩ := readStackArgs_total env s sp slot first hwf (by omega)
    exact ⟨o, by simp only [hi, if_true, h1]⟩
  · exact ⟨s.saved_args, by simp only [hi, if_false]⟩

/-- The capture of the arguments returns in every well-formed state, except
for the Microsoft x64 convention in a 32-bit build, where it is fatal. -/
theorem saveArgs_total (env : Env) (lcContext : Context) (s : State) (hwf : WellFormed env s)
    (hcc : env.win64 = true ∨ s.calling_convention ≠ CALLCONV_MICROSOFT_X64) :
    ∃ o, saveArgs env lcContext s = .ok { s with saved_args := o } := by
  obtain ⟨o0, e0, w0⟩ := saveRegArg_total env s 0 lcContext.Rcx hwf
  obtain ⟨o1, e1, w1⟩ := saveRegArg_total env { s with saved_args := o0 } 1 lcContext.Rdx w0
  obtain ⟨o2, e2, w2⟩ := saveRegArg_total env { s with saved_args := o1 } 2 lcContext.R8 w1
  obtain ⟨o3, e3, w3⟩ := saveRegArg_total env { s with saved_args := o2 } 3 lcContext.R9 w2
  obtain ⟨p4, f4⟩ := readStackArgsIf_total env { s with saved_args := o3 } lcContext.Rsp 5 4 4 w3
    (le_refl _)
  obtain ⟨p0, f0⟩ := readStackArgsIf_total env s lcContext.Rsp 1 0 0 hwf (le_refl _)
  obtain ⟨p2, f2⟩ := readStackArgsIf_total env { s with saved_args := o1 } lcContext.Rsp 1 2 3 w1
    (by omega)
  obtain ⟨p1, f1⟩ := readStackArgsIf_total env { s with saved_args := o0 } lcContext.Rsp 1 1 3 w0
    (by omega)
  simp only at e1 e2 e3 f4 f2 f1
  unfold saveArgs
  by_cases hwin : env.win64 = true
  · rw [if_pos hwin]
    by_cases c1 : s.calling_convention = CALLCONV_DEFAULT ∨
        s.calling_convention = CALLCONV_MICROSOFT_X64
    · rw [if_pos c1]
      refine ⟨p4, ?_⟩
      simp only [bind, Except.bind, e0, e1, e2, e3]
      exact f4
    · rw [if_neg c1]
      by_cases c2 : s.calling_convention = CALLCONV_CDECL
      · rw [if_pos c2]
        exact ⟨p0, f0⟩
      · rw [if_neg c2]
        by_cases c3 : s.calling_convention = CALLCONV_FASTCALL
        · rw [if_pos c3]
          refine ⟨p2, ?_⟩
          simp only [bind, Except.bind, e0, e1]
          exact f2
        · rw [if_neg c3]
          by_cases c4 : s.calling_convention = CALLCONV_THISCALL
          · rw [if_pos c4]
            refine ⟨p1, ?_⟩
            simp only [bind, Except.bind, e0]
            exact f1
          · rw [if_neg c4]
            exact ⟨s.saved_args, rfl⟩
  · have hms : s.calling_convention ≠ CALLCONV_MICROSOFT_X64 := by
      rcases hcc with h | h
      · exact absurd h hwin
      · exact h
    rw [if_neg hwin, if_neg hms]
    by_cases c2 : s.calling_convention = CALLCONV_DEFAULT ∨
        s.calling_convention = CALLCONV_CDECL
    · rw [if_pos c2]
      exact ⟨p0, f0⟩
    · rw [if_neg c2]
      by_cases c3 : s.calling_convention = CALLCONV_FASTCALL
      · rw [if_pos c3]
        refine ⟨p2, ?_⟩
        simp only [bind, Except.bind, e0, e1]
        exact f2
      · rw [if_neg c3]
        by_cases c4 : s.calling_convention = CALLCONV_THISCALL
        · rw [if_pos c4]
          refine ⟨p1, ?_⟩
          simp only [bind, Except.bind, e0]
          exact f1
        · rw [if_neg c4]
          exact ⟨s.saved_args, rfl⟩

end Debugger

namespace Debugger

theorem loadRegArg_total (env : Env) (s : State) (i reg : Nat) (hwf : WellFormed env s) :
    ∃ v, loadRegArg env i reg s = .ok v := by
  by_cases hi : s.target_num_args > i
  · obtain ⟨b, hb, hsz⟩ := hwf.2.2 (by omega)
    have h1 : (i + 1) * env.ptr_size ≤ b.size := le_trans (Nat.mul_le_mul_right _ hi) hsz
    exact ⟨leRead b.data (i * env.ptr_size) env.ptr_size, by
      simp only [loadRegArg, hi, if_true, getArg_ok env s b i hb h1]⟩
  · exact ⟨reg, by simp only [loadRegArg, hi, if_false]⟩

theorem getD_write_bytes_below (m : Mem) (a n : Nat) (src : Nat → Nat) (x : Nat) (hx : x < a) :
    ((WriteProcessMemory m a n src).getD m).bytes x = m.bytes x := by
  unfold WriteProcessMemory
  split
  · have : ¬ (a ≤ x ∧ x < a + n) := by omega
    simp [Mem.store, this]
  · rfl

theorem getD_write_protection (m : Mem) (a n : Nat) (src : Nat → Nat) :
    ((WriteProcessMemory m a n src).getD m).readable = m.readable ∧
    ((WriteProcessMemory m a n src).getD m).writable = m.writable := by
  unfold WriteProcessMemory
  split <;> simp [Mem.store]

theorem writeStackArgsIf_total (env : Env) (s : State) (sp slot first k : Nat)
    (hwf : WellFormed env s) (hk : first ≤ k) :
    ∃ m, (if s.target_num_args > k then writeStackArgs env sp slot first s else .ok s) =
        .ok { s with mem := m } ∧
      m.readable = s.mem.readable ∧ m.writable = s.mem.writable ∧
      ∀ x, x < (sp + slot * s.child_ptr_size) % env.word → m.bytes x = s.mem.bytes x := by
  by_cases hi : s.target_num_args > k
  · obtain ⟨src, h1⟩ := writeStackArgs_total env s sp slot first hwf (by omega)
    refine ⟨(WriteProcessMemory s.mem ((sp + slot * s.child_ptr_size) % env.word)
        ((s.target_num_args - first) * s.child_ptr_size) src).getD s.mem,
      by simp only [hi, if_true, h1], (getD_write_protection _ _ _ _).1,
      (getD_write_protection _ _ _ _).2, ?_⟩
    intro x hx
    exact getD_write_bytes_below _ _ _ _ _ hx
  · exact ⟨s.mem, by simp only [hi, if_false], rfl, rfl, fun _ _ => rfl⟩

/-- The restore of the arguments returns in every well-formed state, except for
the Microsoft x64 convention in a 32-bit build, where it is fatal.  It leaves
the instruction pointer and the stack pointer of the context alone and writes
no byte below the first argument slot. -/
theorem restoreArgs_total (env : Env) (lcContext : Context) (s : State) (hwf : WellFormed env s)
    (hcc : env.win64 = true ∨ s.calling_convention ≠ CALLCONV_MICROSOFT_X64) :
    ∃ lc m, restoreArgs env lcContext s = .ok (lc, { s with mem := m }) ∧
      lc.Rip = lcContext.Rip ∧ lc.Rsp = lcContext.Rsp ∧
      m.readable = s.mem.readable ∧ m.writable = s.mem.writable ∧
      (lcContext.Rsp + 5 * s.child_ptr_size < env.word →
        ∀ x, x < lcContext.Rsp + s.child_ptr_size → m.bytes x = s.mem.bytes x) := by
  obtain ⟨v0, e0⟩ := loadRegArg_total env s 0 lcContext.Rcx hwf
  obtain ⟨v1, e1⟩ := loadRegArg_total env s 1 lcContext.Rdx hwf
  obtain ⟨v2, e2⟩ := loadRegArg_total env s 2 lcContext.R8 hwf
  obtain ⟨v3, e3⟩ := loadRegArg_total env s 3 lcContext.R9 hwf
  obtain ⟨m4, f4, r4, w4, b4⟩ := writeStackArgsIf_total env s lcContext.Rsp 5 4 4 hwf (le_refl _)
  obtain ⟨m0, f0, r0, w0, b0⟩ := writeStackArgsIf_total env s lcContext.Rsp 1 0 0 hwf (le_refl _)
  obtain ⟨m2, f2, r2, w2, b2⟩ := writeStackArgsIf_total env s lcContext.Rsp 1 2 3 hwf (by omega)
  obtain ⟨m1, f1, r1, w1, b1⟩ := writeStackArgsIf_total env s lcContext.Rsp 1 1 3 hwf (by omega)
  have hcps : 0 < s.child_ptr_size := by rcases hwf.1 with h | h <;> omega
  have below5 : lcContext.Rsp + 5 * s.child_ptr_size < env.word →
      ∀ x, x < lcContext.Rsp + s.child_ptr_size →
        x < (lcContext.Rsp + 5 * s.child_ptr_size) % env.word := by
    intro h x hx
    rw [Nat.mod_eq_of_lt h]
    omega
  have below1 : lcContext.Rsp + 5 * s.child_ptr_size < env.word →
      ∀ x, x < lcContext.Rsp + s.child_ptr_size →
        x < (lcContext.Rsp + 1 * s.child_ptr_size) % env.word := by
    intro h x hx
    rw [Nat.mod_eq_of_lt (by omega)]
    omega
  unfold restoreArgs
  by_cases hwin : env.win64 = true
  · rw [if_pos hwin]
    by_cases c1 : s.calling_convention = CALLCONV_DEFAULT ∨
        s.calling_convention = CALLCONV_MICROSOFT_X64
    · rw [if_pos c1]
      refine ⟨{ lcContext with Rcx := v0, Rdx := v1, R8 := v2, R9 := v3 }, m4, ?_, ?_, ?_, r4, w4,
        fun h x hx => b4 x (below5 h x hx)⟩
      · simp only [bind, Except.bind, e0, e1, e2, e3, f4, pure, Except.pure]
      · rfl
      · rfl
    · rw [if_neg c1]
      by_cases c2 : s.calling_convention = CALLCONV_CDECL
      · rw [if_pos c2]
        refine ⟨lcContext, m0, ?_, ?_, ?_, r0, w0, fun h x hx => b0 x (below1 h x hx)⟩
        · simp only [bind, Except.bind, f0, pure, Except.pure]
        · rfl
        · rfl
      · rw [if_neg c2]
        by_cases c3 : s.calling_convention = CALLCONV_FASTCALL
        · rw [if_pos c3]
          refine ⟨{ lcContext with Rcx := v0, Rdx := v1 }, m2, ?_, ?_, ?_, r2, w2,
            fun h x hx => b2 x (below1 h x hx)⟩
          · simp only [bind, Except.bind, e0, e1, f2, pure, Except.pure]
          · rfl
          · rfl
        · rw [if_neg c3]
          by_cases c4 : s.calling_convention = CALLCONV_THISCALL
          · rw [if_pos c4]
            refine ⟨{ lcContext with Rcx := v0 }, m1, ?_, ?_, ?_, r1, w1,
            fun h x hx => b1 x (below1 h x hx)⟩
            · simp only [bind, Except.bind, e0, f1, pure, Except.pure]
            · rfl
            · rfl
          · rw [if_neg c4]
            exact ⟨lcContext, s.mem, rfl, rfl, rfl, rfl, rfl, fun _ _ _ => rfl⟩
  · have hms : s.calling_convention ≠ CALLCONV_MICROSOFT_X64 := by
      rcases hcc with h | h
      · exact absurd h hwin
      · exact h
    rw [if_neg hwin, if_neg hms]
    by_cases c2 : s.calling_convention = CALLCONV_DEFAULT ∨
        s.calling_convention = CALLCONV_CDECL
    · rw [if_pos c2]
      refine ⟨lcContext, m0, ?_, ?_, ?_, r0, w0, fun h x hx => b0 x (below1 h x hx)⟩
      · simp only [bind, Except.bind, f0, pure, Except.pure]
      · rfl
      · rfl
    · rw [if_neg c2]
      by_cases c3 : s.calling_convention = CALLCONV_FASTCALL
      · rw [if_pos c3]
        refine ⟨{ lcContext with Rcx := v0, Rdx := v1 }, m2, ?_, ?_, ?_, r2, w2,
            fun h x hx => b2 x (below1 h x hx)⟩
        · simp only [bind, Except.bind, e0, e1, f2, pure, Except.pure]
        · rfl
        · rfl
      · rw [if_neg c3]
        by_cases c4 : s.calling_convention = CALLCONV_THISCALL
        · rw [if_pos c4]
          refine ⟨{ lcContext with Rcx := v0 }, m1, ?_, ?_, ?_, r1, w1,
            fun h x hx => b1 x (below1 h x hx)⟩
          · simp only [bind, Except.bind, e0, f1, pure, Except.pure]
          · rfl
          · rfl
        · rw [if_neg c4]
          exact ⟨lcContext, s.mem, rfl, rfl, rfl, rfl, rfl, fun _ _ _ => rfl⟩

end Debugger

namespace Debugger

/-- The entry protocol returns in every well-formed state, except for loop mode
with the Microsoft x64 convention in a 32-bit build. -/
theorem HandleTargetReachedInternal_total (env : Env) (thread_id : Nat) (s : State)
    (hwf : WellFormed env s)
    (hcc : s.loop_mode = true →
      env.win64 = true ∨ s.calling_convention ≠ CALLCONV_MICROSOFT_X64) :
    ∃ o, HandleTargetReachedInternal env thread_id s = .ok
      { s with
        saved_sp := (s.threads thread_id).Rsp
        saved_return_address :=
          if s.mem.canRead (s.threads thread_id).Rsp s.child_ptr_size then
            s.mem.word (s.threads thread_id).Rsp s.child_ptr_size
          else 0
        saved_args := o
        mem := (WriteProcessMemory s.mem (s.threads thread_id).Rsp s.child_ptr_size
          (leByte PERSIST_END_EXCEPTION)).getD s.mem
        target_reached := true
        calls := if s.target_reached then s.calls
          else s.calls ++ [.OnTargetMethodReached thread_id] } := by
  by_cases hl : s.loop_mode = true
  · obtain ⟨o, ho⟩ := saveArgs_total env (s.threads thread_id)
      { s with
        saved_sp := (s.threads thread_id).Rsp
        saved_return_address :=
          if s.mem.canRead (s.threads thread_id).Rsp s.child_ptr_size then
            s.mem.word (s.threads thread_id).Rsp s.child_ptr_size
          else 0 } hwf (hcc hl)
    refine ⟨o, ?_⟩
    rw [HandleTargetReachedInternal_ok env thread_id s _ hwf.2.1 (by rw [if_pos hl]; exact ho),
      notifyTargetReached_eq]
  · refine ⟨s.saved_args, ?_⟩
    rw [HandleTargetReachedInternal_ok env thread_id s _ hwf.2.1 (by rw [if_neg hl]),
      notifyTargetReached_eq]

theorem sentinel_word (m : Mem) (sp n : Nat) (hn : n = 4 ∨ n = 8) :
    (m.store sp n (leByte PERSIST_END_EXCEPTION)).word sp n = 0x0F22 := by
  rw [word_store_inside _ _ _ _ _ _ ⟨le_refl _, le_refl _⟩, Nat.sub_self,
    leRead_leByte PERSIST_END_EXCEPTION _ n 0 0 (by
      intro i _
      simp [leByte])]
  rcases hn with h | h <;> subst h <;> decide

/-- What `HandleExceptionInternal` does with an access violation the client does
not handle, when a target function is defined. -/
theorem HandleExceptionInternal_access_violation (env : Env) (st : State)
    (record : ExceptionRecord) (thread_id : Nat)
    (hcode : record.ExceptionCode = EXCEPTION_ACCESS_VIOLATION)
    (hdef : st.target_function_defined = true)
    (hclient : env.OnException record thread_id = false) :
    HandleExceptionInternal env record thread_id st =
      if record.ExceptionAddress = PERSIST_END_EXCEPTION then
        (HandleTargetEnded env thread_id
          { st with calls := st.calls ++ [.OnException record thread_id] }).map
          (fun st1 => (DebuggerStatus.DEBUGGER_TARGET_END, st1))
      else
        .ok (DebuggerStatus.DEBUGGER_CRASHED,
          { st with
            calls := st.calls ++ [.OnException record thread_id]
            dbg_continue_status := DBG_EXCEPTION_NOT_HANDLED }) := by
  have h1 : ¬ (record.ExceptionCode = EXCEPTION_BREAKPOINT ∨
      record.ExceptionCode = STATUS_WX86_BREAKPOINT) := by
    rw [hcode]; decide
  have hob : handleOwnBreakpoint env record thread_id st = .ok (none, st) := by
    unfold handleOwnBreakpoint
    rw [if_neg h1]
    rfl
  have hcl : classifyException env record thread_id
      { st with calls := st.calls ++ [.OnException record thread_id] } =
      if record.ExceptionAddress = PERSIST_END_EXCEPTION then
        (HandleTargetEnded env thread_id
          { st with calls := st.calls ++ [.OnException record thread_id] }).map
          (fun st1 => (DebuggerStatus.DEBUGGER_TARGET_END, st1))
      else
        .ok (DebuggerStatus.DEBUGGER_CRASHED,
          { st with
            calls := st.calls ++ [.OnException record thread_id]
            dbg_continue_status := DBG_EXCEPTION_NOT_HANDLED }) := by
    unfold classifyException
    simp only
    rw [if_neg h1, if_pos hcode]
    by_cases ha : record.ExceptionAddress = PERSIST_END_EXCEPTION
    · rw [if_pos ⟨hdef, ha⟩, if_pos ha]
      cases HandleTargetEnded env thread_id
        { st with calls := st.calls ++ [.OnException record thread_id] } <;> rfl
    · rw [if_neg (fun h => ha h.2), if_neg ha]
  unfold HandleExceptionInternal
  rw [hob]
  simp only [bind, Except.bind, hclient, Bool.false_eq_true, if_false]
  exact hcl

end Debugger

namespace Debugger

theorem find_armed (table : List Breakpoint) (A o : Nat) (type : Int)
    (hfresh : ∀ b, b ∈ table → b.address ≠ A) :
    (table ++ [(⟨A, o, type⟩ : Breakpoint)]).find? (fun b => b.address == A) =
      some ⟨A, o, type⟩ := by
  rw [List.find?_append]
  have : table.find? (fun b => b.address == A) = none := by
    rw [List.find?_eq_none]
    intro b hb
    simpa using hfresh b hb
  simp [this]

theorem erase_armed (table : List Breakpoint) (A o : Nat) (type : Int)
    (hfresh : ∀ b, b ∈ table → b.address ≠ A) :
    (table ++ [(⟨A, o, type⟩ : Breakpoint)]).eraseP (fun b => b.address == A) = table := by
  rw [List.eraseP_append_right]
  · simp
  · intro b hb
    simpa using hfresh b hb

theorem HandleTargetReachedInternal_keeps {env : Env} {thread_id : Nat} {s s1 : State}
    (h : HandleTargetReachedInternal env thread_id s = .ok s1) :
    s1.threads = s.threads ∧ s1.breakpoints = s.breakpoints ∧
    ∀ x, ¬ ((s.threads thread_id).Rsp ≤ x ∧ x < (s.threads thread_id).Rsp + s.child_ptr_size) →
      s1.mem.bytes x = s.mem.bytes x := by
  obtain ⟨_, b, rfl⟩ := HandleTargetReachedInternal_inv h
  refine ⟨rfl, rfl, ?_⟩
  intro x hx
  simp only [WriteProcessMemory]
  split
  · simp [Mem.store, hx]
  · rfl

theorem OnEntrypoint_armedOnly {env : Env} {s s1 : State} (h : OnEntrypoint env s = .ok s1) :
    s1.threads = s.threads ∧
    ∃ added, s1.breakpoints = s.breakpoints ++ added ∧
      ∀ x, (∀ b, b ∈ added → b.address ≠ x) → s1.mem.bytes x = s.mem.bytes x := by
  obtain ⟨ms, s2, _, h2, rfl⟩ := OnEntrypoint_inv h
  have ha := reportModules_armedOnly ms h2
  obtain ⟨added, h1, _, h3⟩ := ha.table
  exact ⟨ha.threads, added, h1, h3⟩

/-- C1 (amended): arming a breakpoint at a readable and writable address `A` that
has no record puts `0xCC` at `A` and appends the record.  When
`HandleDebuggerBreakpoint(A, thread)` later runs on that table with the
instruction pointer at `A + 1`, its first half restores the byte `A` had before
arming, sets the instruction pointer to `A` and erases the record (the other
records stay), and then the handler of the armed type runs on that state;
with a type that has no handler the call returns the armed type in exactly
that state.  Whenever the call returns, it returns the armed type, the
instruction pointer is `A`, the old records are in place, and the byte at `A`
is the original one unless the handler armed a breakpoint at `A` itself or
(Target) the return-address slot at the stack pointer covers `A`. -/
theorem breakpoint_round_trip (env : Env) (s s' : State) (A thread_id : Nat) (type : Int)
    (hr : s.mem.readable A = true) (hw : s.mem.writable A = true)
    (hfresh : ∀ b, b ∈ s.breakpoints → b.address ≠ A)
    (htable : s'.breakpoints = s.breakpoints ++ [⟨A, s.mem.byte A, type⟩])
    (hw' : s'.mem.writable A = true)
    (hip : (s'.threads thread_id).Rip = A + 1) (hA : A + 1 < env.word) :
    (∃ s1, AddBreakpoint A type s = .ok s1 ∧ s1.mem.byte A = 0xCC ∧
      s1.breakpoints = s.breakpoints ++ [⟨A, s.mem.byte A, type⟩]) ∧
    (∃ sd, consumeBreakpoint env A thread_id s' = .ok (some (⟨A, s.mem.byte A, type⟩, sd)) ∧
      sd.mem.byte A = s.mem.byte A ∧ (sd.threads thread_id).Rip = A ∧
      sd.breakpoints = s.breakpoints ∧
      HandleDebuggerBreakpoint env A thread_id s' =
        (handleBreakpointType env type thread_id sd).map (fun s2 => (type, s2))) ∧
    (type ≠ BREAKPOINT_ENTRYPOINT → type ≠ BREAKPOINT_TARGET →
      ∃ s2, HandleDebuggerBreakpoint env A thread_id s' = .ok (type, s2) ∧
        s2.mem.byte A = s.mem.byte A ∧ (s2.threads thread_id).Rip = A ∧
        s2.breakpoints = s.breakpoints) ∧
    (∀ r s2, HandleDebuggerBreakpoint env A thread_id s' = .ok (r, s2) →
      r = type ∧ (s2.threads thread_id).Rip = A ∧
      ∃ added, s2.breakpoints = s.breakpoints ++ added ∧
        ((∀ b, b ∈ added → b.address ≠ A) →
          (type = BREAKPOINT_TARGET →
            ¬ ((s'.threads thread_id).Rsp ≤ A ∧
                A < (s'.threads thread_id).Rsp + s'.child_ptr_size)) →
          s2.mem.byte A = s.mem.byte A)) := by
  -- the state in which the handler runs
  have key : ∃ sd, consumeBreakpoint env A thread_id s' =
        .ok (some (⟨A, s.mem.byte A, type⟩, sd)) ∧
      sd.mem.byte A = s.mem.byte A ∧ (sd.threads thread_id).Rip = A ∧
      sd.breakpoints = s.breakpoints ∧
      (sd.threads thread_id).Rsp = (s'.threads thread_id).Rsp ∧
      sd.child_ptr_size = s'.child_ptr_size := by
    refine ⟨SetThreadContext thread_id
      { (s'.threads thread_id) with Rip := ((s'.threads thread_id).Rip + env.word - 1) % env.word }
      { s' with
        breakpoints := s.breakpoints
        mem := s'.mem.store A 1 (fun _ => s.mem.byte A) }, ?_, ?_, ?_, rfl, ?_, rfl⟩
    · unfold consumeBreakpoint
      rw [htable, find_armed _ _ _ _ hfresh, erase_armed _ _ _ _ hfresh]
      simp only [WriteProcessMemory, canWrite_one, hw', if_true]
    · simp [SetThreadContext, Mem.byte, store_one_bytes]
    · simp only [SetThreadContext, if_true, hip]
      have : A + 1 + env.word - 1 = A + env.word := by omega
      rw [this, Nat.add_mod_right, Nat.mod_eq_of_lt (by omega)]
    · simp [SetThreadContext]
  obtain ⟨sd, hcons, hbyte, hrip, htab, hrsp, hcps⟩ := key
  have heq : HandleDebuggerBreakpoint env A thread_id s' =
      (handleBreakpointType env type thread_id sd).map (fun s2 => (type, s2)) := by
    unfold HandleDebuggerBreakpoint
    rw [hcons]
    cases hh : handleBreakpointType env type thread_id sd with
    | error e => simp [Except.map, hh]
    | ok s2 => simp [Except.map, hh]
  refine ⟨?_, ⟨sd, hcons, hbyte, hrip, htab, heq⟩, ?_, ?_⟩
  · refine ⟨_, AddBreakpoint_ok A type s hr hw, ?_, rfl⟩
    simp [Mem.byte, store_one_bytes]
  · intro h1 h2
    refine ⟨sd, ?_, hbyte, hrip, htab⟩
    rw [heq]
    simp [handleBreakpointType, h1, h2, Except.map]
  · intro r s2 hret
    rw [heq] at hret
    cases hh : handleBreakpointType env type thread_id sd with
    | error e => rw [hh] at hret; simp [Except.map] at hret
    | ok s3 =>
      rw [hh] at hret
      simp only [Except.map, Except.ok.injEq, Prod.mk.injEq] at hret
      obtain ⟨rfl, rfl⟩ := hret
      refine ⟨rfl, ?_⟩
      unfold handleBreakpointType at hh
      split at hh
      · -- Entrypoint
        rename_i hty
        obtain ⟨hth, added, hadd, hmem⟩ := OnEntrypoint_armedOnly hh
        refine ⟨by rw [hth, hrip], added, by rw [hadd, htab], ?_⟩
        intro hno _
        have := hmem A hno
        simp only [Mem.byte] at hbyte ⊢
        rw [this, hbyte]
      · split at hh
        · -- Target
          rename_i hty
          obtain ⟨hth, hbp, hmem⟩ := HandleTargetReachedInternal_keeps hh
          refine ⟨by rw [hth, hrip], [], by simp [hbp, htab], ?_⟩
          intro _ hsp
          have := hmem A (by rw [hrsp, hcps]; exact hsp hty)
          simp only [Mem.byte] at hbyte ⊢
          rw [this, hbyte]
        · simp only [Except.ok.injEq] at hh
          subst hh
          exact ⟨hrip, [], by simp [htab], fun _ _ => hbyte⟩

/-- C1, witness: the round trip of a Target breakpoint at `0x401000` whose
original byte is `0x55`. -/
theorem breakpoint_round_trip_witness :
    (∃ s1, AddBreakpoint 0x401000 BREAKPOINT_TARGET c1_before = .ok s1 ∧
      s1.mem.byte 0x401000 = 0xCC ∧
      s1.breakpoints = c1_before.breakpoints ++
        [{ address := 0x401000, original_opcode := c1_before.mem.byte 0x401000,
           type := BREAKPOINT_TARGET }]) ∧
    ∀ r s2, HandleDebuggerBreakpoint env64 0x401000 1 c1_hit = .ok (r, s2) →
      r = BREAKPOINT_TARGET ∧ (s2.threads 1).Rip = 0x401000 ∧
      ∃ added, s2.breakpoints = c1_before.breakpoints ++ added ∧
        ((∀ b, b ∈ added → b.address ≠ 0x401000) →
          (BREAKPOINT_TARGET = BREAKPOINT_TARGET →
            ¬ ((c1_hit.threads 1).Rsp ≤ 0x401000 ∧
                0x401000 < (c1_hit.threads 1).Rsp + c1_hit.child_ptr_size)) →
          s2.mem.byte 0x401000 = c1_before.mem.byte 0x401000) :=
  have h := breakpoint_round_trip env64 c1_before c1_hit 0x401000 1 BREAKPOINT_TARGET
    (by decide) (by decide) (by decide) (by decide) (by decide) (by decide) (by decide)
  ⟨h.1, h.2.2.2⟩

/-- C1, counterexample: the entrypoint of `t.exe` is also the configured target
function.  `OnProcessCreated` arms the Entrypoint breakpoint at `0x401000`
(original byte `0x55`); when it is hit, `OnEntrypoint` reports `t.exe` and
`OnModuleLoaded` arms the Target breakpoint at the same address, so after
`HandleDebuggerBreakpoint` the byte at `0x401000` is `0xCC` and the table has a
record for `0x401000`. -/
theorem breakpoint_round_trip_counterexample :
    c1_entry_is_target.mem.readable 0x401000 = true ∧
    c1_entry_is_target.mem.writable 0x401000 = true ∧
    c1_entry_is_target.breakpoints = [] ∧
    c1_entry_is_target.mem.byte 0x401000 = 0x55 ∧
    (c1_entry_is_target.threads 1).Rip = 0x401000 + 1 ∧
    (AddBreakpoint 0x401000 BREAKPOINT_ENTRYPOINT c1_entry_is_target).map
        (fun s1 => (s1.mem.byte 0x401000, s1.breakpoints)) =
      .ok (0xCC, [{ address := 0x401000, original_opcode := 0x55,
                    type := BREAKPOINT_ENTRYPOINT }]) ∧
    ((AddBreakpoint 0x401000 BREAKPOINT_ENTRYPOINT c1_entry_is_target >>= fun s1 =>
        HandleDebuggerBreakpoint env64 0x401000 1 s1).map
        (fun r => (r.1, r.2.mem.byte 0x401000, (r.2.threads 1).Rip, r.2.breakpoints))) =
      .ok (BREAKPOINT_ENTRYPOINT, 0xCC, 0x401000,
        [{ address := 0x401000, original_opcode := 0x55, type := BREAKPOINT_TARGET }]) := by
  decide!

end Debugger

namespace Debugger

/-! ## C2: the breakpoint table -/

theorem onePerAddress_of_table_eq {s s1 : State} (h : OnePerAddress s)
    (ht : s1.breakpoints = s.breakpoints) : OnePerAddress s1 := by
  unfold OnePerAddress at *
  rw [ht]
  exact h

theorem onePerAddress_append {s s1 : State} {a o : Nat} {t : Int} (h : OnePerAddress s)
    (hu : Unarmed s a)
    (ht : s1.breakpoints = s.breakpoints ++ [{ address := a, original_opcode := o, type := t }]) :
    OnePerAddress s1 := by
  unfold OnePerAddress at *
  rw [ht, List.map_append, List.nodup_append]
  refine ⟨h, by simp, ?_⟩
  intro x hx hx'
  simp only [List.map_cons, List.map_nil, List.mem_singleton] at hx'
  obtain ⟨b, hb, hbx⟩ := List.mem_map.mp hx
  exact hu b hb (hbx.trans hx')

theorem OnModuleLoaded_onePerAddress {env : Env} {module : Nat} {name : List Nat} {s s1 : State}
    (hs : OnePerAddress s) (hf : FreshLoad env module name s)
    (h : OnModuleLoaded env module name s = .ok s1) : OnePerAddress s1 := by
  have hf1 := hf s1 h
  rcases OnModuleLoaded_inv h with ⟨_, rfl⟩ | ⟨_, ta, off, _, _, _, rfl⟩
  · exact onePerAddress_of_table_eq hs rfl
  · refine onePerAddress_append hs (hf1 ?_) rfl
    intro e
    have := congrArg List.length e
    simp at this

theorem reportModules_onePerAddress {env : Env} (ms : List Module) : ∀ {s s1 : State},
    OnePerAddress s → FreshLoads env ms s → reportModules env ms s = .ok s1 →
    OnePerAddress s1 := by
  induction ms with
  | nil =>
    intro s s1 hs _ h
    simp only [reportModules, Except.ok.injEq] at h
    exact h ▸ hs
  | cons m ms ih =>
    intro s s1 hs hf h
    simp only [reportModules, bind_eq_ok] at h
    obtain ⟨s2, h1, h2⟩ := h
    exact ih (OnModuleLoaded_onePerAddress hs hf.1 h1) (hf.2 s2 h1) h2

theorem step_onePerAddress {env : Env} (op : TableOp) {s s1 : State} (hs : OnePerAddress s)
    (hf : op.Fresh env s) (h : op.apply env s = .ok s1) : OnePerAddress s1 := by
  cases op with
  | AddBreakpoint address type =>
    obtain ⟨_, _, rfl⟩ := AddBreakpoint_inv h
    exact onePerAddress_append hs hf rfl
  | OnModuleLoaded module name => exact OnModuleLoaded_onePerAddress hs hf h
  | HandleDebuggerBreakpoint address thread_id =>
    simp only [TableOp.apply, HandleDebuggerBreakpoint] at h
    cases hc : consumeBreakpoint env address thread_id s with
    | error e => simp [hc, Except.map] at h
    | ok r =>
      cases r with
      | none =>
        simp only [hc, Except.map, Except.ok.injEq] at h
        exact h ▸ hs
      | some p =>
        obtain ⟨bp, sd⟩ := p
        have hsd : OnePerAddress sd := by
          unfold OnePerAddress at *
          rw [consumeBreakpoint_table hc]
          exact hs.sublist ((List.eraseP_sublist _).map _)
        simp only [hc] at h
        cases hh : handleBreakpointType env bp.type thread_id sd with
        | error e => simp [hh, Except.map] at h
        | ok s2 =>
          simp only [hh, Except.map, Except.ok.injEq] at h
          subst h
          unfold handleBreakpointType at hh
          split at hh
          · rename_i hty
            obtain ⟨ms, s3, hms, h3, rfl⟩ := OnEntrypoint_inv hh
            exact onePerAddress_of_table_eq
              (reportModules_onePerAddress ms hsd (hf bp sd ms hc hty hms) h3) rfl
          · split at hh
            · obtain ⟨_, b, rfl⟩ := HandleTargetReachedInternal_inv hh
              exact onePerAddress_of_table_eq hsd rfl
            · simp only [Except.ok.injEq] at hh
              exact hh ▸ hsd
  | HandleTargetEnded thread_id =>
    simp only [TableOp.apply] at h
    cases hl : s.loop_mode with
    | true =>
      obtain ⟨_, lc, m, _, rfl⟩ := HandleTargetEnded_loop hl h
      exact onePerAddress_of_table_eq hs rfl
    | false =>
      obtain ⟨s2, h2, rfl⟩ := HandleTargetEnded_single hl h
      obtain ⟨_, _, rfl⟩ := AddBreakpoint_inv h2
      exact onePerAddress_append hs (hf hl) rfl
  | DeleteBreakpoints =>
    simp only [TableOp.apply, Except.ok.injEq] at h
    subst h
    simp [OnePerAddress, DeleteBreakpoints]

/-- C2 (amended): in every state reachable from an empty table through
`AddBreakpoint`, `OnModuleLoaded`, `HandleDebuggerBreakpoint`,
`HandleTargetEnded` and `DeleteBreakpoints` (with the child running in
between), the table holds at most one record per address, provided no
operation arms a breakpoint at an address that already has a record;
and after `DeleteBreakpoints` the table is empty. -/
theorem table_one_record_per_address (env : Env) (s : State) (h : Reachable env true s) :
    OnePerAddress s ∧ (DeleteBreakpoints s).breakpoints = [] := by
  refine ⟨?_, rfl⟩
  induction h with
  | init s h0 => simp [OnePerAddress, h0]
  | step op s s1 _ hf happ ih => exact step_onePerAddress op ih (hf rfl) happ
  | resume s mem threads modules _ ih => exact onePerAddress_of_table_eq ih rfl

/-- C2, witness: two breakpoints armed at different addresses from an empty table. -/
theorem table_one_record_per_address_witness :
    Reachable env64 true c2_armed_twice ∧
    c2_armed_twice.breakpoints =
      [{ address := 0x401000, original_opcode := 0x55, type := BREAKPOINT_TARGET },
       { address := 0x401005, original_opcode := 0, type := BREAKPOINT_ENTRYPOINT }] ∧
    OnePerAddress c2_armed_twice ∧ (DeleteBreakpoints c2_armed_twice).breakpoints = [] :=
  have hadd1 : (TableOp.AddBreakpoint 0x401000 BREAKPOINT_TARGET).apply env64 c1_before =
      .ok c2_armed := AddBreakpoint_ok 0x401000 BREAKPOINT_TARGET c1_before rfl rfl
  have hadd2 : (TableOp.AddBreakpoint 0x401005 BREAKPOINT_ENTRYPOINT).apply env64 c2_armed =
      .ok c2_armed_twice := AddBreakpoint_ok 0x401005 BREAKPOINT_ENTRYPOINT c2_armed rfl rfl
  have hfresh1 : Unarmed c1_before 0x401000 := by unfold Unarmed; decide
  have hfresh2 : Unarmed c2_armed 0x401005 := by unfold Unarmed; decide
  have hreach : Reachable env64 true c2_armed_twice :=
    Reachable.step (.AddBreakpoint 0x401005 BREAKPOINT_ENTRYPOINT) c2_armed c2_armed_twice
      (Reachable.step (.AddBreakpoint 0x401000 BREAKPOINT_TARGET) c1_before c2_armed
        (Reachable.init c1_before rfl) (fun _ => hfresh1) hadd1)
      (fun _ => hfresh2) hadd2
  ⟨hreach, by decide, table_one_record_per_address env64 c2_armed_twice hreach⟩

/-- C2, counterexample: the target module `t.exe` is reported twice by
`OnModuleLoaded` (as when it is unloaded and loaded again before the target is
hit).  Each call arms the Target breakpoint at `0x401000`; the table then holds
two records for that address, the second with `0xCC` as saved byte. -/
theorem table_one_record_per_address_counterexample :
    c1_entry_is_target.breakpoints = [] ∧
    ((TableOp.OnModuleLoaded 0x400000 name_t_exe).apply env64 c1_entry_is_target >>=
        (TableOp.OnModuleLoaded 0x400000 name_t_exe).apply env64).map
        (fun s => s.breakpoints) =
      .ok [{ address := 0x401000, original_opcode := 0x55, type := BREAKPOINT_TARGET },
           { address := 0x401000, original_opcode := 0xCC, type := BREAKPOINT_TARGET }] ∧
    ∃ s, Reachable env64 false s ∧ ¬ OnePerAddress s := by
  have e : ((TableOp.OnModuleLoaded 0x400000 name_t_exe).apply env64 c1_entry_is_target >>=
        (TableOp.OnModuleLoaded 0x400000 name_t_exe).apply env64).map
        (fun s => s.breakpoints) =
      .ok [{ address := 0x401000, original_opcode := 0x55, type := BREAKPOINT_TARGET },
           { address := 0x401000, original_opcode := 0xCC, type := BREAKPOINT_TARGET }] := by
    decide!
  refine ⟨rfl, e, ?_⟩
  cases h1 : (TableOp.OnModuleLoaded 0x400000 name_t_exe).apply env64 c1_entry_is_target with
  | error err => rw [h1] at e; simp [bind, Except.bind, Except.map] at e
  | ok s1 =>
    cases h2 : (TableOp.OnModuleLoaded 0x400000 name_t_exe).apply env64 s1 with
    | error err => rw [h1] at e; simp [bind, Except.bind, Except.map, h2] at e
    | ok s2 =>
      rw [h1] at e
      simp only [bind, Except.bind, h2, Except.map, Except.ok.injEq] at e
      refine ⟨s2, Reachable.step _ s1 s2 (Reachable.step _ _ s1 (Reachable.init _ rfl)
        (fun hg => Bool.noConfusion hg) h1) (fun hg => Bool.noConfusion hg) h2, ?_⟩
      unfold OnePerAddress
      rw [e]
      decide

end Debugger

namespace Debugger

/-! ## C3: Microsoft x64 convention in loop mode -/

theorem ptr_size_win64 (env : Env) (h : env.win64 = true) : env.ptr_size = 8 := by
  simp [Env.ptr_size, h]

theorem word_win64 (env : Env) (h : env.win64 = true) : env.word = 2 ^ 64 := by
  simp [Env.word, ptr_size_win64 env h]

/-- The capture of the arguments by the entry protocol, Microsoft x64 convention. -/
theorem saveArgs_ms64 (env : Env) (lcContext : Context) (s : State)
    (hwin : env.win64 = true) (hwow : s.wow64_target = false) (hcps : s.child_ptr_size = 8)
    (hcc : s.calling_convention = CALLCONV_MICROSOFT_X64 ∨ s.calling_convention = CALLCONV_DEFAULT)
    (hargs : s.target_num_args ≠ 0 →
      ∃ b, s.saved_args = some b ∧ s.target_num_args * 8 ≤ b.size)
    (hsp : lcContext.Rsp + 8 * (s.target_num_args + 1) ≤ 2 ^ 64)
    (hread : s.mem.canRead (lcContext.Rsp + 40) ((s.target_num_args - 4) * 8) = true) :
    ∃ o, saveArgs env lcContext s = .ok { s with saved_args := o } ∧
      (s.target_num_args ≠ 0 → ∃ b, o = some b ∧ s.target_num_args * 8 ≤ b.size ∧
        ∀ i, i < s.target_num_args → leRead b.data (i * 8) 8 = ms64Arg lcContext s.mem i) := by
  have hW := ptr_size_win64 env hwin
  have hcc' : s.calling_convention = CALLCONV_DEFAULT ∨
      s.calling_convention = CALLCONV_MICROSOFT_X64 := hcc.symm
  by_cases hn : s.target_num_args = 0
  · refine ⟨s.saved_args, ?_, fun h => absurd hn h⟩
    have g0 : ¬ (s.target_num_args > 0) := by omega
    have g1 : ¬ (s.target_num_args > 1) := by omega
    have g2 : ¬ (s.target_num_args > 2) := by omega
    have g3 : ¬ (s.target_num_args > 3) := by omega
    have g4 : ¬ (s.target_num_args > 4) := by omega
    simp only [saveArgs, hwin, hcc', if_true, saveRegArg, g0, g1, g2, g3, g4, if_false, bind,
      Except.bind, pure, Except.pure]
  · obtain ⟨b, hb, hsz⟩ := hargs hn
    have hsz' : s.target_num_args * env.ptr_size ≤ b.size := by rw [hW]; exact hsz
    obtain ⟨b1, e1, hs1, hv1, ho1⟩ := saveRegArg_spec env s b 0 lcContext.Rcx hb hsz'
    obtain ⟨b2, e2, hs2, hv2, ho2⟩ := saveRegArg_spec env { s with saved_args := some b1 } b1 1
      lcContext.Rdx rfl (by rw [hs1]; exact hsz')
    obtain ⟨b3, e3, hs3, hv3, ho3⟩ := saveRegArg_spec env { s with saved_args := some b2 } b2 2
      lcContext.R8 rfl (by rw [hs2, hs1]; exact hsz')
    obtain ⟨b4, e4, hs4, hv4, ho4⟩ := saveRegArg_spec env { s with saved_args := some b3 } b3 3
      lcContext.R9 rfl (by rw [hs3, hs2, hs1]; exact hsz')
    simp only at e2 e3 e4 hv2 hv3 hv4
    rw [hW] at hv1 hv2 hv3 hv4 ho1 ho2 ho3 ho4
    have hsz4 : s.target_num_args * 8 ≤ b4.size := by rw [hs4, hs3, hs2, hs1]; exact hsz
    have hregs : ∀ i, i < s.target_num_args → i < 4 →
        leRead b4.data (i * 8) 8 = ms64Arg lcContext s.mem i := by
      intro i hi hi4
      unfold ms64Arg
      interval_cases i
      · rw [ho4 0 (by omega), ho3 0 (by omega), ho2 0 (by omega), hv1 hi]; simp
      · rw [ho4 1 (by omega), ho3 1 (by omega), hv2 hi]; simp
      · rw [ho4 2 (by omega), hv3 hi]; simp
      · rw [hv4 hi]; simp
    by_cases h4 : s.target_num_args > 4
    · have haddr : (lcContext.Rsp + 5 * 8) % env.word = lcContext.Rsp + 40 := by
        rw [word_win64 env hwin]
        exact Nat.mod_eq_of_lt (by omega)
      obtain ⟨b5, e5, hs5, hlow5, hhigh5⟩ := readStackArgs_spec env
        { s with saved_args := some b4 } b4 lcContext.Rsp 5 4
        (by simp [hwow]) rfl (by rw [hW]; exact hsz4) (by rw [hW]; exact hcps) (by
          show 4 ≤ s.target_num_args
          omega) (by
          show s.mem.canRead ((lcContext.Rsp + 5 * s.child_ptr_size) % env.word)
            ((s.target_num_args - 4) * s.child_ptr_size) = true
          rw [hcps, haddr]
          exact hread)
      simp only at e5 hlow5 hhigh5
      rw [hW] at hlow5 hhigh5
      refine ⟨some b5, ?_, fun _ => ⟨b5, rfl, by rw [hs5]; exact hsz4, ?_⟩⟩
      · simp only [saveArgs, hwin, hcc', if_true, bind, Except.bind, e1, e2, e3, e4, h4, e5]
      · intro i hi
        by_cases hi4 : i < 4
        · rw [hlow5 i hi4]
          exact hregs i hi hi4
        · rw [hhigh5 i (by omega) hi, hcps, haddr]
          unfold ms64Arg
          have h0 : ¬ i = 0 := by omega
          have h1 : ¬ i = 1 := by omega
          have h2 : ¬ i = 2 := by omega
          have h3 : ¬ i = 3 := by omega
          simp only [h0, h1, h2, h3, if_false]
          congr 1
          omega
    · refine ⟨some b4, ?_, fun _ => ⟨b4, rfl, hsz4, ?_⟩⟩
      · simp only [saveArgs, hwin, hcc', if_true, bind, Except.bind, e1, e2, e3, e4, h4,
          if_false, pure, Except.pure]
      · intro i hi
        exact hregs i hi (by omega)

theorem loadRegArg_spec (env : Env) (s : State) (b : Buf) (i reg : Nat)
    (hb : s.saved_args = some b) (hsz : s.target_num_args * env.ptr_size ≤ b.size) :
    loadRegArg env i reg s =
      .ok (if i < s.target_num_args then leRead b.data (i * env.ptr_size) env.ptr_size
           else reg) := by
  unfold loadRegArg
  by_cases hi : s.target_num_args > i
  · have h1 : (i + 1) * env.ptr_size ≤ b.size :=
      le_trans (Nat.mul_le_mul_right _ hi) hsz
    simp only [hi, if_true, getArg_ok env s b i hb h1]
  · simp [hi, show ¬ i < s.target_num_args from hi]

theorem leRead_shift (f : Nat → Nat) (c k n : Nat) :
    leRead (fun j => f (c + j)) k n = leRead f (c + k) n := by
  apply leRead_congr
  intro i _
  simp [Nat.add_assoc]

theorem getD_write_readable (m : Mem) (a n : Nat) (src : Nat → Nat) :
    ((WriteProcessMemory m a n src).getD m).writable = m.writable := by
  unfold WriteProcessMemory
  split <;> simp [Mem.store]

theorem canWrite_congr (m m1 : Mem) (a n : Nat) (h : m1.writable = m.writable) :
    m1.canWrite a n = m.canWrite a n := by
  unfold Mem.canWrite
  rw [h]

/-- The restore of the arguments by the return protocol, Microsoft x64
convention: the registers get the items of `saved_args`, the stack slots from
`sp + 40` on get the items from index 4 on. -/
theorem restoreArgs_ms64 (env : Env) (lcContext : Context) (s : State) (b : Buf)
    (hwin : env.win64 = true) (hwow : s.wow64_target = false) (hcps : s.child_ptr_size = 8)
    (hcc : s.calling_convention = CALLCONV_MICROSOFT_X64 ∨ s.calling_convention = CALLCONV_DEFAULT)
    (hb : s.saved_args = some b) (hsz : s.target_num_args * 8 ≤ b.size)
    (hsp : lcContext.Rsp + 8 * (s.target_num_args + 1) ≤ 2 ^ 64)
    (hwrite : s.mem.canWrite (lcContext.Rsp + 40) ((s.target_num_args - 4) * 8) = true) :
    ∃ lc m, restoreArgs env lcContext s = .ok (lc, { s with mem := m }) ∧
      lc.Rip = lcContext.Rip ∧ lc.Rsp = lcContext.Rsp ∧
      (0 < s.target_num_args → lc.Rcx = leRead b.data (0 * 8) 8) ∧
      (1 < s.target_num_args → lc.Rdx = leRead b.data (1 * 8) 8) ∧
      (2 < s.target_num_args → lc.R8 = leRead b.data (2 * 8) 8) ∧
      (3 < s.target_num_args → lc.R9 = leRead b.data (3 * 8) 8) ∧
      (∀ i, 4 ≤ i → i < s.target_num_args →
        m.word (lcContext.Rsp + 8 * (5 + i - 4)) 8 = leRead b.data (i * 8) 8) ∧
      (∀ x, x < lcContext.Rsp + 40 → m.bytes x = s.mem.bytes x) := by
  have hW := ptr_size_win64 env hwin
  have hcc' : s.calling_convention = CALLCONV_DEFAULT ∨
      s.calling_convention = CALLCONV_MICROSOFT_X64 := hcc.symm
  have hsz' : s.target_num_args * env.ptr_size ≤ b.size := by rw [hW]; exact hsz
  have e0 := loadRegArg_spec env s b 0 lcContext.Rcx hb hsz'
  have e1 := loadRegArg_spec env s b 1 lcContext.Rdx hb hsz'
  have e2 := loadRegArg_spec env s b 2 lcContext.R8 hb hsz'
  have e3 := loadRegArg_spec env s b 3 lcContext.R9 hb hsz'
  rw [hW] at e0 e1 e2 e3
  by_cases h4 : s.target_num_args > 4
  · have haddr : (lcContext.Rsp + 5 * 8) % env.word = lcContext.Rsp + 40 := by
      rw [word_win64 env hwin]
      exact Nat.mod_eq_of_lt (by omega)
    have hin : 4 * 8 + (s.target_num_args - 4) * 8 ≤ b.size := by
      omega
    refine ⟨{ lcContext with
        Rcx := if 0 < s.target_num_args then leRead b.data (0 * 8) 8 else lcContext.Rcx
        Rdx := if 1 < s.target_num_args then leRead b.data (1 * 8) 8 else lcContext.Rdx
        R8 := if 2 < s.target_num_args then leRead b.data (2 * 8) 8 else lcContext.R8
        R9 := if 3 < s.target_num_args then leRead b.data (3 * 8) 8 else lcContext.R9 },
      (s.mem.store (lcContext.Rsp + 40) ((s.target_num_args - 4) * 8)
      (fun j => b.data (4 * 8 + j))), ?_, rfl, rfl, ?_, ?_, ?_, ?_, ?_, ?_⟩
    · simp only [restoreArgs, hwin, hcc', if_true, bind, Except.bind, e0, e1, e2, e3, h4,
        writeStackArgs, argsBuf, hb, WriteStack, hwow, Bool.and_false, Bool.false_eq_true,
        if_false, hin, hcps, haddr, hW, WriteProcessMemory, hwrite, Option.getD_some, pure,
        Except.pure]
    · intro h; simp [h]
    · intro h; simp [h]
    · intro h; simp [h]
    · intro h; simp [h]
    · intro i hi4 hin'
      rw [word_store_inside _ _ _ _ _ _ ⟨by omega, by omega⟩, leRead_shift]
      congr 1
      omega
    · intro x hx
      simp only [Mem.store]
      have : ¬ (lcContext.Rsp + 40 ≤ x ∧ x < lcContext.Rsp + 40 + (s.target_num_args - 4) * 8) := by
        omega
      simp only [this, if_false]
  · refine ⟨{ lcContext with
        Rcx := if 0 < s.target_num_args then leRead b.data (0 * 8) 8 else lcContext.Rcx
        Rdx := if 1 < s.target_num_args then leRead b.data (1 * 8) 8 else lcContext.Rdx
        R8 := if 2 < s.target_num_args then leRead b.data (2 * 8) 8 else lcContext.R8
        R9 := if 3 < s.target_num_args then leRead b.data (3 * 8) 8 else lcContext.R9 },
      s.mem, ?_, rfl, rfl, ?_, ?_, ?_, ?_, ?_, fun _ _ => rfl⟩
    · simp only [restoreArgs, hwin, hcc', if_true, bind, Except.bind, e0, e1, e2, e3, h4,
        if_false, pure, Except.pure]
    · intro h; simp [h]
    · intro h; simp [h]
    · intro h; simp [h]
    · intro h; simp [h]
    · intro i hi4 hin'
      omega

/-- The return protocol returns when the restore of the arguments does. -/
theorem HandleTargetEnded_loop_ok (env : Env) (thread_id : Nat) (s s3 : State) (lc : Context)
    (hl : s.loop_mode = true) (hle : s.child_ptr_size ≤ env.ptr_size)
    (hrest : restoreArgs env
      { (s.threads thread_id) with Rip := s.target_address, Rsp := s.saved_sp }
      { s with mem := (WriteProcessMemory s.mem s.saved_sp s.child_ptr_size
          (leByte PERSIST_END_EXCEPTION)).getD s.mem } = .ok (lc, s3)) :
    HandleTargetEnded env thread_id s = .ok (SetThreadContext thread_id lc s3) := by
  simp only at hrest
  unfold HandleTargetEnded
  rw [if_pos hl]
  simp only [if_true, bind, Except.bind, writeSentinel, hle, pure, Except.pure, hrest]

/-- `restoreArgs_ms64` in terms of `getArg`, also for a function without arguments. -/
theorem restoreArgs_ms64_args (env : Env) (lcContext : Context) (s : State)
    (hwin : env.win64 = true) (hwow : s.wow64_target = false) (hcps : s.child_ptr_size = 8)
    (hcc : s.calling_convention = CALLCONV_MICROSOFT_X64 ∨ s.calling_convention = CALLCONV_DEFAULT)
    (hargs : s.target_num_args ≠ 0 →
      ∃ b, s.saved_args = some b ∧ s.target_num_args * 8 ≤ b.size)
    (hsp : lcContext.Rsp + 8 * (s.target_num_args + 1) ≤ 2 ^ 64)
    (hwrite : s.mem.canWrite (lcContext.Rsp + 40) ((s.target_num_args - 4) * 8) = true) :
    ∃ lc m, restoreArgs env lcContext s = .ok (lc, { s with mem := m }) ∧
      lc.Rip = lcContext.Rip ∧ lc.Rsp = lcContext.Rsp ∧
      (0 < s.target_num_args → getArg env 0 s = .ok lc.Rcx) ∧
      (1 < s.target_num_args → getArg env 1 s = .ok lc.Rdx) ∧
      (2 < s.target_num_args → getArg env 2 s = .ok lc.R8) ∧
      (3 < s.target_num_args → getArg env 3 s = .ok lc.R9) ∧
      (∀ i, 4 ≤ i → i < s.target_num_args →
        getArg env i s = .ok (m.word (lcContext.Rsp + 8 * (5 + i - 4)) 8)) ∧
      (∀ x, x < lcContext.Rsp + 40 → m.bytes x = s.mem.bytes x) := by
  have hW := ptr_size_win64 env hwin
  by_cases hn : s.target_num_args = 0
  · have hcc' : s.calling_convention = CALLCONV_DEFAULT ∨
        s.calling_convention = CALLCONV_MICROSOFT_X64 := hcc.symm
    have g0 : ¬ (s.target_num_args > 0) := by omega
    have g1 : ¬ (s.target_num_args > 1) := by omega
    have g2 : ¬ (s.target_num_args > 2) := by omega
    have g3 : ¬ (s.target_num_args > 3) := by omega
    have g4 : ¬ (s.target_num_args > 4) := by omega
    refine ⟨lcContext, s.mem, ?_, rfl, rfl, fun h => absurd h g0, fun h => absurd h g1,
      fun h => absurd h g2, fun h => absurd h g3, fun i _ hi => absurd hi (by omega),
      fun _ _ => rfl⟩
    simp only [restoreArgs, hwin, hcc', if_true, loadRegArg, g0, g1, g2, g3, g4, if_false, bind,
      Except.bind, pure, Except.pure]
  · obtain ⟨b, hb, hsz⟩ := hargs hn
    obtain ⟨lc, m, h1, h2, h3, h4, h5, h6, h7, h8, h9⟩ :=
      restoreArgs_ms64 env lcContext s b hwin hwow hcps hcc hb hsz hsp hwrite
    have hg : ∀ i, i < s.target_num_args → getArg env i s = .ok (leRead b.data (i * 8) 8) := by
      intro i hi
      have := getArg_ok env s b i hb (by
        rw [hW]
        have : (i + 1) * 8 ≤ s.target_num_args * 8 := Nat.mul_le_mul_right _ hi
        omega)
      rw [hW] at this
      exact this
    refine ⟨lc, m, h1, h2, h3, ?_, ?_, ?_, ?_, ?_, h9⟩
    · intro h; rw [hg 0 h, h4 h]
    · intro h; rw [hg 1 h, h5 h]
    · intro h; rw [hg 2 h, h6 h]
    · intro h; rw [hg 3 h, h7 h]
    · intro i hi4 hi; rw [hg i hi, h8 i hi4 hi]

/-- C3: loop mode, 64-bit target, convention MicrosoftX64 or Default.  For every
`target_num_args`, the entry protocol stores `rcx, rdx, r8, r9` and the 8-byte
stack words at `sp + 8 * (5 + i - 4)` into `saved_args` (`ms64Arg` is that
list); and whatever memory and registers the function leaves behind, the
return protocol writes exactly those values back to the same registers and to
the same stack slots relative to `saved_sp`.  The array `saved_args` is
allocated as `Init` does, the argument area lies inside the address space and
is accessible to `ReadProcessMemory` / `WriteProcessMemory`. -/
theorem ms64_loop_round_trip (env : Env) (s : State) (thread_id : Nat) (mem2 : Mem)
    (threads2 : Nat → Context)
    (hwin : env.win64 = true) (hwow : s.wow64_target = false) (hcps : s.child_ptr_size = 8)
    (hloop : s.loop_mode = true)
    (hcc : s.calling_convention = CALLCONV_MICROSOFT_X64 ∨ s.calling_convention = CALLCONV_DEFAULT)
    (hargs : s.target_num_args ≠ 0 →
      ∃ b, s.saved_args = some b ∧ s.target_num_args * 8 ≤ b.size)
    (hsp : (s.threads thread_id).Rsp + 8 * (s.target_num_args + 1) ≤ 2 ^ 64)
    (hread : s.mem.canRead ((s.threads thread_id).Rsp + 40) ((s.target_num_args - 4) * 8) = true)
    (hwrite : mem2.canWrite ((s.threads thread_id).Rsp + 40)
      ((s.target_num_args - 4) * 8) = true) :
    ∃ s1 s3,
      HandleTargetReachedInternal env thread_id s = .ok s1 ∧
      (∀ i, i < s.target_num_args →
        getArg env i s1 = .ok (ms64Arg (s.threads thread_id) s.mem i)) ∧
      HandleTargetEnded env thread_id { s1 with mem := mem2, threads := threads2 } = .ok s3 ∧
      (0 < s.target_num_args →
        (s3.threads thread_id).Rcx = ms64Arg (s.threads thread_id) s.mem 0) ∧
      (1 < s.target_num_args →
        (s3.threads thread_id).Rdx = ms64Arg (s.threads thread_id) s.mem 1) ∧
      (2 < s.target_num_args →
        (s3.threads thread_id).R8 = ms64Arg (s.threads thread_id) s.mem 2) ∧
      (3 < s.target_num_args →
        (s3.threads thread_id).R9 = ms64Arg (s.threads thread_id) s.mem 3) ∧
      ∀ i, 4 ≤ i → i < s.target_num_args →
        s3.mem.word ((s.threads thread_id).Rsp + 8 * (5 + i - 4)) 8 =
          ms64Arg (s.threads thread_id) s.mem i := by
  have hW := ptr_size_win64 env hwin
  have hle : s.child_ptr_size ≤ env.ptr_size := by rw [hcps, hW]
  obtain ⟨o, hsave, hitems⟩ := saveArgs_ms64 env (s.threads thread_id)
    { s with
      saved_sp := (s.threads thread_id).Rsp
      saved_return_address :=
        if s.mem.canRead (s.threads thread_id).Rsp s.child_ptr_size then
          s.mem.word (s.threads thread_id).Rsp s.child_ptr_size
        else 0 } hwin hwow hcps hcc hargs hsp hread
  have hentry := HandleTargetReachedInternal_ok env thread_id s
    { s with
      saved_sp := (s.threads thread_id).Rsp
      saved_return_address :=
        if s.mem.canRead (s.threads thread_id).Rsp s.child_ptr_size then
          s.mem.word (s.threads thread_id).Rsp s.child_ptr_size
        else 0
      saved_args := o } hle (by rw [if_pos hloop]; exact hsave)
  rw [notifyTargetReached_eq] at hentry
  generalize hs1 : State.mk _ _ _ _ _ _ _ _ _ _ _ _ _ _ _ _ _ _ _ _ _ _ _ _ _ _ _ _ _ _ _ _ _ _
    = s1 at hentry
  have f_args : s1.saved_args = o := by rw [← hs1]
  have f_loop : s1.loop_mode = true := by rw [← hs1]; exact hloop
  have f_cps : s1.child_ptr_size = 8 := by rw [← hs1]; exact hcps
  have f_wow : s1.wow64_target = false := by rw [← hs1]; exact hwow
  have f_cc : s1.calling_convention = CALLCONV_MICROSOFT_X64 ∨
      s1.calling_convention = CALLCONV_DEFAULT := by rw [← hs1]; exact hcc
  have f_n : s1.target_num_args = s.target_num_args := by rw [← hs1]
  have f_sp : s1.saved_sp = (s.threads thread_id).Rsp := by rw [← hs1]
  -- the captured values, read through `getArg`
  have hcap : ∀ (st : State), st.saved_args = o → ∀ i, i < s.target_num_args →
      getArg env i st = .ok (ms64Arg (s.threads thread_id) s.mem i) := by
    intro st hst i hi
    have hn : s.target_num_args ≠ 0 := by omega
    obtain ⟨b, hb, hsz, hval⟩ := hitems hn
    have hsz' : s.target_num_args * 8 ≤ b.size := hsz
    have hval' : leRead b.data (i * 8) 8 = ms64Arg (s.threads thread_id) s.mem i := hval i hi
    have hin : (i + 1) * env.ptr_size ≤ b.size := by
      rw [hW]
      have : (i + 1) * 8 ≤ s.target_num_args * 8 := Nat.mul_le_mul_right _ hi
      omega
    rw [getArg_ok env st b i (hst.trans hb) hin, hW, hval']
  obtain ⟨lc, m, hrest, hrip, hrsp, h0, h1, h2, h3, hst, _⟩ := restoreArgs_ms64_args env
    { (threads2 thread_id) with Rip := s1.target_address, Rsp := s1.saved_sp }
    { s1 with
      threads := threads2
      mem := (WriteProcessMemory mem2 s1.saved_sp s1.child_ptr_size
        (leByte PERSIST_END_EXCEPTION)).getD mem2 }
    hwin f_wow f_cps f_cc (by
      intro hn
      obtain ⟨b, hb, hsz, _⟩ := hitems (f_n ▸ hn)
      exact ⟨b, f_args.trans hb, by
        show s1.target_num_args * 8 ≤ b.size
        rw [f_n]
        exact hsz⟩) (by
      show s1.saved_sp + 8 * (s1.target_num_args + 1) ≤ 2 ^ 64
      rw [f_sp, f_n]
      exact hsp) (by
      exact (canWrite_congr mem2 _ _ _ (getD_write_readable mem2 _ _ _)).trans (by
        rw [f_sp, f_n]
        exact hwrite))
  have hret := HandleTargetEnded_loop_ok env thread_id
    { s1 with mem := mem2, threads := threads2 } _ lc f_loop (by
      show s1.child_ptr_size ≤ env.ptr_size
      rw [f_cps, hW]) hrest
  have hn2 : ∀ i, i < s.target_num_args → i < s1.target_num_args := fun i hi => by
    rw [f_n]; exact hi
  refine ⟨s1, _, hentry, hcap s1 f_args, hret, ?_, ?_, ?_, ?_, ?_⟩
  · intro h
    have := (hcap _ f_args 0 h).symm.trans (h0 (hn2 0 h))
    simp only [Except.ok.injEq] at this
    simp [SetThreadContext, this]
  · intro h
    have := (hcap _ f_args 1 h).symm.trans (h1 (hn2 1 h))
    simp only [Except.ok.injEq] at this
    simp [SetThreadContext, this]
  · intro h
    have := (hcap _ f_args 2 h).symm.trans (h2 (hn2 2 h))
    simp only [Except.ok.injEq] at this
    simp [SetThreadContext, this]
  · intro h
    have := (hcap _ f_args 3 h).symm.trans (h3 (hn2 3 h))
    simp only [Except.ok.injEq] at this
    simp [SetThreadContext, this]
  · intro i hi4 hi
    have := (hcap _ f_args i hi).symm.trans (hst i hi4 (hn2 i hi))
    simp only [Except.ok.injEq] at this
    simp only [SetThreadContext]
    rw [this, f_sp]

/-- C3, witness (scenario S2): five arguments `{1,2,3,4,5}`; after the return
protocol `rcx = 1, rdx = 2, r8 = 3, r9 = 4` and the slot at `sp + 40` is `5`,
although the function overwrote all of them. -/
theorem ms64_loop_round_trip_witness :
    ∃ s1 s3, HandleTargetReachedInternal env64 1 c3_entry = .ok s1 ∧
      HandleTargetEnded env64 1 { s1 with mem := c3_mem_after, threads := c3_threads_after } =
        .ok s3 ∧
      (s3.threads 1).Rcx = 1 ∧ (s3.threads 1).Rdx = 2 ∧ (s3.threads 1).R8 = 3 ∧
      (s3.threads 1).R9 = 4 ∧ s3.mem.word (0x7ff000 + 40) 8 = 5 := by
  obtain ⟨s1, s3, h1, _, h3, hc, hd, h8, h9, hst⟩ :=
    ms64_loop_round_trip env64 c3_entry 1 c3_mem_after c3_threads_after rfl rfl rfl rfl
      (Or.inl rfl) (fun _ => ⟨_, rfl, by decide⟩) (by decide) (by decide) (by decide)
  refine ⟨s1, s3, h1, h3, ?_, ?_, ?_, ?_, ?_⟩
  · rw [hc (by decide)]; decide
  · rw [hd (by decide)]; decide
  · rw [h8 (by decide)]; decide
  · rw [h9 (by decide)]; decide
  · have := hst 4 (by decide) (by decide)
    rw [show (c3_entry.threads 1).Rsp + 8 * (5 + 4 - 4) = 0x7ff000 + 40 from by decide] at this
    rw [this]
    decide

end Debugger

namespace Debugger

/-! ## C4: fastcall and thiscall in loop mode -/

/-- C4 (code defect): a 32-bit fastcall target with three arguments
`{10, 20, 30}` whose body overwrites its stack.  The entry protocol does not
capture the stack argument (`saved_args[2]` keeps its uninitialised content)
and after the return protocol `ecx = 10`, `edx = 20` but the slot at `sp + 4`
still holds `0xEEEEEEEE`, not `30`: both protocols test `target_num_args > 3`.
The same happens to the stack argument of a thiscall target with two
arguments. -/
theorem fastcall_three_args_not_restored :
    c4_fastcall.mem.word (0x12f000 + 4) 4 = 30 ∧
    (HandleTargetReachedInternal env32 1 c4_fastcall >>= fun s1 => getArg env32 2 s1) =
      .ok 0xCDCDCDCD ∧
    ((HandleTargetReachedInternal env32 1 c4_fastcall >>= fun s1 =>
        HandleTargetEnded env32 1
          { s1 with mem := c4_mem_after, threads := c4_threads_after }).map
        (fun s3 => ((s3.threads 1).Rcx, (s3.threads 1).Rdx, s3.mem.word (0x12f000 + 4) 4))) =
      .ok (10, 20, 0xEEEEEEEE) ∧
    ((HandleTargetReachedInternal env32 1 c4_thiscall >>= fun s1 =>
        HandleTargetEnded env32 1
          { s1 with mem := c4_mem_after, threads := c4_threads_after }).map
        (fun s3 => ((s3.threads 1).Rcx, s3.mem.word (0x12f000 + 4) 4))) =
      .ok (10, 0xEEEEEEEE) := by
  decide!

end Debugger

namespace Debugger

/-! ## C5: the sentinel return address -/

/-- C5: in a well-formed state (child pointers of 4 or 8 bytes, not wider than
the debugger's) whose return-address slot is writable, the entry protocol
returns, the `child_ptr_size`-byte little-endian word at `saved_sp` is `0x0F22`
afterwards, no byte outside that slot and no page protection is changed, and
the word written is the constant `HandleExceptionInternal` compares the address
of an access violation with: the return protocol runs exactly for that
address, any other address is a crash. -/
theorem sentinel_safety (env : Env) (s : State) (thread_id : Nat) (hwf : WellFormed env s)
    (hcc : s.loop_mode = true →
      env.win64 = true ∨ s.calling_convention ≠ CALLCONV_MICROSOFT_X64)
    (hw : s.mem.canWrite (s.threads thread_id).Rsp s.child_ptr_size = true) :
    ∃ s1, HandleTargetReachedInternal env thread_id s = .ok s1 ∧
      s1.saved_sp = (s.threads thread_id).Rsp ∧ s1.child_ptr_size = s.child_ptr_size ∧
      s1.mem.word s1.saved_sp s1.child_ptr_size = 0x0F22 ∧
      (∀ x, ¬ (s1.saved_sp ≤ x ∧ x < s1.saved_sp + s1.child_ptr_size) →
        s1.mem.bytes x = s.mem.bytes x) ∧
      s1.mem.readable = s.mem.readable ∧ s1.mem.writable = s.mem.writable ∧
      ∀ (st : State) (record : ExceptionRecord) (tid : Nat),
        record.ExceptionCode = EXCEPTION_ACCESS_VIOLATION →
        st.target_function_defined = true → env.OnException record tid = false →
        HandleExceptionInternal env record tid st =
          if record.ExceptionAddress = s1.mem.word s1.saved_sp s1.child_ptr_size then
            (HandleTargetEnded env tid
              { st with calls := st.calls ++ [.OnException record tid] }).map
              (fun st1 => (DebuggerStatus.DEBUGGER_TARGET_END, st1))
          else
            .ok (DebuggerStatus.DEBUGGER_CRASHED,
              { st with
                calls := st.calls ++ [.OnException record tid]
                dbg_continue_status := DBG_EXCEPTION_NOT_HANDLED }) := by
  obtain ⟨o, ho⟩ := HandleTargetReachedInternal_total env thread_id s hwf hcc
  have hmem : (WriteProcessMemory s.mem (s.threads thread_id).Rsp s.child_ptr_size
      (leByte PERSIST_END_EXCEPTION)).getD s.mem =
      s.mem.store (s.threads thread_id).Rsp s.child_ptr_size (leByte PERSIST_END_EXCEPTION) := by
    simp [WriteProcessMemory, hw]
  rw [hmem] at ho
  have hword := sentinel_word s.mem (s.threads thread_id).Rsp s.child_ptr_size hwf.1
  refine ⟨_, ho, rfl, rfl, hword, ?_, rfl, rfl, ?_⟩
  · intro x hx
    simp only [Mem.store]
    simp only at hx
    simp only [hx, if_false]
  · intro st record tid hcode hdef hclient
    simp only [hword]
    exact HandleExceptionInternal_access_violation env st record tid hcode hdef hclient

/-- C5, witness: the entry protocol on the 64-bit target of scenario S2 and on
the 32-bit target of scenario S3 leaves `0x0F22` in the return-address slot. -/
theorem sentinel_safety_witness :
    (∃ s1, HandleTargetReachedInternal env64 1 c3_entry = .ok s1 ∧
      s1.saved_sp = 0x7ff000 ∧ s1.mem.word 0x7ff000 8 = 0x0F22) ∧
    (∃ s1, HandleTargetReachedInternal env32 1 c4_fastcall = .ok s1 ∧
      s1.saved_sp = 0x12f000 ∧ s1.mem.word 0x12f000 4 = 0x0F22) := by
  constructor
  · obtain ⟨s1, h1, h2, h3, h4, _⟩ := sentinel_safety env64 c3_entry 1
      ⟨Or.inr rfl, by decide, fun _ => ⟨_, rfl, by decide⟩⟩ (fun _ => Or.inl rfl) (by decide)
    refine ⟨s1, h1, h2, ?_⟩
    rw [h2, h3] at h4
    exact h4
  · obtain ⟨s1, h1, h2, h3, h4, _⟩ := sentinel_safety env32 c4_fastcall 1
      ⟨Or.inl rfl, by decide, fun _ => ⟨_, rfl, by decide⟩⟩ (fun _ => Or.inr (by decide))
      (by decide)
    refine ⟨s1, h1, h2, ?_⟩
    rw [h2, h3] at h4
    exact h4

end Debugger

namespace Debugger

/-! ## C6: the return protocol in loop mode -/

theorem Buf.read_inv {b : Buf} {off n v : Nat} (h : b.read off n = .ok v) :
    off + n ≤ b.size ∧ v = leRead b.data off n := by
  unfold Buf.read at h
  split at h
  · rename_i hle
    simp only [Except.ok.injEq] at h
    exact ⟨hle, h.symm⟩
  · exact Except.noConfusion h

/-- The items `fillBuf32` stores: item `i + j` of `buf32` is item
`first + i + j` of `buffer`, truncated to 32 bits. -/
theorem fillBuf32_data (env : Env) (buffer : Buf) (first : Nat) :
    ∀ (todo i : Nat) (buf32 b1 : Buf), fillBuf32 env buffer first todo i buf32 = .ok b1 →
    (∀ x, x < 4 * i → b1.data x = buf32.data x) ∧
    ∀ j, j < todo → leRead b1.data (4 * (i + j)) 4 =
      leRead buffer.data ((first + (i + j)) * env.ptr_size) env.ptr_size % 256 ^ 4 := by
  intro todo
  induction todo with
  | zero =>
    intro i buf32 b1 h
    simp only [fillBuf32, Except.ok.injEq] at h
    subst h
    exact ⟨fun _ _ => rfl, fun j hj => absurd hj (Nat.not_lt_zero _)⟩
  | succ todo ih =>
    intro i buf32 b1 h
    simp only [fillBuf32, bind_eq_ok] at h
    obtain ⟨v, hv, b2, hb2, hrec⟩ := h
    obtain ⟨_, rfl⟩ := Buf.read_inv hv
    obtain ⟨_, rfl⟩ := Buf.write_inv hb2
    obtain ⟨hlow, hrest⟩ := ih (i + 1) _ b1 hrec
    refine ⟨fun x hx => ?_, fun j hj => ?_⟩
    · rw [hlow x (by omega)]
      have hout : ¬ (4 * i ≤ x ∧ x < 4 * i + 4) := by omega
      simp only [hout, if_false]
    · cases j with
      | zero =>
        rw [Nat.add_zero]
        have hword := leRead_leByte
          (leRead buffer.data ((first + i) * env.ptr_size) env.ptr_size) b1.data 4 (4 * i) 0
          (by
            intro k hk
            rw [hlow (4 * i + k) (by omega)]
            have hin : 4 * i ≤ 4 * i + k ∧ 4 * i + k < 4 * i + 4 := by omega
            simp only [hin, and_self, if_true, Nat.add_sub_cancel_left, Nat.zero_add,
              Nat.mod_mod]
            unfold leByte
            exact Nat.mod_mod _ _)
        rw [hword]
        simp
      | succ j =>
        have hj1 := hrest j (by omega)
        rw [show i + (j + 1) = i + 1 + j by omega]
        exact hj1

theorem slot_arith (c : Nat) (hc : c = 4 ∨ c = 8) (sp slot first n i W : Nat)
    (hfi : first ≤ i) (hin : i < n) (hsp : sp + (slot + (n - first)) * c ≤ W) :
    sp + slot * c < W ∧ sp + slot * c ≤ sp + (slot + (i - first)) * c ∧
    sp + (slot + (i - first)) * c + c ≤ sp + slot * c + (n - first) * c ∧
    sp + (slot + (i - first)) * c - (sp + slot * c) = (i - first) * c := by
  rcases hc with rfl | rfl <;> omega

theorem ptr_size_cases (env : Env) : env.ptr_size = 4 ∨ env.ptr_size = 8 := by
  unfold Env.ptr_size
  split
  · exact Or.inr rfl
  · exact Or.inl rfl

theorem stackWidth_cases {env : Env} {s : State} (h : StackWidthAgrees env s) :
    s.child_ptr_size = 4 ∨ s.child_ptr_size = 8 := by
  unfold StackWidthAgrees at h
  split at h
  · exact Or.inl h
  · rw [h]
    exact ptr_size_cases env

/-- The words `WriteStack` stores from the tail of `saved_args`. -/
theorem writeStackArgs_words (env : Env) (s : State) (sp slot first : Nat) (b : Buf)
    (hb : s.saved_args = some b) (hsz : s.target_num_args * env.ptr_size ≤ b.size)
    (hn : first < s.target_num_args) (hbits : StackWidthAgrees env s)
    (hsp : sp + (slot + (s.target_num_args - first)) * s.child_ptr_size ≤ env.word)
    (hw : s.mem.canWrite (sp + slot * s.child_ptr_size)
      ((s.target_num_args - first) * s.child_ptr_size) = true) :
    ∃ m, writeStackArgs env sp slot first s = .ok { s with mem := m } ∧
      ∀ i, first ≤ i → i < s.target_num_args →
        m.word (sp + (slot + (i - first)) * s.child_ptr_size) s.child_ptr_size =
          leRead b.data (i * env.ptr_size) env.ptr_size % 256 ^ s.child_ptr_size := by
  have hc := stackWidth_cases hbits
  have haddr : (sp + slot * s.child_ptr_size) % env.word = sp + slot * s.child_ptr_size :=
    Nat.mod_eq_of_lt (slot_arith _ hc sp slot first _ first _ (le_refl _) hn hsp).1
  unfold StackWidthAgrees at hbits
  by_cases hpath : (env.win64 && s.wow64_target) = true
  · rw [if_pos hpath] at hbits
    obtain ⟨b1, h1, _⟩ := fillBuf32_ok env b first (s.target_num_args - first) 0
      { size := (s.target_num_args - first) * s.child_ptr_size, data := env.uninitialised }
      (by
        show 4 * (0 + (s.target_num_args - first)) ≤ (s.target_num_args - first) * s.child_ptr_size
        rw [hbits]
        omega)
      (by
        have : first + 0 + (s.target_num_args - first) = s.target_num_args := by omega
        rw [this]
        exact hsz)
    obtain ⟨_, hdata⟩ := fillBuf32_data env b first _ 0 _ b1 h1
    refine ⟨s.mem.store (sp + slot * s.child_ptr_size)
      ((s.target_num_args - first) * s.child_ptr_size) b1.data, ?_, ?_⟩
    · unfold writeStackArgs argsBuf WriteStack
      simp only [hb, bind, Except.bind, hpath, if_true, h1, haddr, WriteProcessMemory, hw,
        Option.getD_some, pure, Except.pure]
    · intro i hfi hin
      obtain ⟨_, a2, a3, a4⟩ := slot_arith _ hc sp slot first _ i _ hfi hin hsp
      rw [word_store_inside _ _ _ _ _ _ ⟨a2, a3⟩, a4]
      have h4 : (i - first) * s.child_ptr_size = 4 * (0 + (i - first)) := by
        rw [hbits]
        omega
      rw [h4, hbits, hdata (i - first) (by omega)]
      have hidx : first + (0 + (i - first)) = i := by omega
      rw [hidx]
  · rw [if_neg hpath] at hbits
    have hin0 : first * env.ptr_size + (s.target_num_args - first) * s.child_ptr_size ≤
        b.size := by
      rw [hbits, ← Nat.add_mul]
      have : first + (s.target_num_args - first) = s.target_num_args := by omega
      rw [this]
      exact hsz
    refine ⟨s.mem.store (sp + slot * s.child_ptr_size)
      ((s.target_num_args - first) * s.child_ptr_size)
      (fun j => b.data (first * env.ptr_size + j)), ?_, ?_⟩
    · unfold writeStackArgs argsBuf WriteStack
      simp only [hb, bind, Except.bind, hpath, Bool.false_eq_true, if_false, hin0, if_true,
        haddr, WriteProcessMemory, hw, Option.getD_some]
    · intro i hfi hin
      obtain ⟨_, a2, a3, a4⟩ := slot_arith _ hc sp slot first _ i _ hfi hin hsp
      rw [word_store_inside _ _ _ _ _ _ ⟨a2, a3⟩, a4, leRead_shift, hbits, ← Nat.add_mul]
      have hidx : first + (i - first) = i := by omega
      rw [hidx, Nat.mod_eq_of_lt (leRead_lt _ _ _)]

/-- The guarded `WriteStack` of the return protocol returns, leaves the
protections and the bytes below its first slot alone, and when it runs it
stores the saved arguments in their slots. -/
theorem writeStackArgsIf_words (env : Env) (s : State) (sp slot first k : Nat)
    (hwf : WellFormed env s) (hk : first ≤ k) :
    ∃ m, (if s.target_num_args > k then writeStackArgs env sp slot first s else .ok s) =
        .ok { s with mem := m } ∧
      m.readable = s.mem.readable ∧ m.writable = s.mem.writable ∧
      (∀ x, x < (sp + slot * s.child_ptr_size) % env.word → m.bytes x = s.mem.bytes x) ∧
      (s.target_num_args > k → StackArgsWritten env s sp m slot first) := by
  obtain ⟨m, hm, hr, hw, hbelow⟩ := writeStackArgsIf_total env s sp slot first k hwf hk
  refine ⟨m, hm, hr, hw, hbelow, ?_⟩
  intro hgt hbits hsp hcw i hfi hin
  obtain ⟨b, hbuf, hsz⟩ := hwf.2.2 (by omega)
  obtain ⟨m1, hm1, hwords⟩ := writeStackArgs_words env s sp slot first b hbuf hsz (by omega)
    hbits hsp hcw
  rw [if_pos hgt, hm1] at hm
  have hmm : m1 = m := by
    injection hm with h
    exact congrArg State.mem h
  subst hmm
  have hroom : (i + 1) * env.ptr_size ≤ b.size :=
    le_trans (Nat.mul_le_mul_right _ hin) hsz
  exact ⟨_, getArg_ok env s b i hbuf hroom, hwords i hfi hin⟩

theorem loadRegArg_arg {env : Env} {s : State} {i reg v : Nat}
    (h : loadRegArg env i reg s = .ok v) (hi : i < s.target_num_args) :
    getArg env i s = .ok v := by
  unfold loadRegArg at h
  rw [if_pos hi] at h
  exact h

/-- The restore of the arguments, convention by convention: it returns in
every well-formed state (except for the Microsoft x64 convention in a 32-bit
build), leaves the instruction pointer and the stack pointer of the context
alone, writes no byte below the first argument slot, loads the argument
registers of the convention from `saved_args` and stores the stack arguments
of the convention into their slots. -/
theorem restoreArgs_restores (env : Env) (lcContext : Context) (s : State)
    (hwf : WellFormed env s)
    (hcc : env.win64 = true ∨ s.calling_convention ≠ CALLCONV_MICROSOFT_X64) :
    ∃ lc m, restoreArgs env lcContext s = .ok (lc, { s with mem := m }) ∧
      lc.Rip = lcContext.Rip ∧ lc.Rsp = lcContext.Rsp ∧
      (lcContext.Rsp + 5 * s.child_ptr_size < env.word →
        ∀ x, x < lcContext.Rsp + s.child_ptr_size → m.bytes x = s.mem.bytes x) ∧
      (env.win64 = true →
        s.calling_convention = CALLCONV_DEFAULT ∨
          s.calling_convention = CALLCONV_MICROSOFT_X64 →
        (0 < s.target_num_args → getArg env 0 s = .ok lc.Rcx) ∧
        (1 < s.target_num_args → getArg env 1 s = .ok lc.Rdx) ∧
        (2 < s.target_num_args → getArg env 2 s = .ok lc.R8) ∧
        (3 < s.target_num_args → getArg env 3 s = .ok lc.R9) ∧
        (4 < s.target_num_args → StackArgsWritten env s lcContext.Rsp m 5 4)) ∧
      (s.calling_convention = CALLCONV_CDECL ∨
          (env.win64 = false ∧ s.calling_convention = CALLCONV_DEFAULT) →
        0 < s.target_num_args → StackArgsWritten env s lcContext.Rsp m 1 0) ∧
      (s.calling_convention = CALLCONV_FASTCALL →
        (0 < s.target_num_args → getArg env 0 s = .ok lc.Rcx) ∧
        (1 < s.target_num_args → getArg env 1 s = .ok lc.Rdx) ∧
        (3 < s.target_num_args → StackArgsWritten env s lcContext.Rsp m 1 2)) ∧
      (s.calling_convention = CALLCONV_THISCALL →
        (0 < s.target_num_args → getArg env 0 s = .ok lc.Rcx) ∧
        (3 < s.target_num_args → StackArgsWritten env s lcContext.Rsp m 1 1)) := by
  obtain ⟨v0, e0⟩ := loadRegArg_total env s 0 lcContext.Rcx hwf
  obtain ⟨v1, e1⟩ := loadRegArg_total env s 1 lcContext.Rdx hwf
  obtain ⟨v2, e2⟩ := loadRegArg_total env s 2 lcContext.R8 hwf
  obtain ⟨v3, e3⟩ := loadRegArg_total env s 3 lcContext.R9 hwf
  obtain ⟨m4, f4, _, _, b4, w4⟩ :=
    writeStackArgsIf_words env s lcContext.Rsp 5 4 4 hwf (le_refl _)
  obtain ⟨m0, f0, _, _, b0, w0⟩ :=
    writeStackArgsIf_words env s lcContext.Rsp 1 0 0 hwf (le_refl _)
  obtain ⟨m2, f2, _, _, b2, w2⟩ :=
    writeStackArgsIf_words env s lcContext.Rsp 1 2 3 hwf (by omega)
  obtain ⟨m1, f1, _, _, b1, w1⟩ :=
    writeStackArgsIf_words env s lcContext.Rsp 1 1 3 hwf (by omega)
  have hcps : 0 < s.child_ptr_size := by rcases hwf.1 with h | h <;> omega
  have below5 : lcContext.Rsp + 5 * s.child_ptr_size < env.word →
      ∀ x, x < lcContext.Rsp + s.child_ptr_size →
        x < (lcContext.Rsp + 5 * s.child_ptr_size) % env.word := by
    intro h x hx
    rw [Nat.mod_eq_of_lt h]
    omega
  have below1 : lcContext.Rsp + 5 * s.child_ptr_size < env.word →
      ∀ x, x < lcContext.Rsp + s.child_ptr_size →
        x < (lcContext.Rsp + 1 * s.child_ptr_size) % env.word := by
    intro h x hx
    rw [Nat.mod_eq_of_lt (by omega)]
    omega
  have d1 : CALLCONV_CDECL ≠ CALLCONV_DEFAULT := by decide
  have d2 : CALLCONV_CDECL ≠ CALLCONV_MICROSOFT_X64 := by decide
  have d3 : CALLCONV_FASTCALL ≠ CALLCONV_DEFAULT := by decide
  have d4 : CALLCONV_FASTCALL ≠ CALLCONV_MICROSOFT_X64 := by decide
  have d5 : CALLCONV_THISCALL ≠ CALLCONV_DEFAULT := by decide
  have d6 : CALLCONV_THISCALL ≠ CALLCONV_MICROSOFT_X64 := by decide
  have d7 : CALLCONV_FASTCALL ≠ CALLCONV_CDECL := by decide
  have d8 : CALLCONV_THISCALL ≠ CALLCONV_CDECL := by decide
  have d9 : CALLCONV_THISCALL ≠ CALLCONV_FASTCALL := by decide
  unfold restoreArgs
  by_cases hwin : env.win64 = true
  · rw [if_pos hwin]
    have hnot : ¬ (env.win64 = false) := by rw [hwin]; decide
    by_cases c1 : s.calling_convention = CALLCONV_DEFAULT ∨
        s.calling_convention = CALLCONV_MICROSOFT_X64
    · rw [if_pos c1]
      refine ⟨{ lcContext with Rcx := v0, Rdx := v1, R8 := v2, R9 := v3 }, m4, ?_, rfl, rfl,
        fun h x hx => b4 x (below5 h x hx), ?_, ?_, ?_, ?_⟩
      · simp only [bind, Except.bind, e0, e1, e2, e3, f4, pure, Except.pure]
      · exact fun _ _ => ⟨loadRegArg_arg e0, loadRegArg_arg e1, loadRegArg_arg e2,
          loadRegArg_arg e3, w4⟩
      · intro h
        rcases h with h | h
        · rcases c1 with c | c
          · exact absurd (h.symm.trans c) d1
          · exact absurd (h.symm.trans c) d2
        · exact absurd h.1 hnot
      · intro h
        rcases c1 with c | c
        · exact absurd (h.symm.trans c) d3
        · exact absurd (h.symm.trans c) d4
      · intro h
        rcases c1 with c | c
        · exact absurd (h.symm.trans c) d5
        · exact absurd (h.symm.trans c) d6
    · rw [if_neg c1]
      by_cases c2 : s.calling_convention = CALLCONV_CDECL
      · rw [if_pos c2]
        refine ⟨lcContext, m0, ?_, rfl, rfl, fun h x hx => b0 x (below1 h x hx),
          fun _ h => absurd h c1, fun _ => w0, ?_, ?_⟩
        · simp only [bind, Except.bind, f0, pure, Except.pure]
        · intro h
          exact absurd (h.symm.trans c2) d7
        · intro h
          exact absurd (h.symm.trans c2) d8
      · rw [if_neg c2]
        by_cases c3 : s.calling_convention = CALLCONV_FASTCALL
        · rw [if_pos c3]
          refine ⟨{ lcContext with Rcx := v0, Rdx := v1 }, m2, ?_, rfl, rfl,
            fun h x hx => b2 x (below1 h x hx), fun _ h => absurd h c1, ?_,
            fun _ => ⟨loadRegArg_arg e0, loadRegArg_arg e1, w2⟩, ?_⟩
          · simp only [bind, Except.bind, e0, e1, f2, pure, Except.pure]
          · intro h
            rcases h with h | h
            · exact absurd h c2
            · exact absurd h.1 hnot
          · intro h
            exact absurd (h.symm.trans c3) d9
        · rw [if_neg c3]
          by_cases c4 : s.calling_convention = CALLCONV_THISCALL
          · rw [if_pos c4]
            refine ⟨{ lcContext with Rcx := v0 }, m1, ?_, rfl, rfl,
              fun h x hx => b1 x (below1 h x hx), fun _ h => absurd h c1, ?_,
              fun h => absurd h c3, fun _ => ⟨loadRegArg_arg e0, w1⟩⟩
            · simp only [bind, Except.bind, e0, f1, pure, Except.pure]
            · intro h
              rcases h with h | h
              · exact absurd h c2
              · exact absurd h.1 hnot
          · rw [if_neg c4]
            refine ⟨lcContext, s.mem, rfl, rfl, rfl, fun _ _ _ => rfl, fun _ h => absurd h c1,
              ?_, fun h => absurd h c3, fun h => absurd h c4⟩
            intro h
            rcases h with h | h
            · exact absurd h c2
            · exact absurd h.1 hnot
  · have hms : s.calling_convention ≠ CALLCONV_MICROSOFT_X64 := by
      rcases hcc with h | h
      · exact absurd h hwin
      · exact h
    rw [if_neg hwin, if_neg hms]
    by_cases c2 : s.calling_convention = CALLCONV_DEFAULT ∨
        s.calling_convention = CALLCONV_CDECL
    · rw [if_pos c2]
      refine ⟨lcContext, m0, ?_, rfl, rfl, fun h x hx => b0 x (below1 h x hx),
        fun h _ => absurd h hwin, fun _ => w0, ?_, ?_⟩
      · simp only [bind, Except.bind, f0, pure, Except.pure]
      · intro h
        rcases c2 with c | c
        · exact absurd (h.symm.trans c) d3
        · exact absurd (h.symm.trans c) d7
      · intro h
        rcases c2 with c | c
        · exact absurd (h.symm.trans c) d5
        · exact absurd (h.symm.trans c) d8
    · rw [if_neg c2]
      have hnc : ¬ (s.calling_convention = CALLCONV_CDECL ∨
          (env.win64 = false ∧ s.calling_convention = CALLCONV_DEFAULT)) := by
        intro h
        rcases h with h | h
        · exact c2 (Or.inr h)
        · exact c2 (Or.inl h.2)
      by_cases c3 : s.calling_convention = CALLCONV_FASTCALL
      · rw [if_pos c3]
        refine ⟨{ lcContext with Rcx := v0, Rdx := v1 }, m2, ?_, rfl, rfl,
          fun h x hx => b2 x (below1 h x hx), fun h _ => absurd h hwin,
          fun h => absurd h hnc, fun _ => ⟨loadRegArg_arg e0, loadRegArg_arg e1, w2⟩, ?_⟩
        · simp only [bind, Except.bind, e0, e1, f2, pure, Except.pure]
        · intro h
          exact absurd (h.symm.trans c3) d9
      · rw [if_neg c3]
        by_cases c4 : s.calling_convention = CALLCONV_THISCALL
        · rw [if_pos c4]
          refine ⟨{ lcContext with Rcx := v0 }, m1, ?_, rfl, rfl,
            fun h x hx => b1 x (below1 h x hx), fun h _ => absurd h hwin,
            fun h => absurd h hnc, fun h => absurd h c3, fun _ => ⟨loadRegArg_arg e0, w1⟩⟩
          simp only [bind, Except.bind, e0, f1, pure, Except.pure]
        · rw [if_neg c4]
          exact ⟨lcContext, s.mem, rfl, rfl, rfl, fun _ _ _ => rfl, fun h _ => absurd h hwin,
            fun h => absurd h hnc, fun h => absurd h c3, fun h => absurd h c4⟩

theorem canWrite_range (m : Mem) (a n : Nat) :
    m.canWrite a n = true ↔ ∀ i, i < n → m.writable (a + i) = true := by
  simp [Mem.canWrite, List.all_eq_true]

theorem canWrite_inside (m : Mem) (a n a1 n1 : Nat) (h : m.canWrite a n = true)
    (hlo : a ≤ a1) (hhi : a1 + n1 ≤ a + n) : m.canWrite a1 n1 = true := by
  rw [canWrite_range] at h ⊢
  intro i hi
  have := h (a1 - a + i) (by omega)
  rw [show a + (a1 - a + i) = a1 + i by omega] at this
  exact this

theorem area_arith (c sp slot first n W : Nat)
    (hslot : 1 ≤ slot) (hfit : slot + (n - first) ≤ n + 1)
    (hsp : sp + (n + 1) * c ≤ W) :
    sp + (slot + (n - first)) * c ≤ W ∧ sp + c ≤ sp + slot * c ∧
    sp + slot * c + (n - first) * c ≤ sp + c + n * c := by
  have h1 : (slot + (n - first)) * c ≤ (n + 1) * c := Nat.mul_le_mul_right _ hfit
  have h2 : 1 * c ≤ slot * c := Nat.mul_le_mul_right _ hslot
  have h3 : (slot + (n - first)) * c = slot * c + (n - first) * c := Nat.add_mul _ _ _
  have h4 : (n + 1) * c = n * c + c := Nat.succ_mul _ _
  omega

/-- The stack part of the restore, in terms of the slots above `saved_sp`. -/
theorem stackArgs_slots (env : Env) (s s0 : State) (m : Mem) (slot first : Nat)
    (hargs : s0.saved_args = s.saved_args) (hn : s0.target_num_args = s.target_num_args)
    (hcps : s0.child_ptr_size = s.child_ptr_size) (hwow : s0.wow64_target = s.wow64_target)
    (hwr : s0.mem.writable = s.mem.writable)
    (hwritten : StackArgsWritten env s0 s.saved_sp m slot first)
    (hslot : 1 ≤ slot)
    (hfit : slot + (s.target_num_args - first) ≤ s.target_num_args + 1)
    (hbits : StackWidthAgrees env s)
    (hsp : s.saved_sp + (s.target_num_args + 1) * s.child_ptr_size ≤ env.word)
    (hw : s.mem.canWrite (s.saved_sp + s.child_ptr_size)
      (s.target_num_args * s.child_ptr_size) = true) :
    ∀ i, first ≤ i → i < s.target_num_args → slotHoldsArg env s m (slot + (i - first)) i := by
  intro i hfi hin
  obtain ⟨a1, a2, a3⟩ := area_arith s.child_ptr_size s.saved_sp slot first _ _ hslot hfit hsp
  have hbits0 : StackWidthAgrees env s0 := by
    unfold StackWidthAgrees at hbits ⊢
    rw [hwow, hcps]
    exact hbits
  have hw0 : s0.mem.canWrite (s.saved_sp + slot * s0.child_ptr_size)
      ((s0.target_num_args - first) * s0.child_ptr_size) = true := by
    rw [hcps, hn, canWrite_congr _ _ _ _ hwr]
    exact canWrite_inside _ _ _ _ _ hw a2 a3
  obtain ⟨v, hv, hword⟩ := hwritten hbits0 (by rw [hcps, hn]; exact a1) hw0 i hfi
    (by rw [hn]; exact hin)
  rw [hcps] at hword
  exact ⟨v, by rw [← getArg_congr env i s s0 hargs]; exact hv, hword⟩

/-- C6: in loop mode, for every thread context and every saved state that is
well formed (other than the Microsoft x64 convention in a 32-bit build, which
is fatal) with a writable return-address slot and a stack frame that does not
wrap around the address space, `HandleTargetEnded` returns, the instruction
pointer is `target_address`, the stack pointer is `saved_sp`, the
pointer-sized word at `saved_sp` is `0x0F22`, the breakpoint table is unchanged
and `saved_sp`, `saved_return_address`, `saved_args` (hence every item
`getArg` reads from it) and `target_address` are unchanged; indeed every field
of the debugger is, the child memory and the thread contexts apart.  The
arguments are restored from `saved_args`, whatever the function left in the
registers and on the stack: each argument register of the convention holds its item of
`saved_args` (`rcx, rdx, r8, r9` for Microsoft x64 and for Default in a 64-bit
build, `rcx, rdx` for fastcall, `rcx` for thiscall, none for cdecl and for
Default in a 32-bit build), and, when the pointer size agrees with the stack
path and the argument slots above `saved_sp` lie inside the address space and
are writable, each stack argument is in its slot: argument `i ≥ 4` in slot
`5 + (i - 4)` for Microsoft x64, argument `i` in slot `1 + i` for cdecl, and,
only when `target_num_args > 3`, argument `i ≥ 2` in slot `1 + (i - 2)` for
fastcall and argument `i ≥ 1` in slot `1 + (i - 1)` for thiscall.  As the
statement holds for every state and `saved_args` and `saved_sp` are kept,
every later iteration restores the same values. -/
theorem loop_return_protocol (env : Env) (s : State) (thread_id : Nat)
    (hloop : s.loop_mode = true) (hwf : WellFormed env s)
    (hcc : env.win64 = true ∨ s.calling_convention ≠ CALLCONV_MICROSOFT_X64)
    (hw : s.mem.canWrite s.saved_sp s.child_ptr_size = true)
    (hsp : s.saved_sp + 5 * s.child_ptr_size < env.word) :
    ∃ s1, HandleTargetEnded env thread_id s = .ok s1 ∧
      (s1.threads thread_id).Rip = s.target_address ∧
      (s1.threads thread_id).Rsp = s.saved_sp ∧
      s1.mem.word s.saved_sp s.child_ptr_size = 0x0F22 ∧
      s1.breakpoints = s.breakpoints ∧
      s1.saved_sp = s.saved_sp ∧ s1.saved_return_address = s.saved_return_address ∧
      s1.saved_args = s.saved_args ∧ s1.target_address = s.target_address ∧
      s1.loop_mode = true ∧
      s1 = { s with mem := s1.mem, threads := s1.threads } ∧
      (∀ i, getArg env i s1 = getArg env i s) ∧
      (env.win64 = true →
        s.calling_convention = CALLCONV_DEFAULT ∨
          s.calling_convention = CALLCONV_MICROSOFT_X64 →
        (0 < s.target_num_args → getArg env 0 s = .ok (s1.threads thread_id).Rcx) ∧
        (1 < s.target_num_args → getArg env 1 s = .ok (s1.threads thread_id).Rdx) ∧
        (2 < s.target_num_args → getArg env 2 s = .ok (s1.threads thread_id).R8) ∧
        (3 < s.target_num_args → getArg env 3 s = .ok (s1.threads thread_id).R9)) ∧
      (s.calling_convention = CALLCONV_FASTCALL →
        (0 < s.target_num_args → getArg env 0 s = .ok (s1.threads thread_id).Rcx) ∧
        (1 < s.target_num_args → getArg env 1 s = .ok (s1.threads thread_id).Rdx)) ∧
      (s.calling_convention = CALLCONV_THISCALL →
        (0 < s.target_num_args → getArg env 0 s = .ok (s1.threads thread_id).Rcx)) ∧
      (StackWidthAgrees env s →
        s.saved_sp + (s.target_num_args + 1) * s.child_ptr_size ≤ env.word →
        s.mem.canWrite (s.saved_sp + s.child_ptr_size)
          (s.target_num_args * s.child_ptr_size) = true →
        (env.win64 = true →
          s.calling_convention = CALLCONV_DEFAULT ∨
            s.calling_convention = CALLCONV_MICROSOFT_X64 →
          ∀ i, 4 ≤ i → i < s.target_num_args → slotHoldsArg env s s1.mem (5 + (i - 4)) i) ∧
        (s.calling_convention = CALLCONV_CDECL ∨
            (env.win64 = false ∧ s.calling_convention = CALLCONV_DEFAULT) →
          ∀ i, i < s.target_num_args → slotHoldsArg env s s1.mem (1 + i) i) ∧
        (s.calling_convention = CALLCONV_FASTCALL → 3 < s.target_num_args →
          ∀ i, 2 ≤ i → i < s.target_num_args → slotHoldsArg env s s1.mem (1 + (i - 2)) i) ∧
        (s.calling_convention = CALLCONV_THISCALL → 3 < s.target_num_args →
          ∀ i, 1 ≤ i → i < s.target_num_args →
            slotHoldsArg env s s1.mem (1 + (i - 1)) i)) := by
  obtain ⟨lc, m, hrest, hrip, hrsp, hbelow, hms, hcd, hfc, htc⟩ := restoreArgs_restores env
    { (s.threads thread_id) with Rip := s.target_address, Rsp := s.saved_sp }
    { s with mem := (WriteProcessMemory s.mem s.saved_sp s.child_ptr_size
        (leByte PERSIST_END_EXCEPTION)).getD s.mem } hwf hcc
  have hret : HandleTargetEnded env thread_id s =
      .ok (SetThreadContext thread_id lc { s with mem := m }) := by
    unfold HandleTargetEnded
    rw [if_pos hloop]
    simp only at hrest
    simp only [bind, Except.bind, writeSentinel, hwf.2.1, if_true, pure, Except.pure, hrest]
  have hctx : (SetThreadContext thread_id lc { s with mem := m }).threads thread_id = lc := by
    simp only [SetThreadContext, if_true]
  have hwr := (getD_write_protection s.mem s.saved_sp s.child_ptr_size
    (leByte PERSIST_END_EXCEPTION)).2
  refine ⟨_, hret, ?_, ?_, ?_, rfl, rfl, rfl, rfl, rfl, hloop, rfl, fun _ => rfl, ?_, ?_, ?_, ?_⟩
  · rw [hctx]
    exact hrip
  · rw [hctx]
    exact hrsp
  · have hmem : (WriteProcessMemory s.mem s.saved_sp s.child_ptr_size
        (leByte PERSIST_END_EXCEPTION)).getD s.mem =
        s.mem.store s.saved_sp s.child_ptr_size (leByte PERSIST_END_EXCEPTION) := by
      simp [WriteProcessMemory, hw]
    have h1 : (SetThreadContext thread_id lc { s with mem := m }).mem.word s.saved_sp
        s.child_ptr_size =
        (s.mem.store s.saved_sp s.child_ptr_size (leByte PERSIST_END_EXCEPTION)).word s.saved_sp
          s.child_ptr_size := by
      unfold Mem.word
      apply leRead_congr
      intro i hi
      have := hbelow hsp (s.saved_sp + i) (by
        show s.saved_sp + i < s.saved_sp + s.child_ptr_size
        omega)
      simp only [SetThreadContext]
      rw [this]
      simp only [hmem]
    rw [h1]
    exact sentinel_word s.mem s.saved_sp s.child_ptr_size hwf.1
  · intro hwin hc
    rw [hctx]
    obtain ⟨r0, r1, r2, r3, _⟩ := hms hwin hc
    exact ⟨r0, r1, r2, r3⟩
  · intro hc
    rw [hctx]
    obtain ⟨r0, r1, _⟩ := hfc hc
    exact ⟨r0, r1⟩
  · intro hc
    rw [hctx]
    exact (htc hc).1
  · intro hbits hfit hcw
    have hslots := fun slot first => stackArgs_slots env s
      { s with mem := (WriteProcessMemory s.mem s.saved_sp s.child_ptr_size
          (leByte PERSIST_END_EXCEPTION)).getD s.mem } m slot first rfl rfl rfl rfl hwr
    refine ⟨?_, ?_, ?_, ?_⟩
    · intro hwin hc i h4 hin
      exact hslots 5 4 ((hms hwin hc).2.2.2.2 (Nat.lt_of_le_of_lt h4 hin))
        (by omega) (by omega) hbits hfit hcw i h4 hin
    · intro hc i hin
      have h := hslots 1 0 (hcd hc (Nat.lt_of_le_of_lt (Nat.zero_le i) hin))
        (by omega) (by omega) hbits hfit hcw i (Nat.zero_le _) hin
      exact h
    · intro hc h3 i h2 hin
      exact hslots 1 2 ((hfc hc).2.2 h3)
        (by omega) (by omega) hbits hfit hcw i h2 hin
    · intro hc h3 i h1 hin
      exact hslots 1 1 ((htc hc).2 h3)
        (by omega) (by omega) hbits hfit hcw i h1 hin

/-- C6, witness: the return protocol on the faulted target of scenario S2.  The
function left `0x77` in the argument registers and `0xEE` in every byte of the
stack; after the return protocol the registers hold `1, 2, 3, 4` and the slot at
`saved_sp + 40` holds `5`, the values of `saved_args`. -/
theorem loop_return_protocol_witness :
    ∃ s1, HandleTargetEnded env64 1 c6_fault = .ok s1 ∧
      (s1.threads 1).Rip = 0x401000 ∧ (s1.threads 1).Rsp = 0x7ff000 ∧
      s1.mem.word 0x7ff000 8 = 0x0F22 ∧
      s1.breakpoints =
        [{ address := 0x402000, original_opcode := 0x90, type := BREAKPOINT_ENTRYPOINT }] ∧
      s1.saved_sp = 0x7ff000 ∧ s1.saved_return_address = 0x99 ∧
      (s1.threads 1).Rcx = 1 ∧ (s1.threads 1).Rdx = 2 ∧ (s1.threads 1).R8 = 3 ∧
      (s1.threads 1).R9 = 4 ∧ s1.mem.word (0x7ff000 + 40) 8 = 5 := by
  obtain ⟨s1, h1, h2, h3, h4, h5, h6, h7, _, _, _, _, _, hreg, _, _, hstack⟩ :=
    loop_return_protocol env64 c6_fault 1 rfl
      ⟨Or.inr rfl, by decide, fun _ => ⟨_, rfl, by decide⟩⟩ (Or.inl rfl) (by decide) (by decide)
  obtain ⟨r0, r1, r2, r3⟩ := hreg rfl (Or.inr rfl)
  obtain ⟨v, hv, hword⟩ := (hstack (by unfold StackWidthAgrees; decide) (by decide) (by decide)).1 rfl (Or.inr rfl) 4
    (le_refl _) (by decide)
  have g0 : getArg env64 0 c6_fault = .ok 1 := by decide
  have g1 : getArg env64 1 c6_fault = .ok 2 := by decide
  have g2 : getArg env64 2 c6_fault = .ok 3 := by decide
  have g3 : getArg env64 3 c6_fault = .ok 4 := by decide
  have g4 : getArg env64 4 c6_fault = .ok 5 := by decide
  have e0 := (r0 (by decide)).symm.trans g0
  have e1 := (r1 (by decide)).symm.trans g1
  have e2 := (r2 (by decide)).symm.trans g2
  have e3 := (r3 (by decide)).symm.trans g3
  have e4 := hv.symm.trans g4
  simp only [Except.ok.injEq] at e0 e1 e2 e3 e4
  subst e4
  exact ⟨s1, h1, h2, h3, h4, h5, h6, h7, e0, e1, e2, e3, hword⟩

end Debugger

namespace Debugger

/-! ## C7: single-shot mode -/

theorem HandleDebuggerBreakpoint_table {env : Env} {A thread_id : Nat} {sh s1 : State} {r : Int}
    (h : HandleDebuggerBreakpoint env A thread_id sh = .ok (r, s1))
    (hr : r = BREAKPOINT_TARGET) :
    s1.breakpoints = sh.breakpoints.eraseP (fun b => b.address == A) := by
  unfold HandleDebuggerBreakpoint at h
  cases hc : consumeBreakpoint env A thread_id sh with
  | error e => simp [hc] at h
  | ok o =>
    cases o with
    | none =>
      simp only [hc, Except.ok.injEq, Prod.mk.injEq] at h
      rw [← h.1] at hr
      exact absurd hr (by decide)
    | some p =>
      obtain ⟨bp, sd⟩ := p
      simp only [hc] at h
      cases hh : handleBreakpointType env bp.type thread_id sd with
      | error e => simp [hh] at h
      | ok s2 =>
        simp only [hh, Except.ok.injEq, Prod.mk.injEq] at h
        obtain ⟨hty, rfl⟩ := h
        rw [← consumeBreakpoint_table hc]
        unfold handleBreakpointType at hh
        have hne : ¬ bp.type = BREAKPOINT_ENTRYPOINT := by
          rw [hty, hr]; decide
        rw [if_neg hne, if_pos (hty.trans hr)] at hh
        obtain ⟨_, b, rfl⟩ := HandleTargetReachedInternal_inv hh
        rfl

theorem targetModuleCalls_append (tm : List Nat) (a b : List Call) :
    targetModuleCalls tm (a ++ b) = targetModuleCalls tm a ++ targetModuleCalls tm b := by
  simp [targetModuleCalls]

/-- A handler that only appends to the call log and adds no Target record. -/
theorem targetTrack_table {env : Env} {s s1 : State} (added : List Call)
    (hl : s1.loop_mode = s.loop_mode) (htm : s1.target_module = s.target_module)
    (hc : s1.calls = s.calls ++ added)
    (ht : ∀ b, b ∈ s1.breakpoints → b ∈ s.breakpoints ∨ b.type ≠ BREAKPOINT_TARGET) :
    TargetTrack env False s s1 :=
  ⟨hl, htm, added, hc, fun _ _ hno =>
    ⟨fun _ b hb => (ht b hb).elim (hno b) id, fun h => h.elim⟩⟩

theorem targetTrack_refl (env : Env) (s : State) : TargetTrack env False s s :=
  targetTrack_table [] rfl rfl (List.append_nil _).symm (fun _ hb => Or.inl hb)

theorem targetTrack_trans {env : Env} {ended : Prop} {a b c : State}
    (h1 : TargetTrack env False a b) (h2 : TargetTrack env ended b c) :
    TargetTrack env ended a c := by
  obtain ⟨l1, t1, add1, c1, p1⟩ := h1
  obtain ⟨l2, t2, add2, c2, p2⟩ := h2
  refine ⟨l2.trans l1, t2.trans t1, add1 ++ add2, by rw [c2, c1, List.append_assoc], ?_⟩
  intro hno hl hnt
  rw [targetModuleCalls_append, List.append_eq_nil] at hno
  have hb := (p1 hno.1 hl hnt).1 (fun h => h)
  exact p2 (by rw [t1]; exact hno.2) (by rw [l1]; exact hl) hb

theorem targetTrack_of_false {env : Env} {ended : Prop} {a b : State}
    (h : TargetTrack env False a b) (hne : ¬ ended) : TargetTrack env ended a b := by
  obtain ⟨l1, t1, add1, c1, p1⟩ := h
  exact ⟨l1, t1, add1, c1, fun x y z => ⟨fun _ => (p1 x y z).1 (fun f => f),
    fun e => absurd e hne⟩⟩

theorem targetTrack_false_of {env : Env} {ended : Prop} {a b : State}
    (h : TargetTrack env ended a b) (hne : ¬ ended) : TargetTrack env False a b := by
  obtain ⟨l1, t1, add1, c1, p1⟩ := h
  exact ⟨l1, t1, add1, c1, fun x y z => ⟨fun _ => (p1 x y z).1 hne, fun f => f.elim⟩⟩

theorem targetTrack_iff {env : Env} {P Q : Prop} {a b : State}
    (h : TargetTrack env P a b) (hpq : P ↔ Q) : TargetTrack env Q a b := by
  obtain ⟨l1, t1, add1, c1, p1⟩ := h
  exact ⟨l1, t1, add1, c1, fun x y z => ⟨fun hn => (p1 x y z).1 (fun hp => hn (hpq.mp hp)),
    fun hq => (p1 x y z).2 (hpq.mpr hq)⟩⟩

theorem HandleTargetReachedInternal_track {env : Env} {thread_id : Nat} {s s1 : State}
    (h : HandleTargetReachedInternal env thread_id s = .ok s1) : TargetTrack env False s s1 := by
  obtain ⟨_, b, rfl⟩ := HandleTargetReachedInternal_inv h
  refine targetTrack_table
    (if s.target_reached then [] else [.OnTargetMethodReached thread_id]) rfl rfl ?_
    (fun _ hb => Or.inl hb)
  simp only
  split <;> simp

/-- The return protocol: in single-shot mode it arms exactly one Target record. -/
theorem HandleTargetEnded_track {env : Env} {thread_id : Nat} {s s1 : State}
    (h : HandleTargetEnded env thread_id s = .ok s1) : TargetTrack env True s s1 := by
  cases hl : s.loop_mode with
  | true =>
    obtain ⟨_, lc, m, _, rfl⟩ := HandleTargetEnded_loop hl h
    exact ⟨rfl, rfl, [], (List.append_nil _).symm,
      fun _ hf _ => absurd (hl.symm.trans hf) (by decide)⟩
  | false =>
    obtain ⟨s2, h2, rfl⟩ := HandleTargetEnded_single hl h
    obtain ⟨_, _, rfl⟩ := AddBreakpoint_inv h2
    exact ⟨rfl, rfl, [], (List.append_nil _).symm,
      fun _ _ hno => ⟨fun hne => absurd trivial hne, fun _ => ⟨s.breakpoints, _, hno, rfl⟩⟩⟩

theorem OnModuleLoaded_track {env : Env} {module : Nat} {name : List Nat} {s s1 : State}
    (h : OnModuleLoaded env module name s = .ok s1) : TargetTrack env False s s1 := by
  rcases OnModuleLoaded_inv h with ⟨_, rfl⟩ | ⟨hmatch, ta, off, _, _, _, rfl⟩
  · exact targetTrack_table [.OnModuleLoaded module name] rfl rfl rfl (fun _ hb => Or.inl hb)
  · refine ⟨rfl, rfl, [.OnModuleLoaded module name], rfl, fun hno _ _ => ?_⟩
    exfalso
    simp [targetModuleCalls, hmatch.2] at hno

theorem reportModules_track {env : Env} (ms : List Module) : ∀ {s s1 : State},
    reportModules env ms s = .ok s1 → TargetTrack env False s s1 := by
  induction ms with
  | nil =>
    intro s s1 h
    simp only [reportModules, Except.ok.injEq] at h
    subst h
    exact targetTrack_refl env s
  | cons m ms ih =>
    intro s s1 h
    simp only [reportModules, bind_eq_ok] at h
    obtain ⟨s2, h1, h2⟩ := h
    exact targetTrack_trans (OnModuleLoaded_track h1) (ih h2)

theorem OnEntrypoint_track {env : Env} {s s1 : State} (h : OnEntrypoint env s = .ok s1) :
    TargetTrack env False s s1 := by
  obtain ⟨ms, s2, _, hrep, rfl⟩ := OnEntrypoint_inv h
  exact targetTrack_trans (reportModules_track ms hrep)
    (targetTrack_table [] rfl rfl (List.append_nil _).symm (fun _ hb => Or.inl hb))

theorem consumeBreakpoint_frame {env : Env} {address thread_id : Nat} {s sd : State}
    {bp : Breakpoint} (h : consumeBreakpoint env address thread_id s = .ok (some (bp, sd))) :
    sd.loop_mode = s.loop_mode ∧ sd.target_module = s.target_module ∧ sd.calls = s.calls := by
  unfold consumeBreakpoint at h
  split at h
  · simp at h
  · simp only at h
    split at h
    · exact Except.noConfusion h
    · simp only [Except.ok.injEq, Option.some.injEq, Prod.mk.injEq] at h
      rw [← h.2]
      exact ⟨rfl, rfl, rfl⟩

theorem consumeBreakpoint_track {env : Env} {address thread_id : Nat} {s sd : State}
    {bp : Breakpoint} (h : consumeBreakpoint env address thread_id s = .ok (some (bp, sd))) :
    TargetTrack env False s sd := by
  obtain ⟨a, b, c⟩ := consumeBreakpoint_frame h
  refine targetTrack_table [] a b (by rw [c, List.append_nil]) (fun x hx => Or.inl ?_)
  rw [consumeBreakpoint_table h] at hx
  exact List.mem_of_mem_eraseP hx

theorem HandleDebuggerBreakpoint_track {env : Env} {A thread_id : Nat} {s s1 : State} {r : Int}
    (h : HandleDebuggerBreakpoint env A thread_id s = .ok (r, s1)) :
    TargetTrack env False s s1 := by
  unfold HandleDebuggerBreakpoint at h
  cases hc : consumeBreakpoint env A thread_id s with
  | error e => simp [hc] at h
  | ok o =>
    cases o with
    | none =>
      simp only [hc, Except.ok.injEq, Prod.mk.injEq] at h
      rw [← h.2]
      exact targetTrack_refl env s
    | some p =>
      obtain ⟨bp, sd⟩ := p
      simp only [hc] at h
      have hk : TargetTrack env False s sd := consumeBreakpoint_track hc
      cases hb : handleBreakpointType env bp.type thread_id sd with
      | error e => simp [hb] at h
      | ok s2 =>
        simp only [hb, Except.ok.injEq, Prod.mk.injEq] at h
        obtain ⟨_, rfl⟩ := h
        unfold handleBreakpointType at hb
        split at hb
        · exact targetTrack_trans hk (OnEntrypoint_track hb)
        · split at hb
          · exact targetTrack_trans hk (HandleTargetReachedInternal_track hb)
          · simp only [Except.ok.injEq] at hb
            rw [← hb]
            exact hk

theorem handleOwnBreakpoint_track {env : Env} {record : ExceptionRecord} {thread_id : Nat}
    {s sa : State} {early : Option DebuggerStatus}
    (h : handleOwnBreakpoint env record thread_id s = .ok (early, sa)) :
    TargetTrack env False s sa ∧ early ≠ some DebuggerStatus.DEBUGGER_TARGET_END := by
  unfold handleOwnBreakpoint at h
  split at h
  · rw [bind_eq_ok] at h
    obtain ⟨⟨bt, sb⟩, hh, h⟩ := h
    simp only at h
    have hk : TargetTrack env False s sb := HandleDebuggerBreakpoint_track hh
    split at h
    · simp only [pure, Except.pure, Except.ok.injEq, Prod.mk.injEq] at h
      rw [← h.1, ← h.2]
      exact ⟨hk, by decide⟩
    · split at h
      · simp only [pure, Except.pure, Except.ok.injEq, Prod.mk.injEq] at h
        rw [← h.1, ← h.2]
        exact ⟨hk, by decide⟩
      · simp only [pure, Except.pure, Except.ok.injEq, Prod.mk.injEq] at h
        rw [← h.1, ← h.2]
        exact ⟨hk, by decide⟩
  · simp only [pure, Except.pure, Except.ok.injEq, Prod.mk.injEq] at h
    rw [← h.1, ← h.2]
    exact ⟨targetTrack_refl env s, by decide⟩

theorem classifyException_track {env : Env} {record : ExceptionRecord} {thread_id : Nat}
    {s s1 : State} {ret : DebuggerStatus}
    (h : classifyException env record thread_id s = .ok (ret, s1)) :
    TargetTrack env (ret = DebuggerStatus.DEBUGGER_TARGET_END) s s1 := by
  have hstep : ∀ x, TargetTrack env False s { s with dbg_continue_status := x } :=
    fun _ => targetTrack_table [] rfl rfl (List.append_nil _).symm (fun _ hb => Or.inl hb)
  unfold classifyException at h
  simp only at h
  split at h
  · simp only [Except.ok.injEq, Prod.mk.injEq] at h
    rw [← h.1, ← h.2]
    exact targetTrack_of_false (hstep _) (by decide)
  · split at h
    · split at h
      · simp only [bind_eq_ok, pure, Except.pure, Except.ok.injEq, Prod.mk.injEq] at h
        obtain ⟨s2, h2, hr, rfl⟩ := h
        rw [← hr]
        exact targetTrack_iff (HandleTargetEnded_track h2) ⟨fun _ => rfl, fun _ => trivial⟩
      · simp only [Except.ok.injEq, Prod.mk.injEq] at h
        rw [← h.1, ← h.2]
        exact targetTrack_of_false (hstep _) (by decide)
    · split at h
      · simp only [Except.ok.injEq, Prod.mk.injEq] at h
        rw [← h.1, ← h.2]
        exact targetTrack_of_false (hstep _) (by decide)
      · simp only [Except.ok.injEq, Prod.mk.injEq] at h
        rw [← h.1, ← h.2]
        exact targetTrack_of_false (hstep _) (by decide)

theorem HandleExceptionInternal_track {env : Env} {record : ExceptionRecord} {thread_id : Nat}
    {s s2 : State} {ret : DebuggerStatus}
    (h : HandleExceptionInternal env record thread_id s = .ok (ret, s2)) :
    TargetTrack env (ret = DebuggerStatus.DEBUGGER_TARGET_END) s s2 := by
  unfold HandleExceptionInternal at h
  rw [bind_eq_ok] at h
  obtain ⟨⟨early, sa⟩, ho, h⟩ := h
  simp only at h
  obtain ⟨hk, hearly⟩ := handleOwnBreakpoint_track ho
  cases early with
  | some status =>
    simp only [pure, Except.pure, Except.ok.injEq, Prod.mk.injEq] at h
    rw [← h.1, ← h.2]
    exact targetTrack_of_false hk (fun e => hearly (by rw [e]))
  | none =>
    simp only at h
    have hk2 : TargetTrack env False s
        { sa with calls := sa.calls ++ [.OnException record thread_id] } :=
      targetTrack_trans hk
        (targetTrack_table [.OnException record thread_id] rfl rfl rfl (fun _ hb => Or.inl hb))
    split at h
    · simp only [pure, Except.pure, Except.ok.injEq, Prod.mk.injEq] at h
      rw [← h.1, ← h.2]
      exact targetTrack_of_false hk2 (by decide)
    · exact targetTrack_trans hk2 (classifyException_track h)

theorem GetProcessPlatform_track {env : Env} {s s1 : State}
    (h : GetProcessPlatform env s = .ok s1) : TargetTrack env False s s1 := by
  unfold GetProcessPlatform at h
  cases hw : s.wow64remote with
  | none => rw [hw] at h; exact Except.noConfusion h
  | some wow =>
    rw [hw] at h
    simp only at h
    cases hc : env.wow64current with
    | none => rw [hc] at h; exact Except.noConfusion h
    | some cur =>
      rw [hc] at h
      simp only at h
      cases wow with
      | true =>
        simp only [if_true] at h
        split at h
        · exact Except.noConfusion h
        · simp only [Except.ok.injEq] at h
          rw [← h]
          exact targetTrack_table [] rfl rfl (List.append_nil _).symm (fun _ hb => Or.inl hb)
      | false =>
        simp only [Bool.false_eq_true, if_false] at h
        split at h
        · exact Except.noConfusion h
        · simp only [Except.ok.injEq] at h
          rw [← h]
          exact targetTrack_refl env s

theorem OnProcessCreated_track {env : Env} {info : CreateProcessInfo} {s s1 : State}
    (h : OnProcessCreated env info s = .ok s1) : TargetTrack env False s s1 := by
  unfold OnProcessCreated at h
  split at h
  · refine targetTrack_trans ?_ (GetProcessPlatform_track h)
    exact targetTrack_table [] rfl rfl (List.append_nil _).symm (fun _ hb => Or.inl hb)
  · rw [bind_eq_ok] at h
    obtain ⟨e, _, h3⟩ := h
    obtain ⟨_, _, rfl⟩ := AddBreakpoint_inv h3
    refine targetTrack_table [] rfl rfl (List.append_nil _).symm (fun b hb => ?_)
    rcases List.mem_append.mp hb with hb | hb
    · exact Or.inl hb
    · right
      rw [List.mem_singleton] at hb
      rw [hb]
      show BREAKPOINT_ENTRYPOINT ≠ BREAKPOINT_TARGET
      decide

/-- Handling one event: in single-shot mode, unless a module named
`target_module` is reported, a table without Target record stays so, except
that the return protocol (status `TargetEnd`) arms exactly one. -/
theorem dispatchEvent_track {env : Env} {ev : DebugEvent} {s s1 : State} {d : Dispatch}
    (h : dispatchEvent env ev s = .ok (d, s1)) :
    TargetTrack env (d = .returned DebuggerStatus.DEBUGGER_TARGET_END) s s1 := by
  have hcall : ∀ c : Call, TargetTrack env False s { s with calls := s.calls ++ [c] } :=
    fun c => targetTrack_table [c] rfl rfl rfl (fun _ hb => Or.inl hb)
  unfold dispatchEvent at h
  split at h
  · rename_i record hu
    rw [bind_eq_ok] at h
    obtain ⟨⟨ret, s2⟩, hh, h⟩ := h
    simp only at h
    have hk := HandleExceptionInternal_track hh
    have hs1 : s1 = (if ret = DebuggerStatus.DEBUGGER_CRASHED then
        { s2 with calls := s2.calls ++ [.OnCrashed record] } else s2) ∧
        (d = .returned DebuggerStatus.DEBUGGER_TARGET_END ↔
          ret = DebuggerStatus.DEBUGGER_TARGET_END) := by
      split at h
      · simp only [pure, Except.pure, Except.ok.injEq, Prod.mk.injEq] at h
        refine ⟨h.2.symm, ?_⟩
        rw [← h.1]
        exact ⟨fun e => Dispatch.returned.inj e, fun e => by rw [e]⟩
      · rename_i hcont
        simp only [pure, Except.pure, Except.ok.injEq, Prod.mk.injEq] at h
        refine ⟨h.2.symm, ?_⟩
        rw [← h.1]
        have hc : ret = DebuggerStatus.DEBUGGER_CONTINUE := not_not.mp hcont
        rw [hc]
        exact ⟨fun e => Dispatch.noConfusion e, fun e => DebuggerStatus.noConfusion e⟩
    obtain ⟨hs, hd⟩ := hs1
    by_cases hte : ret = DebuggerStatus.DEBUGGER_TARGET_END
    · have hne : ¬ ret = DebuggerStatus.DEBUGGER_CRASHED := by rw [hte]; decide
      rw [if_neg hne] at hs
      rw [hs]
      exact targetTrack_iff hk hd.symm
    · have hk1 := targetTrack_false_of hk hte
      have hk2 : TargetTrack env False s s1 := by
        rw [hs]
        split
        · exact targetTrack_trans hk1
            (targetTrack_table [.OnCrashed record] rfl rfl rfl (fun _ hb => Or.inl hb))
        · exact hk1
      exact targetTrack_of_false hk2 (fun e => hte (hd.mp e))
  · simp only [pure, Except.pure, Except.ok.injEq, Prod.mk.injEq] at h
    rw [← h.1, ← h.2]
    exact targetTrack_of_false (targetTrack_refl env s) (by decide)
  · rw [bind_eq_ok] at h
    obtain ⟨s2, h2, h⟩ := h
    simp only [pure, Except.pure, Except.ok.injEq, Prod.mk.injEq] at h
    rw [← h.1, ← h.2]
    exact targetTrack_of_false (OnProcessCreated_track h2) (by decide)
  · simp only [pure, Except.pure, Except.ok.injEq, Prod.mk.injEq] at h
    rw [← h.1, ← h.2]
    exact targetTrack_of_false (targetTrack_refl env s) (by decide)
  · simp only [pure, Except.pure, Except.ok.injEq, Prod.mk.injEq] at h
    rw [← h.1, ← h.2]
    exact targetTrack_of_false (hcall _) (by decide)
  · rw [bind_eq_ok] at h
    obtain ⟨s2, h2, h⟩ := h
    simp only [pure, Except.pure, Except.ok.injEq, Prod.mk.injEq] at h
    rw [← h.1, ← h.2]
    unfold HandleDllLoadInternal at h2
    split at h2
    · exact targetTrack_of_false (OnModuleLoaded_track h2) (by decide)
    · simp only [Except.ok.injEq] at h2
      rw [← h2]
      exact targetTrack_of_false (targetTrack_refl env s) (by decide)
  · simp only [pure, Except.pure, Except.ok.injEq, Prod.mk.injEq] at h
    rw [← h.1, ← h.2]
    exact targetTrack_of_false (hcall _) (by decide)
  · simp only [pure, Except.pure, Except.ok.injEq, Prod.mk.injEq] at h
    rw [← h.1, ← h.2]
    exact targetTrack_of_false (targetTrack_refl env s) (by decide)

theorem continueDebugEvent_track (env : Env) (s : State) :
    TargetTrack env False s (ContinueDebugEvent s) :=
  targetTrack_table _ rfl rfl rfl (fun _ hb => Or.inl hb)

theorem debugLoopBody_track (env : Env) : ∀ (script : List WaitResult) (s s1 : State)
    (status : DebuggerStatus) (rest : List WaitResult),
    debugLoopBody env script s = .ok (status, s1, rest) →
    TargetTrack env (status = DebuggerStatus.DEBUGGER_TARGET_END) s s1 := by
  intro script
  induction script with
  | nil => intro s s1 status rest h; simp [debugLoopBody] at h
  | cons w ws ih =>
    intro s s1 status rest h
    have hwait : ∀ (m : Mem) (t : Nat → Context) (ms : Option (List Module)) (e : DebugEvent)
        (n : Bool) (st : Nat), TargetTrack env False s
          { s with
            mem := m
            threads := t
            modules := ms
            calls := s.calls ++ [Call.WaitForDebugEvent]
            dbg_debug_event := e
            dbg_continue_needed := n
            dbg_continue_status := st } :=
      fun _ _ _ _ _ _ => targetTrack_table [Call.WaitForDebugEvent] rfl rfl rfl
        (fun _ hb => Or.inl hb)
    unfold debugLoopBody at h
    simp only at h
    split at h
    · split at h
      · simp only [Except.ok.injEq, Prod.mk.injEq] at h
        rw [← h.1, ← h.2.1]
        exact targetTrack_of_false (hwait _ _ _ _ _ _) (by decide)
      · have h2 := ih _ _ _ _ h
        refine targetTrack_trans ?_ h2
        exact hwait _ _ _ _ _ _
    · split at h
      · simp only [Except.ok.injEq, Prod.mk.injEq] at h
        rw [← h.1, ← h.2.1]
        exact targetTrack_of_false (hwait _ _ _ _ _ _) (by decide)
      · split at h
        · exact Except.noConfusion h
        · rename_i ret s2 hd
          simp only [Except.ok.injEq, Prod.mk.injEq] at h
          rw [← h.1, ← h.2.1]
          have h2 := dispatchEvent_track hd
          have h3 := targetTrack_iff h2 (show Dispatch.returned ret =
            Dispatch.returned DebuggerStatus.DEBUGGER_TARGET_END ↔
              ret = DebuggerStatus.DEBUGGER_TARGET_END from
            ⟨fun e => Dispatch.returned.inj e, fun e => by rw [e]⟩)
          refine targetTrack_trans ?_ h3
          exact hwait _ _ _ _ _ _
        · rename_i alive s2 hd
          have h2 := targetTrack_false_of (dispatchEvent_track hd)
            (fun e => Dispatch.noConfusion e)
          have ho : TargetTrack env False s s2 := by
            refine targetTrack_trans ?_ h2
            exact hwait _ _ _ _ _ _
          have ho2 := targetTrack_trans ho (continueDebugEvent_track env s2)
          split at h
          · exact targetTrack_trans ho2 (ih _ _ _ _ h)
          · simp only [Except.ok.injEq, Prod.mk.injEq] at h
            rw [← h.1, ← h.2.1]
            exact targetTrack_of_false ho2 (by decide)

theorem DebugLoop_track (env : Env) (script : List WaitResult) (s s1 : State)
    (status : DebuggerStatus) (rest : List WaitResult)
    (h : DebugLoop env script s = .ok (status, s1, rest)) :
    TargetTrack env (status = DebuggerStatus.DEBUGGER_TARGET_END) s s1 := by
  unfold DebugLoop at h
  simp only at h
  split at h
  · exact targetTrack_trans (continueDebugEvent_track env s)
      (debugLoopBody_track env script _ _ _ _ h)
  · exact debugLoopBody_track env script _ _ _ _ h

/-- What `TargetTrack` says when the call log shows no report of a module named
`target_module`. -/
theorem targetTrack_quiet {env : Env} {ended : Prop} {s s1 : State}
    (h : TargetTrack env ended s s1) (hloop : s.loop_mode = false) (hno : NoTargetRecord s)
    (hcalls : targetModuleCalls s.target_module s1.calls =
      targetModuleCalls s.target_module s.calls) :
    (¬ ended → NoTargetRecord s1) ∧
    (ended → OneTargetRecord (env.GetTranslatedAddress s1.target_address) s1) := by
  obtain ⟨_, _, added, hc, p⟩ := h
  rw [hc, targetModuleCalls_append] at hcalls
  have hnil : targetModuleCalls s.target_module added = [] :=
    List.append_cancel_left (hcalls.trans (List.append_nil _).symm)
  exact p hnil hloop hno

/-- C7 (amended): in single-shot mode, for every well-formed state at target
entry whose stack top is readable, the entry protocol returns and records in
`saved_return_address` the pointer-sized word on top of the stack (below
`256 ^ child_ptr_size`, so zero-extended), leaving the table as it is; for
every later state with that `saved_return_address`, when the translated target
address is readable and writable, the return protocol returns, sets the
instruction pointer of the thread to that value, leaves its other registers
and all other threads as they are, and appends exactly one Target record, at
`GetTranslatedAddress(target_address)`.  The breakpoint hit itself only erases
the record that was hit: if that was the only Target record, no Target record
is in the table after the entry protocol.  From then on, for every event
`dispatchEvent` handles and for every whole run of `DebugLoop` on every
sequence of wait results, in single-shot mode: if the table has no Target
record before and the handling makes no `OnModuleLoaded` call for a module
named `target_module`, then the table has no Target record afterwards, unless
the status is `TargetEnd` (the return protocol ran), in which case the table
holds exactly one Target record, the last one, at
`GetTranslatedAddress(target_address)`. -/
theorem single_shot_return (env : Env) (s : State) (thread_id : Nat)
    (hloop : s.loop_mode = false) (hwf : WellFormed env s)
    (hread : s.mem.canRead (s.threads thread_id).Rsp s.child_ptr_size = true) :
    (∃ s1, HandleTargetReachedInternal env thread_id s = .ok s1 ∧
      s1.saved_return_address = s.mem.word (s.threads thread_id).Rsp s.child_ptr_size ∧
      s1.saved_return_address < 256 ^ s.child_ptr_size ∧
      s1.breakpoints = s.breakpoints ∧ s1.target_address = s.target_address ∧
      s1.loop_mode = false ∧
      ∀ s2 : State, s2.loop_mode = false →
        s2.saved_return_address = s1.saved_return_address →
        s2.mem.readable (env.GetTranslatedAddress s2.target_address) = true →
        s2.mem.writable (env.GetTranslatedAddress s2.target_address) = true →
        ∃ s3, HandleTargetEnded env thread_id s2 = .ok s3 ∧
          s3.threads thread_id =
            { (s2.threads thread_id) with
              Rip := s.mem.word (s.threads thread_id).Rsp s.child_ptr_size } ∧
          (∀ t, t ≠ thread_id → s3.threads t = s2.threads t) ∧
          s3.breakpoints = s2.breakpoints ++
            [{ address := env.GetTranslatedAddress s2.target_address,
               original_opcode := s2.mem.byte (env.GetTranslatedAddress s2.target_address),
               type := BREAKPOINT_TARGET }]) ∧
    (∀ A sh r s1, HandleDebuggerBreakpoint env A thread_id sh = .ok (r, s1) →
      r = BREAKPOINT_TARGET →
      s1.breakpoints = sh.breakpoints.eraseP (fun b => b.address == A) ∧
      ((∀ b, b ∈ sh.breakpoints.eraseP (fun b => b.address == A) → b.type ≠ BREAKPOINT_TARGET) →
        ∀ b, b ∈ s1.breakpoints → b.type ≠ BREAKPOINT_TARGET)) ∧
    (∀ ev sh d s1, sh.loop_mode = false → NoTargetRecord sh →
      dispatchEvent env ev sh = .ok (d, s1) →
      targetModuleCalls sh.target_module s1.calls = targetModuleCalls sh.target_module sh.calls →
      (d ≠ .returned DebuggerStatus.DEBUGGER_TARGET_END → NoTargetRecord s1) ∧
      (d = .returned DebuggerStatus.DEBUGGER_TARGET_END →
        OneTargetRecord (env.GetTranslatedAddress s1.target_address) s1)) ∧
    (∀ script sh status s1 rest, sh.loop_mode = false → NoTargetRecord sh →
      DebugLoop env script sh = .ok (status, s1, rest) →
      targetModuleCalls sh.target_module s1.calls = targetModuleCalls sh.target_module sh.calls →
      (status ≠ DebuggerStatus.DEBUGGER_TARGET_END → NoTargetRecord s1) ∧
      (status = DebuggerStatus.DEBUGGER_TARGET_END →
        OneTargetRecord (env.GetTranslatedAddress s1.target_address) s1)) := by
  refine ⟨?_, ?_, ?_, ?_⟩
  · obtain ⟨o, ho⟩ := HandleTargetReachedInternal_total env thread_id s hwf
      (fun h => absurd h (by rw [hloop]; decide))
    refine ⟨_, ho, ?_, ?_, rfl, rfl, hloop, ?_⟩
    · simp only [hread, if_true]
    · simp only [hread, if_true]
      exact leRead_lt _ _ _
    · intro s2 hl2 hsra hr hw
      simp only [hread, if_true] at hsra
      refine ⟨SetThreadContext thread_id
          { (s2.threads thread_id) with Rip := s2.saved_return_address }
          { s2 with
            mem := s2.mem.store (env.GetTranslatedAddress s2.target_address) 1 (fun _ => 0xCC)
            breakpoints := s2.breakpoints ++
              [{ address := env.GetTranslatedAddress s2.target_address,
                 original_opcode := s2.mem.byte (env.GetTranslatedAddress s2.target_address),
                 type := BREAKPOINT_TARGET }] }, ?_, ?_, ?_, ?_⟩
      · unfold HandleTargetEnded
        rw [if_neg (by rw [hl2]; decide)]
        simp only [bind, Except.bind, AddBreakpoint_ok _ _ s2 hr hw, pure, Except.pure]
      · simp only [SetThreadContext, if_true, hsra]
      · intro t ht
        simp only [SetThreadContext, ht, if_false]
      · rfl
  · intro A sh r s1 h hr
    have ht := HandleDebuggerBreakpoint_table h hr
    exact ⟨ht, fun hno b hb => hno b (ht ▸ hb)⟩
  · intro ev sh d s1 hl hno h hcalls
    exact targetTrack_quiet (dispatchEvent_track h) hl hno hcalls
  · intro script sh status s1 rest hl hno h hcalls
    exact targetTrack_quiet (DebugLoop_track env script sh s1 status rest h) hl hno hcalls

/-- C7, witness: the target of `c7_entry` is entered with `0x99` as return
address; the return protocol resumes the caller at `0x99` and arms one Target
breakpoint at `0x401000`.  And the run of `DebugLoop` from `c7_running` (no
Target record in the table) over the fault at the sentinel reports no module,
returns `TargetEnd` and leaves exactly one Target record, at `0x401000`. -/
theorem single_shot_return_witness :
    (∃ s1, HandleTargetReachedInternal env64 1 c7_entry = .ok s1 ∧
      s1.saved_return_address = 0x99 ∧ s1.breakpoints = [] ∧
      ∃ s3, HandleTargetEnded env64 1 { s1 with mem := imageMem } = .ok s3 ∧
        (s3.threads 1).Rip = 0x99 ∧
        s3.breakpoints =
          [{ address := 0x401000, original_opcode := 0x55, type := BREAKPOINT_TARGET }]) ∧
    NoTargetRecord c7_running ∧
    ∃ s3 rest, DebugLoop env64 c7_return_script c7_running =
        .ok (DebuggerStatus.DEBUGGER_TARGET_END, s3, rest) ∧
      OneTargetRecord 0x401000 s3 := by
  have hthm := single_shot_return env64 c7_entry 1 rfl
    ⟨Or.inr rfl, by decide, fun h => absurd rfl h⟩ (by decide)
  have hnone : NoTargetRecord c7_running := fun b hb => by cases hb
  refine ⟨?_, hnone, ?_⟩
  · obtain ⟨s1, h1, h2, _, h4, h5, h6, h7⟩ := hthm.1
    have hv : c7_entry.mem.word (c7_entry.threads 1).Rsp c7_entry.child_ptr_size = 0x99 := by
      decide
    obtain ⟨s3, h8, h9, _, h11⟩ := h7 { s1 with mem := imageMem } h6 rfl rfl rfl
    refine ⟨s1, h1, h2.trans hv, h4, s3, h8, ?_, ?_⟩
    · rw [h9, hv]
    · rw [h11]
      simp only
      rw [h4, h5]
      decide
  · have hstatus : (DebugLoop env64 c7_return_script c7_running).map (fun r => r.1) =
        .ok DebuggerStatus.DEBUGGER_TARGET_END := by decide!
    have hcalls : (DebugLoop env64 c7_return_script c7_running).map
        (fun r => targetModuleCalls c7_running.target_module r.2.1.calls) =
        .ok (targetModuleCalls c7_running.target_module c7_running.calls) := by decide!
    have haddr : (DebugLoop env64 c7_return_script c7_running).map
        (fun r => env64.GetTranslatedAddress r.2.1.target_address) = .ok 0x401000 := by decide!
    cases hrun : DebugLoop env64 c7_return_script c7_running with
    | error e =>
      rw [hrun] at hstatus
      exact Except.noConfusion hstatus
    | ok r =>
      obtain ⟨status, s3, rest⟩ := r
      rw [hrun] at hstatus hcalls haddr
      simp only [Except.map, Except.ok.injEq] at hstatus hcalls haddr
      subst hstatus
      have hone := (hthm.2.2.2 c7_return_script c7_running _ s3 rest rfl hnone hrun hcalls).2 rfl
      rw [haddr] at hone
      exact ⟨s3, rest, rfl, hone⟩

/-- C7, counterexample.  First scenario: the target module is loaded, unloaded
and loaded again before the target function is called.  Each load arms a
Target breakpoint at `0x401000`.  When the first one is hit, `DebugLoop`
returns `TargetStart` with `saved_return_address = 0x99`, and the second
Target record is still in the table.  Second scenario: the target module is
loaded once, so the hit leaves the table empty when `DebugLoop` returns
`TargetStart`; while the function runs, a second copy of the module is loaded
at `0x500000`, which arms a Target record at `0x501000`, in the table when the
next `DebugLoop` returns (`Hanged`, the function has not returned).  In both a
Target breakpoint is in the table between the hit and the return. -/
theorem single_shot_return_counterexample :
    c7_start.breakpoints = [] ∧ c7_start.loop_mode = false ∧
    (DebugLoop env64 c7_script c7_start).map
        (fun r => (r.1, r.2.1.saved_return_address, r.2.1.breakpoints, r.2.2.length)) =
      .ok (DebuggerStatus.DEBUGGER_TARGET_START, 0x99,
        [{ address := 0x401000, original_opcode := 0x55, type := BREAKPOINT_TARGET }], 0) ∧
    (DebugLoop env64 c7_once_script c7_start).bind (fun r =>
        (DebugLoop env64 c7_late_script r.2.1).map
          (fun r2 => (r.1, r.2.1.breakpoints, r2.1, r2.2.1.breakpoints))) =
      .ok (DebuggerStatus.DEBUGGER_TARGET_START, [], DebuggerStatus.DEBUGGER_HANGED,
        [{ address := 0x501000, original_opcode := 0x55, type := BREAKPOINT_TARGET }]) := by
  decide!

end Debugger

namespace Debugger

/-! ## C8: the fast path of `Continue` -/

/-- The loop of `DebugLoop` reads at least one wait result before it returns. -/
theorem debugLoopBody_consumes (env : Env) : ∀ (script : List WaitResult) (s s1 : State)
    (status : DebuggerStatus) (rest : List WaitResult),
    debugLoopBody env script s = .ok (status, s1, rest) → rest.length < script.length := by
  intro script
  induction script with
  | nil => intro s s1 status rest h; simp [debugLoopBody] at h
  | cons w ws ih =>
    intro s s1 status rest h
    unfold debugLoopBody at h
    simp only at h
    split at h
    · split at h
      · simp only [Except.ok.injEq, Prod.mk.injEq] at h
        rw [← h.2.2]
        simp
      · have := ih _ _ _ _ h
        simp only [List.length_cons]
        omega
    · split at h
      · simp only [Except.ok.injEq, Prod.mk.injEq] at h
        rw [← h.2.2]
        simp
      · split at h
        · exact Except.noConfusion h
        · simp only [Except.ok.injEq, Prod.mk.injEq] at h
          rw [← h.2.2]
          simp
        · split at h
          · have := ih _ _ _ _ h
            simp only [List.length_cons]
            omega
          · simp only [Except.ok.injEq, Prod.mk.injEq] at h
            rw [← h.2.2]
            simp

/-- C8: with a child alive, for every timeout, clock value and pending events:
if `loop_mode` is set and `dbg_last_status` is `TargetEnd`, `Continue` returns
`TargetStart`, sets `dbg_last_status` to `TargetStart` and changes nothing else
(no wait result is read, no call is made, `dbg_timeout_time` and
`dbg_continue_needed` keep their values); otherwise it sets the deadline and
runs `DebugLoop`, which waits for at least one debug event. -/
theorem continue_fast_path (env : Env) (timeout now : Nat) (script : List WaitResult)
    (s : State) (halive : s.child_handle ≠ 0) :
    (s.loop_mode = true ∧ s.dbg_last_status = DebuggerStatus.DEBUGGER_TARGET_END →
      Continue env timeout now script s =
        .ok (DebuggerStatus.DEBUGGER_TARGET_START,
          { s with dbg_last_status := DebuggerStatus.DEBUGGER_TARGET_START }, script)) ∧
    (¬ (s.loop_mode = true ∧ s.dbg_last_status = DebuggerStatus.DEBUGGER_TARGET_END) →
      Continue env timeout now script s =
        (DebugLoop env script { s with dbg_timeout_time := (now + timeout) % 2 ^ 64 }).map
          (fun r => (r.1,
            if r.1 = DebuggerStatus.DEBUGGER_PROCESS_EXIT then
              closeChild { r.2.1 with dbg_last_status := r.1 }
            else { r.2.1 with dbg_last_status := r.1 }, r.2.2)) ∧
      (script = [] → Continue env timeout now script s = .error .blocked) ∧
      ∀ status s1 rest, Continue env timeout now script s = .ok (status, s1, rest) →
        rest.length < script.length) := by
  have h0 : ¬ (s.child_handle = 0 ∧ s.dbg_last_status ≠ DebuggerStatus.DEBUGGER_ATTACHED) :=
    fun h => halive h.1
  constructor
  · intro hfast
    unfold Continue
    rw [if_neg h0, if_pos hfast]
  · intro hslow
    have heq : Continue env timeout now script s =
        (DebugLoop env script { s with dbg_timeout_time := (now + timeout) % 2 ^ 64 }).map
          (fun r => (r.1,
            if r.1 = DebuggerStatus.DEBUGGER_PROCESS_EXIT then
              closeChild { r.2.1 with dbg_last_status := r.1 }
            else { r.2.1 with dbg_last_status := r.1 }, r.2.2)) := by
      unfold Continue
      rw [if_neg h0, if_neg hslow]
      simp only [bind, Except.bind, pure, Except.pure]
      generalize DebugLoop env script _ = d
      cases d with
      | error e => rfl
      | ok r =>
        obtain ⟨status, s1, rest⟩ := r
        simp only [Except.map]
    refine ⟨heq, ?_, ?_⟩
    · intro hs
      rw [heq, hs]
      simp [DebugLoop, debugLoopBody, Except.map]
    · intro status s1 rest h
      rw [heq] at h
      cases hd : DebugLoop env script { s with dbg_timeout_time := (now + timeout) % 2 ^ 64 } with
      | error e => rw [hd] at h; simp [Except.map] at h
      | ok r =>
        obtain ⟨status2, s2, rest2⟩ := r
        rw [hd] at h
        simp only [Except.map, Except.ok.injEq, Prod.mk.injEq] at h
        rw [← h.2.2]
        exact debugLoopBody_consumes env script _ _ _ _ hd

/-- C8, witness: after `TargetEnd` in loop mode `Continue` returns `TargetStart`
at once; the pending event is not continued and the deadline is not set. -/
theorem continue_fast_path_witness :
    c8_after_target_end.child_handle ≠ 0 ∧
    Continue env64 500 77 c7_script c8_after_target_end =
      .ok (DebuggerStatus.DEBUGGER_TARGET_START,
        { c8_after_target_end with dbg_last_status := DebuggerStatus.DEBUGGER_TARGET_START },
        c7_script) :=
  ⟨by decide,
    (continue_fast_path env64 500 77 c7_script c8_after_target_end (by decide)).1
      ⟨rfl, rfl⟩⟩

end Debugger

namespace Debugger

/-! ## C9: classification of exceptions -/

/-- An exception that is not a breakpoint of the table is not consumed by the
first part of `HandleExceptionInternal`. -/
theorem handleOwnBreakpoint_none (env : Env) (s : State) (record : ExceptionRecord)
    (thread_id : Nat)
    (hown : record.ExceptionCode = EXCEPTION_BREAKPOINT ∨
        record.ExceptionCode = STATUS_WX86_BREAKPOINT →
      ∀ b, b ∈ s.breakpoints → b.address ≠ record.ExceptionAddress) :
    handleOwnBreakpoint env record thread_id s = .ok (none, s) := by
  unfold handleOwnBreakpoint
  by_cases hbp : record.ExceptionCode = EXCEPTION_BREAKPOINT ∨
      record.ExceptionCode = STATUS_WX86_BREAKPOINT
  · rw [if_pos hbp]
    have hfind : s.breakpoints.find? (fun b => b.address == record.ExceptionAddress) = none := by
      rw [List.find?_eq_none]
      intro b hb
      simpa using hown hbp b hb
    have hh : HandleDebuggerBreakpoint env record.ExceptionAddress thread_id s =
        .ok (BREAKPOINT_UNKNOWN, s) := by
      unfold HandleDebuggerBreakpoint consumeBreakpoint
      rw [hfind]
    rw [hh]
    simp only [bind, Except.bind]
    rw [if_neg (by decide), if_neg (by decide)]
    rfl
  · rw [if_neg hbp]
    rfl

/-- After the breakpoint check, `HandleExceptionInternal` asks the client and
classifies what the client does not handle. -/
theorem HandleExceptionInternal_unowned (env : Env) (s : State) (record : ExceptionRecord)
    (thread_id : Nat)
    (hown : record.ExceptionCode = EXCEPTION_BREAKPOINT ∨
        record.ExceptionCode = STATUS_WX86_BREAKPOINT →
      ∀ b, b ∈ s.breakpoints → b.address ≠ record.ExceptionAddress) :
    HandleExceptionInternal env record thread_id s =
      if env.OnException record thread_id = true then
        .ok (DebuggerStatus.DEBUGGER_CONTINUE,
          { s with calls := s.calls ++ [.OnException record thread_id] })
      else
        classifyException env record thread_id
          { s with calls := s.calls ++ [.OnException record thread_id] } := by
  unfold HandleExceptionInternal
  rw [handleOwnBreakpoint_none env s record thread_id hown]
  rfl

/-- The return protocol returns in loop mode for a well-formed state, and in
single-shot mode when the target address can be read and written. -/
theorem HandleTargetEnded_returns (env : Env) (s : State) (thread_id : Nat)
    (h : (s.loop_mode = true ∧ WellFormed env s ∧
        (env.win64 = true ∨ s.calling_convention ≠ CALLCONV_MICROSOFT_X64)) ∨
      (s.loop_mode = false ∧
        s.mem.readable (env.GetTranslatedAddress s.target_address) = true ∧
        s.mem.writable (env.GetTranslatedAddress s.target_address) = true)) :
    ∃ s1, HandleTargetEnded env thread_id s = .ok s1 := by
  rcases h with ⟨hloop, hwf, hcc⟩ | ⟨hloop, hr, hw⟩
  · obtain ⟨lc, m, hrest, _⟩ := restoreArgs_total env
      { (s.threads thread_id) with Rip := s.target_address, Rsp := s.saved_sp }
      { s with mem := (WriteProcessMemory s.mem s.saved_sp s.child_ptr_size
          (leByte PERSIST_END_EXCEPTION)).getD s.mem } hwf hcc
    refine ⟨SetThreadContext thread_id lc { s with mem := m }, ?_⟩
    unfold HandleTargetEnded
    rw [if_pos hloop]
    simp only at hrest
    simp only [bind, Except.bind, writeSentinel, hwf.2.1, if_true, pure, Except.pure, hrest]
  · have hab := AddBreakpoint_ok (env.GetTranslatedAddress s.target_address)
      BREAKPOINT_TARGET s hr hw
    unfold HandleTargetEnded
    rw [if_neg (by rw [hloop]; decide)]
    simp only [bind, Except.bind, pure, Except.pure, hab]
    exact ⟨_, rfl⟩

/-- C9: with a target function configured, for every exception record that is
not a breakpoint of the table: when the client hook handles it, the result is
`Continue` and only the call log changes (`dbg_continue_status` keeps its
value, which the loop has set to `DBG_CONTINUE`).  When the client does not
handle it: an access violation at `0x0F22` runs the return protocol and gives
`TargetEnd` (it returns for a well-formed state in loop mode and for an
accessible target address in single-shot mode); an access violation at another
address, or one of the seven listed codes, gives `Crashed` with
`dbg_continue_status` set to `DBG_EXCEPTION_NOT_HANDLED`; every other code
gives `Continue`; and whenever a status is returned it is `TargetEnd`,
`Crashed` or `Continue` exactly in these cases. -/
theorem exception_classification (env : Env) (s : State) (record : ExceptionRecord)
    (thread_id : Nat) (hdef : s.target_function_defined = true)
    (hown : record.ExceptionCode = EXCEPTION_BREAKPOINT ∨
        record.ExceptionCode = STATUS_WX86_BREAKPOINT →
      ∀ b, b ∈ s.breakpoints → b.address ≠ record.ExceptionAddress) :
    (env.OnException record thread_id = true →
      HandleExceptionInternal env record thread_id s =
        .ok (DebuggerStatus.DEBUGGER_CONTINUE,
          { s with calls := s.calls ++ [.OnException record thread_id] })) ∧
    (env.OnException record thread_id = false →
      (record.ExceptionCode = EXCEPTION_ACCESS_VIOLATION ∧
          record.ExceptionAddress = PERSIST_END_EXCEPTION →
        HandleExceptionInternal env record thread_id s =
          (HandleTargetEnded env thread_id
            { s with calls := s.calls ++ [.OnException record thread_id] }).map
            (fun s1 => (DebuggerStatus.DEBUGGER_TARGET_END, s1)) ∧
        ((s.loop_mode = true ∧ WellFormed env s ∧
            (env.win64 = true ∨ s.calling_convention ≠ CALLCONV_MICROSOFT_X64)) ∨
          (s.loop_mode = false ∧
            s.mem.readable (env.GetTranslatedAddress s.target_address) = true ∧
            s.mem.writable (env.GetTranslatedAddress s.target_address) = true) →
          ∃ s1, HandleExceptionInternal env record thread_id s =
            .ok (DebuggerStatus.DEBUGGER_TARGET_END, s1))) ∧
      ((record.ExceptionCode = EXCEPTION_ACCESS_VIOLATION ∧
          record.ExceptionAddress ≠ PERSIST_END_EXCEPTION) ∨
        (record.ExceptionCode = EXCEPTION_ILLEGAL_INSTRUCTION ∨
          record.ExceptionCode = EXCEPTION_PRIV_INSTRUCTION ∨
          record.ExceptionCode = EXCEPTION_INT_DIVIDE_BY_ZERO ∨
          record.ExceptionCode = EXCEPTION_STACK_OVERFLOW ∨
          record.ExceptionCode = STATUS_HEAP_CORRUPTION ∨
          record.ExceptionCode = STATUS_STACK_BUFFER_OVERRUN ∨
          record.ExceptionCode = STATUS_FATAL_APP_EXIT) →
        HandleExceptionInternal env record thread_id s =
          .ok (DebuggerStatus.DEBUGGER_CRASHED,
            { s with
              calls := s.calls ++ [.OnException record thread_id]
              dbg_continue_status := DBG_EXCEPTION_NOT_HANDLED })) ∧
      (record.ExceptionCode ≠ EXCEPTION_ACCESS_VIOLATION ∧
        ¬ (record.ExceptionCode = EXCEPTION_ILLEGAL_INSTRUCTION ∨
          record.ExceptionCode = EXCEPTION_PRIV_INSTRUCTION ∨
          record.ExceptionCode = EXCEPTION_INT_DIVIDE_BY_ZERO ∨
          record.ExceptionCode = EXCEPTION_STACK_OVERFLOW ∨
          record.ExceptionCode = STATUS_HEAP_CORRUPTION ∨
          record.ExceptionCode = STATUS_STACK_BUFFER_OVERRUN ∨
          record.ExceptionCode = STATUS_FATAL_APP_EXIT) →
        HandleExceptionInternal env record thread_id s =
          .ok (DebuggerStatus.DEBUGGER_CONTINUE,
            { s with
              calls := s.calls ++ [.OnException record thread_id]
              dbg_continue_status := DBG_EXCEPTION_NOT_HANDLED })) ∧
      ∀ status s1, HandleExceptionInternal env record thread_id s = .ok (status, s1) →
        (status = DebuggerStatus.DEBUGGER_TARGET_END ↔
          record.ExceptionCode = EXCEPTION_ACCESS_VIOLATION ∧
            record.ExceptionAddress = PERSIST_END_EXCEPTION) ∧
        (status = DebuggerStatus.DEBUGGER_CRASHED ↔
          (record.ExceptionCode = EXCEPTION_ACCESS_VIOLATION ∧
            record.ExceptionAddress ≠ PERSIST_END_EXCEPTION) ∨
          (record.ExceptionCode = EXCEPTION_ILLEGAL_INSTRUCTION ∨
            record.ExceptionCode = EXCEPTION_PRIV_INSTRUCTION ∨
            record.ExceptionCode = EXCEPTION_INT_DIVIDE_BY_ZERO ∨
            record.ExceptionCode = EXCEPTION_STACK_OVERFLOW ∨
            record.ExceptionCode = STATUS_HEAP_CORRUPTION ∨
            record.ExceptionCode = STATUS_STACK_BUFFER_OVERRUN ∨
            record.ExceptionCode = STATUS_FATAL_APP_EXIT)) ∧
        (status ≠ DebuggerStatus.DEBUGGER_TARGET_END →
          status ≠ DebuggerStatus.DEBUGGER_CRASHED →
          status = DebuggerStatus.DEBUGGER_CONTINUE)) := by
  have hbase := HandleExceptionInternal_unowned env s record thread_id hown
  constructor
  · intro hc
    rw [hbase, if_pos hc]
  intro hc
  have hnc : ¬ (env.OnException record thread_id = true) := by rw [hc]; decide
  rw [if_neg hnc] at hbase
  -- the three branches of the switch
  have hsent : record.ExceptionCode = EXCEPTION_ACCESS_VIOLATION ∧
      record.ExceptionAddress = PERSIST_END_EXCEPTION →
      HandleExceptionInternal env record thread_id s =
        (HandleTargetEnded env thread_id
          { s with calls := s.calls ++ [.OnException record thread_id] }).map
          (fun s1 => (DebuggerStatus.DEBUGGER_TARGET_END, s1)) := by
    intro h
    have := HandleExceptionInternal_access_violation env s record thread_id h.1 hdef hc
    rw [this, if_pos h.2]
  have hcrash : (record.ExceptionCode = EXCEPTION_ACCESS_VIOLATION ∧
        record.ExceptionAddress ≠ PERSIST_END_EXCEPTION) ∨
      (record.ExceptionCode = EXCEPTION_ILLEGAL_INSTRUCTION ∨
        record.ExceptionCode = EXCEPTION_PRIV_INSTRUCTION ∨
        record.ExceptionCode = EXCEPTION_INT_DIVIDE_BY_ZERO ∨
        record.ExceptionCode = EXCEPTION_STACK_OVERFLOW ∨
        record.ExceptionCode = STATUS_HEAP_CORRUPTION ∨
        record.ExceptionCode = STATUS_STACK_BUFFER_OVERRUN ∨
        record.ExceptionCode = STATUS_FATAL_APP_EXIT) →
      HandleExceptionInternal env record thread_id s =
        .ok (DebuggerStatus.DEBUGGER_CRASHED,
          { s with
            calls := s.calls ++ [.OnException record thread_id]
            dbg_continue_status := DBG_EXCEPTION_NOT_HANDLED }) := by
    intro h
    rcases h with ⟨hav, haddr⟩ | hk
    · have := HandleExceptionInternal_access_violation env s record thread_id hav hdef hc
      rw [this, if_neg haddr]
    · have hbp : ¬ (record.ExceptionCode = EXCEPTION_BREAKPOINT ∨
          record.ExceptionCode = STATUS_WX86_BREAKPOINT) := by
        rcases hk with h | h | h | h | h | h | h <;> rw [h] <;> decide
      have hav : ¬ record.ExceptionCode = EXCEPTION_ACCESS_VIOLATION := by
        rcases hk with h | h | h | h | h | h | h <;> rw [h] <;> decide
      rw [hbase]
      unfold classifyException
      simp only
      rw [if_neg hbp, if_neg hav, if_pos hk]
  have hother : record.ExceptionCode ≠ EXCEPTION_ACCESS_VIOLATION ∧
      ¬ (record.ExceptionCode = EXCEPTION_ILLEGAL_INSTRUCTION ∨
        record.ExceptionCode = EXCEPTION_PRIV_INSTRUCTION ∨
        record.ExceptionCode = EXCEPTION_INT_DIVIDE_BY_ZERO ∨
        record.ExceptionCode = EXCEPTION_STACK_OVERFLOW ∨
        record.ExceptionCode = STATUS_HEAP_CORRUPTION ∨
        record.ExceptionCode = STATUS_STACK_BUFFER_OVERRUN ∨
        record.ExceptionCode = STATUS_FATAL_APP_EXIT) →
      HandleExceptionInternal env record thread_id s =
        .ok (DebuggerStatus.DEBUGGER_CONTINUE,
          { s with
            calls := s.calls ++ [.OnException record thread_id]
            dbg_continue_status := DBG_EXCEPTION_NOT_HANDLED }) := by
    intro h
    rw [hbase]
    unfold classifyException
    simp only
    by_cases hbp : record.ExceptionCode = EXCEPTION_BREAKPOINT ∨
        record.ExceptionCode = STATUS_WX86_BREAKPOINT
    · rw [if_pos hbp]
    · rw [if_neg hbp, if_neg h.1, if_neg h.2]
  refine ⟨fun h => ⟨hsent h, ?_⟩, hcrash, hother, ?_⟩
  · intro hret
    have hret' : (({ s with calls := s.calls ++ [Call.OnException record thread_id] } :
          State).loop_mode = true ∧
        WellFormed env { s with calls := s.calls ++ [Call.OnException record thread_id] } ∧
        (env.win64 = true ∨
          ({ s with calls := s.calls ++ [Call.OnException record thread_id] } :
            State).calling_convention ≠ CALLCONV_MICROSOFT_X64)) ∨
        (({ s with calls := s.calls ++ [Call.OnException record thread_id] } :
          State).loop_mode = false ∧
        ({ s with calls := s.calls ++ [Call.OnException record thread_id] } :
          State).mem.readable (env.GetTranslatedAddress
            ({ s with calls := s.calls ++ [Call.OnException record thread_id] } :
              State).target_address) = true ∧
        ({ s with calls := s.calls ++ [Call.OnException record thread_id] } :
          State).mem.writable (env.GetTranslatedAddress
            ({ s with calls := s.calls ++ [Call.OnException record thread_id] } :
              State).target_address) = true) := hret
    obtain ⟨s1, hs1⟩ := HandleTargetEnded_returns env _ thread_id hret'
    refine ⟨s1, ?_⟩
    rw [hsent h, hs1]
    rfl
  · intro status s1 hres
    by_cases hav : record.ExceptionCode = EXCEPTION_ACCESS_VIOLATION
    · have hnk : ¬ (record.ExceptionCode = EXCEPTION_ILLEGAL_INSTRUCTION ∨
          record.ExceptionCode = EXCEPTION_PRIV_INSTRUCTION ∨
          record.ExceptionCode = EXCEPTION_INT_DIVIDE_BY_ZERO ∨
          record.ExceptionCode = EXCEPTION_STACK_OVERFLOW ∨
          record.ExceptionCode = STATUS_HEAP_CORRUPTION ∨
          record.ExceptionCode = STATUS_STACK_BUFFER_OVERRUN ∨
          record.ExceptionCode = STATUS_FATAL_APP_EXIT) := by
        rw [hav]; decide
      by_cases haddr : record.ExceptionAddress = PERSIST_END_EXCEPTION
      · rw [hsent ⟨hav, haddr⟩] at hres
        have hst : status = DebuggerStatus.DEBUGGER_TARGET_END := by
          cases hte : HandleTargetEnded env thread_id
              { s with calls := s.calls ++ [.OnException record thread_id] } with
          | error e => rw [hte] at hres; exact Except.noConfusion hres
          | ok s2 =>
            rw [hte] at hres
            simp only [Except.map, Except.ok.injEq, Prod.mk.injEq] at hres
            exact hres.1.symm
        subst hst
        refine ⟨⟨fun _ => ⟨hav, haddr⟩, fun _ => rfl⟩, ⟨fun h => (by cases h), ?_⟩,
          fun h => absurd rfl h⟩
        rintro (⟨_, h⟩ | h)
        · exact absurd haddr h
        · exact absurd h hnk
      · rw [hcrash (Or.inl ⟨hav, haddr⟩)] at hres
        simp only [Except.ok.injEq, Prod.mk.injEq] at hres
        have hst : status = DebuggerStatus.DEBUGGER_CRASHED := hres.1.symm
        subst hst
        refine ⟨⟨fun h => (by cases h), fun h => absurd h.2 haddr⟩,
          ⟨fun _ => Or.inl ⟨hav, haddr⟩, fun _ => rfl⟩, fun _ h => absurd rfl h⟩
    · by_cases hk : record.ExceptionCode = EXCEPTION_ILLEGAL_INSTRUCTION ∨
          record.ExceptionCode = EXCEPTION_PRIV_INSTRUCTION ∨
          record.ExceptionCode = EXCEPTION_INT_DIVIDE_BY_ZERO ∨
          record.ExceptionCode = EXCEPTION_STACK_OVERFLOW ∨
          record.ExceptionCode = STATUS_HEAP_CORRUPTION ∨
          record.ExceptionCode = STATUS_STACK_BUFFER_OVERRUN ∨
          record.ExceptionCode = STATUS_FATAL_APP_EXIT
      · rw [hcrash (Or.inr hk)] at hres
        simp only [Except.ok.injEq, Prod.mk.injEq] at hres
        have hst : status = DebuggerStatus.DEBUGGER_CRASHED := hres.1.symm
        subst hst
        refine ⟨⟨fun h => (by cases h), fun h => absurd h.1 hav⟩,
          ⟨fun _ => Or.inr hk, fun _ => rfl⟩, fun _ h => absurd rfl h⟩
      · rw [hother ⟨hav, hk⟩] at hres
        simp only [Except.ok.injEq, Prod.mk.injEq] at hres
        have hst : status = DebuggerStatus.DEBUGGER_CONTINUE := hres.1.symm
        subst hst
        refine ⟨⟨fun h => (by cases h), fun h => absurd h.1 hav⟩, ⟨fun h => (by cases h), ?_⟩,
          fun _ _ => rfl⟩
        rintro (⟨h, _⟩ | h)
        · exact absurd h hav
        · exact absurd h hk

/-- C9, witness: on the faulted target of scenario S2 (loop mode, the client
handles nothing) an access violation at `0x0F22` returns `TargetEnd`, and an
access violation at `0x1234` returns `Crashed` with the continue status set to
`DBG_EXCEPTION_NOT_HANDLED`. -/
theorem exception_classification_witness :
    c6_fault.target_function_defined = true ∧
    (∃ s1, HandleExceptionInternal env64
      { ExceptionCode := EXCEPTION_ACCESS_VIOLATION, ExceptionAddress := 0x0F22 } 1 c6_fault =
        .ok (DebuggerStatus.DEBUGGER_TARGET_END, s1)) ∧
    HandleExceptionInternal env64
      { ExceptionCode := EXCEPTION_ACCESS_VIOLATION, ExceptionAddress := 0x1234 } 1 c6_fault =
        .ok (DebuggerStatus.DEBUGGER_CRASHED,
          { c6_fault with
            calls := c6_fault.calls ++ [.OnException
              { ExceptionCode := EXCEPTION_ACCESS_VIOLATION, ExceptionAddress := 0x1234 } 1]
            dbg_continue_status := DBG_EXCEPTION_NOT_HANDLED }) :=
  ⟨rfl,
    ((exception_classification env64 c6_fault
      { ExceptionCode := EXCEPTION_ACCESS_VIOLATION, ExceptionAddress := 0x0F22 } 1 rfl
      (fun h => absurd h (by decide))).2 rfl).1 ⟨rfl, rfl⟩ |>.2
      (Or.inl ⟨rfl, ⟨Or.inr rfl, by decide, fun _ => ⟨_, rfl, by decide⟩⟩, Or.inl rfl⟩),
    ((exception_classification env64 c6_fault
      { ExceptionCode := EXCEPTION_ACCESS_VIOLATION, ExceptionAddress := 0x1234 } 1 rfl
      (fun h => absurd h (by decide))).2 rfl).2.1 (Or.inl ⟨rfl, by decide⟩)⟩

end Debugger

namespace Debugger

/-! ## C10: entrypoint ordering -/

theorem moduleLoadedCalls_append (a b : List Call) :
    moduleLoadedCalls (a ++ b) = moduleLoadedCalls a ++ moduleLoadedCalls b := by
  simp [moduleLoadedCalls]

theorem entrypointKept_refl (s : State) : EntrypointKept s s := ⟨rfl, rfl, rfl⟩

theorem entrypointKept_trans {a b c : State} (h1 : EntrypointKept a b)
    (h2 : EntrypointKept b c) : EntrypointKept a c :=
  ⟨h2.1.trans h1.1, h2.2.1.trans h1.2.1, h2.2.2.trans h1.2.2⟩

theorem entrypointOrder_of_kept {a b : State} (h : EntrypointKept a b) : EntrypointOrder a b :=
  ⟨h.1, fun ha => by rw [h.2.1]; exact ha, fun _ => h.2.2⟩

theorem entrypointOrder_trans {a b c : State} (h1 : EntrypointOrder a b)
    (h2 : EntrypointOrder b c) : EntrypointOrder a c := by
  refine ⟨h2.1.trans h1.1, fun ha => h2.2.1 (h1.2.1 ha), fun hc => ?_⟩
  have hb : b.child_entrypoint_reached = false := by
    cases hbv : b.child_entrypoint_reached with
    | false => rfl
    | true => rw [h2.2.1 hbv] at hc; exact absurd hc (by decide)
  rw [h2.2.2 hc, h1.2.2 hb]

theorem HandleTargetReachedInternal_kept {env : Env} {thread_id : Nat} {s s1 : State}
    (h : HandleTargetReachedInternal env thread_id s = .ok s1) : EntrypointKept s s1 := by
  obtain ⟨_, b, rfl⟩ := HandleTargetReachedInternal_inv h
  refine ⟨rfl, rfl, ?_⟩
  simp only
  split
  · rfl
  · rw [moduleLoadedCalls_append]
    simp [moduleLoadedCalls]

theorem HandleTargetEnded_kept {env : Env} {thread_id : Nat} {s s1 : State}
    (h : HandleTargetEnded env thread_id s = .ok s1) : EntrypointKept s s1 := by
  cases hl : s.loop_mode with
  | true =>
    obtain ⟨_, lc, m, _, rfl⟩ := HandleTargetEnded_loop hl h
    exact ⟨rfl, rfl, rfl⟩
  | false =>
    obtain ⟨s2, h2, rfl⟩ := HandleTargetEnded_single hl h
    obtain ⟨_, _, rfl⟩ := AddBreakpoint_inv h2
    exact ⟨rfl, rfl, rfl⟩

theorem consumeBreakpoint_kept {env : Env} {address thread_id : Nat} {s sd : State}
    {bp : Breakpoint} (h : consumeBreakpoint env address thread_id s = .ok (some (bp, sd))) :
    sd.attach_mode = s.attach_mode ∧ sd.child_entrypoint_reached = s.child_entrypoint_reached ∧
    sd.calls = s.calls ∧ sd.modules = s.modules := by
  unfold consumeBreakpoint at h
  split at h
  · simp at h
  · simp only at h
    split at h
    · exact Except.noConfusion h
    · simp only [Except.ok.injEq, Option.some.injEq, Prod.mk.injEq] at h
      rw [← h.2]
      exact ⟨rfl, rfl, rfl, rfl⟩

theorem OnModuleLoaded_calls {env : Env} {module : Nat} {name : List Nat} {s s1 : State}
    (h : OnModuleLoaded env module name s = .ok s1) :
    s1.attach_mode = s.attach_mode ∧ s1.child_entrypoint_reached = s.child_entrypoint_reached ∧
    s1.calls = s.calls ++ [.OnModuleLoaded module name] := by
  rcases OnModuleLoaded_inv h with ⟨_, rfl⟩ | ⟨_, ta, off, _, _, _, rfl⟩
  · exact ⟨rfl, rfl, rfl⟩
  · exact ⟨rfl, rfl, rfl⟩

theorem reportModules_calls {env : Env} (ms : List Module) : ∀ {s s1 : State},
    reportModules env ms s = .ok s1 →
    s1.attach_mode = s.attach_mode ∧ s1.child_entrypoint_reached = s.child_entrypoint_reached ∧
    s1.calls = s.calls ++ ms.map (fun m => Call.OnModuleLoaded m.handle m.base_name) := by
  induction ms with
  | nil =>
    intro s s1 h
    simp only [reportModules, Except.ok.injEq] at h
    subst h
    simp
  | cons m ms ih =>
    intro s s1 h
    simp only [reportModules, bind_eq_ok] at h
    obtain ⟨s2, h1, h2⟩ := h
    obtain ⟨a1, b1, c1⟩ := OnModuleLoaded_calls h1
    obtain ⟨a2, b2, c2⟩ := ih h2
    refine ⟨a2.trans a1, b2.trans b1, ?_⟩
    rw [c2, c1]
    simp

theorem handleOwnBreakpoint_entry {env : Env} {record : ExceptionRecord} {thread_id : Nat}
    {s sa : State} {early : Option DebuggerStatus}
    (h : handleOwnBreakpoint env record thread_id s = .ok (early, sa)) :
    EntrypointKept s sa ∨
    ∃ bp sd, consumeBreakpoint env record.ExceptionAddress thread_id s = .ok (some (bp, sd)) ∧
      bp.type = BREAKPOINT_ENTRYPOINT ∧ OnEntrypoint env sd = .ok sa ∧
      early = some DebuggerStatus.DEBUGGER_CONTINUE := by
  unfold handleOwnBreakpoint at h
  split at h
  · rw [bind_eq_ok] at h
    obtain ⟨⟨bt, sb⟩, hh, h⟩ := h
    simp only at h
    have hsa : sa = sb ∧ (bt = BREAKPOINT_ENTRYPOINT →
        early = some DebuggerStatus.DEBUGGER_CONTINUE) := by
      split at h
      · simp only [pure, Except.pure, Except.ok.injEq, Prod.mk.injEq] at h
        rename_i hbt
        exact ⟨h.2.symm, fun he => by rw [he] at hbt; exact absurd hbt (by decide)⟩
      · split at h
        · simp only [pure, Except.pure, Except.ok.injEq, Prod.mk.injEq] at h
          exact ⟨h.2.symm, fun _ => h.1.symm⟩
        · simp only [pure, Except.pure, Except.ok.injEq, Prod.mk.injEq] at h
          rename_i hbt
          refine ⟨h.2.symm, fun he => ?_⟩
          rw [he] at hbt
          exact absurd hbt (by decide)
    obtain ⟨rfl, hearly⟩ := hsa
    unfold HandleDebuggerBreakpoint at hh
    cases hc : consumeBreakpoint env record.ExceptionAddress thread_id s with
    | error e => simp [hc] at hh
    | ok o =>
      cases o with
      | none =>
        simp only [hc, Except.ok.injEq, Prod.mk.injEq] at hh
        rw [← hh.2]
        exact Or.inl (entrypointKept_refl s)
      | some p =>
        obtain ⟨bp, sd⟩ := p
        simp only [hc] at hh
        obtain ⟨k1, k2, k3, _⟩ := consumeBreakpoint_kept hc
        have hk : EntrypointKept s sd := ⟨k1, k2, by rw [k3]⟩
        cases hb : handleBreakpointType env bp.type thread_id sd with
        | error e => simp [hb] at hh
        | ok s2 =>
          simp only [hb, Except.ok.injEq, Prod.mk.injEq] at hh
          obtain ⟨hty, rfl⟩ := hh
          unfold handleBreakpointType at hb
          split at hb
          · rename_i hent
            exact Or.inr ⟨bp, sd, rfl, hent, hb, hearly (by rw [← hty]; exact hent)⟩
          · split at hb
            · exact Or.inl (entrypointKept_trans hk (HandleTargetReachedInternal_kept hb))
            · simp only [Except.ok.injEq] at hb
              rw [← hb]
              exact Or.inl hk
  · simp only [pure, Except.pure, Except.ok.injEq, Prod.mk.injEq] at h
    rw [← h.2]
    exact Or.inl (entrypointKept_refl s)

theorem classifyException_kept {env : Env} {record : ExceptionRecord} {thread_id : Nat}
    {s s1 : State} {ret : DebuggerStatus}
    (h : classifyException env record thread_id s = .ok (ret, s1)) : EntrypointKept s s1 := by
  unfold classifyException at h
  simp only at h
  split at h
  · simp only [Except.ok.injEq, Prod.mk.injEq] at h
    rw [← h.2]
    exact ⟨rfl, rfl, rfl⟩
  · split at h
    · split at h
      · simp only [bind_eq_ok, pure, Except.pure, Except.ok.injEq, Prod.mk.injEq] at h
        obtain ⟨s2, h2, _, rfl⟩ := h
        exact HandleTargetEnded_kept h2
      · simp only [Except.ok.injEq, Prod.mk.injEq] at h
        rw [← h.2]
        exact ⟨rfl, rfl, rfl⟩
    · split at h
      · simp only [Except.ok.injEq, Prod.mk.injEq] at h
        rw [← h.2]
        exact ⟨rfl, rfl, rfl⟩
      · simp only [Except.ok.injEq, Prod.mk.injEq] at h
        rw [← h.2]
        exact ⟨rfl, rfl, rfl⟩

theorem HandleExceptionInternal_entry {env : Env} {record : ExceptionRecord} {thread_id : Nat}
    {s s2 : State} {ret : DebuggerStatus}
    (h : HandleExceptionInternal env record thread_id s = .ok (ret, s2)) :
    EntrypointKept s s2 ∨
    ∃ bp sd, consumeBreakpoint env record.ExceptionAddress thread_id s = .ok (some (bp, sd)) ∧
      bp.type = BREAKPOINT_ENTRYPOINT ∧ OnEntrypoint env sd = .ok s2 ∧
      ret = DebuggerStatus.DEBUGGER_CONTINUE := by
  unfold HandleExceptionInternal at h
  rw [bind_eq_ok] at h
  obtain ⟨⟨early, sa⟩, ho, h⟩ := h
  simp only at h
  rcases handleOwnBreakpoint_entry ho with hk | ⟨bp, sd, hc, hty, hent, hearly⟩
  · left
    cases early with
    | some status =>
      simp only [pure, Except.pure, Except.ok.injEq, Prod.mk.injEq] at h
      rw [← h.2]
      exact hk
    | none =>
      simp only at h
      have hk2 : EntrypointKept s
          { sa with calls := sa.calls ++ [.OnException record thread_id] } := by
        refine entrypointKept_trans hk ⟨rfl, rfl, ?_⟩
        simp only
        rw [moduleLoadedCalls_append]
        simp [moduleLoadedCalls]
      split at h
      · simp only [pure, Except.pure, Except.ok.injEq, Prod.mk.injEq] at h
        rw [← h.2]
        exact hk2
      · exact entrypointKept_trans hk2 (classifyException_kept h)
  · right
    subst hearly
    simp only [pure, Except.pure, Except.ok.injEq, Prod.mk.injEq] at h
    exact ⟨bp, sd, hc, hty, by rw [← h.2]; exact hent, h.1.symm⟩

theorem dispatchEvent_entry {env : Env} {ev : DebugEvent} {s s1 : State} {d : Dispatch}
    (h : dispatchEvent env ev s = .ok (d, s1)) (hattach : s.attach_mode = false) :
    EntrypointKept s s1 ∨
    (∃ info, ev.u = .LoadDll info ∧ s.child_entrypoint_reached = true ∧
      OnModuleLoaded env info.lpBaseOfDll (baseName info.filename) s = .ok s1) ∨
    ∃ record bp sd, ev.u = .Exception record ∧
      consumeBreakpoint env record.ExceptionAddress ev.dwThreadId s = .ok (some (bp, sd)) ∧
      bp.type = BREAKPOINT_ENTRYPOINT ∧ OnEntrypoint env sd = .ok s1 := by
  unfold dispatchEvent at h
  split at h
  · rename_i record hu
    rw [bind_eq_ok] at h
    obtain ⟨⟨ret, s2⟩, hh, h⟩ := h
    simp only at h
    have hs1 : s1 = if ret = DebuggerStatus.DEBUGGER_CRASHED then
        { s2 with calls := s2.calls ++ [.OnCrashed record] } else s2 := by
      split at h
      · simp only [pure, Except.pure, Except.ok.injEq, Prod.mk.injEq] at h
        exact h.2.symm
      · simp only [pure, Except.pure, Except.ok.injEq, Prod.mk.injEq] at h
        exact h.2.symm
    rcases HandleExceptionInternal_entry hh with hk | ⟨bp, sd, hc, hty, hent, hret⟩
    · left
      rw [hs1]
      split
      · refine entrypointKept_trans hk ⟨rfl, rfl, ?_⟩
        simp only
        rw [moduleLoadedCalls_append]
        simp [moduleLoadedCalls]
      · exact hk
    · right; right
      subst hret
      rw [if_neg (by decide)] at hs1
      subst hs1
      exact ⟨record, bp, sd, hu, hc, hty, hent⟩
  · simp only [pure, Except.pure, Except.ok.injEq, Prod.mk.injEq] at h
    rw [← h.2]
    exact Or.inl (entrypointKept_refl s)
  · rw [bind_eq_ok] at h
    obtain ⟨s2, h2, h⟩ := h
    simp only [pure, Except.pure, Except.ok.injEq, Prod.mk.injEq] at h
    rw [← h.2]
    unfold OnProcessCreated at h2
    rw [if_neg (by rw [hattach]; decide)] at h2
    rw [bind_eq_ok] at h2
    obtain ⟨e, _, h3⟩ := h2
    obtain ⟨_, _, rfl⟩ := AddBreakpoint_inv h3
    exact Or.inl ⟨rfl, rfl, rfl⟩
  · simp only [pure, Except.pure, Except.ok.injEq, Prod.mk.injEq] at h
    rw [← h.2]
    exact Or.inl (entrypointKept_refl s)
  · simp only [pure, Except.pure, Except.ok.injEq, Prod.mk.injEq] at h
    rw [← h.2]
    refine Or.inl ⟨rfl, rfl, ?_⟩
    simp only
    rw [moduleLoadedCalls_append]
    simp [moduleLoadedCalls]
  · rename_i info hu
    rw [bind_eq_ok] at h
    obtain ⟨s2, h2, h⟩ := h
    simp only [pure, Except.pure, Except.ok.injEq, Prod.mk.injEq] at h
    rw [← h.2]
    unfold HandleDllLoadInternal at h2
    split at h2
    · rename_i hflag
      exact Or.inr (Or.inl ⟨info, hu, hflag, h2⟩)
    · simp only [Except.ok.injEq] at h2
      rw [← h2]
      exact Or.inl (entrypointKept_refl s)
  · simp only [pure, Except.pure, Except.ok.injEq, Prod.mk.injEq] at h
    rw [← h.2]
    refine Or.inl ⟨rfl, rfl, ?_⟩
    simp only [OnModuleUnloaded]
    rw [moduleLoadedCalls_append]
    simp [moduleLoadedCalls]
  · simp only [pure, Except.pure, Except.ok.injEq, Prod.mk.injEq] at h
    rw [← h.2]
    exact Or.inl (entrypointKept_refl s)

theorem dispatchEvent_order {env : Env} {ev : DebugEvent} {s s1 : State} {d : Dispatch}
    (h : dispatchEvent env ev s = .ok (d, s1)) (hattach : s.attach_mode = false) :
    EntrypointOrder s s1 := by
  rcases dispatchEvent_entry h hattach with hk | ⟨info, _, hflag, hl⟩ | ⟨r, bp, sd, _, hc, _, he⟩
  · exact entrypointOrder_of_kept hk
  · obtain ⟨a, b, _⟩ := OnModuleLoaded_calls hl
    refine ⟨a, fun _ => by rw [b]; exact hflag, fun hf => ?_⟩
    rw [b, hflag] at hf
    exact absurd hf (by decide)
  · obtain ⟨ms, s2, _, hrep, rfl⟩ := OnEntrypoint_inv he
    obtain ⟨a, _, _⟩ := reportModules_calls ms hrep
    obtain ⟨k1, _, _, _⟩ := consumeBreakpoint_kept hc
    exact ⟨a.trans k1, fun _ => rfl, fun hf => Bool.noConfusion hf⟩

theorem continueDebugEvent_kept (s : State) : EntrypointKept s (ContinueDebugEvent s) := by
  refine ⟨rfl, rfl, ?_⟩
  simp only [ContinueDebugEvent]
  rw [moduleLoadedCalls_append]
  simp [moduleLoadedCalls]

theorem debugLoopBody_order (env : Env) : ∀ (script : List WaitResult) (s s1 : State)
    (status : DebuggerStatus) (rest : List WaitResult),
    debugLoopBody env script s = .ok (status, s1, rest) → s.attach_mode = false →
    EntrypointOrder s s1 := by
  intro script
  induction script with
  | nil => intro s s1 status rest h _; simp [debugLoopBody] at h
  | cons w ws ih =>
    intro s s1 status rest h hattach
    have hwait : moduleLoadedCalls (s.calls ++ [Call.WaitForDebugEvent]) =
        moduleLoadedCalls s.calls := by
      rw [moduleLoadedCalls_append]
      simp [moduleLoadedCalls]
    unfold debugLoopBody at h
    simp only at h
    split at h
    · split at h
      · simp only [Except.ok.injEq, Prod.mk.injEq] at h
        rw [← h.2.1]
        exact entrypointOrder_of_kept ⟨rfl, rfl, hwait⟩
      · have h2 := ih _ _ _ _ h hattach
        refine entrypointOrder_trans ?_ h2
        exact entrypointOrder_of_kept ⟨rfl, rfl, hwait⟩
    · split at h
      · simp only [Except.ok.injEq, Prod.mk.injEq] at h
        rw [← h.2.1]
        exact entrypointOrder_of_kept ⟨rfl, rfl, hwait⟩
      · split at h
        · exact Except.noConfusion h
        · rename_i ret s2 hd
          simp only [Except.ok.injEq, Prod.mk.injEq] at h
          rw [← h.2.1]
          have h2 := dispatchEvent_order hd hattach
          refine entrypointOrder_trans ?_ h2
          exact entrypointOrder_of_kept ⟨rfl, rfl, hwait⟩
        · rename_i alive s2 hd
          have h2 := dispatchEvent_order hd hattach
          have ho : EntrypointOrder s s2 := by
            refine entrypointOrder_trans ?_ h2
            exact entrypointOrder_of_kept ⟨rfl, rfl, hwait⟩
          have ho2 := entrypointOrder_trans ho
            (entrypointOrder_of_kept (continueDebugEvent_kept s2))
          split at h
          · have ha2 : (ContinueDebugEvent s2).attach_mode = false := by
              rw [ho2.1]; exact hattach
            exact entrypointOrder_trans ho2 (ih _ _ _ _ h ha2)
          · simp only [Except.ok.injEq, Prod.mk.injEq] at h
            rw [← h.2.1]
            exact ho2

theorem DebugLoop_order (env : Env) (script : List WaitResult) (s s1 : State)
    (status : DebuggerStatus) (rest : List WaitResult) (hattach : s.attach_mode = false)
    (h : DebugLoop env script s = .ok (status, s1, rest)) : EntrypointOrder s s1 := by
  unfold DebugLoop at h
  simp only at h
  split at h
  · exact entrypointOrder_trans (entrypointOrder_of_kept (continueDebugEvent_kept s))
      (debugLoopBody_order env script _ _ _ _ h hattach)
  · exact debugLoopBody_order env script _ _ _ _ h hattach

/-- C10: in non-attach mode, for every debugger state `s`.  A DLL-load event
handled while `child_entrypoint_reached` is false returns the state unchanged
(no call is logged, `target_address` and the breakpoint table are as before).
A DLL-load event handled while it is true is `OnModuleLoaded` on the base
address and the base name of the file, which logs exactly that one hook call.
Handling any single event never resets `child_entrypoint_reached`, makes no
`OnModuleLoaded` call if the flag is false afterwards, and turns the flag from
false to true only by an Entrypoint breakpoint hit whose `OnEntrypoint` first
reports every enumerated module, in order and with the flag still false, and
sets the flag last.  The same holds for every whole run of `DebugLoop`, on
every sequence of wait results: the flag is never reset and no
`OnModuleLoaded` call is made in a run that ends with the flag still false. -/
theorem entrypoint_ordering (env : Env) (s : State) (hattach : s.attach_mode = false) :
    (s.child_entrypoint_reached = false → ∀ ev info, ev.u = .LoadDll info →
      HandleDllLoadInternal env info s = .ok s ∧
      dispatchEvent env ev s = .ok (.proceed true, s)) ∧
    (s.child_entrypoint_reached = true → ∀ ev info, ev.u = .LoadDll info →
      HandleDllLoadInternal env info s =
        OnModuleLoaded env info.lpBaseOfDll (baseName info.filename) s ∧
      dispatchEvent env ev s =
        (OnModuleLoaded env info.lpBaseOfDll (baseName info.filename) s).map
          (fun s1 => (Dispatch.proceed true, s1)) ∧
      ∀ s1, HandleDllLoadInternal env info s = .ok s1 →
        s1.calls = s.calls ++ [.OnModuleLoaded info.lpBaseOfDll (baseName info.filename)] ∧
        s1.child_entrypoint_reached = true) ∧
    (∀ ev d s1, dispatchEvent env ev s = .ok (d, s1) →
      s1.attach_mode = false ∧
      (s.child_entrypoint_reached = true → s1.child_entrypoint_reached = true) ∧
      (s1.child_entrypoint_reached = false →
        moduleLoadedCalls s1.calls = moduleLoadedCalls s.calls) ∧
      (s.child_entrypoint_reached = false → s1.child_entrypoint_reached = true →
        ∃ record bp sd ms s2, ev.u = .Exception record ∧
          consumeBreakpoint env record.ExceptionAddress ev.dwThreadId s = .ok (some (bp, sd)) ∧
          bp.type = BREAKPOINT_ENTRYPOINT ∧ sd.modules = some ms ∧
          reportModules env ms sd = .ok s2 ∧
          s2.child_entrypoint_reached = false ∧
          s2.calls = s.calls ++ ms.map (fun m => Call.OnModuleLoaded m.handle m.base_name) ∧
          s1 = { s2 with child_entrypoint_reached := true })) ∧
    (∀ script status s1 rest, DebugLoop env script s = .ok (status, s1, rest) →
      s1.attach_mode = false ∧
      (s.child_entrypoint_reached = true → s1.child_entrypoint_reached = true) ∧
      (s1.child_entrypoint_reached = false →
        moduleLoadedCalls s1.calls = moduleLoadedCalls s.calls)) := by
  refine ⟨?_, ?_, ?_, ?_⟩
  · intro hflag ev info hu
    have h1 : HandleDllLoadInternal env info s = .ok s := by
      unfold HandleDllLoadInternal
      rw [if_neg (by rw [hflag]; decide)]
    refine ⟨h1, ?_⟩
    unfold dispatchEvent
    rw [hu]
    simp only [h1, bind, Except.bind, pure, Except.pure]
  · intro hflag ev info hu
    have h1 : HandleDllLoadInternal env info s =
        OnModuleLoaded env info.lpBaseOfDll (baseName info.filename) s := by
      unfold HandleDllLoadInternal
      rw [if_pos hflag]
    refine ⟨h1, ?_, ?_⟩
    · unfold dispatchEvent
      rw [hu]
      simp only [h1, bind, Except.bind, pure, Except.pure]
      cases OnModuleLoaded env info.lpBaseOfDll (baseName info.filename) s <;> rfl
    · intro s1 hs1
      rw [h1] at hs1
      obtain ⟨_, b, c⟩ := OnModuleLoaded_calls hs1
      exact ⟨c, by rw [b]; exact hflag⟩
  · intro ev d s1 h
    have ho := dispatchEvent_order h hattach
    refine ⟨by rw [ho.1]; exact hattach, ho.2.1, ho.2.2, ?_⟩
    intro hf0 hf1
    rcases dispatchEvent_entry h hattach with hk | ⟨info, _, hflag, _⟩ |
      ⟨record, bp, sd, hu, hc, hty, he⟩
    · rw [hk.2.1, hf0] at hf1
      exact absurd hf1 (by decide)
    · rw [hf0] at hflag
      exact absurd hflag (by decide)
    · obtain ⟨ms, s2, hms, hrep, hs1⟩ := OnEntrypoint_inv he
      obtain ⟨_, b, c⟩ := reportModules_calls ms hrep
      obtain ⟨_, k2, k3, _⟩ := consumeBreakpoint_kept hc
      exact ⟨record, bp, sd, ms, s2, hu, hc, hty, hms, hrep, by rw [b, k2]; exact hf0,
        by rw [c, k3], hs1⟩
  · intro script status s1 rest h
    have ho := DebugLoop_order env script s s1 status rest hattach h
    exact ⟨by rw [ho.1]; exact hattach, ho.2.1, ho.2.2⟩

/-- C10, witness: a process started with target `t.exe` + `0x1800`.  The load
event of `t.exe` delivered before the entrypoint changes nothing; a run that
ends before the entrypoint is reached has made no `OnModuleLoaded` call, has
left `target_address` at zero and holds only the Entrypoint record; a run
through the entrypoint reports `t.exe` from `OnEntrypoint` and then `k.dll`
from its load event. -/
theorem entrypoint_ordering_witness :
    c10_start.attach_mode = false ∧ c10_start.child_entrypoint_reached = false ∧
    dispatchEvent env64 c7_load c10_start = .ok (.proceed true, c10_start) ∧
    (DebugLoop env64 c10_script_before c10_start).map
        (fun r => (r.1, r.2.1.child_entrypoint_reached, moduleLoadedCalls r.2.1.calls)) =
      .ok (DebuggerStatus.DEBUGGER_HANGED, false, []) ∧
    (DebugLoop env64 c10_script_before c10_start).map
        (fun r => (r.2.1.target_address, r.2.1.breakpoints, r.2.2.length)) =
      .ok (0,
        [{ address := 0x401000, original_opcode := 0x55, type := BREAKPOINT_ENTRYPOINT }], 0) ∧
    (DebugLoop env64 c10_script c10_start).map
        (fun r => (r.1, r.2.1.child_entrypoint_reached, moduleLoadedCalls r.2.1.calls)) =
      .ok (DebuggerStatus.DEBUGGER_PROCESS_EXIT, true,
        [.OnModuleLoaded 0x400000 name_t_exe,
          .OnModuleLoaded 0x70000000 [107, 46, 100, 108, 108]]) ∧
    (DebugLoop env64 c10_script c10_start).map
        (fun r => (r.2.1.target_address, r.2.1.breakpoints, r.2.2.length)) =
      .ok (0x401800,
        [{ address := 0x401800, original_opcode := 0, type := BREAKPOINT_TARGET }], 0) :=
  ⟨rfl, rfl, ((entrypoint_ordering env64 c10_start rfl).1 rfl c7_load _ rfl).2,
    by decide!, by decide!, by decide!, by decide!⟩

end Debugger

namespace Debugger

/-! ## The header parsers on a block that was read -/

/-- `GetImageSize` on a header block `d`, read by read: each read either lies
inside the block or takes the out-of-range branch. -/
theorem GetImageSize_block (s : State) (base_address : Nat) (d : Nat → Nat)
    (h : ReadProcessMemory s.mem base_address 4096 = some d) :
    GetImageSize s base_address =
      if 4096 < leRead d 0x3C 4 + 4 then .error .outOfBounds
      else if leRead d (leRead d 0x3C 4) 4 ≠ 0x00004550 then .error (.fatal .PESignature)
      else if 4096 < leRead d 0x3C 4 + 0x18 + 2 then .error .outOfBounds
      else if leRead d (leRead d 0x3C 4 + 0x18) 2 ≠ 0x10b ∧
          leRead d (leRead d 0x3C 4 + 0x18) 2 ≠ 0x20b then .error (.fatal .PEMagic)
      else if 4096 < leRead d 0x3C 4 + 0x18 + 56 + 4 then .error .outOfBounds
      else .ok (leRead d (leRead d 0x3C 4 + 0x18 + 56) 4) := by
  unfold GetImageSize readHeaders
  rw [h]
  simp only [bind, Except.bind, Buf.read]
  rw [if_pos (by norm_num)]
  simp only
  by_cases h1 : 4096 < leRead d 0x3C 4 + 4
  · rw [if_pos h1, if_neg (by omega)]
  · rw [if_neg h1, if_pos (by omega)]
    simp only
    by_cases h2 : leRead d (leRead d 0x3C 4) 4 ≠ 0x00004550
    · rw [if_pos h2, if_pos h2]
    · rw [if_neg h2, if_neg h2]
      by_cases h3 : 4096 < leRead d 0x3C 4 + 0x18 + 2
      · rw [if_pos h3, if_neg (by omega)]
      · rw [if_neg h3, if_pos (by omega)]
        simp only
        by_cases h4 : leRead d (leRead d 0x3C 4 + 0x18) 2 ≠ 0x10b ∧
            leRead d (leRead d 0x3C 4 + 0x18) 2 ≠ 0x20b
        · rw [if_pos h4, if_pos h4]
        · rw [if_neg h4, if_neg h4]
          by_cases h5 : 4096 < leRead d 0x3C 4 + 0x18 + 56 + 4
          · rw [if_pos h5, if_neg (by omega)]
          · rw [if_neg h5, if_pos (by omega)]

/-- `GetModuleEntrypoint` on a header block `d`, read by read. -/
theorem GetModuleEntrypoint_block (env : Env) (s : State) (base_address : Nat) (d : Nat → Nat)
    (h : ReadProcessMemory s.mem base_address 4096 = some d) :
    GetModuleEntrypoint env s base_address =
      if 4096 < leRead d 0x3C 4 + 4 then .error .outOfBounds
      else if leRead d (leRead d 0x3C 4) 4 ≠ 0x00004550 then .error (.fatal .PESignature)
      else if 4096 < leRead d 0x3C 4 + 0x18 + 2 then .error .outOfBounds
      else if leRead d (leRead d 0x3C 4 + 0x18) 2 ≠ 0x10b ∧
          leRead d (leRead d 0x3C 4 + 0x18) 2 ≠ 0x20b then .error (.fatal .PEMagic)
      else if 4096 < leRead d 0x3C 4 + 0x18 + 16 + 4 then .error .outOfBounds
      else if leRead d (leRead d 0x3C 4 + 0x18 + 16) 4 = 0 then .ok 0
      else .ok ((base_address + leRead d (leRead d 0x3C 4 + 0x18 + 16) 4) % env.word) := by
  unfold GetModuleEntrypoint readHeaders
  rw [h]
  simp only [bind, Except.bind, Buf.read]
  rw [if_pos (by norm_num)]
  simp only
  by_cases h1 : 4096 < leRead d 0x3C 4 + 4
  · rw [if_pos h1, if_neg (by omega)]
  · rw [if_neg h1, if_pos (by omega)]
    simp only
    by_cases h2 : leRead d (leRead d 0x3C 4) 4 ≠ 0x00004550
    · rw [if_pos h2, if_pos h2]
    · rw [if_neg h2, if_neg h2]
      by_cases h3 : 4096 < leRead d 0x3C 4 + 0x18 + 2
      · rw [if_pos h3, if_neg (by omega)]
      · rw [if_neg h3, if_pos (by omega)]
        simp only
        by_cases h4 : leRead d (leRead d 0x3C 4 + 0x18) 2 ≠ 0x10b ∧
            leRead d (leRead d 0x3C 4 + 0x18) 2 ≠ 0x20b
        · rw [if_pos h4, if_pos h4]
        · rw [if_neg h4, if_neg h4]
          by_cases h5 : 4096 < leRead d 0x3C 4 + 0x18 + 16 + 4
          · rw [if_pos h5, if_neg (by omega)]
          · rw [if_neg h5, if_pos (by omega)]

/-- Both parsers call `FATAL` when the header block cannot be read. -/
theorem header_unreadable (env : Env) (s : State) (base_address : Nat)
    (h : ReadProcessMemory s.mem base_address 4096 = none) :
    GetModuleEntrypoint env s base_address = .error (.fatal .ReadTargetMemory) ∧
    GetImageSize s base_address = .error (.fatal .ReadTargetMemory) := by
  unfold GetModuleEntrypoint GetImageSize readHeaders
  rw [h]
  exact ⟨rfl, rfl⟩

end Debugger

namespace Debugger

/-! ## C11: export lookup -/

theorem leRead_one (f : Nat → Nat) (a : Nat) : leRead f a 1 = f a % 256 := by
  simp [leRead]

/-- `strcmp` against a string that ends inside the buffer decides equality. -/
theorem strcmpEq_cstring (data : Buf) : ∀ (name : List Nat) (fuel p : Nat) (str : List Nat),
    p + fuel ≤ data.size → (∀ c, c ∈ name → c ≠ 0) → cstringFrom data fuel p = some str →
    strcmpEq data name p = .ok (decide (name = str)) := by
  intro name
  induction name with
  | nil =>
    intro fuel p str hb _ hs
    cases fuel with
    | zero => simp [cstringFrom] at hs
    | succ fuel =>
      have hr := Buf.read_ok data p 1 (by omega)
      rw [leRead_one] at hr
      unfold strcmpEq
      simp only [hr, bind, Except.bind, pure, Except.pure]
      unfold cstringFrom at hs
      by_cases h0 : data.data p % 256 = 0
      · rw [if_pos h0] at hs
        simp only [Option.some.injEq] at hs
        subst hs
        simp [h0]
      · rw [if_neg h0] at hs
        cases hrec : cstringFrom data fuel (p + 1) with
        | none => simp [hrec] at hs
        | some str1 =>
          simp only [hrec, Option.map_some', Option.some.injEq] at hs
          subst hs
          simp [h0]
  | cons c cs ih =>
    intro fuel p str hb hn hs
    have hc : c ≠ 0 := hn c (List.mem_cons_self _ _)
    have hcs : ∀ x, x ∈ cs → x ≠ 0 := fun x hx => hn x (List.mem_cons_of_mem _ hx)
    cases fuel with
    | zero => simp [cstringFrom] at hs
    | succ fuel =>
      have hr := Buf.read_ok data p 1 (by omega)
      rw [leRead_one] at hr
      unfold strcmpEq
      simp only [hr, bind, Except.bind, pure, Except.pure]
      unfold cstringFrom at hs
      by_cases h0 : data.data p % 256 = 0
      · rw [if_pos h0] at hs
        simp only [Option.some.injEq] at hs
        subst hs
        have hne : ¬ (data.data p % 256 = c) := by rw [h0]; exact fun h => hc h.symm
        simp [hne]
      · rw [if_neg h0] at hs
        cases hrec : cstringFrom data fuel (p + 1) with
        | none => simp [hrec] at hs
        | some str1 =>
          simp only [hrec, Option.map_some', Option.some.injEq] at hs
          subst hs
          by_cases hd : data.data p % 256 = c
          · have := ih fuel (p + 1) str1 (by omega) hcs hrec
            simp [hd, this]
          · have hne : ¬ (c = data.data p % 256) := fun h => hd h.symm
            simp [hd, hne]

/-- `strcmp` against the string at `p`, when that string ends inside the buffer. -/
theorem strcmpEq_spec (data : Buf) (name str : List Nat) (p : Nat)
    (hn : ∀ c, c ∈ name → c ≠ 0) (hs : data.cstring p = some str) :
    strcmpEq data name p = .ok (decide (name = str)) := by
  unfold Buf.cstring at hs
  have hp : p ≤ data.size := by
    by_contra hlt
    have h0 : data.size - p = 0 := by omega
    rw [h0] at hs
    simp [cstringFrom] at hs
  exact strcmpEq_cstring data name (data.size - p) p str (by omega) hn hs

theorem find_range_least (P : Nat → Bool) : ∀ (todo s i : Nat), s ≤ i → i < s + todo →
    P i = true → (∀ j, s ≤ j → j < i → P j = false) →
    (List.range' s todo).find? P = some i := by
  intro todo
  induction todo with
  | zero => intro s i h1 h2; omega
  | succ todo ih =>
    intro s i h1 h2 hi hlt
    rw [List.range'_succ, List.find?_cons]
    by_cases hsi : s = i
    · subst hsi
      rw [hi]
    · rw [hlt s (le_refl _) (by omega)]
      exact ih (s + 1) i (by omega) (by omega) hi (fun j hj1 hj2 => hlt j (by omega) hj2)

theorem find_range_none (P : Nat → Bool) : ∀ (todo s : Nat),
    (∀ j, s ≤ j → j < s + todo → P j = false) → (List.range' s todo).find? P = none := by
  intro todo
  induction todo with
  | zero => intro s _; rfl
  | succ todo ih =>
    intro s h
    rw [List.range'_succ, List.find?_cons, h s (le_refl _) (by omega)]
    exact ih (s + 1) (fun j hj1 hj2 => h j (by omega) (by omega))

/-- The name scan stops at the least matching index of `[i, i + todo)`, or at
`i + todo` when there is none. -/
theorem scanNames_find (data : Buf) (name : List Nat) (dir : Nat)
    (hn : ∀ c, c ∈ name → c ≠ 0) : ∀ (todo i : Nat),
    (∀ j, i ≤ j → j < i + todo →
      leRead data.data (dir + 32) 4 + 4 * j + 4 ≤ data.size ∧
      (data.cstring (exportNamePtr data dir j)).isSome = true) →
    scanNames data name (leRead data.data (dir + 32) 4) todo i =
      .ok (match (List.range' i todo).find?
          (fun j => data.cstring (exportNamePtr data dir j) == some name) with
        | some j => j
        | none => i + todo) := by
  intro todo
  induction todo with
  | zero => intro i _; rfl
  | succ todo ih =>
    intro i h
    obtain ⟨hb, hsome⟩ := h i (le_refl _) (by omega)
    obtain ⟨str, hstr⟩ := Option.isSome_iff_exists.mp hsome
    have hr := Buf.read_ok data (leRead data.data (dir + 32) 4 + 4 * i) 4 hb
    have hcmp := strcmpEq_spec data name str _ hn hstr
    unfold scanNames
    rw [hr]
    simp only [bind, Except.bind]
    unfold exportNamePtr at hcmp
    rw [hcmp]
    simp only
    rw [List.range'_succ, List.find?_cons]
    have hP : (data.cstring (exportNamePtr data dir i) == some name) = decide (name = str) := by
      rw [hstr]
      by_cases hx : name = str
      · subst hx; simp
      · have : ¬ str = name := fun h => hx h.symm
        simp [hx, this]
    rw [hP]
    by_cases hx : name = str
    · simp [hx]
    · simp only [hx, decide_False, Bool.false_eq_true, if_false]
      rw [ih (i + 1) (fun j hj1 hj2 => h j (by omega) (by omega))]
      have : i + 1 + todo = i + (todo + 1) := by omega
      rw [this]

/-- With the header and the tables inside the buffer, `GetProcOffset` computes
the lookup of the specification. -/
theorem GetProcOffset_refines (data : Buf) (name : List Nat)
    (hname : ∀ c, c ∈ name → c ≠ 0) (hhead : exportHeaderInside data = true)
    (htab : leRead data.data (leRead data.data 0x3C 4) 4 = 0x00004550 →
      (leRead data.data (leRead data.data 0x3C 4 + 0x18) 2 = 0x10B ∨
        leRead data.data (leRead data.data 0x3C 4 + 0x18) 2 = 0x20B) →
      leRead data.data (exportDirectoryField
        (leRead data.data (leRead data.data 0x3C 4 + 0x18) 2)
        (leRead data.data 0x3C 4 + 0x18)) 4 ≠ 0 →
      exportTablesInside data (leRead data.data (exportDirectoryField
        (leRead data.data (leRead data.data 0x3C 4 + 0x18) 2)
        (leRead data.data 0x3C 4 + 0x18)) 4) = true) :
    GetProcOffset data name = .ok (GetProcOffset_spec data name) := by
  simp only [exportHeaderInside, Bool.and_eq_true, decide_eq_true_eq] at hhead
  obtain ⟨h3c, he⟩ := hhead
  generalize hE : leRead data.data 0x3C 4 = e at he htab
  have r1 : data.read 0x3C 4 = .ok e := by rw [← hE]; exact Buf.read_ok data _ _ h3c
  have r2 := Buf.read_ok data e 4 (by omega)
  have r3 := Buf.read_ok data (e + 0x18) 2 (by omega)
  have r4 := Buf.read_ok data (e + 0x18 + 96) 4 (by omega)
  have r5 := Buf.read_ok data (e + 0x18 + 112) 4 (by omega)
  unfold GetProcOffset GetProcOffset_spec
  simp only [r1, r2, r3, bind, Except.bind, hE]
  by_cases hsig : leRead data.data e 4 = 0x00004550
  · have hs1 : ¬ (leRead data.data e 4 ≠ 0x00004550) := fun h => h hsig
    rw [if_neg hs1, if_neg hs1]
    generalize hM : leRead data.data (e + 0x18) 2 = magic at htab
    by_cases hmag : magic = 0x10B ∨ magic = 0x20B
    · have hm1 : ¬ (magic ≠ 0x10b ∧ magic ≠ 0x20b) := by
        rintro ⟨a, b⟩
        rcases hmag with h | h
        · exact a h
        · exact b h
      rw [if_neg hm1, if_neg hm1]
      have hfield : (if magic = 0x10b then data.read (e + 0x18 + 96) 4
          else data.read (e + 0x18 + 112) 4) =
          .ok (leRead data.data (exportDirectoryField magic (e + 0x18)) 4) := by
        unfold exportDirectoryField
        by_cases hk : magic = 0x10b
        · rw [if_pos hk, if_pos hk]; exact r4
        · rw [if_neg hk, if_neg hk]; exact r5
      rw [hfield]
      simp only
      generalize hD : leRead data.data (exportDirectoryField magic (e + 0x18)) 4 = dir at htab
      by_cases hd0 : dir = 0
      · rw [if_pos hd0, if_pos hd0]
      · rw [if_neg hd0, if_neg hd0]
        have ht := htab hsig hmag hd0
        simp only [exportTablesInside, Bool.and_eq_true, decide_eq_true_eq, List.all_eq_true,
          List.mem_range] at ht
        obtain ⟨hdir, hall⟩ := ht
        have q1 := Buf.read_ok data (dir + 24) 4 (by omega)
        have q2 := Buf.read_ok data (dir + 28) 4 (by omega)
        have q3 := Buf.read_ok data (dir + 32) 4 (by omega)
        have q4 := Buf.read_ok data (dir + 36) 4 (by omega)
        simp only [q1, q2, q3, q4]
        have hscan := scanNames_find data name dir hname (leRead data.data (dir + 24) 4) 0
          (fun j _ hj => ⟨(hall j (by omega)).1.1.1, (hall j (by omega)).1.1.2⟩)
        rw [hscan, List.range_eq_range']
        cases hf : (List.range' 0 (leRead data.data (dir + 24) 4)).find?
            (fun j => data.cstring (exportNamePtr data dir j) == some name) with
        | none =>
          simp only [Nat.zero_add, if_true]
        | some i =>
          have hi := List.mem_of_find?_eq_some hf
          simp only [List.mem_range'_1, Nat.zero_add] at hi
          have hne : ¬ (i = leRead data.data (dir + 24) 4) := by omega
          simp only [hne, if_false]
          have o1 := Buf.read_ok data (leRead data.data (dir + 36) 4 + 2 * i) 2
            (hall i hi.2).1.2
          rw [o1]
          simp only
          have o2 := Buf.read_ok data (leRead data.data (dir + 28) 4 +
            4 * leRead data.data (leRead data.data (dir + 36) 4 + 2 * i) 2) 4 (hall i hi.2).2
          rw [o2]
          rfl
    · have hm1 : magic ≠ 0x10b ∧ magic ≠ 0x20b :=
        ⟨fun h => hmag (Or.inl h), fun h => hmag (Or.inr h)⟩
      rw [if_pos hm1, if_pos hm1]
  · rw [if_pos hsig, if_pos hsig]

/-- C11: for every image buffer and every name without NUL, with `e` the dword
at `0x3C`, `magic` the word at `e + 0x18` and `dir` the dword at `e + 0x18 + 96`
(magic `0x10B`) or `e + 0x18 + 112` (otherwise), the header fields and, when
they are reached, all tables being inside the buffer: `GetProcOffset` returns
the lookup of the specification; it returns 0 when the signature or the magic
does not match or `dir` is 0; with a matching header and `dir ≠ 0` it returns
0 when no name below the name count (`dir + 24`) equals `name`, and
`addresstable[ordinaltable[i]]` for the least `i` whose name equals `name`. -/
theorem export_lookup (data : Buf) (name : List Nat) (e magic dir : Nat)
    (he : e = leRead data.data 0x3C 4)
    (hmagic : magic = leRead data.data (e + 0x18) 2)
    (hdir : dir = leRead data.data (if magic = 0x10B then e + 0x18 + 96 else e + 0x18 + 112) 4)
    (hname : ∀ c, c ∈ name → c ≠ 0)
    (hhead : exportHeaderInside data = true)
    (htab : leRead data.data e 4 = 0x00004550 → (magic = 0x10B ∨ magic = 0x20B) → dir ≠ 0 →
      exportTablesInside data dir = true) :
    GetProcOffset data name = .ok (GetProcOffset_spec data name) ∧
    (leRead data.data e 4 ≠ 0x00004550 ∨ (magic ≠ 0x10B ∧ magic ≠ 0x20B) ∨ dir = 0 →
      GetProcOffset data name = .ok 0) ∧
    (leRead data.data e 4 = 0x00004550 → (magic = 0x10B ∨ magic = 0x20B) → dir ≠ 0 →
      ((∀ i, i < leRead data.data (dir + 24) 4 →
          data.cstring (exportNamePtr data dir i) ≠ some name) →
        GetProcOffset data name = .ok 0) ∧
      ∀ i, i < leRead data.data (dir + 24) 4 →
        data.cstring (exportNamePtr data dir i) = some name →
        (∀ j, j < i → data.cstring (exportNamePtr data dir j) ≠ some name) →
        GetProcOffset data name = .ok (exportAddress data dir (exportOrdinal data dir i))) := by
  have hdir2 : dir = leRead data.data (exportDirectoryField magic (e + 0x18)) 4 := by
    rw [hdir]; rfl
  clear hdir
  subst he hmagic hdir2
  have main := GetProcOffset_refines data name hname hhead htab
  refine ⟨main, ?_, ?_⟩
  · intro h
    rw [main]
    unfold GetProcOffset_spec
    simp only
    by_cases hsig : leRead data.data (leRead data.data 0x3C 4) 4 ≠ 0x00004550
    · rw [if_pos hsig]
    · rw [if_neg hsig]
      by_cases hm : leRead data.data (leRead data.data 0x3C 4 + 0x18) 2 ≠ 0x10B ∧
          leRead data.data (leRead data.data 0x3C 4 + 0x18) 2 ≠ 0x20B
      · rw [if_pos hm]
      · rw [if_neg hm]
        rcases h with h | h | h
        · exact absurd h hsig
        · exact absurd h hm
        · rw [if_pos h]
  · intro hsig hmag hd
    have hs1 : ¬ (leRead data.data (leRead data.data 0x3C 4) 4 ≠ 0x00004550) := fun h => h hsig
    have hm1 : ¬ (leRead data.data (leRead data.data 0x3C 4 + 0x18) 2 ≠ 0x10B ∧
        leRead data.data (leRead data.data 0x3C 4 + 0x18) 2 ≠ 0x20B) := by
      rintro ⟨a, b⟩
      rcases hmag with h | h
      · exact a h
      · exact b h
    constructor
    · intro hno
      have hfind := find_range_none
        (fun i => data.cstring (exportNamePtr data (leRead data.data (exportDirectoryField
          (leRead data.data (leRead data.data 0x3C 4 + 0x18) 2)
          (leRead data.data 0x3C 4 + 0x18)) 4) i) == some name)
        (leRead data.data (leRead data.data (exportDirectoryField
          (leRead data.data (leRead data.data 0x3C 4 + 0x18) 2)
          (leRead data.data 0x3C 4 + 0x18)) 4 + 24) 4) 0
        (fun j _ hj => by
          have := hno j (by omega)
          simpa using this)
      rw [main]
      unfold GetProcOffset_spec
      simp only
      rw [if_neg hs1, if_neg hm1, if_neg hd, List.range_eq_range', hfind]
    · intro i hi heq hlt
      have hfind := find_range_least
        (fun i => data.cstring (exportNamePtr data (leRead data.data (exportDirectoryField
          (leRead data.data (leRead data.data 0x3C 4 + 0x18) 2)
          (leRead data.data 0x3C 4 + 0x18)) 4) i) == some name)
        (leRead data.data (leRead data.data (exportDirectoryField
          (leRead data.data (leRead data.data 0x3C 4 + 0x18) 2)
          (leRead data.data 0x3C 4 + 0x18)) 4 + 24) 4) 0 i (Nat.zero_le _) (by omega)
        (by simp [heq])
        (fun j _ hj => by
          have := hlt j hj
          simpa using this)
      rw [main]
      unfold GetProcOffset_spec
      simp only
      rw [if_neg hs1, if_neg hm1, if_neg hd, List.range_eq_range', hfind]

/-- C11, witness: in the image `c11_image` the name `fz` is entry 1 of the name
table, its ordinal is 0 and the address table starts with `0x1111`. -/
theorem export_lookup_witness :
    exportHeaderInside c11_image = true ∧ exportTablesInside c11_image 0x100 = true ∧
    GetProcOffset c11_image [102, 122] = .ok 0x1111 := by
  have h := (export_lookup c11_image [102, 122] 0x40 0x20B 0x100 (by decide!) (by decide!)
    (by decide!) (by decide) (by decide!) (fun _ _ _ => by decide!)).1
  refine ⟨by decide!, by decide!, ?_⟩
  rw [h]
  decide!

end Debugger

namespace Debugger

/-! ## C12: PE header parsing -/

/-- C12: for every base address: when the 4096-byte header block cannot be read
both parsers fail (`FATAL`); when it is read as `d`, with `e` the dword at
`0x3C` and all fields inside the block (`e + 0x18 + 60 ≤ 4096`), both parsers
fail exactly when the dword at `e` differs from `0x00004550` or the word at
`e + 0x18` is neither `0x10B` nor `0x20B`; otherwise `GetImageSize` returns the
dword at `e + 0x18 + 56` and `GetModuleEntrypoint` returns `NULL` when the
dword at `e + 0x18 + 16` is 0 and `base + ` that dword (in pointer arithmetic)
when it is not. -/
theorem header_parse (env : Env) (s : State) (base_address : Nat) :
    (ReadProcessMemory s.mem base_address 4096 = none →
      GetModuleEntrypoint env s base_address = .error (.fatal .ReadTargetMemory) ∧
      GetImageSize s base_address = .error (.fatal .ReadTargetMemory)) ∧
    ∀ d e, ReadProcessMemory s.mem base_address 4096 = some d → e = leRead d 0x3C 4 →
      e + 0x18 + 60 ≤ 4096 →
      ((∃ err, GetImageSize s base_address = .error err) ↔
        (leRead d e 4 ≠ 0x00004550 ∨
          (leRead d (e + 0x18) 2 ≠ 0x10B ∧ leRead d (e + 0x18) 2 ≠ 0x20B))) ∧
      ((∃ err, GetModuleEntrypoint env s base_address = .error err) ↔
        (leRead d e 4 ≠ 0x00004550 ∨
          (leRead d (e + 0x18) 2 ≠ 0x10B ∧ leRead d (e + 0x18) 2 ≠ 0x20B))) ∧
      (leRead d e 4 ≠ 0x00004550 →
        GetImageSize s base_address = .error (.fatal .PESignature) ∧
        GetModuleEntrypoint env s base_address = .error (.fatal .PESignature)) ∧
      (leRead d e 4 = 0x00004550 →
        (leRead d (e + 0x18) 2 ≠ 0x10B ∧ leRead d (e + 0x18) 2 ≠ 0x20B) →
        GetImageSize s base_address = .error (.fatal .PEMagic) ∧
        GetModuleEntrypoint env s base_address = .error (.fatal .PEMagic)) ∧
      (leRead d e 4 = 0x00004550 →
        (leRead d (e + 0x18) 2 = 0x10B ∨ leRead d (e + 0x18) 2 = 0x20B) →
        GetImageSize s base_address = .ok (leRead d (e + 0x18 + 56) 4) ∧
        (leRead d (e + 0x18 + 16) 4 = 0 → GetModuleEntrypoint env s base_address = .ok 0) ∧
        (leRead d (e + 0x18 + 16) 4 ≠ 0 →
          GetModuleEntrypoint env s base_address =
            .ok ((base_address + leRead d (e + 0x18 + 16) 4) % env.word) ∧
          (base_address + leRead d (e + 0x18 + 16) 4 < env.word →
            GetModuleEntrypoint env s base_address =
              .ok (base_address + leRead d (e + 0x18 + 16) 4)))) := by
  refine ⟨header_unreadable env s base_address, ?_⟩
  intro d e hd he hin
  subst he
  have hsz := GetImageSize_block s base_address d hd
  have hen := GetModuleEntrypoint_block env s base_address d hd
  rw [if_neg (by omega)] at hsz hen
  have A : leRead d (leRead d 0x3C 4) 4 ≠ 0x00004550 →
      GetImageSize s base_address = .error (.fatal .PESignature) ∧
      GetModuleEntrypoint env s base_address = .error (.fatal .PESignature) := by
    intro h
    rw [if_pos h] at hsz hen
    exact ⟨hsz, hen⟩
  have B : leRead d (leRead d 0x3C 4) 4 = 0x00004550 →
      (leRead d (leRead d 0x3C 4 + 0x18) 2 ≠ 0x10B ∧
        leRead d (leRead d 0x3C 4 + 0x18) 2 ≠ 0x20B) →
      GetImageSize s base_address = .error (.fatal .PEMagic) ∧
      GetModuleEntrypoint env s base_address = .error (.fatal .PEMagic) := by
    intro h1 h2
    have h1n : ¬ (leRead d (leRead d 0x3C 4) 4 ≠ 0x00004550) := fun h => h h1
    rw [if_neg h1n, if_neg (by omega), if_pos h2] at hsz hen
    exact ⟨hsz, hen⟩
  have C : leRead d (leRead d 0x3C 4) 4 = 0x00004550 →
      (leRead d (leRead d 0x3C 4 + 0x18) 2 = 0x10B ∨
        leRead d (leRead d 0x3C 4 + 0x18) 2 = 0x20B) →
      GetImageSize s base_address = .ok (leRead d (leRead d 0x3C 4 + 0x18 + 56) 4) ∧
      GetModuleEntrypoint env s base_address =
        (if leRead d (leRead d 0x3C 4 + 0x18 + 16) 4 = 0 then .ok 0
        else .ok ((base_address + leRead d (leRead d 0x3C 4 + 0x18 + 16) 4) % env.word)) := by
    intro h1 h2
    have h1n : ¬ (leRead d (leRead d 0x3C 4) 4 ≠ 0x00004550) := fun h => h h1
    have h2n : ¬ (leRead d (leRead d 0x3C 4 + 0x18) 2 ≠ 0x10b ∧
        leRead d (leRead d 0x3C 4 + 0x18) 2 ≠ 0x20b) := by
      rintro ⟨a, b⟩
      rcases h2 with h | h
      · exact a h
      · exact b h
    rw [if_neg h1n, if_neg (by omega), if_neg h2n, if_neg (by omega)] at hsz hen
    exact ⟨hsz, hen⟩
  have D : ∀ {α : Type} (x : Except Err α), (∃ err, x = .error err) →
      ∀ a, x ≠ .ok a := by
    intro α x ⟨err, h⟩ a
    rw [h]
    exact fun h2 => Except.noConfusion h2
  refine ⟨?_, ?_, A, B, ?_⟩
  · constructor
    · intro hf
      by_contra hno
      simp only [not_or, not_and_or, not_not] at hno
      have := (C hno.1 hno.2).1
      exact D _ hf _ this
    · rintro (h | h)
      · exact ⟨_, (A h).1⟩
      · by_cases hs : leRead d (leRead d 0x3C 4) 4 = 0x00004550
        · exact ⟨_, (B hs h).1⟩
        · exact ⟨_, (A hs).1⟩
  · constructor
    · intro hf
      by_contra hno
      simp only [not_or, not_and_or, not_not] at hno
      have := (C hno.1 hno.2).2
      by_cases hz : leRead d (leRead d 0x3C 4 + 0x18 + 16) 4 = 0
      · rw [if_pos hz] at this
        exact D _ hf _ this
      · rw [if_neg hz] at this
        exact D _ hf _ this
    · rintro (h | h)
      · exact ⟨_, (A h).2⟩
      · by_cases hs : leRead d (leRead d 0x3C 4) 4 = 0x00004550
        · exact ⟨_, (B hs h).2⟩
        · exact ⟨_, (A hs).2⟩
  · intro h1 h2
    have hc := C h1 h2
    refine ⟨hc.1, ?_, ?_⟩
    · intro hz
      rw [hc.2, if_pos hz]
    · intro hz
      refine ⟨by rw [hc.2, if_neg hz], fun hlt => ?_⟩
      rw [hc.2, if_neg hz, Nat.mod_eq_of_lt hlt]

/-- C12, witness: the image of `imageBytes` at `0x400000` has `e = 0x40`, a
valid signature and magic `0x20B`; its size is `0x2000` and its entrypoint is
`0x401000`. -/
theorem header_parse_witness :
    GetImageSize c10_start 0x400000 = .ok 0x2000 ∧
    GetModuleEntrypoint env64 c10_start 0x400000 = .ok 0x401000 := by
  have hc : imageMem.canRead 0x400000 4096 = true := by decide!
  have hd : ReadProcessMemory c10_start.mem 0x400000 4096 =
      some (fun i => imageMem.byte (0x400000 + i)) := by
    show ReadProcessMemory imageMem 0x400000 4096 = _
    unfold ReadProcessMemory
    rw [hc]
    rfl
  have h := (header_parse env64 c10_start 0x400000).2 _ 0x40 hd (by decide!) (by decide)
  obtain ⟨h1, h2, h3⟩ := h.2.2.2.2 (by decide!) (Or.inr (by decide!))
  constructor
  · rw [h1]; decide!
  · rw [(h3 (by decide!)).1]; decide!

end Debugger

namespace Debugger

/-! ## C13: the configuration rule of `Init` -/

/-- The two checks of `Init` on a state whose `target_function_defined` is
still false. -/
theorem initChecks_eq (s : State) (hdef : s.target_function_defined = false) :
    initChecks s =
      if (s.target_module ≠ [] ∨ s.target_offset ≠ 0 ∨ s.target_method ≠ []) ∧
          (s.target_module = [] ∨ (s.target_offset = 0 ∧ s.target_method = [])) then
        .error (.fatal .TargetOptionsTogether)
      else if s.loop_mode = true ∧
          ¬ (s.target_module ≠ [] ∨ s.target_offset ≠ 0 ∨ s.target_method ≠ []) then
        .error (.fatal .LoopWithoutTarget)
      else .ok { s with
        target_function_defined :=
          decide (s.target_module ≠ [] ∨ s.target_offset ≠ 0 ∨ s.target_method ≠ []) } := by
  unfold initChecks
  by_cases hany : s.target_module ≠ [] ∨ s.target_offset ≠ 0 ∨ s.target_method ≠ []
  · simp only [hany, decide_True, if_true, true_and, not_true_eq_false, and_false, if_false]
    by_cases ha : s.target_module = [] ∨ (s.target_offset = 0 ∧ s.target_method = [])
    · rw [if_pos ha, if_pos ha]
    · rw [if_neg ha, if_neg ha]
      simp
  · simp only [hany, decide_False, Bool.false_eq_true, if_false, false_and, not_false_eq_true,
      and_true]
    by_cases hl : s.loop_mode = true
    · simp [hl, hdef]
    · simp [hl, hdef]
      cases s
      simp_all

/-- The `-callconv` block either stops `Init` or only sets `calling_convention`. -/
theorem initCallconv_ok (opts : InitOptions) (s : State)
    (h : opts.callconv = none ∨ ∃ v cc, opts.callconv = some v ∧ parseCallconv v = some cc) :
    ∃ cc, initCallconv opts s = .ok { s with calling_convention := cc } ∧
      (opts.callconv = none → cc = s.calling_convention) ∧
      (∀ v c, opts.callconv = some v → parseCallconv v = some c → cc = c) := by
  unfold initCallconv
  rcases h with h | ⟨v, cc, hv, hcc⟩
  · rw [h]
    exact ⟨s.calling_convention, rfl, fun _ => rfl, fun v c hv _ => by cases hv⟩
  · rw [hv]
    simp only [hcc]
    refine ⟨cc, rfl, fun h => (by cases h), fun v2 c h2 h3 => ?_⟩
    cases h2
    rw [hcc] at h3
    exact Option.some.inj h3

/-- `Init` after a `-callconv` block that passes. -/
theorem Init_eq (env : Env) (opts : InitOptions) (s : State) (cc : Nat)
    (h : initCallconv opts (initFields opts s) =
      .ok { initFields opts s with calling_convention := cc }) :
    Init env opts s =
      if ((opts.target_module.getD []).take MAX_PATH ≠ [] ∨ opts.target_offset.getD 0 ≠ 0 ∨
            (opts.target_method.getD []).take MAX_PATH ≠ []) ∧
          ((opts.target_module.getD []).take MAX_PATH = [] ∨
            (opts.target_offset.getD 0 = 0 ∧ (opts.target_method.getD []).take MAX_PATH = [])) then
        .error (.fatal .TargetOptionsTogether)
      else if opts.loop = true ∧
          ¬ ((opts.target_module.getD []).take MAX_PATH ≠ [] ∨ opts.target_offset.getD 0 ≠ 0 ∨
            (opts.target_method.getD []).take MAX_PATH ≠ []) then
        .error (.fatal .LoopWithoutTarget)
      else .ok { initFields opts s with
        calling_convention := cc
        target_function_defined :=
          decide ((opts.target_module.getD []).take MAX_PATH ≠ [] ∨
            opts.target_offset.getD 0 ≠ 0 ∨ (opts.target_method.getD []).take MAX_PATH ≠ [])
        saved_args :=
          if opts.nargs.getD 0 ≠ 0 then
            (if opts.malloc_ok then
              some (Buf.mk (opts.nargs.getD 0 * env.ptr_size % env.word) env.uninitialised)
            else none)
          else none } := by
  unfold Init
  simp only [bind, Except.bind, h]
  rw [initChecks_eq _ rfl]
  simp only [initFields]
  by_cases hA : ((opts.target_module.getD []).take MAX_PATH ≠ [] ∨ opts.target_offset.getD 0 ≠ 0 ∨
        (opts.target_method.getD []).take MAX_PATH ≠ []) ∧
      ((opts.target_module.getD []).take MAX_PATH = [] ∨
        (opts.target_offset.getD 0 = 0 ∧ (opts.target_method.getD []).take MAX_PATH = []))
  · rw [if_pos hA, if_pos hA]
  · rw [if_neg hA, if_neg hA]
    by_cases hB : opts.loop = true ∧
        ¬ ((opts.target_module.getD []).take MAX_PATH ≠ [] ∨ opts.target_offset.getD 0 ≠ 0 ∨
          (opts.target_method.getD []).take MAX_PATH ≠ [])
    · rw [if_pos hB, if_pos hB]
    · rw [if_neg hB, if_neg hB]
      simp only
      by_cases hn : opts.nargs.getD 0 ≠ 0
      · rw [if_pos hn, if_pos hn]
      · rw [if_neg hn, if_neg hn]

/-- C13: for every result of the option lookups, with `module`, `method` and
`offset` the values `Init` stores in `target_module`, `target_method` and
`target_offset`.  A `-callconv` value other than `stdcall`, `fastcall`,
`thiscall`, `ms64` makes `Init` fail.  With a valid or absent `-callconv`
value, `Init` fails exactly when (a) one of the three is set but `module` is
empty or both `offset` is 0 and `method` is empty, or (b) `-loop` is given and
none of the three is set.  Whenever `Init` succeeds, `target_function_defined`
is true iff `target_module` is non-empty, `loop_mode` implies
`target_function_defined`, `saved_args` is `NULL` when `target_num_args` is 0
and is the block `malloc` returned when it is not, and `calling_convention` is
`Default` without the flag and the mapped value with it. -/
theorem init_configuration (env : Env) (opts : InitOptions) (s : State)
    (module method : List Nat) (offset : Nat)
    (hmodule : module = (opts.target_module.getD []).take MAX_PATH)
    (hmethod : method = (opts.target_method.getD []).take MAX_PATH)
    (hoffset : offset = opts.target_offset.getD 0) :
    (module = [] ↔ opts.target_module = none ∨ opts.target_module = some []) ∧
    (∀ v, opts.callconv = some v → parseCallconv v = none →
      Init env opts s = .error (.fatal .UnknownCallingConvention)) ∧
    ((opts.callconv = none ∨ ∃ v cc, opts.callconv = some v ∧ parseCallconv v = some cc) →
      ((∃ err, Init env opts s = .error err) ↔
        ((module ≠ [] ∨ offset ≠ 0 ∨ method ≠ []) ∧
            (module = [] ∨ (offset = 0 ∧ method = []))) ∨
          (opts.loop = true ∧ ¬ (module ≠ [] ∨ offset ≠ 0 ∨ method ≠ []))) ∧
      ∀ s1, Init env opts s = .ok s1 →
        s1.target_module = module ∧ s1.target_method = method ∧ s1.target_offset = offset ∧
        s1.loop_mode = opts.loop ∧ s1.target_num_args = opts.nargs.getD 0 ∧
        (s1.target_function_defined = true ↔ s1.target_module ≠ []) ∧
        (s1.loop_mode = true → s1.target_function_defined = true) ∧
        (s1.target_num_args = 0 → s1.saved_args = none) ∧
        (s1.target_num_args ≠ 0 → opts.malloc_ok = true →
          ∃ b, s1.saved_args = some b ∧
            b.size = s1.target_num_args * env.ptr_size % env.word) ∧
        (opts.callconv = none → s1.calling_convention = CALLCONV_DEFAULT) ∧
        ∀ v cc, opts.callconv = some v → parseCallconv v = some cc →
          s1.calling_convention = cc) ∧
    parseCallconv [115, 116, 100, 99, 97, 108, 108] = some CALLCONV_CDECL ∧
    parseCallconv [102, 97, 115, 116, 99, 97, 108, 108] = some CALLCONV_FASTCALL ∧
    parseCallconv [116, 104, 105, 115, 99, 97, 108, 108] = some CALLCONV_THISCALL ∧
    parseCallconv [109, 115, 54, 52] = some CALLCONV_MICROSOFT_X64 ∧
    ∀ v, v ≠ [115, 116, 100, 99, 97, 108, 108] → v ≠ [102, 97, 115, 116, 99, 97, 108, 108] →
      v ≠ [116, 104, 105, 115, 99, 97, 108, 108] → v ≠ [109, 115, 54, 52] →
      parseCallconv v = none := by
  subst hmodule hmethod hoffset
  refine ⟨?_, ?_, ?_, by decide, by decide, by decide, by decide, ?_⟩
  · rw [List.take_eq_nil_iff]
    constructor
    · rintro (h | h)
      · exact absurd h (by decide)
      · cases hm : opts.target_module with
        | none => exact Or.inl rfl
        | some o =>
          rw [hm] at h
          exact Or.inr (congrArg some h)
    · rintro (h | h)
      · rw [h]; exact Or.inr rfl
      · rw [h]; exact Or.inr rfl
  · intro v hv hp
    unfold Init initCallconv
    simp only [bind, Except.bind, hv, hp]
  · intro hcc
    obtain ⟨cc, hok, hnone, hsome⟩ := initCallconv_ok opts (initFields opts s) hcc
    have hI := Init_eq env opts s cc hok
    constructor
    · rw [hI]
      constructor
      · rintro ⟨err, h⟩
        by_contra hno
        rw [if_neg (fun hA => hno (Or.inl hA)), if_neg (fun hB => hno (Or.inr hB))] at h
        exact Except.noConfusion h
      · rintro (h | h)
        · rw [if_pos h]
          exact ⟨_, rfl⟩
        · have hA : ¬ (((opts.target_module.getD []).take MAX_PATH ≠ [] ∨
              opts.target_offset.getD 0 ≠ 0 ∨
              (opts.target_method.getD []).take MAX_PATH ≠ []) ∧
              ((opts.target_module.getD []).take MAX_PATH = [] ∨
                (opts.target_offset.getD 0 = 0 ∧
                  (opts.target_method.getD []).take MAX_PATH = []))) := fun hc => h.2 hc.1
          rw [if_neg hA, if_pos h]
          exact ⟨_, rfl⟩
    · intro s1 hs1
      rw [hI] at hs1
      by_cases hA : ((opts.target_module.getD []).take MAX_PATH ≠ [] ∨
          opts.target_offset.getD 0 ≠ 0 ∨ (opts.target_method.getD []).take MAX_PATH ≠ []) ∧
          ((opts.target_module.getD []).take MAX_PATH = [] ∨
            (opts.target_offset.getD 0 = 0 ∧ (opts.target_method.getD []).take MAX_PATH = []))
      · rw [if_pos hA] at hs1
        exact Except.noConfusion hs1
      · rw [if_neg hA] at hs1
        by_cases hB : opts.loop = true ∧
            ¬ ((opts.target_module.getD []).take MAX_PATH ≠ [] ∨ opts.target_offset.getD 0 ≠ 0 ∨
              (opts.target_method.getD []).take MAX_PATH ≠ [])
        · rw [if_pos hB] at hs1
          exact Except.noConfusion hs1
        · rw [if_neg hB] at hs1
          simp only [Except.ok.injEq] at hs1
          subst hs1
          have hdef : decide ((opts.target_module.getD []).take MAX_PATH ≠ [] ∨
              opts.target_offset.getD 0 ≠ 0 ∨
              (opts.target_method.getD []).take MAX_PATH ≠ []) = true ↔
              (opts.target_module.getD []).take MAX_PATH ≠ [] := by
            rw [decide_eq_true_iff]
            constructor
            · intro hany
              by_contra hm
              exact hA ⟨hany, Or.inl hm⟩
            · intro hm
              exact Or.inl hm
          refine ⟨rfl, rfl, rfl, rfl, rfl, hdef, ?_, ?_, ?_, ?_, ?_⟩
          · intro hl
            rw [decide_eq_true_iff]
            by_contra hany
            exact hB ⟨hl, hany⟩
          · intro hn
            have hn2 : opts.nargs.getD 0 = 0 := hn
            show (if opts.nargs.getD 0 ≠ 0 then _ else none) = none
            rw [if_neg (fun hc => hc hn2)]
          · intro hn hm
            have hn2 : opts.nargs.getD 0 ≠ 0 := hn
            refine ⟨Buf.mk (opts.nargs.getD 0 * env.ptr_size % env.word) env.uninitialised, ?_, rfl⟩
            show (if opts.nargs.getD 0 ≠ 0 then _ else none) = _
            rw [if_pos hn2, if_pos hm]
          · intro hc
            exact hnone hc
          · intro v c hv hp
            exact hsome v c hv hp
  · intro v h1 h2 h3 h4
    unfold parseCallconv
    rw [if_neg h1, if_neg h2, if_neg h3, if_neg h4]

/-- C13, witness: `-target_module t.exe -target_offset 0x1800 -loop -nargs 3
-callconv fastcall` in a 32-bit build succeeds with the target defined, loop
mode set, the Fastcall convention and a block of 12 bytes for `saved_args`. -/
theorem init_configuration_witness :
    (Init env32 c13_options state0).map
        (fun s1 => (s1.target_function_defined, s1.loop_mode, s1.calling_convention,
          s1.saved_args.map (fun b => b.size))) =
      .ok (true, true, CALLCONV_FASTCALL, some 12) := by
  have h := (init_configuration env32 c13_options state0 name_t_exe [] 0x1800
    (by decide) (by decide) (by decide)).2.2.1
    (Or.inr ⟨_, CALLCONV_FASTCALL, rfl, by decide⟩)
  cases hi : Init env32 c13_options state0 with
  | error err => exact absurd (h.1.mp ⟨err, hi⟩) (by decide)
  | ok s1 =>
    obtain ⟨h1, _, _, h4, h5, h6, h7, _, h9, _, h11⟩ := h.2 s1 hi
    obtain ⟨b, hb1, hb2⟩ := h9 (by rw [h5]; decide) rfl
    have hdef : s1.target_function_defined = true := h7 (by rw [h4]; rfl)
    have hcc := h11 _ CALLCONV_FASTCALL rfl (by decide)
    have hl : s1.loop_mode = true := by rw [h4]; rfl
    have hsz : b.size = 12 := by rw [hb2, h5]; decide
    simp only [Except.map, hdef, hl, hcc, hb1, Option.map_some', hsz]

end Debugger

namespace Debugger

/-! ## C14: the bitness probe -/

/-- C14 (amended): `GetProcessPlatform` returns when both `IsWow64Process`
calls succeed and the child pointer is not wider than the debugger's.  When it
returns for a WOW64 child, `wow64_target` is set, `child_ptr_size` is 4 and a
`Default` convention has become `Cdecl`; when it returns for a child that is
not WOW64 the state is unchanged, so the three fields keep what an earlier run
left.  No other field is touched, `calling_convention` changes only from
`Default` to `Cdecl` and only for a 32-bit child, and from a state in which
`wow64_target` is not yet set the two fields describe the child:
`wow64_target` is set and `child_ptr_size = 4` iff the child is WOW64. -/
theorem bitness_probe (env : Env) (s : State) :
    (∀ wow cur, s.wow64remote = some wow → env.wow64current = some cur →
      (if wow = true then 4 else s.child_ptr_size) ≤ env.ptr_size →
      ∃ s1, GetProcessPlatform env s = .ok s1) ∧
    ∀ s1, GetProcessPlatform env s = .ok s1 →
      ∃ wow, s.wow64remote = some wow ∧
        (wow = true →
          s1 = { s with
            wow64_target := true
            child_ptr_size := 4
            calling_convention :=
              if s.calling_convention = CALLCONV_DEFAULT then CALLCONV_CDECL
              else s.calling_convention }) ∧
        (wow = false → s1 = s) ∧
        (s1.calling_convention ≠ s.calling_convention →
          wow = true ∧ s.calling_convention = CALLCONV_DEFAULT ∧
          s1.calling_convention = CALLCONV_CDECL) ∧
        (s.wow64_target = false →
          ((s1.wow64_target = true ∧ s1.child_ptr_size = 4) ↔ wow = true)) := by
  constructor
  · intro wow cur hw hc hsz
    unfold GetProcessPlatform
    rw [hw, hc]
    cases wow with
    | true =>
      simp only [if_true] at hsz ⊢
      rw [if_neg (by omega)]
      exact ⟨_, rfl⟩
    | false =>
      simp only [Bool.false_eq_true, if_false] at hsz ⊢
      rw [if_neg (by omega)]
      exact ⟨_, rfl⟩
  · intro s1 h
    unfold GetProcessPlatform at h
    cases hw : s.wow64remote with
    | none => rw [hw] at h; exact Except.noConfusion h
    | some wow =>
      rw [hw] at h
      simp only at h
      cases hc : env.wow64current with
      | none => rw [hc] at h; exact Except.noConfusion h
      | some cur =>
        rw [hc] at h
        simp only at h
        refine ⟨wow, rfl, ?_⟩
        cases wow with
        | true =>
          simp only [if_true] at h
          split at h
          · exact Except.noConfusion h
          · simp only [Except.ok.injEq] at h
            subst h
            refine ⟨fun _ => rfl, fun hf => (by cases hf), ?_, fun _ => ⟨fun _ => rfl, fun _ => ⟨rfl, rfl⟩⟩⟩
            intro hne
            by_cases hd : s.calling_convention = CALLCONV_DEFAULT
            · refine ⟨rfl, hd, ?_⟩
              show (if s.calling_convention = CALLCONV_DEFAULT then CALLCONV_CDECL
                else s.calling_convention) = CALLCONV_CDECL
              rw [if_pos hd]
            · exfalso
              apply hne
              show (if s.calling_convention = CALLCONV_DEFAULT then CALLCONV_CDECL
                else s.calling_convention) = s.calling_convention
              rw [if_neg hd]
        | false =>
          simp only [Bool.false_eq_true, if_false] at h
          split at h
          · exact Except.noConfusion h
          · simp only [Except.ok.injEq] at h
            subst h
            refine ⟨fun hf => (by cases hf), fun _ => rfl, fun hne => absurd rfl hne, ?_⟩
            intro hwt
            constructor
            · rintro ⟨h1, _⟩
              rw [hwt] at h1
              exact h1
            · intro hf
              cases hf

/-- C14, witness (scenario S6): 64-bit debugger, 32-bit child, `Default`
convention: after the probe the convention is `Cdecl`, `child_ptr_size` is 4
and `wow64_target` is set. -/
theorem bitness_probe_witness :
    (GetProcessPlatform env64 { state0 with wow64remote := some true }).map
        (fun s1 => (s1.wow64_target, s1.child_ptr_size, s1.calling_convention)) =
      .ok (true, 4, CALLCONV_CDECL) := by
  obtain ⟨s1, h1⟩ := (bitness_probe env64 { state0 with wow64remote := some true }).1
    true false rfl rfl (by decide)
  obtain ⟨wow, hw, ht, _⟩ := (bitness_probe env64
    { state0 with wow64remote := some true }).2 s1 h1
  have hwt : wow = true := (Option.some.inj hw).symm
  rw [h1, ht hwt]
  rfl

/-- C14, counterexample: a 64-bit debugger starts a 32-bit child and then, with
the same object, a 64-bit child.  After the second probe `wow64_target` is
still set, `child_ptr_size` is still 4 and the convention is still `Cdecl`,
although the current child is not a WOW64 process. -/
theorem bitness_probe_counterexample :
    ((StartProcess env64 c14_launch32 state0 >>= fun s1 =>
        StartProcess env64 c14_launch64 s1).map
      (fun s2 => (s2.wow64remote, s2.wow64_target, s2.child_ptr_size, s2.calling_convention))) =
      .ok (some false, true, 4, CALLCONV_CDECL) ∧
    state0.calling_convention = CALLCONV_DEFAULT := by
  decide!

end Debugger

namespace Debugger

/-! ## Handlers leave the loop state alone -/

theorem continueCalls_append (a b : List Call) :
    continueCalls (a ++ b) = continueCalls a + continueCalls b := by
  simp [continueCalls]

theorem loopKept_refl (s : State) : LoopKept s s :=
  ⟨rfl, rfl, rfl, [], by simp, rfl⟩

theorem loopKept_trans {a b c : State} (h1 : LoopKept a b) (h2 : LoopKept b c) :
    LoopKept a c := by
  obtain ⟨a1, a2, a3, x, hx, cx⟩ := h1
  obtain ⟨b1, b2, b3, y, hy, cy⟩ := h2
  refine ⟨b1.trans a1, b2.trans a2, b3.trans a3, x ++ y, ?_, ?_⟩
  · rw [hy, hx, List.append_assoc]
  · rw [continueCalls_append, cx, cy]

/-- A state that differs in neither loop field and has the same log. -/
theorem loopKept_of_same {s s1 : State} (h1 : s1.dbg_timeout_time = s.dbg_timeout_time)
    (h2 : s1.dbg_debug_event = s.dbg_debug_event)
    (h3 : s1.dbg_continue_needed = s.dbg_continue_needed) (h4 : s1.calls = s.calls) :
    LoopKept s s1 :=
  ⟨h1, h2, h3, [], by rw [h4]; simp, rfl⟩

theorem HandleTargetReachedInternal_loopKept {env : Env} {thread_id : Nat} {s s1 : State}
    (h : HandleTargetReachedInternal env thread_id s = .ok s1) : LoopKept s s1 := by
  obtain ⟨_, b, rfl⟩ := HandleTargetReachedInternal_inv h
  refine ⟨rfl, rfl, rfl, ?_⟩
  simp only
  by_cases ht : s.target_reached = true
  · rw [if_pos ht]
    exact ⟨[], by simp, rfl⟩
  · rw [if_neg ht]
    exact ⟨_, rfl, rfl⟩

theorem HandleTargetEnded_loopKept {env : Env} {thread_id : Nat} {s s1 : State}
    (h : HandleTargetEnded env thread_id s = .ok s1) : LoopKept s s1 := by
  cases hl : s.loop_mode with
  | true =>
    obtain ⟨_, lc, m, _, rfl⟩ := HandleTargetEnded_loop hl h
    exact loopKept_of_same rfl rfl rfl rfl
  | false =>
    obtain ⟨s2, h2, rfl⟩ := HandleTargetEnded_single hl h
    obtain ⟨_, _, rfl⟩ := AddBreakpoint_inv h2
    exact loopKept_of_same rfl rfl rfl rfl

theorem consumeBreakpoint_loopKept {env : Env} {address thread_id : Nat} {s sd : State}
    {bp : Breakpoint} (h : consumeBreakpoint env address thread_id s = .ok (some (bp, sd))) :
    LoopKept s sd := by
  unfold consumeBreakpoint at h
  split at h
  · simp at h
  · simp only at h
    split at h
    · exact Except.noConfusion h
    · simp only [Except.ok.injEq, Option.some.injEq, Prod.mk.injEq] at h
      rw [← h.2]
      exact loopKept_of_same rfl rfl rfl rfl

theorem OnModuleLoaded_loopKept {env : Env} {module : Nat} {name : List Nat} {s s1 : State}
    (h : OnModuleLoaded env module name s = .ok s1) : LoopKept s s1 := by
  rcases OnModuleLoaded_inv h with ⟨_, rfl⟩ | ⟨_, ta, off, _, _, _, rfl⟩
  · exact ⟨rfl, rfl, rfl, _, rfl, rfl⟩
  · exact ⟨rfl, rfl, rfl, _, rfl, rfl⟩

theorem reportModules_loopKept {env : Env} (ms : List Module) : ∀ {s s1 : State},
    reportModules env ms s = .ok s1 → LoopKept s s1 := by
  induction ms with
  | nil =>
    intro s s1 h
    simp only [reportModules, Except.ok.injEq] at h
    exact h ▸ loopKept_refl s
  | cons m ms ih =>
    intro s s1 h
    simp only [reportModules, bind_eq_ok] at h
    obtain ⟨s2, h1, h2⟩ := h
    exact loopKept_trans (OnModuleLoaded_loopKept h1) (ih h2)

theorem OnEntrypoint_loopKept {env : Env} {s s1 : State} (h : OnEntrypoint env s = .ok s1) :
    LoopKept s s1 := by
  obtain ⟨ms, s2, _, h2, rfl⟩ := OnEntrypoint_inv h
  exact loopKept_trans (reportModules_loopKept ms h2) (loopKept_of_same rfl rfl rfl rfl)

theorem HandleDebuggerBreakpoint_loopKept {env : Env} {address thread_id : Nat} {s s1 : State}
    {r : Int} (h : HandleDebuggerBreakpoint env address thread_id s = .ok (r, s1)) :
    LoopKept s s1 := by
  unfold HandleDebuggerBreakpoint at h
  cases hc : consumeBreakpoint env address thread_id s with
  | error e => simp [hc] at h
  | ok o =>
    cases o with
    | none =>
      simp only [hc, Except.ok.injEq, Prod.mk.injEq] at h
      rw [← h.2]
      exact loopKept_refl s
    | some p =>
      obtain ⟨bp, sd⟩ := p
      simp only [hc] at h
      have hk := consumeBreakpoint_loopKept hc
      cases hb : handleBreakpointType env bp.type thread_id sd with
      | error e => simp [hb] at h
      | ok s2 =>
        simp only [hb, Except.ok.injEq, Prod.mk.injEq] at h
        obtain ⟨_, rfl⟩ := h
        unfold handleBreakpointType at hb
        split at hb
        · exact loopKept_trans hk (OnEntrypoint_loopKept hb)
        · split at hb
          · exact loopKept_trans hk (HandleTargetReachedInternal_loopKept hb)
          · simp only [Except.ok.injEq] at hb
            rw [← hb]
            exact hk

theorem classifyException_loopKept {env : Env} {record : ExceptionRecord} {thread_id : Nat}
    {s s1 : State} {ret : DebuggerStatus}
    (h : classifyException env record thread_id s = .ok (ret, s1)) : LoopKept s s1 := by
  unfold classifyException at h
  simp only at h
  split at h
  · simp only [Except.ok.injEq, Prod.mk.injEq] at h
    rw [← h.2]
    exact loopKept_of_same rfl rfl rfl rfl
  · split at h
    · split at h
      · simp only [bind_eq_ok, pure, Except.pure, Except.ok.injEq, Prod.mk.injEq] at h
        obtain ⟨s2, h2, _, rfl⟩ := h
        exact HandleTargetEnded_loopKept h2
      · simp only [Except.ok.injEq, Prod.mk.injEq] at h
        rw [← h.2]
        exact loopKept_of_same rfl rfl rfl rfl
    · split at h
      · simp only [Except.ok.injEq, Prod.mk.injEq] at h
        rw [← h.2]
        exact loopKept_of_same rfl rfl rfl rfl
      · simp only [Except.ok.injEq, Prod.mk.injEq] at h
        rw [← h.2]
        exact loopKept_of_same rfl rfl rfl rfl

theorem HandleExceptionInternal_loopKept {env : Env} {record : ExceptionRecord}
    {thread_id : Nat} {s s2 : State} {ret : DebuggerStatus}
    (h : HandleExceptionInternal env record thread_id s = .ok (ret, s2)) : LoopKept s s2 := by
  unfold HandleExceptionInternal at h
  rw [bind_eq_ok] at h
  obtain ⟨⟨early, sa⟩, ho, h⟩ := h
  simp only at h
  have hk : LoopKept s sa := by
    unfold handleOwnBreakpoint at ho
    split at ho
    · rw [bind_eq_ok] at ho
      obtain ⟨⟨bt, sb⟩, hh, ho⟩ := ho
      simp only at ho
      have hsa : sa = sb := by
        split at ho
        · simp only [pure, Except.pure, Except.ok.injEq, Prod.mk.injEq] at ho
          exact ho.2.symm
        · split at ho
          · simp only [pure, Except.pure, Except.ok.injEq, Prod.mk.injEq] at ho
            exact ho.2.symm
          · simp only [pure, Except.pure, Except.ok.injEq, Prod.mk.injEq] at ho
            exact ho.2.symm
      rw [hsa]
      exact HandleDebuggerBreakpoint_loopKept hh
    · simp only [pure, Except.pure, Except.ok.injEq, Prod.mk.injEq] at ho
      rw [← ho.2]
      exact loopKept_refl s
  cases early with
  | some status =>
    simp only [pure, Except.pure, Except.ok.injEq, Prod.mk.injEq] at h
    rw [← h.2]
    exact hk
  | none =>
    simp only at h
    have hk2 : LoopKept s { sa with calls := sa.calls ++ [.OnException record thread_id] } :=
      loopKept_trans hk ⟨rfl, rfl, rfl, _, rfl, rfl⟩
    split at h
    · simp only [pure, Except.pure, Except.ok.injEq, Prod.mk.injEq] at h
      rw [← h.2]
      exact hk2
    · exact loopKept_trans hk2 (classifyException_loopKept h)

theorem GetProcessPlatform_loopKept {env : Env} {s s1 : State}
    (h : GetProcessPlatform env s = .ok s1) : LoopKept s s1 := by
  unfold GetProcessPlatform at h
  cases hw : s.wow64remote with
  | none => rw [hw] at h; exact Except.noConfusion h
  | some wow =>
    rw [hw] at h
    simp only at h
    cases hc : env.wow64current with
    | none => rw [hc] at h; exact Except.noConfusion h
    | some cur =>
      rw [hc] at h
      simp only at h
      cases wow with
      | true =>
        simp only [if_true] at h
        split at h
        · exact Except.noConfusion h
        · simp only [Except.ok.injEq] at h
          rw [← h]
          exact loopKept_of_same rfl rfl rfl rfl
      | false =>
        simp only [Bool.false_eq_true, if_false] at h
        split at h
        · exact Except.noConfusion h
        · simp only [Except.ok.injEq] at h
          rw [← h]
          exact loopKept_refl s

theorem OnProcessCreated_loopKept {env : Env} {info : CreateProcessInfo} {s s1 : State}
    (h : OnProcessCreated env info s = .ok s1) : LoopKept s s1 := by
  unfold OnProcessCreated at h
  split at h
  · refine loopKept_trans ?_ (GetProcessPlatform_loopKept h)
    exact loopKept_of_same rfl rfl rfl rfl
  · rw [bind_eq_ok] at h
    obtain ⟨e, _, h3⟩ := h
    obtain ⟨_, _, rfl⟩ := AddBreakpoint_inv h3
    exact loopKept_of_same rfl rfl rfl rfl

/-- No handler changes the deadline, the stored event or the pending flag, and
none calls `ContinueDebugEvent`. -/
theorem dispatchEvent_loopKept {env : Env} {ev : DebugEvent} {s s1 : State} {d : Dispatch}
    (h : dispatchEvent env ev s = .ok (d, s1)) : LoopKept s s1 := by
  unfold dispatchEvent at h
  split at h
  · rename_i record hu
    rw [bind_eq_ok] at h
    obtain ⟨⟨ret, s2⟩, hh, h⟩ := h
    simp only at h
    have hs1 : s1 = if ret = DebuggerStatus.DEBUGGER_CRASHED then
        { s2 with calls := s2.calls ++ [.OnCrashed record] } else s2 := by
      split at h
      · simp only [pure, Except.pure, Except.ok.injEq, Prod.mk.injEq] at h
        exact h.2.symm
      · simp only [pure, Except.pure, Except.ok.injEq, Prod.mk.injEq] at h
        exact h.2.symm
    have hk := HandleExceptionInternal_loopKept hh
    rw [hs1]
    split
    · exact loopKept_trans hk ⟨rfl, rfl, rfl, _, rfl, rfl⟩
    · exact hk
  · simp only [pure, Except.pure, Except.ok.injEq, Prod.mk.injEq] at h
    rw [← h.2]
    exact loopKept_refl s
  · rw [bind_eq_ok] at h
    obtain ⟨s2, h2, h⟩ := h
    simp only [pure, Except.pure, Except.ok.injEq, Prod.mk.injEq] at h
    rw [← h.2]
    exact OnProcessCreated_loopKept h2
  · simp only [pure, Except.pure, Except.ok.injEq, Prod.mk.injEq] at h
    rw [← h.2]
    exact loopKept_refl s
  · simp only [pure, Except.pure, Except.ok.injEq, Prod.mk.injEq] at h
    rw [← h.2]
    exact ⟨rfl, rfl, rfl, _, rfl, rfl⟩
  · rw [bind_eq_ok] at h
    obtain ⟨s2, h2, h⟩ := h
    simp only [pure, Except.pure, Except.ok.injEq, Prod.mk.injEq] at h
    rw [← h.2]
    unfold HandleDllLoadInternal at h2
    split at h2
    · exact OnModuleLoaded_loopKept h2
    · simp only [Except.ok.injEq] at h2
      rw [← h2]
      exact loopKept_refl s
  · simp only [pure, Except.pure, Except.ok.injEq, Prod.mk.injEq] at h
    rw [← h.2]
    exact ⟨rfl, rfl, rfl, _, rfl, rfl⟩
  · simp only [pure, Except.pure, Except.ok.injEq, Prod.mk.injEq] at h
    rw [← h.2]
    exact loopKept_refl s

/-- A pass of the loop body whose clock value is past the deadline. -/
theorem debugLoopBody_hanged (env : Env) (w : WaitResult) (ws : List WaitResult) (s : State)
    (hd : w.now > s.dbg_timeout_time) :
    debugLoopBody env (w :: ws) s =
      .ok (DebuggerStatus.DEBUGGER_HANGED, afterWait w s, ws) := by
  rw [debugLoopBody]
  cases hev : w.event with
  | none => simp only [afterWait, hev, Option.getD_none, Option.isSome_none, if_pos hd]
  | some ev => simp only [afterWait, hev, Option.getD_some, Option.isSome_some, if_pos hd]

/-- A pass of the loop body within the deadline whose wait timed out. -/
theorem debugLoopBody_idle (env : Env) (w : WaitResult) (ws : List WaitResult) (s : State)
    (hev : w.event = none) (hle : w.now ≤ s.dbg_timeout_time) :
    debugLoopBody env (w :: ws) s = debugLoopBody env ws (afterWait w s) := by
  rw [debugLoopBody]
  simp only [afterWait, hev, Option.getD_none, Option.isSome_none, if_neg (Nat.not_lt.mpr hle)]

/-- A pass of the loop body within the deadline whose wait delivered `ev`: the
event is dispatched, and the pass ends as the switch tells. -/
theorem debugLoopBody_dispatch (env : Env) (w : WaitResult) (ws : List WaitResult) (s : State)
    (ev : DebugEvent) (hev : w.event = some ev) (hle : w.now ≤ s.dbg_timeout_time) :
    (∀ e, dispatchEvent env ev { afterWait w s with dbg_continue_status := DBG_CONTINUE } =
        .error e → debugLoopBody env (w :: ws) s = .error e) ∧
    (∀ ret s1, dispatchEvent env ev { afterWait w s with dbg_continue_status := DBG_CONTINUE } =
        .ok (.returned ret, s1) → debugLoopBody env (w :: ws) s = .ok (ret, s1, ws)) ∧
    (∀ s1, dispatchEvent env ev { afterWait w s with dbg_continue_status := DBG_CONTINUE } =
        .ok (.proceed true, s1) →
      debugLoopBody env (w :: ws) s = debugLoopBody env ws (ContinueDebugEvent s1)) ∧
    (∀ s1, dispatchEvent env ev { afterWait w s with dbg_continue_status := DBG_CONTINUE } =
        .ok (.proceed false, s1) →
      debugLoopBody env (w :: ws) s =
        .ok (DebuggerStatus.DEBUGGER_PROCESS_EXIT, ContinueDebugEvent s1, ws)) := by
  have hd : ¬ (w.now > s.dbg_timeout_time) := Nat.not_lt.mpr hle
  refine ⟨?_, ?_, ?_, ?_⟩
  · intro e h
    simp only [afterWait, hev, Option.getD_some, Option.isSome_some] at h
    rw [debugLoopBody]
    simp only [hev, if_neg hd, h]
  · intro ret s1 h
    simp only [afterWait, hev, Option.getD_some, Option.isSome_some] at h
    rw [debugLoopBody]
    simp only [hev, if_neg hd, h]
  · intro s1 h
    simp only [afterWait, hev, Option.getD_some, Option.isSome_some] at h
    rw [debugLoopBody]
    simp only [hev, if_neg hd, h, if_true]
  · intro s1 h
    simp only [afterWait, hev, Option.getD_some, Option.isSome_some] at h
    rw [debugLoopBody]
    simp only [hev, if_neg hd, h, Bool.false_eq_true, if_false]

/-- The statuses `classifyException` returns. -/
theorem classifyException_status {env : Env} {record : ExceptionRecord} {thread_id : Nat}
    {s s1 : State} {ret : DebuggerStatus}
    (h : classifyException env record thread_id s = .ok (ret, s1)) :
    ret = DebuggerStatus.DEBUGGER_CONTINUE ∨ ret = DebuggerStatus.DEBUGGER_TARGET_END ∨
    ret = DebuggerStatus.DEBUGGER_CRASHED := by
  unfold classifyException at h
  simp only at h
  split at h
  · simp only [Except.ok.injEq, Prod.mk.injEq] at h
    exact Or.inl h.1.symm
  · split at h
    · split at h
      · simp only [bind_eq_ok, pure, Except.pure, Except.ok.injEq, Prod.mk.injEq] at h
        obtain ⟨s2, _, h2, _⟩ := h
        exact Or.inr (Or.inl h2.symm)
      · simp only [Except.ok.injEq, Prod.mk.injEq] at h
        exact Or.inr (Or.inr h.1.symm)
    · split at h
      · simp only [Except.ok.injEq, Prod.mk.injEq] at h
        exact Or.inr (Or.inr h.1.symm)
      · simp only [Except.ok.injEq, Prod.mk.injEq] at h
        exact Or.inl h.1.symm

/-- The statuses `HandleExceptionInternal` returns. -/
theorem HandleExceptionInternal_status {env : Env} {record : ExceptionRecord}
    {thread_id : Nat} {s s2 : State} {ret : DebuggerStatus}
    (h : HandleExceptionInternal env record thread_id s = .ok (ret, s2)) :
    ret = DebuggerStatus.DEBUGGER_CONTINUE ∨ ret = DebuggerStatus.DEBUGGER_TARGET_START ∨
    ret = DebuggerStatus.DEBUGGER_TARGET_END ∨ ret = DebuggerStatus.DEBUGGER_CRASHED := by
  unfold HandleExceptionInternal at h
  rw [bind_eq_ok] at h
  obtain ⟨⟨early, sa⟩, ho, h⟩ := h
  simp only at h
  cases early with
  | some status =>
    simp only [pure, Except.pure, Except.ok.injEq, Prod.mk.injEq] at h
    rw [← h.1]
    unfold handleOwnBreakpoint at ho
    split at ho
    · rw [bind_eq_ok] at ho
      obtain ⟨⟨bt, sb⟩, _, ho⟩ := ho
      simp only at ho
      split at ho
      · simp only [pure, Except.pure, Except.ok.injEq, Prod.mk.injEq, Option.some.injEq] at ho
        exact Or.inr (Or.inl ho.1.symm)
      · split at ho
        · simp only [pure, Except.pure, Except.ok.injEq, Prod.mk.injEq, Option.some.injEq] at ho
          exact Or.inl ho.1.symm
        · simp only [pure, Except.pure, Except.ok.injEq, Prod.mk.injEq] at ho
          exact absurd ho.1 (by simp)
    · simp only [pure, Except.pure, Except.ok.injEq, Prod.mk.injEq] at ho
      exact absurd ho.1 (by simp)
  | none =>
    simp only at h
    split at h
    · simp only [pure, Except.pure, Except.ok.injEq, Prod.mk.injEq] at h
      exact Or.inl h.1.symm
    · rcases classifyException_status h with h1 | h1 | h1
      · exact Or.inl h1
      · exact Or.inr (Or.inr (Or.inl h1))
      · exact Or.inr (Or.inr (Or.inr h1))

/-- A status returned from inside the switch is `TargetStart`, `TargetEnd` or
`Crashed`. -/
theorem dispatchEvent_returned {env : Env} {ev : DebugEvent} {s s1 : State}
    {ret : DebuggerStatus} (h : dispatchEvent env ev s = .ok (.returned ret, s1)) :
    ret = DebuggerStatus.DEBUGGER_TARGET_START ∨ ret = DebuggerStatus.DEBUGGER_TARGET_END ∨
    ret = DebuggerStatus.DEBUGGER_CRASHED := by
  unfold dispatchEvent at h
  split at h
  · rw [bind_eq_ok] at h
    obtain ⟨⟨r, s2⟩, hh, h⟩ := h
    simp only at h
    split at h
    · rename_i hne
      simp only [pure, Except.pure, Except.ok.injEq, Prod.mk.injEq, Dispatch.returned.injEq] at h
      rw [← h.1]
      rcases HandleExceptionInternal_status hh with h1 | h1 | h1 | h1
      · exact absurd h1 hne
      · exact Or.inl h1
      · exact Or.inr (Or.inl h1)
      · exact Or.inr (Or.inr h1)
    · simp only [pure, Except.pure, Except.ok.injEq, Prod.mk.injEq] at h
      exact absurd h.1 (by simp)
  all_goals first
    | (simp only [pure, Except.pure, Except.ok.injEq, Prod.mk.injEq] at h
       exact absurd h.1 (by simp))
    | (rw [bind_eq_ok] at h
       obtain ⟨s2, _, h⟩ := h
       simp only [pure, Except.pure, Except.ok.injEq, Prod.mk.injEq] at h
       exact absurd h.1 (by simp))

end Debugger

namespace Debugger

/-! ## C15: the deadline check of the debug loop -/

/-- A run of the loop body ends in the first pass whose clock value is past the
deadline, or in a pass within the deadline whose event makes the loop return. -/
theorem debugLoopBody_deadline (env : Env) : ∀ (script : List WaitResult) (s s1 : State)
    (status : DebuggerStatus) (rest : List WaitResult),
    debugLoopBody env script s = .ok (status, s1, rest) →
    ∃ pre w, script = pre ++ w :: rest ∧ (∀ x, x ∈ pre → x.now ≤ s.dbg_timeout_time) ∧
      s1.dbg_timeout_time = s.dbg_timeout_time ∧
      (status = DebuggerStatus.DEBUGGER_HANGED ↔ w.now > s.dbg_timeout_time) ∧
      (status = DebuggerStatus.DEBUGGER_HANGED → ∃ s0, s1 = afterWait w s0) := by
  intro script
  induction script with
  | nil => intro s s1 status rest h; simp [debugLoopBody] at h
  | cons w ws ih =>
    intro s s1 status rest h
    by_cases hd : w.now > s.dbg_timeout_time
    · rw [debugLoopBody_hanged env w ws s hd] at h
      simp only [Except.ok.injEq, Prod.mk.injEq] at h
      obtain ⟨h1, h2, h3⟩ := h
      subst h1 h2 h3
      exact ⟨[], w, rfl, fun x hx => absurd hx (List.not_mem_nil x), rfl,
        ⟨fun _ => hd, fun _ => rfl⟩, fun _ => ⟨s, rfl⟩⟩
    · have hle : w.now ≤ s.dbg_timeout_time := Nat.le_of_not_gt hd
      have hcons : ∀ (pre : List WaitResult) (w2 : WaitResult),
          ws = pre ++ w2 :: rest → (∀ x, x ∈ pre → x.now ≤ s.dbg_timeout_time) →
          (w :: ws = (w :: pre) ++ w2 :: rest) ∧
          ∀ x, x ∈ w :: pre → x.now ≤ s.dbg_timeout_time := by
        intro pre w2 e1 e2
        refine ⟨by rw [e1]; rfl, ?_⟩
        intro x hx
        rcases List.mem_cons.mp hx with hx | hx
        · rw [hx]; exact hle
        · exact e2 x hx
      cases hev : w.event with
      | none =>
        rw [debugLoopBody_idle env w ws s hev hle] at h
        obtain ⟨pre, w2, e1, e2, e3, e4, e5⟩ := ih _ _ _ _ h
        obtain ⟨c1, c2⟩ := hcons pre w2 e1 e2
        exact ⟨w :: pre, w2, c1, c2, e3, e4, e5⟩
      | some ev =>
        obtain ⟨d1, d2, d3, d4⟩ := debugLoopBody_dispatch env w ws s ev hev hle
        cases hdisp : dispatchEvent env ev
            { afterWait w s with dbg_continue_status := DBG_CONTINUE } with
        | error e =>
          rw [d1 e hdisp] at h
          exact Except.noConfusion h
        | ok r =>
          obtain ⟨d, s2⟩ := r
          have hk := dispatchEvent_loopKept hdisp
          cases d with
          | returned ret =>
            rw [d2 ret s2 hdisp] at h
            simp only [Except.ok.injEq, Prod.mk.injEq] at h
            obtain ⟨h1, h2, h3⟩ := h
            subst h1 h2 h3
            have hnh : ¬ (ret = DebuggerStatus.DEBUGGER_HANGED) := by
              intro hst
              rcases dispatchEvent_returned hdisp with h1 | h1 | h1 <;>
                rw [h1] at hst <;> cases hst
            exact ⟨[], w, rfl, fun x hx => absurd hx (List.not_mem_nil x), hk.1,
              ⟨fun hst => absurd hst hnh, fun hgt => absurd hgt hd⟩,
              fun hst => absurd hst hnh⟩
          | proceed alive =>
            cases alive with
            | true =>
              rw [d3 s2 hdisp] at h
              obtain ⟨pre, w2, e1, e2, e3, e4, e5⟩ := ih _ _ _ _ h
              have hdl : (ContinueDebugEvent s2).dbg_timeout_time = s.dbg_timeout_time := hk.1
              rw [hdl] at e2 e3 e4
              obtain ⟨c1, c2⟩ := hcons pre w2 e1 e2
              exact ⟨w :: pre, w2, c1, c2, e3, e4, e5⟩
            | false =>
              rw [d4 s2 hdisp] at h
              simp only [Except.ok.injEq, Prod.mk.injEq] at h
              obtain ⟨h1, h2, h3⟩ := h
              subst h1 h2 h3
              exact ⟨[], w, rfl, fun x hx => absurd hx (List.not_mem_nil x), hk.1,
                ⟨fun hst => (by cases hst), fun hgt => absurd hgt hd⟩,
                fun hst => (by cases hst)⟩

/-- C15 (amended): for every deadline and every clock value.  A pass of the
loop whose clock value, read after the wait, is past the deadline returns
`Hanged` in the state the wait left, whether or not the wait delivered an
event: a delivered event is stored and marked pending but no handler runs.  A
pass within the deadline whose wait delivered an event dispatches it before
the loop returns or waits again, and a pass within the deadline without an
event waits again.  In every run of `DebugLoop` that returns, all passes
before the last are within the deadline, the status is `Hanged` exactly when
the clock value of the last pass is past the deadline, and then the state is
the one its wait left. -/
theorem deadline_check (env : Env) (s : State) :
    (∀ w ws, w.now > s.dbg_timeout_time →
      debugLoopBody env (w :: ws) s =
        .ok (DebuggerStatus.DEBUGGER_HANGED, afterWait w s, ws) ∧
      (afterWait w s).dbg_continue_needed = w.event.isSome ∧
      (afterWait w s).calls = s.calls ++ [Call.WaitForDebugEvent]) ∧
    (∀ w ws ev, w.event = some ev → w.now ≤ s.dbg_timeout_time →
      (∀ e, dispatchEvent env ev { afterWait w s with dbg_continue_status := DBG_CONTINUE } =
          .error e → debugLoopBody env (w :: ws) s = .error e) ∧
      (∀ ret s1,
        dispatchEvent env ev { afterWait w s with dbg_continue_status := DBG_CONTINUE } =
          .ok (.returned ret, s1) → debugLoopBody env (w :: ws) s = .ok (ret, s1, ws)) ∧
      (∀ s1, dispatchEvent env ev { afterWait w s with dbg_continue_status := DBG_CONTINUE } =
          .ok (.proceed true, s1) →
        debugLoopBody env (w :: ws) s = debugLoopBody env ws (ContinueDebugEvent s1)) ∧
      (∀ s1, dispatchEvent env ev { afterWait w s with dbg_continue_status := DBG_CONTINUE } =
          .ok (.proceed false, s1) →
        debugLoopBody env (w :: ws) s =
          .ok (DebuggerStatus.DEBUGGER_PROCESS_EXIT, ContinueDebugEvent s1, ws))) ∧
    (∀ w ws, w.event = none → w.now ≤ s.dbg_timeout_time →
      debugLoopBody env (w :: ws) s = debugLoopBody env ws (afterWait w s)) ∧
    ∀ script status s1 rest, DebugLoop env script s = .ok (status, s1, rest) →
      ∃ pre w, script = pre ++ w :: rest ∧ (∀ x, x ∈ pre → x.now ≤ s.dbg_timeout_time) ∧
        s1.dbg_timeout_time = s.dbg_timeout_time ∧
        (status = DebuggerStatus.DEBUGGER_HANGED ↔ w.now > s.dbg_timeout_time) ∧
        (status = DebuggerStatus.DEBUGGER_HANGED → ∃ s0, s1 = afterWait w s0) := by
  refine ⟨?_, ?_, ?_, ?_⟩
  · intro w ws hd
    exact ⟨debugLoopBody_hanged env w ws s hd, rfl, rfl⟩
  · intro w ws ev hev hle
    exact debugLoopBody_dispatch env w ws s ev hev hle
  · intro w ws hev hle
    exact debugLoopBody_idle env w ws s hev hle
  · intro script status s1 rest h
    unfold DebugLoop at h
    simp only at h
    split at h
    · have hrun := debugLoopBody_deadline env script _ _ _ _ h
      exact hrun
    · exact debugLoopBody_deadline env script _ _ _ _ h

/-- C15, witness: a wait that times out at clock value 5000, past the deadline
1000 of `c10_start`, makes `DebugLoop` return `Hanged` with nothing pending. -/
theorem deadline_check_witness :
    (DebugLoop env64 c16_idle c10_start).map
        (fun r => (r.1, r.2.1.dbg_continue_needed, r.2.1.calls)) =
      .ok (DebuggerStatus.DEBUGGER_HANGED, false, [.WaitForDebugEvent]) := by
  have h := ((deadline_check env64 c10_start).1
    { event := none, now := 5000, mem := imageMem, threads := fun _ => zeroContext,
      modules := some [] } [] (by decide)).1
  have hD : DebugLoop env64 c16_idle c10_start = debugLoopBody env64 c16_idle c10_start := rfl
  rw [hD]
  unfold c16_idle
  rw [h]
  rfl

/-- C15, counterexample: the process-exit event is delivered by a wait that
returns at clock value 2000, past the deadline 1000.  `DebugLoop` returns
`Hanged` from a pass in which the wait did deliver an event, and the event is
not dispatched: `OnProcessExit` is not called, the log holds the wait only, and
the event is left pending. -/
theorem deadline_check_counterexample :
    (c15_late_exit.map (fun w => (w.event, w.now))) = [(some c10_exit, 2000)] ∧
    c10_start.dbg_timeout_time = 1000 ∧
    (DebugLoop env64 c15_late_exit c10_start).map
        (fun r => (r.1, r.2.1.dbg_continue_needed, r.2.1.calls, r.2.2.length)) =
      .ok (DebuggerStatus.DEBUGGER_HANGED, true, [.WaitForDebugEvent], 0) := by
  decide!

end Debugger

namespace Debugger

/-! ## C16: the deferred continue -/

theorem deliveredEvents_cons (w : WaitResult) (l : List WaitResult) :
    deliveredEvents (w :: l) = (if w.event.isSome = true then 1 else 0) + deliveredEvents l := by
  unfold deliveredEvents
  by_cases h : w.event.isSome = true
  · simp only [List.filter_cons, h, if_true, List.length_cons]
    omega
  · have hf : w.event.isSome = false := Bool.eq_false_iff.mpr h
    simp [List.filter_cons, hf]

theorem continueCalls_wait (l : List Call) :
    continueCalls (l ++ [Call.WaitForDebugEvent]) = continueCalls l := by
  rw [continueCalls_append]
  rfl

theorem continueCalls_continue (s : State) :
    continueCalls (ContinueDebugEvent s).calls = continueCalls s.calls + 1 := by
  unfold ContinueDebugEvent
  simp only
  rw [continueCalls_append]
  rfl

/-- Bookkeeping of the loop body: every event received in the run has been
continued, except the one of the last pass when the loop returns with it
pending. -/
theorem debugLoopBody_continue (env : Env) : ∀ (script : List WaitResult) (s s1 : State)
    (status : DebuggerStatus) (rest : List WaitResult),
    debugLoopBody env script s = .ok (status, s1, rest) →
    ∃ pre w, script = pre ++ w :: rest ∧
      (status ≠ DebuggerStatus.DEBUGGER_PROCESS_EXIT →
        continueCalls s1.calls + owedContinue s1 =
          continueCalls s.calls + deliveredEvents (pre ++ [w]) ∧
        s1.dbg_continue_needed = w.event.isSome ∧
        ∀ ev, w.event = some ev → s1.dbg_debug_event = ev ∧
          ∃ front tail, s1.calls = front ++ Call.WaitForDebugEvent :: tail ∧
            continueCalls tail = 0) ∧
      (status = DebuggerStatus.DEBUGGER_PROCESS_EXIT →
        continueCalls s1.calls = continueCalls s.calls + deliveredEvents (pre ++ [w]) ∧
        s1.dbg_continue_needed = true) := by
  intro script
  induction script with
  | nil => intro s s1 status rest h; simp [debugLoopBody] at h
  | cons w ws ih =>
    intro s s1 status rest h
    by_cases hd : w.now > s.dbg_timeout_time
    · rw [debugLoopBody_hanged env w ws s hd] at h
      simp only [Except.ok.injEq, Prod.mk.injEq] at h
      obtain ⟨h1, h2, h3⟩ := h
      subst h1 h2 h3
      refine ⟨[], w, rfl, fun _ => ⟨?_, rfl, ?_⟩, fun hc => (by cases hc)⟩
      · simp only [List.nil_append, deliveredEvents_cons]
        unfold owedContinue afterWait
        simp only [continueCalls_wait]
        rfl
      · intro ev hev
        refine ⟨?_, s.calls, [], rfl, rfl⟩
        unfold afterWait
        simp only [hev, Option.getD_some]
    · have hle : w.now ≤ s.dbg_timeout_time := Nat.le_of_not_gt hd
      cases hev : w.event with
      | none =>
        rw [debugLoopBody_idle env w ws s hev hle] at h
        obtain ⟨pre, w2, e1, e2, e3⟩ := ih _ _ _ _ h
        have hc : continueCalls (afterWait w s).calls = continueCalls s.calls :=
          continueCalls_wait s.calls
        have hdv : deliveredEvents ((w :: pre) ++ [w2]) = deliveredEvents (pre ++ [w2]) := by
          rw [List.cons_append, deliveredEvents_cons, hev]
          simp
        refine ⟨w :: pre, w2, by rw [e1]; rfl, fun hne => ?_, fun he => ?_⟩
        · obtain ⟨a1, a2, a3⟩ := e2 hne
          rw [hc] at a1
          exact ⟨by rw [hdv]; exact a1, a2, a3⟩
        · obtain ⟨a1, a2⟩ := e3 he
          rw [hc] at a1
          exact ⟨by rw [hdv]; exact a1, a2⟩
      | some ev =>
        have hone : deliveredEvents ([] ++ [w]) = 1 := by
          simp only [List.nil_append, deliveredEvents_cons, hev, Option.isSome_some, if_true]
          rfl
        obtain ⟨d1, d2, d3, d4⟩ := debugLoopBody_dispatch env w ws s ev hev hle
        cases hdisp : dispatchEvent env ev
            { afterWait w s with dbg_continue_status := DBG_CONTINUE } with
        | error e =>
          rw [d1 e hdisp] at h
          exact Except.noConfusion h
        | ok r =>
          obtain ⟨d, s2⟩ := r
          obtain ⟨_, k2, k3, added, k4, k5⟩ := dispatchEvent_loopKept hdisp
          have hflag : s2.dbg_continue_needed = true := by
            rw [k3]
            show (afterWait w s).dbg_continue_needed = true
            unfold afterWait
            simp only [hev, Option.isSome_some]
          have hevt : s2.dbg_debug_event = ev := by
            rw [k2]
            show (afterWait w s).dbg_debug_event = ev
            unfold afterWait
            simp only [hev, Option.getD_some]
          have hcalls : s2.calls = (s.calls ++ [Call.WaitForDebugEvent]) ++ added := k4
          have hcc : continueCalls (ContinueDebugEvent s2).calls = continueCalls s.calls + 1 := by
            rw [continueCalls_continue, hcalls, continueCalls_append, continueCalls_wait, k5]
          cases d with
          | returned ret =>
            rw [d2 ret s2 hdisp] at h
            simp only [Except.ok.injEq, Prod.mk.injEq] at h
            obtain ⟨h1, h2, h3⟩ := h
            subst h1 h2 h3
            have hnx : ¬ (ret = DebuggerStatus.DEBUGGER_PROCESS_EXIT) := by
              intro hst
              rcases dispatchEvent_returned hdisp with h1 | h1 | h1 <;>
                rw [h1] at hst <;> cases hst
            refine ⟨[], w, rfl, fun _ => ⟨?_, ?_, ?_⟩, fun hc => absurd hc hnx⟩
            · rw [hone, hcalls, continueCalls_append, continueCalls_wait, k5]
              unfold owedContinue
              rw [hflag]
              rfl
            · rw [hflag, hev]
              rfl
            · intro ev2 hev2
              rw [hev] at hev2
              cases hev2
              refine ⟨hevt, s.calls, added, ?_, k5⟩
              rw [hcalls, List.append_assoc]
              rfl
          | proceed alive =>
            cases alive with
            | true =>
              rw [d3 s2 hdisp] at h
              obtain ⟨pre, w2, e1, e2, e3⟩ := ih _ _ _ _ h
              have hdv : deliveredEvents ((w :: pre) ++ [w2]) =
                  1 + deliveredEvents (pre ++ [w2]) := by
                rw [List.cons_append, deliveredEvents_cons, hev]
                simp
              refine ⟨w :: pre, w2, by rw [e1]; rfl, fun hne => ?_, fun he => ?_⟩
              · obtain ⟨a1, a2, a3⟩ := e2 hne
                rw [hcc] at a1
                exact ⟨by rw [hdv]; omega, a2, a3⟩
              · obtain ⟨a1, a2⟩ := e3 he
                rw [hcc] at a1
                exact ⟨by rw [hdv]; omega, a2⟩
            | false =>
              rw [d4 s2 hdisp] at h
              simp only [Except.ok.injEq, Prod.mk.injEq] at h
              obtain ⟨h1, h2, h3⟩ := h
              subst h1 h2 h3
              exact ⟨[], w, rfl, fun hne => absurd rfl hne, fun _ => ⟨by rw [hone, hcc], hflag⟩⟩

/-- C16 (amended): for every state and every sequence of wait results.
`DebugLoop` starts by continuing the stored event, with the stored
`dbg_continue_status`, exactly when `dbg_continue_needed` is set.  When it
returns with a status other than `ProcessExit`, every event received in the run
and the event that was pending at entry have been continued once each, except
the event of the last pass when `dbg_continue_needed` is set: the continue
calls made plus the pending one equal the continue calls before, plus the one
pending at entry, plus the events delivered.  `dbg_continue_needed` is then set
iff the last wait delivered an event; that event is the stored one and no
`ContinueDebugEvent` call was made since its wait. -/
theorem deferred_continue (env : Env) (s : State) :
    (∀ script, DebugLoop env script s =
      debugLoopBody env script (if s.dbg_continue_needed then ContinueDebugEvent s else s)) ∧
    (ContinueDebugEvent s).calls = s.calls ++
      [.ContinueDebugEvent s.dbg_debug_event.dwProcessId s.dbg_debug_event.dwThreadId
        s.dbg_continue_status] ∧
    ∀ script status s1 rest, DebugLoop env script s = .ok (status, s1, rest) →
      status ≠ DebuggerStatus.DEBUGGER_PROCESS_EXIT →
      ∃ pre w, script = pre ++ w :: rest ∧
        continueCalls s1.calls + owedContinue s1 =
          continueCalls s.calls + owedContinue s + deliveredEvents (pre ++ [w]) ∧
        s1.dbg_continue_needed = w.event.isSome ∧
        ∀ ev, w.event = some ev → s1.dbg_debug_event = ev ∧
          ∃ front tail, s1.calls = front ++ Call.WaitForDebugEvent :: tail ∧
            continueCalls tail = 0 := by
  refine ⟨fun script => rfl, rfl, ?_⟩
  intro script status s1 rest h hne
  unfold DebugLoop at h
  simp only at h
  by_cases hf : s.dbg_continue_needed = true
  · rw [if_pos hf] at h
    obtain ⟨pre, w, e1, e2, _⟩ := debugLoopBody_continue env script _ _ _ _ h
    obtain ⟨a1, a2, a3⟩ := e2 hne
    rw [continueCalls_continue] at a1
    refine ⟨pre, w, e1, ?_, a2, a3⟩
    unfold owedContinue at a1 ⊢
    rw [hf]
    simp only [if_true]
    omega
  · rw [if_neg hf] at h
    obtain ⟨pre, w, e1, e2, _⟩ := debugLoopBody_continue env script _ _ _ _ h
    obtain ⟨a1, a2, a3⟩ := e2 hne
    refine ⟨pre, w, e1, ?_, a2, a3⟩
    have hf2 : s.dbg_continue_needed = false := Bool.eq_false_iff.mpr hf
    unfold owedContinue at a1 ⊢
    rw [hf2]
    simp only [Bool.false_eq_true, if_false]
    omega

/-- C16, witness: the four events of `c7_script` (load, unload, load, breakpoint
hit): when `DebugLoop` returns `TargetStart`, continue calls made and the
pending one add up to four. -/
theorem deferred_continue_witness :
    ∃ s1, DebugLoop env64 c7_script c7_start =
        .ok (DebuggerStatus.DEBUGGER_TARGET_START, s1, []) ∧
      continueCalls s1.calls + owedContinue s1 = 4 := by
  have hrun : (DebugLoop env64 c7_script c7_start).map (fun r => (r.1, r.2.2.length)) =
      .ok (DebuggerStatus.DEBUGGER_TARGET_START, 0) := by decide!
  cases hD : DebugLoop env64 c7_script c7_start with
  | error e => rw [hD] at hrun; cases hrun
  | ok r =>
    obtain ⟨status, s1, rest⟩ := r
    rw [hD] at hrun
    simp only [Except.map, Except.ok.injEq, Prod.mk.injEq] at hrun
    obtain ⟨hst, hlen⟩ := hrun
    have hrest : rest = [] := List.length_eq_zero.mp hlen
    subst hst hrest
    obtain ⟨pre, w, e1, e2, _⟩ := (deferred_continue env64 c7_start).2.2 c7_script _ s1 []
      hD (by decide)
    refine ⟨s1, rfl, ?_⟩
    rw [e2, ← e1]
    decide

/-- C16, counterexample: the process-exit event.  `DebugLoop` continues it at
the end of its pass and returns `ProcessExit` with `dbg_continue_needed` still
set, although the last received event has been continued.  When the same
object then attaches to a process, the next `DebugLoop` continues the event a
second time: one event was received and two `ContinueDebugEvent` calls are in
the log. -/
theorem deferred_continue_counterexample :
    (DebugLoop env64 c16_exit c10_start).map
        (fun r => (r.1, r.2.1.dbg_continue_needed, r.2.1.calls)) =
      .ok (DebuggerStatus.DEBUGGER_PROCESS_EXIT, true,
        [.WaitForDebugEvent, .OnProcessExit, .ContinueDebugEvent 7 1 DBG_CONTINUE]) ∧
    ((Run env64 c14_launch64 500 0 c16_exit state0 >>= fun r =>
        Attach env64 true 500 1000 c16_idle r.2.1).map
      (fun r => (r.1, r.2.1.calls))) =
      .ok (DebuggerStatus.DEBUGGER_HANGED, [.WaitForDebugEvent, .OnProcessExit,
        .ContinueDebugEvent 7 1 DBG_CONTINUE, .ContinueDebugEvent 7 1 DBG_CONTINUE,
        .WaitForDebugEvent]) := by
  decide!

end Debugger

namespace Debugger

/-! ## C17: bounds of the header parse -/

/-- C17 (amended): for every header block `d` that was read, with `e` the dword
at `0x3C`: when `e + 0x18 + 60 ≤ 4096` the four reads (signature at `e`, magic
at `e + 0x18`, entrypoint RVA at `e + 0x18 + 16`, `SizeOfImage` at
`e + 0x18 + 56`) lie inside the block and neither parser takes the
out-of-range branch.  `e` itself is not checked: `GetImageSize` takes the
out-of-range branch exactly when `e + 4 > 4096`, or the signature matches and
`e + 0x18 + 2 > 4096`, or signature and magic match and `e + 0x18 + 60 > 4096`;
`GetModuleEntrypoint` likewise with `e + 0x18 + 20` for the last read. -/
theorem header_parse_bounds (env : Env) (s : State) (base_address : Nat) (d : Nat → Nat)
    (e : Nat) (hd : ReadProcessMemory s.mem base_address 4096 = some d)
    (he : e = leRead d 0x3C 4) :
    (e + 0x18 + 60 ≤ 4096 →
      (Buf.mk 4096 d).read e 4 = .ok (leRead d e 4) ∧
      (Buf.mk 4096 d).read (e + 0x18) 2 = .ok (leRead d (e + 0x18) 2) ∧
      (Buf.mk 4096 d).read (e + 0x18 + 16) 4 = .ok (leRead d (e + 0x18 + 16) 4) ∧
      (Buf.mk 4096 d).read (e + 0x18 + 56) 4 = .ok (leRead d (e + 0x18 + 56) 4) ∧
      GetImageSize s base_address ≠ .error .outOfBounds ∧
      GetModuleEntrypoint env s base_address ≠ .error .outOfBounds) ∧
    (GetImageSize s base_address = .error .outOfBounds ↔
      (4096 < e + 4 ∨
        (leRead d e 4 = 0x00004550 ∧
          (4096 < e + 0x18 + 2 ∨
            ((leRead d (e + 0x18) 2 = 0x10B ∨ leRead d (e + 0x18) 2 = 0x20B) ∧
              4096 < e + 0x18 + 60))))) ∧
    (GetModuleEntrypoint env s base_address = .error .outOfBounds ↔
      (4096 < e + 4 ∨
        (leRead d e 4 = 0x00004550 ∧
          (4096 < e + 0x18 + 2 ∨
            ((leRead d (e + 0x18) 2 = 0x10B ∨ leRead d (e + 0x18) 2 = 0x20B) ∧
              4096 < e + 0x18 + 20))))) := by
  subst he
  have hsz := GetImageSize_block s base_address d hd
  have hen := GetModuleEntrypoint_block env s base_address d hd
  have X : (GetImageSize s base_address = .error .outOfBounds ↔
      (4096 < leRead d 0x3C 4 + 4 ∨
        (leRead d (leRead d 0x3C 4) 4 = 0x00004550 ∧
          (4096 < leRead d 0x3C 4 + 0x18 + 2 ∨
            ((leRead d (leRead d 0x3C 4 + 0x18) 2 = 0x10B ∨
                leRead d (leRead d 0x3C 4 + 0x18) 2 = 0x20B) ∧
              4096 < leRead d 0x3C 4 + 0x18 + 60))))) := by
    rw [hsz]
    by_cases h1 : 4096 < leRead d 0x3C 4 + 4
    · rw [if_pos h1]
      exact ⟨fun _ => Or.inl h1, fun _ => rfl⟩
    · rw [if_neg h1]
      by_cases h2 : leRead d (leRead d 0x3C 4) 4 ≠ 0x00004550
      · rw [if_pos h2]
        constructor
        · intro h; cases h
        · rintro (h | ⟨h, _⟩)
          · exact absurd h h1
          · exact absurd h h2
      · rw [if_neg h2]
        have h2p : leRead d (leRead d 0x3C 4) 4 = 0x00004550 := not_not.mp h2
        by_cases h3 : 4096 < leRead d 0x3C 4 + 0x18 + 2
        · rw [if_pos h3]
          exact ⟨fun _ => Or.inr ⟨h2p, Or.inl h3⟩, fun _ => rfl⟩
        · rw [if_neg h3]
          by_cases h4 : leRead d (leRead d 0x3C 4 + 0x18) 2 ≠ 0x10b ∧
              leRead d (leRead d 0x3C 4 + 0x18) 2 ≠ 0x20b
          · rw [if_pos h4]
            constructor
            · intro h; cases h
            · rintro (h | ⟨_, h | ⟨h, _⟩⟩)
              · exact absurd h h1
              · exact absurd h h3
              · rcases h with h | h
                · exact absurd h h4.1
                · exact absurd h h4.2
          · rw [if_neg h4]
            have h4p : leRead d (leRead d 0x3C 4 + 0x18) 2 = 0x10B ∨
                leRead d (leRead d 0x3C 4 + 0x18) 2 = 0x20B := by
              by_contra hc
              exact h4 ⟨fun h => hc (Or.inl h), fun h => hc (Or.inr h)⟩
            by_cases h5 : 4096 < leRead d 0x3C 4 + 0x18 + 56 + 4
            · rw [if_pos h5]
              exact ⟨fun _ => Or.inr ⟨h2p, Or.inr ⟨h4p, by omega⟩⟩, fun _ => rfl⟩
            · rw [if_neg h5]
              constructor
              · intro h; cases h
              · rintro (h | ⟨_, h | ⟨_, h⟩⟩)
                · exact absurd h h1
                · exact absurd h h3
                · omega
  have Y : (GetModuleEntrypoint env s base_address = .error .outOfBounds ↔
      (4096 < leRead d 0x3C 4 + 4 ∨
        (leRead d (leRead d 0x3C 4) 4 = 0x00004550 ∧
          (4096 < leRead d 0x3C 4 + 0x18 + 2 ∨
            ((leRead d (leRead d 0x3C 4 + 0x18) 2 = 0x10B ∨
                leRead d (leRead d 0x3C 4 + 0x18) 2 = 0x20B) ∧
              4096 < leRead d 0x3C 4 + 0x18 + 20))))) := by
    rw [hen]
    by_cases h1 : 4096 < leRead d 0x3C 4 + 4
    · rw [if_pos h1]
      exact ⟨fun _ => Or.inl h1, fun _ => rfl⟩
    · rw [if_neg h1]
      by_cases h2 : leRead d (leRead d 0x3C 4) 4 ≠ 0x00004550
      · rw [if_pos h2]
        constructor
        · intro h; cases h
        · rintro (h | ⟨h, _⟩)
          · exact absurd h h1
          · exact absurd h h2
      · rw [if_neg h2]
        have h2p : leRead d (leRead d 0x3C 4) 4 = 0x00004550 := not_not.mp h2
        by_cases h3 : 4096 < leRead d 0x3C 4 + 0x18 + 2
        · rw [if_pos h3]
          exact ⟨fun _ => Or.inr ⟨h2p, Or.inl h3⟩, fun _ => rfl⟩
        · rw [if_neg h3]
          by_cases h4 : leRead d (leRead d 0x3C 4 + 0x18) 2 ≠ 0x10b ∧
              leRead d (leRead d 0x3C 4 + 0x18) 2 ≠ 0x20b
          · rw [if_pos h4]
            constructor
            · intro h; cases h
            · rintro (h | ⟨_, h | ⟨h, _⟩⟩)
              · exact absurd h h1
              · exact absurd h h3
              · rcases h with h | h
                · exact absurd h h4.1
                · exact absurd h h4.2
          · rw [if_neg h4]
            have h4p : leRead d (leRead d 0x3C 4 + 0x18) 2 = 0x10B ∨
                leRead d (leRead d 0x3C 4 + 0x18) 2 = 0x20B := by
              by_contra hc
              exact h4 ⟨fun h => hc (Or.inl h), fun h => hc (Or.inr h)⟩
            by_cases h5 : 4096 < leRead d 0x3C 4 + 0x18 + 16 + 4
            · rw [if_pos h5]
              exact ⟨fun _ => Or.inr ⟨h2p, Or.inr ⟨h4p, by omega⟩⟩, fun _ => rfl⟩
            · rw [if_neg h5]
              constructor
              · intro h
                by_cases hz : leRead d (leRead d 0x3C 4 + 0x18 + 16) 4 = 0
                · rw [if_pos hz] at h; cases h
                · rw [if_neg hz] at h; cases h
              · rintro (h | ⟨_, h | ⟨_, h⟩⟩)
                · exact absurd h h1
                · exact absurd h h3
                · omega
  refine ⟨?_, X, Y⟩
  intro hin
  refine ⟨Buf.read_ok _ _ _ (by show _ ≤ 4096; omega), Buf.read_ok _ _ _ (by show _ ≤ 4096; omega),
    Buf.read_ok _ _ _ (by show _ ≤ 4096; omega), Buf.read_ok _ _ _ (by show _ ≤ 4096; omega),
    ?_, ?_⟩
  · intro h
    rcases X.mp h with h | ⟨_, h | ⟨_, h⟩⟩ <;> omega
  · intro h
    rcases Y.mp h with h | ⟨_, h | ⟨_, h⟩⟩ <;> omega

/-- C17, witness: the header of the image at `0x400000` has `e = 0x40`; no read
of either parser leaves the block. -/
theorem header_parse_bounds_witness :
    GetImageSize c10_start 0x400000 ≠ .error .outOfBounds ∧
    GetModuleEntrypoint env64 c10_start 0x400000 ≠ .error .outOfBounds := by
  have hc : imageMem.canRead 0x400000 4096 = true := by decide!
  have hd : ReadProcessMemory c10_start.mem 0x400000 4096 =
      some (fun i => imageMem.byte (0x400000 + i)) := by
    show ReadProcessMemory imageMem 0x400000 4096 = _
    unfold ReadProcessMemory
    rw [hc]
    rfl
  have h := (header_parse_bounds env64 c10_start 0x400000 _ 0x40 hd (by decide!)).1 (by decide)
  exact ⟨h.2.2.2.2.1, h.2.2.2.2.2⟩

/-- C17, counterexample: a readable header block whose dword at `0x3C` is
`0x1000`.  The signature read at offset `0x1000` is outside the 4096-byte
block: both parsers take the out-of-range branch. -/
theorem header_parse_bounds_counterexample :
    c17_state.mem.canRead 0x400000 4096 = true ∧
    c17_state.mem.word (0x400000 + 0x3C) 4 = 0x1000 ∧
    GetImageSize c17_state 0x400000 = .error .outOfBounds ∧
    GetModuleEntrypoint env64 c17_state 0x400000 = .error .outOfBounds := by
  decide!

end Debugger
